import Mathlib

/-!
# dsh: job control of a small shell

A shallow embedding of the job-control code of `dsh-tmp.c` (and of the parts of
`dsh.c` it shares): the job/process records, the status tracker
(`mark_process_status`, `job_is_stopped`, `job_is_completed`, `wait_for_job`),
the terminal hand-over (`put_job_in_foreground`, `put_job_in_background`,
`restore_control`), the pipeline spawner (`spawn_job`), the removal of jobs
from the registry and the job listing (`remove_and_free`, `find_job`,
`list_jobs`) and the command-line parser (`readprocessinfo`, `readcmdline`).

Linked lists are lists, a `job_t *` that points into the registry is the index
of the job in the registry, and every system call is a step on an explicit
state that holds the globals of the shell, the descriptor table of the running
process, the terminal, the trace of calls made so far, and the results the
environment will hand to the calls still to come.
-/

namespace Dsh

/-! ## Data model -/

/-- Terminal attributes (`struct termios`), kept abstract. -/
abbrev termios := Nat

/-- Constants and macros that the code takes from headers that are not part of
the sources: `dsh.h` (`INPUT_FD`, `OUTPUT_FD` and the three buffer sizes
`MAX_LEN_CMDLINE`, `MAX_LEN_FILENAME`, `MAX_ARGS`) and the system headers
(`ECHILD`, `EXIT_FAILURE`, the wait-status macros). -/
structure Headers where
  INPUT_FD : Int
  OUTPUT_FD : Int
  ECHILD : Int
  EXIT_FAILURE : Int
  WIFSTOPPED : Int → Bool
  WIFSIGNALED : Int → Bool
  WTERMSIG : Int → Int
  MAX_LEN_CMDLINE : Nat
  MAX_LEN_FILENAME : Nat
  MAX_ARGS : Nat

/-- One stage of a pipeline (`process_t`); `argc` is the length of `argv`. -/
structure process_t where
  argv : List String
  pid : Int
  completed : Bool
  stopped : Bool
  status : Int
deriving DecidableEq, Repr

/-- A job (`job_t`): `first_process` is the linked list of its stages.  The
field `freed` is not a field of the C record: it is set when `free_job` has
released the record while a pointer to it is still linked into the registry.
The functions that walk the registry by its `next` pointers (`find_job`,
`find_prev_job`, `find_last_job`) have no defined result when they read such a
record. -/
structure job_t where
  commandinfo : String
  first_process : List process_t
  pgid : Int
  notified : Bool
  tmodes : termios
  mystdin : Int
  mystdout : Int
  mystderr : Int
  bg : Bool
  ifile : Option String
  ofile : Option String
  freed : Bool := false
deriving DecidableEq, Repr, Inhabited

/-- The signals the code names. -/
inductive Signal
  | SIGCONT
  | SIGTTOU
  | SIGTTIN
deriving DecidableEq, Repr

/-- How a file was opened by `open`. -/
inductive OpenMode
  | rdonly
  | wronly_creat_trunc
deriving DecidableEq, Repr

/-- What a descriptor refers to. -/
inductive FileObj
  | inherited (n : Nat)
  | file (path : String) (mode : OpenMode)
  | pipe_read (id : Nat)
  | pipe_write (id : Nat)
deriving DecidableEq, Repr

/-- One call made by the running process, with its arguments (and its result
where the environment chooses it). -/
inductive Call
  | waitpid (pid : Int) (status : Int)
  | fprintf_no_child (pid : Int)
  | fprintf_terminated (pid : Int) (sig : Int)
  | perror (what : String)
  | tcsetpgrp (fd : Int) (pgrp : Int)
  | tcgetattr (fd : Int)
  | tcsetattr (fd : Int) (t : termios)
  | kill (pid : Int) (sig : Signal)
  | setpgid (pid : Int) (pgid : Int)
  | fork (ret : Int)
  | getpid (ret : Int)
  | pipe (r : Int) (w : Int)
  | pipe_failed
  | dup (oldfd : Int) (ret : Int)
  | dup2 (oldfd : Int) (newfd : Int)
  | open_file (path : Option String) (mode : OpenMode) (ret : Int)
  | close (fd : Int)
  | signal_default (sig : Signal)
  | execvp (argv : List String) (ret : Int)
  | exit (code : Int)
  | printf_job (slot : Nat) (status : String) (commandinfo : String)
  | fprintf_stderr (msg : String)
  | printf_prompt (msg : String)
deriving DecidableEq, Repr

/-- What one `waitpid (WAIT_ANY, &status, WUNTRACED)` hands back: the returned
pid, the status word, the value of `errno` after a failed call, and the
terminal attributes if a child changed them while the shell was blocked. -/
structure WaitResult where
  pid : Int
  status : Int
  errno : Int
  tty : Option termios
deriving DecidableEq, Repr

/-- The results the environment gives to the calls still to come, in call
order.  A `waitpid` with no result left never returns; any other call with no
result left fails.  An entry of `execs` says whether `execvp` replaces the
process image, and `uninit` is the value read from the local array `mypipe` of
`spawn_job` before its first `pipe` call. -/
structure Env where
  waits : List WaitResult
  dups : List Int
  opens : List Int
  pipes : List (Option (Int × Int))
  forks : List Int
  getpids : List Int
  setpgids : List Int
  kills : List Int
  execs : List Bool
  uninit : Int
deriving DecidableEq, Repr

/-- The state of the running process: the globals of the shell, its descriptor
table, the terminal, the trace of calls, and the pending environment. -/
structure State where
  first_job : List job_t
  job_array : List Int
  shell_pgid : Int
  shell_tmodes : termios
  shell_terminal : Int
  errno : Int
  fds : List (Int × FileObj)
  npipes : Nat
  tty_pgrp : Int
  tty_modes : termios
  trace : List Call
  env : Env
deriving DecidableEq, Repr

/-- How a run of a function ends: it returns, it blocks for ever in `waitpid`,
the process exits, the process image is replaced by `execvp`, or the run
reaches undefined behaviour (a job pointer outside the registry, a write
outside `job_array`). -/
inductive Outcome
  | returned (s : State)
  | blocked (s : State)
  | exited (code : Int) (s : State)
  | execed (s : State)
  | undefined
deriving DecidableEq, Repr

/-- Append one call to the trace. -/
def State.log (s : State) (c : Call) : State :=
  { s with trace := s.trace ++ [c] }

/-! ## Status tracker -/

/-- The body of `if (p->pid == pid)` in `mark_process_status`: the update of
the matching process. -/
def mark_process (h : Headers) (status : Int) (p : process_t) : process_t :=
  if h.WIFSTOPPED status then { p with status := status, stopped := true }
  else { p with status := status, completed := true }

/-- The inner loop of `mark_process_status` over one process list: the list
with its first process of the given pid updated, or `none` when no pid
matches. -/
def mark_processes (h : Headers) (pid : Int) (status : Int) :
    List process_t → Option (List process_t)
  | [] => none
  | p :: ps =>
    if p.pid = pid then some (mark_process h status p :: ps)
    else (mark_processes h pid status ps).map (fun ps' => p :: ps')

/-- The outer loop of `mark_process_status` over the registry. -/
def mark_jobs (h : Headers) (pid : Int) (status : Int) :
    List job_t → Option (List job_t)
  | [] => none
  | j :: js =>
    match mark_processes h pid status j.first_process with
    | some ps' => some ({ j with first_process := ps' } :: js)
    | none => (mark_jobs h pid status js).map (fun js' => j :: js')

/-- The function `mark_process_status`: the returned int and the state after. -/
def mark_process_status (h : Headers) (s : State) (pid : Int) (status : Int) :
    Int × State :=
  if 0 < pid then
    match mark_jobs h pid status s.first_job with
    | some js' =>
      let s1 : State := { s with first_job := js' }
      if h.WIFSTOPPED status then (0, s1)
      else if h.WIFSIGNALED status then
        (0, s1.log (Call.fprintf_terminated pid (h.WTERMSIG status)))
      else (0, s1)
    | none => (-1, s.log (Call.fprintf_no_child pid))
  else if pid = 0 ∨ s.errno = h.ECHILD then (-1, s)
  else (-1, s.log (Call.perror "waitpid"))

/-- The function `job_is_stopped`, on the process list of the job. -/
def job_is_stopped_list : List process_t → Int
  | [] => 1
  | p :: ps => if !p.completed && !p.stopped then 0 else job_is_stopped_list ps

/-- The function `job_is_stopped`. -/
def job_is_stopped (j : job_t) : Int :=
  job_is_stopped_list j.first_process

/-- The function `job_is_completed`, on the process list of the job. -/
def job_is_completed_list : List process_t → Int
  | [] => 1
  | p :: ps => if !p.completed then 0 else job_is_completed_list ps

/-- The function `job_is_completed`. -/
def job_is_completed (j : job_t) : Int :=
  job_is_completed_list j.first_process

/-- The call `waitpid (WAIT_ANY, &status, WUNTRACED)` returning `w`. -/
def waitpid_step (s : State) (w : WaitResult) (rest : List WaitResult) : State :=
  { s with
    env := { s.env with waits := rest }
    errno := if w.pid < 0 then w.errno else s.errno
    tty_modes := w.tty.getD s.tty_modes
    trace := s.trace ++ [Call.waitpid w.pid w.status] }

/-- One turn of the body of the loop of `wait_for_job`: the `waitpid` call
returning `w`, then `mark_process_status (pid, status)`. -/
def reap (h : Headers) (s : State) (w : WaitResult) (rest : List WaitResult) :
    Int × State :=
  mark_process_status h (waitpid_step s w rest) w.pid w.status

/-- The `do ... while` loop of `wait_for_job`, over the wait results left. -/
def wait_loop (h : Headers) (j : Nat) : List WaitResult → State → Outcome
  | [], s => Outcome.blocked s
  | w :: rest, s =>
    let r := reap h s w rest
    if r.1 ≠ 0 then Outcome.returned r.2
    else
      match r.2.first_job[j]? with
      | none => Outcome.undefined
      | some job =>
        if job_is_stopped job = 0 ∧ job_is_completed job = 0 then
          wait_loop h j rest r.2
        else Outcome.returned r.2

/-- The function `wait_for_job`. -/
def wait_for_job (h : Headers) (j : Nat) (s : State) : Outcome :=
  wait_loop h j s.env.waits s

/-! ## System calls on the descriptor table and the terminal -/

/-- The descriptor `STDIN_FILENO`. -/
def STDIN_FILENO : Int := 0

/-- The descriptor `STDOUT_FILENO`. -/
def STDOUT_FILENO : Int := 1

/-- The descriptor `STDERR_FILENO`. -/
def STDERR_FILENO : Int := 2

/-- What a descriptor refers to in a descriptor table, if it is open. -/
def fd_lookup (fds : List (Int × FileObj)) (fd : Int) : Option FileObj :=
  (fds.find? (fun e => e.1 = fd)).map (fun e => e.2)

/-- The descriptor table with one descriptor closed. -/
def fd_close (fds : List (Int × FileObj)) (fd : Int) : List (Int × FileObj) :=
  fds.filter (fun e => e.1 ≠ fd)

/-- The descriptor table with one descriptor made to refer to an object. -/
def fd_set (fds : List (Int × FileObj)) (fd : Int) (o : FileObj) :
    List (Int × FileObj) :=
  (fd, o) :: fd_close fds fd

/-- The call `dup (oldfd)`: the returned descriptor and the state after. -/
def sys_dup (s : State) (oldfd : Int) : Int × State :=
  let ret : Int :=
    match s.env.dups.head?, fd_lookup s.fds oldfd with
    | some r, some _ => if 0 ≤ r then r else -1
    | _, _ => -1
  let fds' :=
    match fd_lookup s.fds oldfd with
    | some o => if 0 ≤ ret then fd_set s.fds ret o else s.fds
    | none => s.fds
  (ret, { s with
          fds := fds'
          env := { s.env with dups := s.env.dups.tail }
          trace := s.trace ++ [Call.dup oldfd ret] })

/-- The call `dup2 (oldfd, newfd)`: nothing changes when `oldfd` is not open
or equals `newfd`. -/
def sys_dup2 (s : State) (oldfd : Int) (newfd : Int) : State :=
  let fds' :=
    match fd_lookup s.fds oldfd with
    | some o => if oldfd = newfd ∨ newfd < 0 then s.fds else fd_set s.fds newfd o
    | none => s.fds
  { s with fds := fds', trace := s.trace ++ [Call.dup2 oldfd newfd] }

/-- The call `open (path, flags)`: the returned descriptor and the state after;
a null path fails. -/
def sys_open (s : State) (path : Option String) (mode : OpenMode) : Int × State :=
  let ret : Int :=
    match s.env.opens.head?, path with
    | some r, some _ => if 0 ≤ r then r else -1
    | _, _ => -1
  let fds' :=
    match path with
    | some f => if 0 ≤ ret then fd_set s.fds ret (FileObj.file f mode) else s.fds
    | none => s.fds
  (ret, { s with
          fds := fds'
          env := { s.env with opens := s.env.opens.tail }
          trace := s.trace ++ [Call.open_file path mode ret] })

/-- The call `close (fd)`. -/
def sys_close (s : State) (fd : Int) : State :=
  { s with fds := fd_close s.fds fd, trace := s.trace ++ [Call.close fd] }

/-- The call `pipe (mypipe)`: the two descriptors `(mypipe[0], mypipe[1])`, or
`none` when the call fails, and the state after. -/
def sys_pipe (s : State) : Option (Int × Int) × State :=
  match s.env.pipes.head? with
  | some (some rw) =>
    (some rw, { s with
                fds := fd_set (fd_set s.fds rw.1 (FileObj.pipe_read s.npipes)) rw.2
                  (FileObj.pipe_write s.npipes)
                npipes := s.npipes + 1
                env := { s.env with pipes := s.env.pipes.tail }
                trace := s.trace ++ [Call.pipe rw.1 rw.2] })
  | _ =>
    (none, { s with
             env := { s.env with pipes := s.env.pipes.tail }
             trace := s.trace ++ [Call.pipe_failed] })

/-- The call `fork ()`: the value it returns in the process that is followed. -/
def sys_fork (s : State) : Int × State :=
  let ret : Int := s.env.forks.head?.getD (-1)
  (ret, { s with
          env := { s.env with forks := s.env.forks.tail }
          trace := s.trace ++ [Call.fork ret] })

/-- The call `getpid ()`. -/
def sys_getpid (s : State) : Int × State :=
  let ret : Int := s.env.getpids.head?.getD (-1)
  (ret, { s with
          env := { s.env with getpids := s.env.getpids.tail }
          trace := s.trace ++ [Call.getpid ret] })

/-- The call `setpgid (pid, pgid)`: its return value and the state after. -/
def sys_setpgid (s : State) (pid : Int) (pgid : Int) : Int × State :=
  let ret : Int := s.env.setpgids.head?.getD (-1)
  (ret, { s with
          env := { s.env with setpgids := s.env.setpgids.tail }
          trace := s.trace ++ [Call.setpgid pid pgid] })

/-- The call `kill (pid, sig)`: its return value and the state after. -/
def sys_kill (s : State) (pid : Int) (sig : Signal) : Int × State :=
  let ret : Int := s.env.kills.head?.getD (-1)
  (ret, { s with
          env := { s.env with kills := s.env.kills.tail }
          trace := s.trace ++ [Call.kill pid sig] })

/-- The call `tcsetpgrp (fd, pgrp)`, in the model where it sets the foreground
group of the terminal. -/
def sys_tcsetpgrp (s : State) (fd : Int) (pgrp : Int) : State :=
  { s with tty_pgrp := pgrp, trace := s.trace ++ [Call.tcsetpgrp fd pgrp] }

/-- The call `tcgetattr (fd, &t)`: the attributes read and the state after. -/
def sys_tcgetattr (s : State) (fd : Int) : termios × State :=
  (s.tty_modes, s.log (Call.tcgetattr fd))

/-- The call `tcsetattr (fd, TCSADRAIN, &t)`. -/
def sys_tcsetattr (s : State) (fd : Int) (t : termios) : State :=
  { s with tty_modes := t, trace := s.trace ++ [Call.tcsetattr fd t] }

/-! ## Registry access -/

/-- A list with its `n`-th element replaced by its image under `f`. -/
def modify_nth {α : Type} (f : α → α) : Nat → List α → List α
  | _, [] => []
  | 0, x :: xs => f x :: xs
  | n + 1, x :: xs => x :: modify_nth f n xs

/-- An assignment through the job pointer `j`. -/
def State.modify_job (s : State) (j : Nat) (f : job_t → job_t) : State :=
  { s with first_job := modify_nth f j s.first_job }

/-- The loop of `find_lowest_index`, from slot `i` with `n` slots left. -/
def find_lowest_index_loop (job_array : List Int) (i : Nat) : Nat → Int
  | 0 => -1
  | n + 1 =>
    if job_array.getD i 0 = 0 then (i : Int)
    else find_lowest_index_loop job_array (i + 1) n

/-- The function `find_lowest_index` over the 20 slots of `job_array`. -/
def find_lowest_index (s : State) : Int :=
  find_lowest_index_loop s.job_array 0 20

/-- The statements `int low = find_lowest_index(); job_array[low] = j->pgid;`:
`none` when the write falls outside the array. -/
def record_pgid (s : State) (pgid : Int) : Option State :=
  let low := find_lowest_index s
  if 0 ≤ low ∧ low.toNat < s.job_array.length then
    some { s with job_array := s.job_array.set low.toNat pgid }
  else none

/-! ## Terminal arbiter and job controller -/

/-- The calls of `put_job_in_foreground` before its wait: the job's group is
made the foreground group and, when `cont` is set, the job's saved attributes
are restored and `SIGCONT` is sent to the job's group. -/
def foreground_begin (job : job_t) (cont : Int) (s : State) : State :=
  if cont ≠ 0 then
    let k :=
      sys_kill
        (sys_tcsetattr (sys_tcsetpgrp s s.shell_terminal job.pgid) s.shell_terminal
          job.tmodes)
        (-job.pgid) Signal.SIGCONT
    if k.1 < 0 then k.2.log (Call.perror "kill (SIGCONT)") else k.2
  else sys_tcsetpgrp s s.shell_terminal job.pgid

/-- The three calls `tcsetpgrp (shell_terminal, shell_pgid)`,
`tcgetattr (shell_terminal, &j->tmodes)` and
`tcsetattr (shell_terminal, TCSADRAIN, &shell_tmodes)`, which end
`put_job_in_foreground` and make up `restore_control`. -/
def shell_to_foreground (j : Nat) (s : State) : State :=
  let g := sys_tcgetattr (sys_tcsetpgrp s s.shell_terminal s.shell_pgid) s.shell_terminal
  sys_tcsetattr (g.2.modify_job j (fun jb => { jb with tmodes := g.1 }))
    s.shell_terminal s.shell_tmodes

/-- The function `put_job_in_foreground`. -/
def put_job_in_foreground (h : Headers) (j : Nat) (cont : Int) (s : State) : Outcome :=
  match s.first_job[j]? with
  | none => Outcome.undefined
  | some job =>
    match wait_for_job h j (foreground_begin job cont s) with
    | Outcome.returned s3 => Outcome.returned (shell_to_foreground j s3)
    | o => o

/-- The function `put_job_in_background`. -/
def put_job_in_background (j : Nat) (cont : Int) (s : State) : Outcome :=
  if cont ≠ 0 then
    match s.first_job[j]? with
    | none => Outcome.undefined
    | some job =>
      let k := sys_kill s (-job.pgid) Signal.SIGCONT
      Outcome.returned
        (if k.1 < 0 then k.2.log (Call.perror "kill (SIGCONT)") else k.2)
  else Outcome.returned s

/-- The function `restore_control`. -/
def restore_control (j : Nat) (s : State) : Outcome :=
  match s.first_job[j]? with
  | none => Outcome.undefined
  | some _ => Outcome.returned (shell_to_foreground j s)

/-! ## Pipeline spawner -/

/-- The job a valid job pointer `j` points to. -/
def State.job (s : State) (j : Nat) : job_t :=
  s.first_job.getD j default

/-- The assignment `p->pid = v` to stage `k` of job `j`. -/
def State.set_pid (s : State) (j : Nat) (k : Nat) (v : Int) : State :=
  s.modify_job j (fun jb =>
    { jb with first_process := modify_nth (fun q => { q with pid := v }) k jb.first_process })

/-- The assignment `j->pgid = v`. -/
def State.set_pgid (s : State) (j : Nat) (v : Int) : State :=
  s.modify_job j (fun jb => { jb with pgid := v })

/-- The start of the `case 0` branch of the `switch` in `spawn_job`: the child
of stage `k` takes its own pid as the job's group when none is assigned, clears
`p->pid`, joins the group and, when that succeeds and `fg` is set, makes the
group the foreground group of the terminal.  The result is `none` when the
write to `job_array` falls outside the array. -/
def child_join_group (j : Nat) (k : Nat) (fg : Bool) (s : State) : Option State :=
  let own : Option State :=
    if (s.job j).pgid < 0 then
      let g := sys_getpid s
      record_pgid (g.2.set_pgid j g.1) g.1
    else some s
  match own with
  | none => none
  | some s1 =>
    let r := sys_setpgid (s1.set_pid j k 0) 0 ((s1.set_pid j k 0).job j).pgid
    some
      (if r.1 = 0 then
        if fg then sys_tcsetpgrp r.2 r.2.shell_terminal (r.2.job j).pgid else r.2
      else r.2)

/-- The statements `if (fd != target) { dup2 (fd, target); close (fd); }`. -/
def redirect (s : State) (fd : Int) (target : Int) : State :=
  if fd ≠ target then sys_close (sys_dup2 s fd target) fd else s

/-- The three redirections of the child: `infile` onto standard input,
`outfile` onto standard output, `j->mystderr` onto standard error. -/
def child_redirect (j : Nat) (infile : Int) (outfile : Int) (s : State) : State :=
  redirect (redirect (redirect s infile STDIN_FILENO) outfile STDOUT_FILENO)
    ((redirect (redirect s infile STDIN_FILENO) outfile STDOUT_FILENO).job j).mystderr
    STDERR_FILENO

/-- The end of the child branch: `execvp (p->argv[0], p->argv)`, and
`perror` and `exit (1)` when it returns.  A null `argv[0]` is undefined
behaviour. -/
def child_exec (p : process_t) (s : State) : Outcome :=
  match p.argv with
  | [] => Outcome.undefined
  | _ :: _ =>
    if s.env.execs.head? = some true then
      Outcome.execed
        { s with
          env := { s.env with execs := s.env.execs.tail }
          trace := s.trace ++ [Call.execvp p.argv 0] }
    else
      Outcome.exited 1
        { s with
          env := { s.env with execs := s.env.execs.tail }
          trace := s.trace ++
            [Call.execvp p.argv (-1), Call.perror "execvp", Call.exit 1] }

/-- The `case 0` branch of the `switch` in `spawn_job`: what the child of stage
`k` does from `fork` to `execvp`. -/
def spawn_child (j : Nat) (k : Nat) (fg : Bool) (p : process_t) (infile : Int)
    (outfile : Int) (s : State) : Outcome :=
  match child_join_group j k fg s with
  | none => Outcome.undefined
  | some s3 =>
    child_exec p
      (child_redirect j infile outfile (s3.log (Call.signal_default Signal.SIGTTOU)))

/-- The `default` branch of the `switch` in `spawn_job`: what the parent does
with the pid of the child of stage `k`; `none` when the write to `job_array`
falls outside the array. -/
def spawn_parent (j : Nat) (k : Nat) (pid : Int) (s : State) : Option State :=
  let own : Option State :=
    if ((s.set_pid j k pid).job j).pgid < 0 then
      record_pgid ((s.set_pid j k pid).set_pgid j pid) pid
    else some (s.set_pid j k pid)
  match own with
  | none => none
  | some s2 => some (sys_setpgid s2 pid (s2.job j).pgid).2

/-- The statement `if (fd != keep) close (fd);`. -/
def close_unless (s : State) (fd : Int) (keep : Int) : State :=
  if fd ≠ keep then sys_close s fd else s

/-- The two statements under "Reset file IOs if necessary" that end one turn
of the loop of `spawn_job`. -/
def reset_file_ios (j : Nat) (infile : Int) (outfile : Int) (s : State) : State :=
  close_unless (close_unless s infile (s.job j).mystdin) outfile
    ((close_unless s infile (s.job j).mystdin).job j).mystdout

/-- The start of one turn of the loop of `spawn_job` for a stage that is not
completed: the `pipe` call when a stage follows.  The result is the content of
`mypipe`, the value of `outfile` and the state after, or `none` when `pipe`
fails. -/
def open_pipe (j : Nat) (has_next : Bool) (mypipe : Int × Int) (s : State) :
    Option ((Int × Int) × Int × State) :=
  if has_next then
    match (sys_pipe s).1 with
    | some rw => some (rw, rw.2, (sys_pipe s).2)
    | none => none
  else some (mypipe, (s.job j).mystdout, s)

/-- The `for` loop of `spawn_job` from stage `k` on: `ps` are the stages still
to visit, `mypipe` and `infile` the locals of that name.  The result is
`Outcome.returned` when the loop runs to its end in the process followed. -/
def spawn_loop (h : Headers) (j : Nat) (fg : Bool) :
    List process_t → Nat → Int × Int → Int → State → Outcome
  | [], _, _, _, s => Outcome.returned s
  | p :: rest, k, mypipe, infile, s =>
    if p.completed then spawn_loop h j fg rest (k + 1) mypipe infile s
    else
      match open_pipe j (!rest.isEmpty) mypipe s with
      | none =>
        Outcome.exited 1
          (((sys_pipe s).2.log (Call.perror "pipe")).log (Call.exit 1))
      | some (mypipe1, outfile, s1) =>
        if (sys_fork s1).1 = -1 then
          Outcome.exited h.EXIT_FAILURE
            (((sys_fork s1).2.log (Call.perror "fork")).log (Call.exit h.EXIT_FAILURE))
        else if (sys_fork s1).1 = 0 then
          spawn_child j k fg p infile outfile (sys_fork s1).2
        else
          match spawn_parent j k (sys_fork s1).1 (sys_fork s1).2 with
          | none => Outcome.undefined
          | some s2 =>
            spawn_loop h j fg rest (k + 1) mypipe1 mypipe1.1
              (reset_file_ios j infile outfile s2)

/-- The end of `spawn_job`, after the foreground or background hand-over: the
two `dup2` calls that put descriptors 0 and 1 back, and `restore_control`. -/
def spawn_finish (j : Nat) (original_input : Int) (original_output : Int)
    (s : State) : Outcome :=
  restore_control j
    (sys_dup2 (sys_dup2 s original_input 0) original_output 1)

/-- The statement `if (fd != std) fd = open (path, flags);`: the value of
`fd` and the state after. -/
def open_redirect (s : State) (fd : Int) (std : Int) (path : Option String)
    (mode : OpenMode) : Int × State :=
  if fd ≠ std then sys_open s path mode else (fd, s)

/-- The start of `spawn_job`: the two `dup` calls that save descriptors 0 and
1, the `open` calls for the redirect files, and the two `dup2` calls onto
descriptors 0 and 1.  The result is `(original_input, original_output, infile,
state)`. -/
def spawn_begin (job : job_t) (s : State) : Int × Int × Int × State :=
  let d0 := sys_dup s 0
  let d1 := sys_dup d0.2 1
  let i := open_redirect d1.2 job.mystdin STDIN_FILENO job.ifile OpenMode.rdonly
  let o := open_redirect i.2 job.mystdout STDOUT_FILENO job.ofile
    OpenMode.wronly_creat_trunc
  (d0.1, d1.1, i.1, sys_dup2 (sys_dup2 o.2 i.1 0) o.1 1)

/-- The part of `spawn_job` after the loop: the wait and the hand-over for a
foreground job, `put_job_in_background` otherwise, then `spawn_finish`. -/
def spawn_end (h : Headers) (j : Nat) (fg : Bool) (original_input : Int)
    (original_output : Int) (s : State) : Outcome :=
  if fg then
    match wait_for_job h j s with
    | Outcome.returned s3 =>
      match put_job_in_foreground h j 0 s3 with
      | Outcome.returned s4 => spawn_finish j original_input original_output s4
      | x => x
    | x => x
  else
    match put_job_in_background j 0 s with
    | Outcome.returned s3 => spawn_finish j original_input original_output s3
    | x => x

/-- The function `spawn_job`, followed in one process: the shell when every
`fork` returns a child pid, the child of a stage when that `fork` returns 0. -/
def spawn_job (h : Headers) (j : Nat) (fg : Bool) (s : State) : Outcome :=
  match s.first_job[j]? with
  | none => Outcome.undefined
  | some job =>
    match spawn_loop h j fg job.first_process 0
        ((spawn_begin job s).2.2.2.env.uninit, (spawn_begin job s).2.2.2.env.uninit)
        (spawn_begin job s).2.2.1 (spawn_begin job s).2.2.2 with
    | Outcome.returned s2 =>
      spawn_end h j fg (spawn_begin job s).1 (spawn_begin job s).2.1 s2
    | x => x

/-! ## The wait loop in the words of the specification -/

/-- A job is fully stopped: every process that is not completed is stopped. -/
def fully_stopped (jb : job_t) : Prop :=
  ∀ p ∈ jb.first_process, p.completed = false → p.stopped = true

/-- A job is fully completed: every process is completed. -/
def fully_completed (jb : job_t) : Prop :=
  ∀ p ∈ jb.first_process, p.completed = true

instance (jb : job_t) : Decidable (fully_stopped jb) := by
  unfold fully_stopped
  infer_instance

instance (jb : job_t) : Decidable (fully_completed jb) := by
  unfold fully_completed
  infer_instance

/-- The next pending wait result reaped: the value `mark_process_status`
returns for it and the state after, or `none` when no wait result is left. -/
def next_reap (h : Headers) (s : State) : Option (Int × State) :=
  match s.env.waits with
  | [] => none
  | w :: rest => some (reap h s w rest)

/-- The state after the first `n` pending wait results have been reaped, each
applied by `mark_process_status` to the process it matches. -/
def after_reaps (h : Headers) (s : State) : Nat → State
  | 0 => s
  | n + 1 =>
    match next_reap h (after_reaps h s n) with
    | none => after_reaps h s n
    | some r => r.2

/-- The next pending wait result lets the wait for job `j` go on: the reap
succeeds and leaves `j` neither fully stopped nor fully completed. -/
def keeps_waiting (h : Headers) (j : Nat) (s : State) : Prop :=
  match next_reap h s with
  | none => False
  | some r => r.1 = 0 ∧ ¬ fully_stopped (r.2.job j) ∧ ¬ fully_completed (r.2.job j)

instance (h : Headers) (j : Nat) (s : State) : Decidable (keeps_waiting h j s) := by
  unfold keeps_waiting
  split <;> infer_instance

/-! ## Frame conditions -/

/-- The part of the shell that no function of the job controller assigns: the
shell's group, terminal and baseline attributes, and the number of jobs in the
registry. -/
def same_shell (s s' : State) : Prop :=
  s'.shell_pgid = s.shell_pgid ∧ s'.shell_terminal = s.shell_terminal ∧
  s'.shell_tmodes = s.shell_tmodes ∧ s'.first_job.length = s.first_job.length

/-- A property of the state in which a run ends, whatever the kind of end. -/
def Outcome.holds (P : State → Prop) : Outcome → Prop
  | Outcome.returned s => P s
  | Outcome.blocked s => P s
  | Outcome.exited _ s => P s
  | Outcome.execed s => P s
  | Outcome.undefined => True

/-- The number of `waitpid` calls in a trace. -/
def waitpid_calls (tr : List Call) : Nat :=
  (tr.filter (fun c => match c with
    | Call.waitpid _ _ => true
    | _ => false)).length

/-- A job without the fields that spawning and the terminal hand-over assign:
the pids of its processes, its group and its saved terminal attributes. -/
def job_core (jb : job_t) : job_t :=
  { jb with
    pgid := 0
    tmodes := 0
    first_process := jb.first_process.map (fun p => { p with pid := 0 }) }

/-- From `s` to `s'` no wait was made and no job was added, removed or marked:
the pending wait results and the number of `waitpid` calls are the same, and
the registry is the same up to pids, groups and saved terminal attributes. -/
def quiet (s s' : State) : Prop :=
  s'.env.waits = s.env.waits ∧ waitpid_calls s'.trace = waitpid_calls s.trace ∧
  s'.first_job.map job_core = s.first_job.map job_core

/-- The guard of the dispatcher before it spawns a job: `find_lowest_index`
finds a slot of `job_array`. -/
def slot_free (s : State) : Prop :=
  0 ≤ find_lowest_index s ∧ (find_lowest_index s).toNat < s.job_array.length

instance (s : State) : Decidable (slot_free s) := by
  unfold slot_free
  infer_instance

/-- The pipe and fork calls of a spawn of job `j` that makes up to `nf` `fork`
calls and `np` `pipe` calls all succeed in the shell process: every pending
`fork` result is the pid of a child and there are at least `nf` of them, every
pending `pipe` result is a pair of descriptors and there are at least `np` of
them, `j` is in the registry, and the job has a group already or `job_array`
has a free slot for it. -/
def spawn_ready (j : Nat) (nf : Nat) (np : Nat) (s : State) : Prop :=
  j < s.first_job.length ∧
  (∀ f ∈ s.env.forks, 0 < f) ∧ nf ≤ s.env.forks.length ∧
  (∀ p ∈ s.env.pipes, p.isSome = true) ∧ np ≤ s.env.pipes.length ∧
  (0 ≤ (s.job j).pgid ∨ slot_free s)

instance (j nf np : Nat) (s : State) : Decidable (spawn_ready j nf np s) := by
  unfold spawn_ready
  infer_instance

/-- From `s` to `s'` nothing changed that the loop of `spawn_job` reads to
decide how it goes on: the registry, `job_array` and the pending results of
`fork` and `pipe`. -/
def same_spawn_inputs (s s' : State) : Prop :=
  s'.first_job = s.first_job ∧ s'.job_array = s.job_array ∧
  s'.env.forks = s.env.forks ∧ s'.env.pipes = s.env.pipes

/-- The object is an end of a pipe created when the pipe counter was at least
`n0`. -/
def FileObj.pipe_since (n0 : Nat) : FileObj → Bool
  | FileObj.pipe_read n => decide (n0 ≤ n)
  | FileObj.pipe_write n => decide (n0 ≤ n)
  | _ => false

/-- No descriptor of the process refers to an end of a pipe created since the
pipe counter was `n0`: every descriptor that a later `pipe` call returned has
been closed. -/
def pipes_closed (n0 : Nat) (s : State) : Prop :=
  ∀ e ∈ s.fds, e.2.pipe_since n0 = false

instance (n0 : Nat) (s : State) : Decidable (pipes_closed n0 s) := by
  unfold pipes_closed
  infer_instance

/-- The only descriptor of the process that may refer to an end of a pipe
created since the pipe counter was `n0` is `infile`, and then `infile` is not
the value `keep` that the loop of `spawn_job` refuses to close. -/
def pipe_inv (n0 : Nat) (keep : Int) (infile : Int) (s : State) : Prop :=
  ∀ e ∈ s.fds, e.2.pipe_since n0 = true → e.1 = infile ∧ infile ≠ keep

/-- From `s` to `s'` the descriptor table, the pipe counter and the pending
`pipe` results are the same. -/
def same_files (s s' : State) : Prop :=
  s'.fds = s.fds ∧ s'.npipes = s.npipes ∧ s'.env.pipes = s.env.pipes

/-- A pending `pipe` result does not collide with the two values that the loop
of `spawn_job` refuses to close: its read end is not `keep_in` and its write end
is not `keep_out`. -/
def pipe_ends_clear (keep_in : Int) (keep_out : Int) : Option (Int × Int) → Prop
  | some rw => rw.1 ≠ keep_in ∧ rw.2 ≠ keep_out
  | none => True

instance (keep_in keep_out : Int) (o : Option (Int × Int)) :
    Decidable (pipe_ends_clear keep_in keep_out o) := by
  unfold pipe_ends_clear
  split <;> infer_instance

/-- The call is a `pipe` call that failed or a `fork` call that returned -1. -/
def failed_call : Call → Bool
  | Call.pipe_failed => true
  | Call.fork ret => decide (ret = -1)
  | _ => false

/-- No `pipe` or `fork` call of the trace has failed. -/
def no_failed_call (tr : List Call) : Prop :=
  ∀ c ∈ tr, failed_call c = false

instance (tr : List Call) : Decidable (no_failed_call tr) := by
  unfold no_failed_call
  infer_instance

/-- How a run may end with respect to failed `pipe` and `fork` calls: either
no such call has failed, or the run is over by `exit` and the failed call, the
`perror` for it and the `exit` are the last three calls of the process. -/
def failure_is_fatal (h : Headers) : Outcome → Prop
  | Outcome.exited code s =>
    no_failed_call s.trace ∨
    ∃ tr, no_failed_call tr ∧
      ((s.trace = tr ++ [Call.pipe_failed, Call.perror "pipe", Call.exit 1] ∧ code = 1) ∨
       (s.trace = tr ++ [Call.fork (-1), Call.perror "fork", Call.exit h.EXIT_FAILURE] ∧
        code = h.EXIT_FAILURE))
  | Outcome.returned s => no_failed_call s.trace
  | Outcome.blocked s => no_failed_call s.trace
  | Outcome.execed s => no_failed_call s.trace
  | Outcome.undefined => True

/-- From `s` to `s'` the trace has grown by calls none of which is a failed
`pipe` or `fork` call. -/
def clean_step (s s' : State) : Prop :=
  ∃ cs, s'.trace = s.trace ++ cs ∧ no_failed_call cs

/-- The state of the process for which the pending `fork` calls return `fs`:
the shell when every entry is the pid of a child, the child of stage `i` when
entry `i` is the first that is 0. -/
def State.with_forks (s : State) (fs : List Int) : State :=
  { s with env := { s.env with forks := fs } }

/-- The pending `pipe` results are fresh descriptors, as the kernel hands them
out: the two ends of a pipe differ, neither is a descriptor of `avoid` (the
descriptors that stay open during the spawn), and neither is `infile`, the
read end that the loop of `spawn_job` still holds from the turn before.
Nothing is asked of the results that follow a failed call. -/
def fresh_pipes (avoid : List Int) : Int → List (Option (Int × Int)) → Prop
  | _, [] => True
  | _, none :: _ => True
  | infile, some rw :: rest =>
    rw.1 ≠ rw.2 ∧ rw.1 ∉ avoid ∧ rw.2 ∉ avoid ∧ rw.1 ≠ infile ∧ rw.2 ≠ infile ∧
    fresh_pipes avoid rw.1 rest

instance fresh_pipes_decidable (avoid : List Int) :
    ∀ (infile : Int) (l : List (Option (Int × Int))), Decidable (fresh_pipes avoid infile l)
  | _, [] => isTrue trivial
  | _, none :: _ => isTrue trivial
  | infile, some rw :: rest =>
    have := fresh_pipes_decidable avoid rw.1 rest
    by unfold fresh_pipes; infer_instance

/-- The number of `open` calls that `spawn_job` makes before the one for the
output file: one, for the input file, when `j->mystdin` is not `STDIN_FILENO`. -/
def input_opens (job : job_t) : Nat :=
  if job.mystdin ≠ STDIN_FILENO then 1 else 0

/-! ## Registry removal and the job listing -/

/-- The loop of `find_prev_job`: `tmp` is the job at index `i`, the head of the
list given.  The result is the index of the job whose `next` is `j`, or
`some none` for `NULL`; it is `none`, undefined behaviour, when `tmp` is `NULL`
or points to a released record. -/
def find_prev_job_loop (j : Nat) : List job_t → Nat → Option (Option Nat)
  | [], _ => none
  | a :: rest, i =>
    if a.freed then none
    else
      match rest with
      | [] => some none
      | _ :: _ =>
        if i + 1 = j then some (some i) else find_prev_job_loop j rest (i + 1)

/-- The function `find_prev_job`. -/
def find_prev_job (s : State) (j : Nat) : Option (Option Nat) :=
  find_prev_job_loop j s.first_job 0

/-- The function `remove_and_free`.  With `prev` null the first job of the
registry is released, and unlinked when it has a successor; otherwise the
successor of `j`, if there is one, is unlinked and released.  A pointer `j`
that is not linked into the registry is an index past its end. -/
def remove_and_free (s : State) (j : Nat) : Outcome :=
  match find_prev_job s j with
  | none => Outcome.undefined
  | some none =>
    match s.first_job with
    | [] => Outcome.undefined
    | [a] =>
      Outcome.returned
        { (if j ≠ 0 then s.log (Call.perror "wrong pgid") else s) with
          first_job := [{ a with freed := true }] }
    | _ :: b :: rest =>
      Outcome.returned
        { (if j ≠ 0 then s.log (Call.perror "wrong pgid") else s) with
          first_job := b :: rest }
  | some (some _) =>
    if (s.job j).freed then Outcome.undefined
    else
      match s.first_job[j + 1]? with
      | none => Outcome.returned s
      | some tmp =>
        if tmp.freed then Outcome.undefined
        else Outcome.returned { s with first_job := s.first_job.eraseIdx (j + 1) }

/-- The loop of `find_job` from the job at index `i`: the index of the first
job whose group is `pgid`, `some none` for `NULL`, `none` when the loop reads a
released record. -/
def find_job_loop (pgid : Int) : List job_t → Nat → Option (Option Nat)
  | [], _ => some none
  | a :: rest, i =>
    if a.freed then none
    else if a.pgid = pgid then some (some i)
    else find_job_loop pgid rest (i + 1)

/-- The function `find_job`. -/
def find_job (s : State) (pgid : Int) : Option (Option Nat) :=
  find_job_loop pgid s.first_job 0

/-- The status word that `list_jobs` prints for a job, from its first process. -/
def list_status (p : process_t) : String :=
  if p.stopped then "Stopped" else if p.completed then "Completed" else "Running"

/-- One turn of the loop of `list_jobs`, for slot `i`: nothing for an empty
slot; otherwise the job of the slot's group is looked up and printed, and when
its first process is marked completed `remove_and_free` is called on it and the
slot is cleared.  Reading a slot outside `job_array`, a null `temp` and a null
`temp->first_process` are undefined behaviour. -/
def list_jobs_turn (s : State) (i : Nat) : Outcome :=
  match s.job_array[i]? with
  | none => Outcome.undefined
  | some pg =>
    if pg ≠ 0 then
      match find_job s pg with
      | some (some t) =>
        match (s.job t).first_process with
        | [] => Outcome.undefined
        | p :: _ =>
          if p.completed then
            match remove_and_free
                (s.log (Call.printf_job i (list_status p) (s.job t).commandinfo)) t with
            | Outcome.returned s2 =>
              Outcome.returned { s2 with job_array := s2.job_array.set i 0 }
            | o => o
          else
            Outcome.returned
              (s.log (Call.printf_job i (list_status p) (s.job t).commandinfo))
      | _ => Outcome.undefined
    else Outcome.returned s

/-- The loop of `list_jobs` from slot `i`, with `n` slots left. -/
def list_jobs_loop : Nat → Nat → State → Outcome
  | 0, _, s => Outcome.returned s
  | n + 1, i, s =>
    match list_jobs_turn s i with
    | Outcome.returned s1 => list_jobs_loop n (i + 1) s1
    | o => o

/-- The function `list_jobs`; its two parameters are not used. -/
def list_jobs (s : State) : Outcome :=
  list_jobs_loop 20 0 s

/-! ## Command-line parser -/

/-- The registry with the record `jb` linked after the last job, as the
statements `first_job = current_job = newjob` and `current_job->next = newjob`
of `readcmdline` leave it. -/
def State.append_job (s : State) (jb : job_t) : State :=
  { s with first_job := s.first_job ++ [jb] }

/-- The character `'\0'` that ends a C string. -/
def NUL : Char := Char.ofNat 0

/-- The function `isspace` of `<ctype.h>` in the C locale: space, `\t`, `\n`,
`\v`, `\f` and `\r`. -/
def isspace (c : Char) : Bool :=
  c = ' ' || c = '\t' || c = '\n' || c = Char.ofNat 11 || c = Char.ofNat 12 || c = '\r'

/-- The loop `while (isspace (cmd[cmd_pos])) ++cmd_pos;`, on the characters
from `cmd_pos` to the end of the C string: the characters from the new
`cmd_pos` on. -/
def skip_spaces : List Char → List Char
  | [] => []
  | c :: rest => if isspace c then skip_spaces rest else c :: rest

/-- The loop `while (cmd[cmd_pos] != '\0' && !isspace (cmd[cmd_pos]))` that
copies one word: the characters copied and the characters left. -/
def copy_word : List Char → List Char × List Char
  | [] => ([], [])
  | c :: rest =>
    if isspace c then ([], c :: rest)
    else (c :: (copy_word rest).1, (copy_word rest).2)

/-- The main loop of `readprocessinfo`, entered with `cmd[cmd_pos]` not a
space: `argv` is the array `p->argv` of `MAX_ARGS` pointers, `argc` the local
of that name, and the first argument bounds the number of turns.  The result is
`p->argc` and `p->argv` at the return; it is `none` when a write falls outside
`p->argv` or outside the `MAX_LEN_CMDLINE` characters of a word. -/
def readprocessinfo_loop (h : Headers) :
    Nat → List Char → Nat → List (Option String) → Option (Nat × List (Option String))
  | 0, _, _, _ => none
  | _ + 1, [], argc, argv =>
    if argc < argv.length then some (argc, argv.set argc none) else none
  | n + 1, c :: rest, argc, argv =>
    if argc < argv.length then
      if (copy_word (c :: rest)).1.length < h.MAX_LEN_CMDLINE then
        readprocessinfo_loop h n (skip_spaces (copy_word (c :: rest)).2) (argc + 1)
          (argv.set argc (some (String.mk (copy_word (c :: rest)).1)))
      else none
    else none

/-- The function `readprocessinfo` on a process whose `argc` and `argv` are
given (`init_process` makes them 0 and an array of `MAX_ARGS` null pointers)
and the C string `cmd`, given as its characters before the terminator. -/
def readprocessinfo (h : Headers) (argc : Nat) (argv : List (Option String))
    (cmd : List Char) : Option (Nat × List (Option String)) :=
  match skip_spaces cmd with
  | [] => some (argc, argv)
  | c :: rest => readprocessinfo_loop h ((c :: rest).length + 1) (c :: rest) 0 argv

/-- The words of a command as the specification has them: the maximal runs of
characters that are not white space. -/
def words (cmd : List Char) : List (List Char) :=
  (cmd.splitOnP isspace).filter (fun w => !w.isEmpty)

/-- The loop `while (isspace (c)) { if (c == '\n') break; ++cmdline_pos; }`
after a redirect file name: the characters from the new `cmdline_pos` on. -/
def skip_blanks : List Char → List Char
  | [] => []
  | c :: rest => if isspace c && c != '\n' then skip_blanks rest else c :: rest

/-- The call `fgets (cmdline, n, stdin)` into a zeroed buffer, with `input` the
characters of standard input not yet read: the C string left in `cmdline` (at
most `n - 1` characters, up to and including the first newline, and nothing
after a null character), and whether the end-of-file indicator is set, which
it is when the input ran out before a newline and before `n - 1` characters. -/
def fgets (n : Nat) (input : List Char) : List Char × Bool :=
  let line := input.take ((input.takeWhile (fun c => c != '\n')).length + 1)
  let stored := line.take (n - 1)
  (stored.takeWhile (fun c => c != NUL),
    !stored.contains '\n' && decide (input.length < n - 1))

/-- The function `find_last_job`: the index of the last job, `some none` for
`NULL`; `none` when the loop reads the `next` field of a released record. -/
def find_last_job (s : State) : Option (Option Nat) :=
  if s.first_job.any (fun jb => jb.freed) then none
  else if s.first_job.isEmpty then some none
  else some (some (s.first_job.length - 1))

/-- The function `free_job`, called on a job that is linked into the registry
or on `NULL`: the record is released, nothing is unlinked, and the result is
`true` in every case. -/
def free_job (s : State) (j : Option Nat) : Bool × State :=
  match j with
  | none => (true, s)
  | some i => (true, s.modify_job i (fun jb => { jb with freed := true }))

/-- The function `invokefree`. -/
def invokefree (s : State) (j : Option Nat) (msg : String) : Bool × State :=
  free_job (s.log (Call.fprintf_stderr msg)) j

/-- The record that `malloc` and `init_job` make for a new job.  The
characters of `commandinfo` and the value of `tmodes` are not initialised by
the code; they are taken as empty and 0. -/
def init_job : job_t where
  commandinfo := ""
  first_process := []
  pgid := -1
  notified := false
  tmodes := 0
  mystdin := STDIN_FILENO
  mystdout := STDOUT_FILENO
  mystderr := STDERR_FILENO
  bg := false
  ifile := none
  ofile := none

/-- The record that `malloc`, `init_process` and `readprocessinfo` make for a
new process, from the `argc` and `argv` that `readprocessinfo` leaves. -/
def init_process (argc : Nat) (argv : List (Option String)) : process_t where
  argv := (argv.take argc).map (fun a => a.getD "")
  pid := -1
  completed := false
  stopped := false
  status := -1

/-- The statements of `readcmdline` that end a command: a new process is
linked after the last process of job `cur` and filled by `readprocessinfo`
from the buffer `cmd`.  The result is `none` when `readprocessinfo` has no
defined result.  Allocation is taken to succeed. -/
def add_process (h : Headers) (cur : Nat) (cmd : List Char) (s : State) : Option State :=
  match readprocessinfo h 0 (List.replicate h.MAX_ARGS none) cmd with
  | none => none
  | some r =>
    some (s.modify_job cur (fun jb =>
      { jb with first_process := jb.first_process ++ [init_process r.1 r.2] }))

/-- The locals of `readcmdline` that live across the turns of its inner loop:
`rest` holds the characters of `cmdline` from `cmdline_pos` on and `cmd` the
characters of the buffer `cmd` before `cmd_pos`. -/
structure ParseLocals where
  rest : List Char
  cmd : List Char
  valid_input : Bool
  end_of_input : Bool
  sequence : Bool
  seq_pos : Nat
deriving DecidableEq, Repr

/-- How a part of `readcmdline` ends: it goes on with new locals, it leaves by
`return invokefree (current_job, msg)`, or its behaviour is undefined. -/
inductive Parsed
  | ok (l : ParseLocals) (s : State)
  | rejected (msg : String) (s : State)
  | undefined
deriving DecidableEq, Repr

/-- The `'<'` and `'>'` cases of the `switch` of `readcmdline`, after the
increment that skips the symbol: the file name is copied into a buffer of
`MAX_LEN_FILENAME` characters.  A longer name is rejected; for a name of
exactly `MAX_LEN_FILENAME` characters the terminator is written outside the
buffer.  `store` is the assignment of the name and of the marker to the job. -/
def read_redirect (h : Headers) (cur : Nat) (l : ParseLocals) (r : List Char)
    (store : String → job_t → job_t) (s : State) : Parsed :=
  if h.MAX_LEN_FILENAME < (copy_word (skip_spaces r)).1.length then
    Parsed.rejected "input redirection: file length exceeded" s
  else if (copy_word (skip_spaces r)).1.length = h.MAX_LEN_FILENAME then Parsed.undefined
  else
    Parsed.ok
      { l with rest := skip_blanks (copy_word (skip_spaces r)).2, valid_input := false }
      (s.modify_job cur (store (String.mk (copy_word (skip_spaces r)).1)))

/-- One turn of the inner loop of `readcmdline`, the `switch` on the character
`c` at `cmdline_pos`, with `r` the characters after it; `cur` is the index of
`current_job` and `cmdline` the whole line.  Allocation is taken to succeed. -/
def read_job_turn (h : Headers) (cmdline : List Char) (cur : Nat) (l : ParseLocals)
    (c : Char) (r : List Char) (s : State) : Parsed :=
  if c = '<' then
    read_redirect h cur l r
      (fun name jb => { jb with ifile := some name, mystdin := h.INPUT_FD }) s
  else if c = '>' then
    read_redirect h cur l r
      (fun name jb => { jb with ofile := some name, mystdout := h.OUTPUT_FD }) s
  else if c = '|' then
    match add_process h cur l.cmd s with
    | none => Parsed.undefined
    | some s1 => Parsed.ok { l with rest := r, cmd := [], valid_input := true } s1
  else if c = '&' then
    Parsed.ok { l with end_of_input := true }
      ((if r.head? ≠ some '\n' ∧ r.head? ≠ none then
          s.log (Call.fprintf_stderr "reading bg: extra input ignored")
        else s).modify_job cur (fun jb => { jb with bg := true }))
  else if c = ';' then
    Parsed.ok
      { l with sequence := true, seq_pos := cmdline.length - r.length }
      (s.modify_job cur (fun jb =>
        { jb with
          commandinfo :=
            String.mk ((cmdline.drop l.seq_pos).take
              (cmdline.length - (r.length + 1) - l.seq_pos)) }))
  else if c = '#' then Parsed.ok { l with end_of_input := true } s
  else if !l.valid_input then
    Parsed.rejected "reading cmdline: could not fathom input" s
  else if (l.cmd.length : Int) = (h.MAX_LEN_CMDLINE : Int) - 1 then
    Parsed.rejected "reading cmdline: length exceeds the max limit" s
  else Parsed.ok { l with rest := r, cmd := l.cmd ++ [c] } s

/-- The inner loop of `readcmdline`,
`while (cmdline[cmdline_pos] != '\n' && cmdline[cmdline_pos] != '\0')`, with
its `break` on `end_of_input` or `sequence`; the first argument bounds the
number of turns. -/
def read_job_loop (h : Headers) (cmdline : List Char) (cur : Nat) :
    Nat → ParseLocals → State → Parsed
  | 0, _, _ => Parsed.undefined
  | n + 1, l, s =>
    match l.rest with
    | [] => Parsed.ok l s
    | c :: r =>
      if c = '\n' then Parsed.ok l s
      else
        match read_job_turn h cmdline cur l c r s with
        | Parsed.ok l1 s1 =>
          if l1.end_of_input || l1.sequence then Parsed.ok l1 s1
          else read_job_loop h cmdline cur n l1 s1
        | o => o

/-- The outer loop `while (1)` of `readcmdline`, one job per turn: `rest` holds
the characters of `cmdline` from `cmdline_pos` on, `eof` is `feof (stdin)`, and
the first argument bounds the number of turns.  The result is the value
returned and the state after, or `none` for undefined behaviour.  Allocation is
taken to succeed. -/
def readcmdline_loop (h : Headers) (cmdline : List Char) (eof : Bool) :
    Nat → List Char → Nat → State → Option (Bool × State)
  | 0, _, _, _ => none
  | n + 1, rest, seq_pos, s =>
    match find_last_job s with
    | none => none
    | some _ =>
      if (skip_spaces rest).head? = some '\n' ∨ (skip_spaces rest).head? = none ∨ eof = true
      then some (false, s)
      else
        match read_job_loop h cmdline s.first_job.length (cmdline.length + 1)
            { rest := skip_spaces rest
              cmd := []
              valid_input := true
              end_of_input := false
              sequence := false
              seq_pos := seq_pos }
            (s.append_job init_job) with
        | Parsed.undefined => none
        | Parsed.rejected msg s2 => some (invokefree s2 (some s.first_job.length) msg)
        | Parsed.ok l s2 =>
          match add_process h s.first_job.length l.cmd s2 with
          | none => none
          | some s3 =>
            if l.sequence then readcmdline_loop h cmdline eof n l.rest.tail l.seq_pos s3
            else
              some (true, s3.modify_job s.first_job.length (fun jb =>
                { jb with
                  commandinfo :=
                    String.mk ((cmdline.drop l.seq_pos).take
                      (cmdline.length - l.rest.length - l.seq_pos)) }))

/-- The function `readcmdline`, with `input` the characters of standard input
not yet read. -/
def readcmdline (h : Headers) (msg : String) (input : List Char) (s : State) :
    Option (Bool × State) :=
  readcmdline_loop h (fgets h.MAX_LEN_CMDLINE input).1 (fgets h.MAX_LEN_CMDLINE input).2
    ((fgets h.MAX_LEN_CMDLINE input).1.length + 1) (fgets h.MAX_LEN_CMDLINE input).1 0
    (s.log (Call.printf_prompt msg))

/-! ## Calls of a child on its group and on the terminal -/

/-- The call is a `tcsetpgrp` call. -/
def is_tcsetpgrp : Call → Bool
  | Call.tcsetpgrp _ _ => true
  | _ => false

/-- The call is a `setpgid` call. -/
def is_setpgid : Call → Bool
  | Call.setpgid _ _ => true
  | _ => false

/-- The calls are neither `setpgid` nor `tcsetpgrp` calls. -/
def no_group_call (cs : List Call) : Prop :=
  ∀ c ∈ cs, is_tcsetpgrp c = false ∧ is_setpgid c = false

instance (cs : List Call) : Decidable (no_group_call cs) := by
  unfold no_group_call
  infer_instance

/-- From `s` to `s'` the trace has grown by calls none of which is a `setpgid`
or `tcsetpgrp` call. -/
def plain_step (s s' : State) : Prop :=
  ∃ cs, s'.trace = s.trace ++ cs ∧ no_group_call cs

/-- The calls of a child on its group and on the terminal: one call
`setpgid (0, g)`, which returns `ret`, followed at once by the call
`tcsetpgrp (term, g)` exactly when `fg` is set and `ret` is 0, and no other
`setpgid` or `tcsetpgrp` call before or after. -/
def child_calls (fg : Bool) (ret : Int) (term : Int) (g : Int) (calls : List Call) : Prop :=
  ∃ pre post,
    calls = pre ++ [Call.setpgid 0 g] ++
      (if fg = true ∧ ret = 0 then [Call.tcsetpgrp term g] else []) ++ post ∧
    no_group_call pre ∧ no_group_call post

/-- The function `spawn_job` of `dsh.c`, followed in one process: the value
returned and the state after.  In the child the local `ctty` is -1. -/
def DshC.spawn_job (pgrp : Int) (fg : Bool) (s : State) : Int × State :=
  if (sys_fork s).1 = -1 then ((sys_fork s).1, (sys_fork s).2)
  else if (sys_fork s).1 = 0 then
    let g := if pgrp < 0 then sys_getpid (sys_fork s).2 else (pgrp, (sys_fork s).2)
    let r := sys_setpgid g.2 0 g.1
    (0, if r.1 = 0 then (if fg then sys_tcsetpgrp r.2 (-1) g.1 else r.2) else r.2)
  else
    ((sys_fork s).1,
      (sys_setpgid (sys_fork s).2 (sys_fork s).1
        (if pgrp < 0 then (sys_fork s).1 else pgrp)).2)

/-! ## Process ids and group of a job -/

/-- The ids that spawning assigns to a job: its group and the pids of its
processes, in pipeline order. -/
def job_ids (jb : job_t) : Int × List Int :=
  (jb.pgid, jb.first_process.map (fun p => p.pid))

/-- From `s` to `s'` no job was added or removed and no pid or group was
assigned, the pending `fork` results are the same, and the trace has grown by
calls none of which is a `setpgid` call. -/
def same_ids (s s' : State) : Prop :=
  s'.first_job.map job_ids = s.first_job.map job_ids ∧ s'.env.forks = s.env.forks ∧
  ∃ cs, s'.trace = s.trace ++ cs ∧ ∀ c ∈ cs, is_setpgid c = false

/-! ## Dispatch pass of `main` -/

/-- Where a job pointer that points to the job at index `c` points after the
call `remove_and_free (j)` in the state `s`: `none` when the record it pointed
to has been unlinked and released. -/
def remove_and_free_cursor (s : State) (j : Nat) (c : Nat) : Option Nat :=
  match find_prev_job s j with
  | none => some c
  | some none =>
    match s.first_job with
    | _ :: _ :: _ => if c = 0 then none else some (c - 1)
    | _ => some c
  | some (some _) =>
    match s.first_job[j + 1]? with
    | none => some c
    | some _ => if c = j + 1 then none else if j + 1 < c then some (c - 1) else some c

/-- The job that the turn of the loop of `list_jobs` for slot `i` passes to
`remove_and_free`, if the turn makes that call. -/
def list_jobs_target (s : State) (i : Nat) : Option Nat :=
  match s.job_array[i]? with
  | none => none
  | some pg =>
    if pg ≠ 0 then
      match find_job s pg with
      | some (some t) =>
        match (s.job t).first_process with
        | [] => none
        | p :: _ => if p.completed then some t else none
      | _ => none
    else none

/-- Where a job pointer that points to the job at index `c` points after the
loop of `list_jobs` from slot `i`, with `n` slots left: `none` when the record
has been unlinked and released, or when the loop does not return. -/
def list_jobs_cursor : Nat → Nat → State → Nat → Option Nat
  | 0, _, _, c => some c
  | n + 1, i, s, c =>
    match list_jobs_turn s i with
    | Outcome.returned s1 =>
      match list_jobs_target s i with
      | some t =>
        match remove_and_free_cursor s t c with
        | some c1 => list_jobs_cursor n (i + 1) s1 c1
        | none => none
      | none => list_jobs_cursor n (i + 1) s1 c
    | _ => none

/-- The body of `if(lowest != -1)` in the loop of `main`, for the job `job` at
index `i`: the command name `p->argv[0]` of the first process is compared with
the names of the built-in commands; `cd`, `fg` and `bg` do nothing, `jobs` calls
`list_jobs` and then `remove_and_free` on the job, and any other command is
spawned, in the foreground unless `bg` is set.  A null `first_process`, a null
`argv[0]`, and the read of `next_job->next` after `list_jobs` has released the
record are undefined behaviour. -/
def dispatch_job (h : Headers) (i : Nat) (job : job_t) (s : State) : Outcome :=
  match job.first_process with
  | [] => Outcome.undefined
  | p :: _ =>
    match p.argv with
    | [] => Outcome.undefined
    | cmd :: _ =>
      if cmd = "cd" then Outcome.returned s
      else if cmd = "jobs" then
        match list_jobs s with
        | Outcome.returned s1 =>
          match list_jobs_cursor 20 0 s i with
          | none => Outcome.undefined
          | some c => remove_and_free s1 c
        | o => o
      else if cmd = "fg" then Outcome.returned s
      else if cmd = "bg" then Outcome.returned s
      else spawn_job h i (!job.bg) s

/-- The loop `while(next_job)` of `main`, with `next_job` the job at index `i`
or `NULL` past the end of the registry: a job whose group is not -1 is passed
over; for a job whose group is -1 the loop asks `find_lowest_index` for a slot,
runs `dispatch_job` and leaves by `break` when there is one, and goes round
again with nothing changed when there is none.  Reading the group of a
released record is undefined behaviour.  The result is `none` when the loop has
not ended after `fuel` turns. -/
def dispatch_loop (h : Headers) : Nat → Nat → State → Option Outcome
  | 0, _, _ => none
  | fuel + 1, i, s =>
    match s.first_job[i]? with
    | none => some (Outcome.returned s)
    | some job =>
      if job.freed then some Outcome.undefined
      else if job.pgid = -1 then
        if find_lowest_index s ≠ -1 then some (dispatch_job h i job s)
        else dispatch_loop h fuel i s
      else dispatch_loop h fuel (i + 1) s

/-- The dispatch pass of `main` after `readcmdline` has returned true:
`next_job = first_job` and the loop. -/
def dispatch (h : Headers) (fuel : Nat) (s : State) : Option Outcome :=
  dispatch_loop h fuel 0 s

/-! ## Command lines in the words of the specification -/

/-- A character that may stand in a command: not one of the symbols `<`, `>`,
`|`, `&`, `;` and `#`, not a newline and not the null character. -/
def plain_char (c : Char) : Bool :=
  c != '<' && c != '>' && c != '|' && c != '&' && c != ';' && c != '#' && c != '\n' &&
    c != NUL

/-- The texts `ts` written one after the other with the symbol `sep` between
them. -/
def join_with (sep : Char) : List (List Char) → List Char
  | [] => []
  | [a] => a
  | a :: b :: rest => a ++ sep :: join_with sep (b :: rest)

/-- The text of a unit, given as its commands: the commands separated by
`|`. -/
def unit_text (u : List (List Char)) : List Char :=
  join_with '|' u

/-- The text of a command line without its newline, given as its units: the
units separated by `;`. -/
def line_text (units : List (List (List Char))) : List Char :=
  join_with ';' (units.map unit_text)

/-- The process of a command: its argument vector holds the words of the
command, and it has not been forked. -/
def parsed_process (cmd : List Char) : process_t where
  argv := (words cmd).map String.mk
  pid := -1
  completed := false
  stopped := false
  status := -1

/-- The job of a unit: one process per command, in pipeline order, no group
(-1), the standard descriptors, and the text of the unit as `commandinfo`. -/
def parsed_unit (u : List (List Char)) : job_t :=
  { init_job with
    commandinfo := String.mk (unit_text u)
    first_process := u.map parsed_process }

/-- A non-empty command made of words without special symbols: its characters
are plain and it has at least one word. -/
def command_ok (cmd : List Char) : Prop :=
  (∀ c ∈ cmd, plain_char c = true) ∧ words cmd ≠ []

instance (cmd : List Char) : Decidable (command_ok cmd) := by
  unfold command_ok
  infer_instance

/-- A command line made of one or more units, each of one or more commands
that are `command_ok`. -/
def line_ok (units : List (List (List Char))) : Prop :=
  units ≠ [] ∧ ∀ u ∈ units, u ≠ [] ∧ ∀ cmd ∈ u, command_ok cmd

instance (units : List (List (List Char))) : Decidable (line_ok units) := by
  unfold line_ok
  infer_instance

/-- Every command of the line has fewer than `MAX_ARGS` words, so that its
words and the null pointer after them fit the array `argv`. -/
def args_fit (h : Headers) (units : List (List (List Char))) : Prop :=
  ∀ u ∈ units, ∀ cmd ∈ u, (words cmd).length < h.MAX_ARGS

instance (h : Headers) (units : List (List (List Char))) : Decidable (args_fit h units) := by
  unfold args_fit
  infer_instance

/-- A command that is `command_ok` and fits the argument array: it has fewer
than `MAX_ARGS` words. -/
def command_fits (h : Headers) (cmd : List Char) : Prop :=
  (∀ c ∈ cmd, plain_char c = true) ∧ words cmd ≠ [] ∧ (words cmd).length < h.MAX_ARGS

instance (h : Headers) (cmd : List Char) : Decidable (command_fits h cmd) := by
  unfold command_fits
  infer_instance

/-! ## Sample inputs -/

/-- The header values of a Linux build: `INPUT_FD`, `OUTPUT_FD` and the three
buffer sizes as sample values, the wait-status macros in the glibc encoding. -/
def sample_headers : Headers where
  INPUT_FD := 1000
  OUTPUT_FD := 1001
  ECHILD := 10
  EXIT_FAILURE := 1
  WIFSTOPPED := fun st => st % 256 == 127
  WIFSIGNALED := fun st => 1 ≤ st % 128 && st % 128 ≤ 126
  WTERMSIG := fun st => st % 128
  MAX_LEN_CMDLINE := 120
  MAX_LEN_FILENAME := 80
  MAX_ARGS := 20

/-- A freshly parsed process with the given arguments (`init_process`). -/
def sample_process (argv : List String) : process_t where
  argv := argv
  pid := -1
  completed := false
  stopped := false
  status := -1

/-- A freshly parsed job with the given stages (`init_job`). -/
def sample_job (ps : List process_t) : job_t where
  commandinfo := ""
  first_process := ps
  pgid := -1
  notified := false
  tmodes := 0
  mystdin := 0
  mystdout := 1
  mystderr := 2
  bg := false
  ifile := none
  ofile := none

/-- An environment in which no call has a result left. -/
def empty_env : Env where
  waits := []
  dups := []
  opens := []
  pipes := []
  forks := []
  getpids := []
  setpgids := []
  kills := []
  execs := []
  uninit := 0

/-- A shell with the given registry and environment: group 50 in the
foreground of the terminal, descriptors 0, 1 and 2 open, 20 empty slots. -/
def sample_state (jobs : List job_t) (env : Env) : State where
  first_job := jobs
  job_array := List.replicate 20 0
  shell_pgid := 50
  shell_tmodes := 7
  shell_terminal := 0
  errno := 0
  fds := [(0, FileObj.inherited 0), (1, FileObj.inherited 1), (2, FileObj.inherited 2)]
  npipes := 0
  tty_pgrp := 50
  tty_modes := 7
  trace := []
  env := env

/-- A process that has been forked with the given pid. -/
def launched_process (argv : List String) (pid : Int) : process_t :=
  { sample_process argv with pid := pid }

/-- A shell with two launched jobs in the registry: job 0 is the pipeline of
processes 100 and 101 in group 100, job 1 is the single process 200 in group
200; `ws` are the wait results to come. -/
def launched_state (ws : List WaitResult) : State :=
  { sample_state
      [{ sample_job [launched_process ["echo", "a"] 100,
                     launched_process ["tr", "a", "b"] 101] with pgid := 100 },
       { sample_job [launched_process ["sleep", "9"] 200] with pgid := 200, bg := true }]
      { empty_env with waits := ws } with
    job_array := [100, 200] ++ List.replicate 18 0 }

/-- Four wait results: process 200 exited, process 100 exited, process 101
stopped (status 5247: stopped by signal 20), and a failed wait with `errno`
equal to `ECHILD`. -/
def sample_waits : List WaitResult :=
  [{ pid := 200, status := 0, errno := 0, tty := none },
   { pid := 100, status := 0, errno := 0, tty := none },
   { pid := 101, status := 5247, errno := 0, tty := none },
   { pid := -1, status := 0, errno := 10, tty := none }]

/-- Two wait results: the foreign pid 999 exited, then process 100 exited. -/
def foreign_waits : List WaitResult :=
  [{ pid := 999, status := 0, errno := 0, tty := none },
   { pid := 100, status := 0, errno := 0, tty := none }]

/-- An environment for spawning a two-stage pipeline in the shell: `dup`
returns 3 and 4, `pipe` returns the ends 5 and 6, the two `fork` calls return
the child pids 100 and 101, the `setpgid` calls succeed; `ws` are the wait
results to come. -/
def spawn_env (ws : List WaitResult) : Env :=
  { empty_env with
    dups := [3, 4]
    pipes := [some (5, 6)]
    forks := [100, 101]
    setpgids := [0, 0]
    waits := ws }

/-- A shell whose registry holds the freshly parsed job `echo a | tr a b`. -/
def parsed_state (ws : List WaitResult) : State :=
  sample_state [sample_job [sample_process ["echo", "a"], sample_process ["tr", "a", "b"]]]
    (spawn_env ws)

/-- Three wait results: process 100 exited, process 101 exited, and a failed
wait with `errno` equal to `ECHILD`. -/
def exit_waits : List WaitResult :=
  [{ pid := 100, status := 0, errno := 0, tty := none },
   { pid := 101, status := 0, errno := 0, tty := none },
   { pid := -1, status := 0, errno := 10, tty := none }]

/-- A shell whose registry holds a two-stage job whose second stage is already
marked completed, with the environment of `spawn_env`. -/
def half_done_state : State :=
  sample_state
    [sample_job [sample_process ["echo", "a"],
                 { sample_process ["tr", "a", "b"] with completed := true }]]
    (spawn_env [])

/-- Two wait results: process 100 stopped, then process 101 stopped. -/
def stop_waits : List WaitResult :=
  [{ pid := 100, status := 5247, errno := 0, tty := none },
   { pid := 101, status := 5247, errno := 0, tty := none }]

/-- The state `launched_state` after job 0 has been stopped: its two processes
have their stopped flag set and the status of a stop; the next `kill` call
succeeds. -/
def stopped_state (ws : List WaitResult) : State :=
  { launched_state ws with
    env := { empty_env with waits := ws, kills := [0] }
    first_job :=
      [{ sample_job [{ launched_process ["echo", "a"] 100 with stopped := true, status := 5247 },
                     { launched_process ["tr", "a", "b"] 101 with
                       stopped := true, status := 5247 }] with pgid := 100, tmodes := 9 },
       { sample_job [launched_process ["sleep", "9"] 200] with pgid := 200, bg := true }] }

/-- Two wait results: process 200 of another job exited, then process 100
stopped. -/
def other_job_waits : List WaitResult :=
  [{ pid := 200, status := 0, errno := 0, tty := none },
   { pid := 100, status := 5247, errno := 0, tty := none }]

/-- A shell whose registry holds the freshly parsed job `ls | sort | uniq`;
`dup` returns 3 and 4, the two `pipe` calls return the descriptors 5 and 6 and
then 6 and 7, and `getpid`, `setpgid` and `execvp` succeed.  The `fork`
results are left to `State.with_forks`. -/
def three_stage_state : State :=
  sample_state
    [sample_job [sample_process ["ls"], sample_process ["sort"], sample_process ["uniq"]]]
    { empty_env with
      dups := [3, 4]
      pipes := [some (5, 6), some (6, 7)]
      getpids := [100]
      setpgids := [0, 0, 0]
      execs := [true] }

/-- The state `three_stage_state` with the middle stage of the job already
marked completed. -/
def skipped_stage_state : State :=
  { three_stage_state with
    first_job :=
      [sample_job [sample_process ["ls"],
                   { sample_process ["sort"] with completed := true },
                   sample_process ["uniq"]]] }

/-- A shell whose registry holds the freshly parsed job
`sort < in | uniq > out`: `mystdin` and `mystdout` are the `INPUT_FD` and
`OUTPUT_FD` of `sample_headers`; `dup` returns 3 and 4, `open` returns 5 and
6, `pipe` returns the descriptors 7 and 8, and `getpid`, `setpgid` and
`execvp` succeed.  The `fork` results are left to `State.with_forks`. -/
def redirect_state : State :=
  sample_state
    [{ sample_job [sample_process ["sort"], sample_process ["uniq"]] with
       mystdin := 1000
       mystdout := 1001
       ifile := some "in"
       ofile := some "out" }]
    { empty_env with
      dups := [3, 4]
      opens := [5, 6]
      pipes := [some (7, 8)]
      getpids := [100]
      setpgids := [0, 0]
      execs := [true] }

/-- A shell whose registry holds the freshly parsed job `echo hi > out`, for
which the `open` of the output file fails. -/
def failed_open_state : State :=
  sample_state
    [{ sample_job [sample_process ["echo", "hi"]] with
       mystdout := 1001
       ofile := some "out" }]
    { empty_env with
      dups := [3, 4]
      opens := [-1]
      getpids := [100]
      setpgids := [0]
      execs := [true] }

/-- A job with the given command text and group. -/
def named_job (name : String) (pgid : Int) (ps : List process_t) : job_t :=
  { sample_job ps with commandinfo := name, pgid := pgid }

/-- A shell whose registry holds three launched jobs `a`, `b` and `c`, of
groups 100, 200 and 300, in the slots 0, 1 and 2. -/
def three_jobs_state : State :=
  { sample_state
      [named_job "a" 100 [launched_process ["a"] 100],
       named_job "b" 200 [launched_process ["b"] 200],
       named_job "c" 300 [launched_process ["c"] 300]]
      empty_env with
    job_array := [100, 200, 300] ++ List.replicate 17 0 }

/-- A shell whose registry holds the launched pipeline `a | b` of group 100,
in slot 0, whose first process is marked completed while its second is still
running, and the freshly parsed job `jobs`. -/
def half_completed_state : State :=
  { sample_state
      [named_job "a | b" 100
        [{ launched_process ["a"] 100 with completed := true, status := 0 },
         launched_process ["b"] 101],
       named_job "jobs" (-1) [sample_process ["jobs"]]]
      empty_env with
    job_array := [100] ++ List.replicate 19 0 }

/-- A freshly parsed job of one command, with its command text. -/
def parsed_job (cmd : String) (bg : Bool) (argv : List String) : job_t :=
  { sample_job [sample_process argv] with commandinfo := cmd, bg := bg }

/-- An empty registry and an empty slot table; the calls to come succeed:
`dup` returns the next free descriptor, `fork` returns the pids 100, 200 and
300, and there are two wait results: process 200 exited, then process 100
stopped on `SIGTTIN`. -/
def empty_registry_state : State :=
  sample_state []
    { empty_env with
      dups := [3, 4, 5, 6, 7, 8]
      forks := [100, 200, 300]
      setpgids := [0, 0, 0]
      waits := [{ pid := 200, status := 0, errno := 0, tty := none },
                { pid := 100, status := 5503, errno := 0, tty := none }] }

/-- The child of the first stage of `echo a | tr a b` right after `fork` has
returned 0 in it: its pid is 100, and its `setpgid` call returns `ret`. -/
def child_state (ret : Int) : State :=
  sample_state [sample_job [sample_process ["echo", "a"], sample_process ["tr", "a", "b"]]]
    { empty_env with getpids := [100], setpgids := [ret], execs := [true] }

/-- Two wait results: process 100 stopped, having left the terminal with the
attributes 9, then process 101 stopped. -/
def raw_waits : List WaitResult :=
  [{ pid := 100, status := 5247, errno := 0, tty := some 9 },
   { pid := 101, status := 5247, errno := 0, tty := none }]

/-- A registry with the freshly parsed job `ls` and a slot table whose 20 slots
are all taken. -/
def full_table_state : State :=
  { sample_state [parsed_job "ls" false ["ls"]] empty_env with
    job_array := List.replicate 20 7 }

/-- The units of the line `echo a | tr a b ; ls`. -/
def sample_units : List (List (List Char)) :=
  [["echo a ".toList, " tr a b ".toList], [" ls".toList]]

/-- The one unit of a line of 125 characters: the command `echo` with an
argument of 120 characters. -/
def long_line_units : List (List (List Char)) :=
  [["echo ".toList ++ List.replicate 120 'a']]

/-- The one unit of a line whose command has 20 words, each the letter `a`. -/
def many_words_units : List (List (List Char)) :=
  [[(List.replicate 20 'a').intersperse ' ']]

/-! ## Status tracker: theorems -/

theorem job_is_completed_list_ne_zero (ps : List process_t) :
    job_is_completed_list ps ≠ 0 ↔ ∀ p ∈ ps, p.completed = true := by
  induction ps with
  | nil => simp [job_is_completed_list]
  | cons p ps ih =>
    cases hc : p.completed <;> simp [job_is_completed_list, hc, ih]

theorem job_is_stopped_list_ne_zero (ps : List process_t) :
    job_is_stopped_list ps ≠ 0 ↔ ∀ p ∈ ps, p.completed = false → p.stopped = true := by
  induction ps with
  | nil => simp [job_is_stopped_list]
  | cons p ps ih =>
    cases hc : p.completed <;> cases hs : p.stopped <;>
      simp [job_is_stopped_list, hc, hs, ih]

/-- C1: `job_is_completed` returns true (a non-zero int) if and only if every
process in the job's process list has its completed flag set. -/
theorem job_is_completed_iff (j : job_t) :
    job_is_completed j ≠ 0 ↔ ∀ p ∈ j.first_process, p.completed = true :=
  job_is_completed_list_ne_zero j.first_process

/-- C2: `job_is_stopped` returns true (a non-zero int) if and only if every
process of the job whose completed flag is not set has its stopped flag set. -/
theorem job_is_stopped_iff (j : job_t) :
    job_is_stopped j ≠ 0 ↔
      ∀ p ∈ j.first_process, p.completed = false → p.stopped = true :=
  job_is_stopped_list_ne_zero j.first_process

theorem mark_processes_none (h : Headers) (pid status : Int) (ps : List process_t)
    (hno : ∀ p ∈ ps, p.pid ≠ pid) : mark_processes h pid status ps = none := by
  induction ps with
  | nil => rfl
  | cons p ps ih =>
    have h1 : p.pid ≠ pid := hno p (List.mem_cons_self _ _)
    have h2 := ih (fun q hq => hno q (List.mem_cons_of_mem _ hq))
    simp [mark_processes, h1, h2]

theorem mark_processes_some (h : Headers) (pid status : Int) (ps : List process_t)
    (hex : ∃ p ∈ ps, p.pid = pid) :
    ∃ (k : Nat) (p : process_t), ps[k]? = some p ∧ p.pid = pid ∧
      (∀ k' q, k' < k → ps[k']? = some q → q.pid ≠ pid) ∧
      mark_processes h pid status ps = some (ps.set k (mark_process h status p)) := by
  induction ps with
  | nil => simp at hex
  | cons p ps ih =>
    by_cases hp : p.pid = pid
    · exact ⟨0, p, by simp, hp, by simp, by simp [mark_processes, hp]⟩
    · have hex' : ∃ q ∈ ps, q.pid = pid := by
        obtain ⟨q, hq, hqp⟩ := hex
        rcases List.mem_cons.1 hq with rfl | hq'
        · exact absurd hqp hp
        · exact ⟨q, hq', hqp⟩
      obtain ⟨k, q, hk, hq, hfirst, hm⟩ := ih hex'
      refine ⟨k + 1, q, by simpa using hk, hq, ?_, by simp [mark_processes, hp, hm]⟩
      intro k' q' hlt hk'
      cases k' with
      | zero => simp at hk'; subst hk'; exact hp
      | succ n => exact hfirst n q' (by omega) (by simpa using hk')

theorem mark_jobs_none (h : Headers) (pid status : Int) (js : List job_t)
    (hno : ∀ jb ∈ js, ∀ p ∈ jb.first_process, p.pid ≠ pid) :
    mark_jobs h pid status js = none := by
  induction js with
  | nil => rfl
  | cons jb js ih =>
    have h1 := mark_processes_none h pid status jb.first_process
      (hno jb (List.mem_cons_self _ _))
    have h2 := ih (fun q hq => hno q (List.mem_cons_of_mem _ hq))
    simp [mark_jobs, h1, h2]

theorem mark_jobs_some (h : Headers) (pid status : Int) (js : List job_t)
    (hex : ∃ jb ∈ js, ∃ p ∈ jb.first_process, p.pid = pid) :
    ∃ (i k : Nat) (jb : job_t) (p : process_t),
      js[i]? = some jb ∧ jb.first_process[k]? = some p ∧ p.pid = pid ∧
      (∀ i' jb', i' < i → js[i']? = some jb' → ∀ q ∈ jb'.first_process, q.pid ≠ pid) ∧
      (∀ k' q, k' < k → jb.first_process[k']? = some q → q.pid ≠ pid) ∧
      mark_jobs h pid status js =
        some (js.set i { jb with
          first_process := jb.first_process.set k (mark_process h status p) }) := by
  induction js with
  | nil => simp at hex
  | cons jb js ih =>
    by_cases hjb : ∃ p ∈ jb.first_process, p.pid = pid
    · obtain ⟨k, p, hk, hp, hfirst, hm⟩ := mark_processes_some h pid status _ hjb
      exact ⟨0, k, jb, p, by simp, hk, hp, by simp, hfirst, by simp [mark_jobs, hm]⟩
    · have hno : ∀ p ∈ jb.first_process, p.pid ≠ pid := by
        intro p hp hpp
        exact hjb ⟨p, hp, hpp⟩
      have hex' : ∃ jb' ∈ js, ∃ p ∈ jb'.first_process, p.pid = pid := by
        obtain ⟨q, hq, hqp⟩ := hex
        rcases List.mem_cons.1 hq with rfl | hq'
        · exact absurd hqp hjb
        · exact ⟨q, hq', hqp⟩
      obtain ⟨i, k, jb', p, hi, hk, hp, hfj, hfp, hm⟩ := ih hex'
      refine ⟨i + 1, k, jb', p, by simpa using hi, hk, hp, ?_, hfp, ?_⟩
      · intro i' jb'' hlt hi'
        cases i' with
        | zero => simp at hi'; subst hi'; exact hno
        | succ n => exact hfj n jb'' (by omega) (by simpa using hi')
      · simp [mark_jobs, mark_processes_none h pid status _ hno, hm]

/-- C3: for a pid > 0 that some registered process has, `mark_process_status`
returns 0 and rewrites exactly one process, the first one in registry order
(job `i`, stage `k`) whose pid matches: its status is stored, its stopped flag
is set when the status is a stop status and its completed flag otherwise; all
other processes, all job fields and the rest of the shell state are as before. -/
theorem mark_process_status_registered (h : Headers) (s : State) (pid status : Int)
    (hpid : 0 < pid)
    (hreg : ∃ jb ∈ s.first_job, ∃ p ∈ jb.first_process, p.pid = pid) :
    ∃ (i k : Nat) (jb : job_t) (p : process_t),
      s.first_job[i]? = some jb ∧ jb.first_process[k]? = some p ∧ p.pid = pid ∧
      (∀ i' jb', i' < i → s.first_job[i']? = some jb' →
        ∀ q ∈ jb'.first_process, q.pid ≠ pid) ∧
      (∀ k' q, k' < k → jb.first_process[k']? = some q → q.pid ≠ pid) ∧
      (mark_process_status h s pid status).1 = 0 ∧
      (mark_process_status h s pid status).2.first_job =
        s.first_job.set i { jb with
          first_process := jb.first_process.set k
            { p with
              status := status
              stopped := if h.WIFSTOPPED status then true else p.stopped
              completed := if h.WIFSTOPPED status then p.completed else true } } ∧
      (mark_process_status h s pid status).2.job_array = s.job_array ∧
      (mark_process_status h s pid status).2.fds = s.fds ∧
      (mark_process_status h s pid status).2.tty_pgrp = s.tty_pgrp ∧
      (mark_process_status h s pid status).2.tty_modes = s.tty_modes ∧
      (mark_process_status h s pid status).2.env = s.env := by
  obtain ⟨i, k, jb, p, hi, hk, hp, hfj, hfp, hm⟩ :=
    mark_jobs_some h pid status s.first_job hreg
  refine ⟨i, k, jb, p, hi, hk, hp, hfj, hfp, ?_⟩
  have hmp : mark_process h status p =
      { p with
        status := status
        stopped := if h.WIFSTOPPED status then true else p.stopped
        completed := if h.WIFSTOPPED status then p.completed else true } := by
    unfold mark_process
    split <;> rfl
  rw [← hmp]
  unfold mark_process_status
  rw [if_pos hpid, hm]
  by_cases hs : h.WIFSTOPPED status = true
  · simp [hs]
  · by_cases hg : h.WIFSIGNALED status = true <;> simp [hs, hg, State.log]


/-- Witness of C3: the registry of `launched_state`, pid 101 (stage 1 of job 0)
and a stop status. -/
theorem mark_process_status_registered_witness :
    (0 : Int) < 101 ∧
    (mark_process_status sample_headers (launched_state []) 101 5247).1 = 0 ∧
    (mark_process_status sample_headers (launched_state []) 101 5247).2.env =
      (launched_state []).env := by
  obtain ⟨_, _, _, _, _, _, _, _, _, hret, _, _, _, _, _, henv⟩ :=
    mark_process_status_registered sample_headers (launched_state []) 101 5247
      (by decide) (by decide)
  exact ⟨by decide, hret, henv⟩

theorem mark_processes_length (h : Headers) (pid status : Int) :
    ∀ (ps ps' : List process_t), mark_processes h pid status ps = some ps' →
      ps'.length = ps.length := by
  intro ps
  induction ps with
  | nil => intro ps' hm; simp [mark_processes] at hm
  | cons p ps ih =>
    intro ps' hm
    unfold mark_processes at hm
    split at hm
    · cases hm; rfl
    · cases hr : mark_processes h pid status ps with
      | none => simp [hr] at hm
      | some qs =>
        simp [hr] at hm
        subst hm
        simp [ih qs hr]

theorem mark_jobs_length (h : Headers) (pid status : Int) :
    ∀ (js js' : List job_t), mark_jobs h pid status js = some js' →
      js'.length = js.length := by
  intro js
  induction js with
  | nil => intro js' hm; simp [mark_jobs] at hm
  | cons jb js ih =>
    intro js' hm
    unfold mark_jobs at hm
    split at hm
    · cases hm; rfl
    · cases hr : mark_jobs h pid status js with
      | none => simp [hr] at hm
      | some qs =>
        simp [hr] at hm
        subst hm
        simp [ih qs hr]

theorem mark_process_status_length (h : Headers) (s : State) (pid status : Int) :
    (mark_process_status h s pid status).2.first_job.length = s.first_job.length := by
  unfold mark_process_status
  split
  · split
    · rename_i js' hm
      have := mark_jobs_length h pid status _ _ hm
      split
      · simpa using this
      · split <;> simpa [State.log] using this
    · rfl
  · split <;> rfl

theorem mark_process_status_env (h : Headers) (s : State) (pid status : Int) :
    (mark_process_status h s pid status).2.env = s.env := by
  unfold mark_process_status
  split
  · split
    · split
      · rfl
      · split <;> rfl
    · rfl
  · split <;> rfl

theorem reap_length (h : Headers) (s : State) (w : WaitResult) (rest : List WaitResult) :
    (reap h s w rest).2.first_job.length = s.first_job.length := by
  unfold reap
  rw [mark_process_status_length]
  rfl

theorem reap_waits (h : Headers) (s : State) (w : WaitResult) (rest : List WaitResult) :
    (reap h s w rest).2.env.waits = rest := by
  unfold reap
  rw [mark_process_status_env]
  rfl

theorem after_reaps_shift (h : Headers) (s : State) (n : Nat) :
    after_reaps h s (n + 1) = after_reaps h (after_reaps h s 1) n := by
  induction n with
  | zero => rfl
  | succ n ih =>
    show (match next_reap h (after_reaps h s (n + 1)) with
          | none => after_reaps h s (n + 1)
          | some r => r.2) = _
    rw [ih]
    rfl

theorem getElem?_eq_job (s : State) (j : Nat) (hj : j < s.first_job.length) :
    s.first_job[j]? = some (s.job j) := by
  simp [State.job, List.getD, List.getElem?_eq_getElem hj]

theorem loop_condition_iff (jb : job_t) :
    (job_is_stopped jb = 0 ∧ job_is_completed jb = 0) ↔
      (¬ fully_stopped jb ∧ ¬ fully_completed jb) := by
  have h1 := job_is_stopped_list_ne_zero jb.first_process
  have h2 := job_is_completed_list_ne_zero jb.first_process
  unfold fully_stopped fully_completed job_is_stopped job_is_completed
  rw [← h1, ← h2]
  simp

theorem wait_loop_consumes (h : Headers) (j : Nat) :
    ∀ (ws : List WaitResult) (s : State), s.env.waits = ws → j < s.first_job.length →
      (∀ n, n < ws.length → (∀ i, i < n → keeps_waiting h j (after_reaps h s i)) →
        ¬ keeps_waiting h j (after_reaps h s n) →
        wait_loop h j ws s = Outcome.returned (after_reaps h s (n + 1)) ∧
        (after_reaps h s (n + 1)).env.waits = ws.drop (n + 1)) ∧
      ((∀ i, i < ws.length → keeps_waiting h j (after_reaps h s i)) →
        wait_loop h j ws s = Outcome.blocked (after_reaps h s ws.length)) := by
  intro ws
  induction ws with
  | nil =>
    intro s _ _
    exact ⟨fun n hn => absurd hn (by simp), fun _ => rfl⟩
  | cons w rest ih =>
    intro s hws hj
    have hnext : next_reap h s = some (reap h s w rest) := by
      simp [next_reap, hws]
    have h1 : after_reaps h s 1 = (reap h s w rest).2 := by
      simp [after_reaps, hnext]
    have hkeep : keeps_waiting h j s ↔
        ((reap h s w rest).1 = 0 ∧ job_is_stopped ((reap h s w rest).2.job j) = 0 ∧
          job_is_completed ((reap h s w rest).2.job j) = 0) := by
      rw [loop_condition_iff]
      simp [keeps_waiting, hnext]
    have hj' : j < (reap h s w rest).2.first_job.length := by
      rw [reap_length]; exact hj
    have hget := getElem?_eq_job _ j hj'
    obtain ⟨ihA, ihB⟩ := ih (reap h s w rest).2 (reap_waits h s w rest) hj'
    have hstep : keeps_waiting h j s →
        wait_loop h j (w :: rest) s = wait_loop h j rest (reap h s w rest).2 := by
      intro hk
      obtain ⟨hr, hst, hco⟩ := hkeep.1 hk
      simp [wait_loop, hr, hget, hst, hco]
    have hstop : ¬ keeps_waiting h j s →
        wait_loop h j (w :: rest) s = Outcome.returned (reap h s w rest).2 := by
      intro hk
      by_cases hr : (reap h s w rest).1 = 0
      · have hc : ¬ (job_is_stopped ((reap h s w rest).2.job j) = 0 ∧
            job_is_completed ((reap h s w rest).2.job j) = 0) :=
          fun hc => hk (hkeep.2 ⟨hr, hc⟩)
        simp [wait_loop, hr, hget, hc]
      · simp [wait_loop, hr]
    constructor
    · intro n hn hall hnot
      cases n with
      | zero =>
        refine ⟨?_, ?_⟩
        · rw [hstop hnot, h1]
        · rw [h1, reap_waits]; rfl
      | succ m =>
        have hk0 : keeps_waiting h j s := hall 0 (by omega)
        rw [hstep hk0, after_reaps_shift, h1]
        have := ihA m (by simpa using hn)
          (fun i hi => by
            have := hall (i + 1) (by omega)
            rwa [after_reaps_shift, h1] at this)
          (by rwa [after_reaps_shift, h1] at hnot)
        simpa using this
    · intro hall
      have hk0 : keeps_waiting h j s := hall 0 (by simp)
      rw [hstep hk0]
      have := ihB (fun i hi => by
        have := hall (i + 1) (by simpa using hi)
        rwa [after_reaps_shift, h1] at this)
      rw [this]
      show _ = Outcome.blocked (after_reaps h s (rest.length + 1))
      rw [after_reaps_shift, h1]

/-- C4: `wait_for_job (j)` consumes the pending wait results up to and
including the first one (number `n`) that does not let the wait go on, that is
whose reap fails or leaves `j` fully stopped or fully completed: it returns
the state in which exactly the first `n + 1` results have been reaped, with the
later results still pending; and while every pending result lets the wait go
on it keeps waiting (it blocks once all of them are reaped). -/
theorem wait_for_job_consumes (h : Headers) (j : Nat) (s : State)
    (hj : j < s.first_job.length) :
    (∀ n, n < s.env.waits.length →
      (∀ i, i < n → keeps_waiting h j (after_reaps h s i)) →
      ¬ keeps_waiting h j (after_reaps h s n) →
      wait_for_job h j s = Outcome.returned (after_reaps h s (n + 1)) ∧
      (after_reaps h s (n + 1)).env.waits = s.env.waits.drop (n + 1)) ∧
    ((∀ i, i < s.env.waits.length → keeps_waiting h j (after_reaps h s i)) →
      wait_for_job h j s = Outcome.blocked (after_reaps h s s.env.waits.length)) :=
  wait_loop_consumes h j s.env.waits s rfl hj

/-- Witness of C4: job 0 of `launched_state` (processes 100 and 101) with the
wait results "200 exited", "100 exited", "101 stopped", "no child": the wait
returns after the third one. -/
theorem wait_for_job_consumes_witness :
    0 < (launched_state sample_waits).first_job.length ∧
    wait_for_job sample_headers 0 (launched_state sample_waits) =
      Outcome.returned (after_reaps sample_headers (launched_state sample_waits) 3) ∧
    (after_reaps sample_headers (launched_state sample_waits) 3).env.waits =
      (launched_state sample_waits).env.waits.drop 3 :=
  ⟨by decide,
    (wait_for_job_consumes sample_headers 0 (launched_state sample_waits)
      (by decide)).1 2 (by decide) (by decide) (by decide)⟩

/-- C5 as the code has it: when the next wait returns a pid > 0 that matches no
process of any registered job, `wait_for_job (j)` logs "No child process" and
stops looping: it returns right after that wait, with the registry unchanged
and the later wait results still pending, whatever the state of job `j`. -/
theorem wait_for_job_foreign_pid (h : Headers) (j : Nat) (s : State) (w : WaitResult)
    (rest : List WaitResult) (hw : s.env.waits = w :: rest) (hpid : 0 < w.pid)
    (hno : ∀ jb ∈ s.first_job, ∀ p ∈ jb.first_process, p.pid ≠ w.pid) :
    wait_for_job h j s =
      Outcome.returned ((waitpid_step s w rest).log (Call.fprintf_no_child w.pid)) ∧
    ((waitpid_step s w rest).log (Call.fprintf_no_child w.pid)).first_job = s.first_job ∧
    ((waitpid_step s w rest).log (Call.fprintf_no_child w.pid)).env.waits = rest ∧
    ((waitpid_step s w rest).log (Call.fprintf_no_child w.pid)).trace =
      s.trace ++ [Call.waitpid w.pid w.status, Call.fprintf_no_child w.pid] := by
  have hm : mark_jobs h w.pid w.status (waitpid_step s w rest).first_job = none :=
    mark_jobs_none h w.pid w.status _ hno
  have hr : reap h s w rest =
      (-1, (waitpid_step s w rest).log (Call.fprintf_no_child w.pid)) := by
    unfold reap mark_process_status
    rw [if_pos hpid, hm]
  refine ⟨?_, rfl, rfl, ?_⟩
  · unfold wait_for_job
    rw [hw]
    simp [wait_loop, hr]
  · simp [State.log, waitpid_step]

/-- Witness of C5 as the code has it: job 0 of `launched_state` is running and
the first wait returns the foreign pid 999. -/
theorem wait_for_job_foreign_pid_witness :
    wait_for_job sample_headers 0 (launched_state foreign_waits) =
      Outcome.returned
        ((waitpid_step (launched_state foreign_waits)
            { pid := 999, status := 0, errno := 0, tty := none }
            [{ pid := 100, status := 0, errno := 0, tty := none }]).log
          (Call.fprintf_no_child 999)) :=
  (wait_for_job_foreign_pid sample_headers 0 (launched_state foreign_waits)
    { pid := 999, status := 0, errno := 0, tty := none }
    [{ pid := 100, status := 0, errno := 0, tty := none }] rfl (by decide) (by decide)).1

/-- Counterexample of C5: job 0 of `launched_state` is neither fully stopped
nor fully completed and pid 999 is the pid of no registered process, yet after
the wait that returns 999 `wait_for_job` returns: it has made one `waitpid`
call only, and the next wait result (process 100 exited) is still pending. -/
theorem wait_for_job_foreign_pid_stops :
    ¬ fully_stopped ((launched_state foreign_waits).job 0) ∧
    ¬ fully_completed ((launched_state foreign_waits).job 0) ∧
    (∀ jb ∈ (launched_state foreign_waits).first_job,
      ∀ p ∈ jb.first_process, p.pid ≠ 999) ∧
    wait_for_job sample_headers 0 (launched_state foreign_waits) =
      Outcome.returned
        { launched_state [{ pid := 100, status := 0, errno := 0, tty := none }] with
          trace := [Call.waitpid 999 0, Call.fprintf_no_child 999] } := by
  decide


/-! ## Frame conditions: theorems -/

theorem same_shell_refl (s : State) : same_shell s s := ⟨rfl, rfl, rfl, rfl⟩

theorem same_shell_trans {s1 s2 s3 : State} (h12 : same_shell s1 s2)
    (h23 : same_shell s2 s3) : same_shell s1 s3 :=
  ⟨h23.1.trans h12.1, h23.2.1.trans h12.2.1, h23.2.2.1.trans h12.2.2.1,
    h23.2.2.2.trans h12.2.2.2⟩

theorem holds_mono {P Q : State → Prop} (hPQ : ∀ s, P s → Q s) :
    ∀ o : Outcome, o.holds P → o.holds Q
  | Outcome.returned s, hp => hPQ s hp
  | Outcome.blocked s, hp => hPQ s hp
  | Outcome.exited _ s, hp => hPQ s hp
  | Outcome.execed s, hp => hPQ s hp
  | Outcome.undefined, _ => trivial

theorem modify_nth_length {α : Type} (f : α → α) (n : Nat) (l : List α) :
    (modify_nth f n l).length = l.length := by
  induction l generalizing n with
  | nil => cases n <;> rfl
  | cons x xs ih =>
    cases n with
    | zero => rfl
    | succ m => simp [modify_nth, ih m]

theorem same_shell_mark (h : Headers) (s : State) (pid status : Int) :
    same_shell s (mark_process_status h s pid status).2 := by
  refine ⟨?_, ?_, ?_, mark_process_status_length h s pid status⟩ <;>
  · unfold mark_process_status
    split
    · split
      · split
        · rfl
        · split <;> rfl
      · rfl
    · split <;> rfl

theorem same_shell_reap (h : Headers) (s : State) (w : WaitResult)
    (rest : List WaitResult) : same_shell s (reap h s w rest).2 :=
  have h1 : same_shell s (waitpid_step s w rest) := ⟨rfl, rfl, rfl, rfl⟩
  same_shell_trans h1 (same_shell_mark h _ _ _)

theorem same_shell_modify_job (s : State) (j : Nat) (f : job_t → job_t) :
    same_shell s (s.modify_job j f) :=
  ⟨rfl, rfl, rfl, modify_nth_length f j s.first_job⟩

theorem same_shell_wait_loop (h : Headers) (j : Nat) :
    ∀ (ws : List WaitResult) (s : State),
      (wait_loop h j ws s).holds (same_shell s) := by
  intro ws
  induction ws with
  | nil => intro s; exact same_shell_refl s
  | cons w rest ih =>
    intro s
    have hr := same_shell_reap h s w rest
    unfold wait_loop
    simp only []
    split
    · exact hr
    · split
      · trivial
      · split
        · exact holds_mono (fun _ hs => same_shell_trans hr hs) _ (ih _)
        · exact hr
theorem same_shell_dup (s : State) (fd : Int) : same_shell s (sys_dup s fd).2 :=
  ⟨rfl, rfl, rfl, rfl⟩

theorem same_shell_dup2 (s : State) (a b : Int) : same_shell s (sys_dup2 s a b) :=
  ⟨rfl, rfl, rfl, rfl⟩

theorem same_shell_open (s : State) (path : Option String) (m : OpenMode) :
    same_shell s (sys_open s path m).2 :=
  ⟨rfl, rfl, rfl, rfl⟩

theorem same_shell_close (s : State) (fd : Int) : same_shell s (sys_close s fd) :=
  ⟨rfl, rfl, rfl, rfl⟩

theorem same_shell_pipe (s : State) : same_shell s (sys_pipe s).2 := by
  unfold sys_pipe
  split <;> exact ⟨rfl, rfl, rfl, rfl⟩

theorem same_shell_fork (s : State) : same_shell s (sys_fork s).2 :=
  ⟨rfl, rfl, rfl, rfl⟩

theorem same_shell_getpid (s : State) : same_shell s (sys_getpid s).2 :=
  ⟨rfl, rfl, rfl, rfl⟩

theorem same_shell_setpgid (s : State) (a b : Int) : same_shell s (sys_setpgid s a b).2 :=
  ⟨rfl, rfl, rfl, rfl⟩

theorem same_shell_kill (s : State) (a : Int) (g : Signal) : same_shell s (sys_kill s a g).2 :=
  ⟨rfl, rfl, rfl, rfl⟩

theorem same_shell_tcsetpgrp (s : State) (a b : Int) : same_shell s (sys_tcsetpgrp s a b) :=
  ⟨rfl, rfl, rfl, rfl⟩

theorem same_shell_tcgetattr (s : State) (a : Int) : same_shell s (sys_tcgetattr s a).2 :=
  ⟨rfl, rfl, rfl, rfl⟩

theorem same_shell_tcsetattr (s : State) (a : Int) (t : termios) :
    same_shell s (sys_tcsetattr s a t) :=
  ⟨rfl, rfl, rfl, rfl⟩

theorem same_shell_log (s : State) (c : Call) : same_shell s (s.log c) :=
  ⟨rfl, rfl, rfl, rfl⟩

theorem same_shell_record_pgid (s s' : State) (pgid : Int)
    (hr : record_pgid s pgid = some s') : same_shell s s' := by
  unfold record_pgid at hr
  simp only [] at hr
  split at hr
  · cases hr; exact ⟨rfl, rfl, rfl, rfl⟩
  · cases hr

theorem same_shell_spawn_parent (j k : Nat) (pid : Int) (s s' : State)
    (hr : spawn_parent j k pid s = some s') : same_shell s s' := by
  unfold spawn_parent at hr
  simp only [] at hr
  have h1 : same_shell s (s.set_pid j k pid) := same_shell_modify_job _ _ _
  split at hr
  · cases hr
  · rename_i s2 hown
    cases hr
    refine same_shell_trans (same_shell_trans h1 ?_) (same_shell_setpgid _ _ _)
    split at hown
    · exact same_shell_trans (same_shell_modify_job _ _ _)
        (same_shell_record_pgid _ _ _ hown)
    · cases hown; exact same_shell_refl _

theorem same_shell_child_join_group (j k : Nat) (fg : Bool) (s s' : State)
    (hr : child_join_group j k fg s = some s') : same_shell s s' := by
  unfold child_join_group at hr
  simp only [] at hr
  split at hr
  · cases hr
  · rename_i s1 hown
    cases hr
    have h1 : same_shell s s1 := by
      split at hown
      · exact same_shell_trans
          (same_shell_trans (same_shell_getpid _) (same_shell_modify_job _ _ _))
          (same_shell_record_pgid _ _ _ hown)
      · cases hown; exact same_shell_refl _
    have h2 : same_shell s1 (s1.set_pid j k 0) := same_shell_modify_job _ _ _
    have h3 := same_shell_setpgid (s1.set_pid j k 0) 0 ((s1.set_pid j k 0).job j).pgid
    refine same_shell_trans h1 (same_shell_trans h2 ?_)
    split
    · split
      · exact same_shell_trans h3 (same_shell_tcsetpgrp _ _ _)
      · exact h3
    · exact h3

theorem same_shell_redirect (s : State) (fd target : Int) :
    same_shell s (redirect s fd target) := by
  unfold redirect
  split
  · exact ⟨rfl, rfl, rfl, rfl⟩
  · exact same_shell_refl s

theorem same_shell_child_redirect (j : Nat) (infile outfile : Int) (s : State) :
    same_shell s (child_redirect j infile outfile s) :=
  same_shell_trans
    (same_shell_trans (same_shell_redirect _ _ _) (same_shell_redirect _ _ _))
    (same_shell_redirect _ _ _)

theorem same_shell_child_exec (p : process_t) (s : State) :
    (child_exec p s).holds (same_shell s) := by
  unfold child_exec
  split
  · trivial
  · split <;> exact ⟨rfl, rfl, rfl, rfl⟩

theorem same_shell_spawn_child (j k : Nat) (fg : Bool) (p : process_t)
    (infile outfile : Int) (s : State) :
    (spawn_child j k fg p infile outfile s).holds (same_shell s) := by
  unfold spawn_child
  split
  · trivial
  · rename_i s3 hj
    have h1 := same_shell_child_join_group j k fg s s3 hj
    have h2 := same_shell_child_redirect j infile outfile
      (s3.log (Call.signal_default Signal.SIGTTOU))
    exact holds_mono
      (fun _ hs => same_shell_trans h1
        (same_shell_trans (same_shell_log _ _) (same_shell_trans h2 hs))) _
      (same_shell_child_exec p _)

theorem same_shell_close_unless (s : State) (fd keep : Int) :
    same_shell s (close_unless s fd keep) := by
  unfold close_unless
  split
  · exact ⟨rfl, rfl, rfl, rfl⟩
  · exact same_shell_refl s

theorem same_shell_reset_file_ios (j : Nat) (infile outfile : Int) (s : State) :
    same_shell s (reset_file_ios j infile outfile s) :=
  same_shell_trans (same_shell_close_unless _ _ _) (same_shell_close_unless _ _ _)

theorem same_shell_open_pipe (j : Nat) (b : Bool) (mypipe : Int × Int) (s : State)
    (r : (Int × Int) × Int × State) (hr : open_pipe j b mypipe s = some r) :
    same_shell s r.2.2 := by
  unfold open_pipe at hr
  split at hr
  · split at hr
    · cases hr; exact same_shell_pipe s
    · cases hr
  · cases hr; exact same_shell_refl s

theorem same_shell_spawn_loop (h : Headers) (j : Nat) (fg : Bool) :
    ∀ (ps : List process_t) (k : Nat) (mypipe : Int × Int) (infile : Int) (s : State),
      (spawn_loop h j fg ps k mypipe infile s).holds (same_shell s) := by
  intro ps
  induction ps with
  | nil => intro k mypipe infile s; exact same_shell_refl s
  | cons p rest ih =>
    intro k mypipe infile s
    unfold spawn_loop
    split
    · exact ih _ _ _ _
    · split
      · exact same_shell_trans (same_shell_pipe s)
          (same_shell_trans (same_shell_log _ _) (same_shell_log _ _))
      · rename_i mypipe1 outfile s1 hp
        have h1 : same_shell s s1 := same_shell_open_pipe j _ mypipe s _ hp
        have h2 : same_shell s (sys_fork s1).2 :=
          same_shell_trans h1 (same_shell_fork s1)
        split
        · exact same_shell_trans h2
            (same_shell_trans (same_shell_log _ _) (same_shell_log _ _))
        · split
          · exact holds_mono (fun _ hs => same_shell_trans h2 hs) _
              (same_shell_spawn_child _ _ _ _ _ _ _)
          · split
            · trivial
            · rename_i s2 hpar
              have h3 := same_shell_spawn_parent _ _ _ _ _ hpar
              exact holds_mono
                (fun _ hs => same_shell_trans h2 (same_shell_trans h3
                  (same_shell_trans (same_shell_reset_file_ios j infile outfile s2) hs)))
                _ (ih _ _ _ _)
theorem same_shell_wait_for_job (h : Headers) (j : Nat) (s : State) :
    (wait_for_job h j s).holds (same_shell s) :=
  same_shell_wait_loop h j s.env.waits s

theorem same_shell_foreground_begin (job : job_t) (cont : Int) (s : State) :
    same_shell s (foreground_begin job cont s) := by
  unfold foreground_begin
  simp only []
  split
  · split <;> exact ⟨rfl, rfl, rfl, rfl⟩
  · exact ⟨rfl, rfl, rfl, rfl⟩

theorem same_shell_shell_to_foreground (j : Nat) (s : State) :
    same_shell s (shell_to_foreground j s) := by
  have h1 : same_shell s (sys_tcgetattr (sys_tcsetpgrp s s.shell_terminal
      s.shell_pgid) s.shell_terminal).2 := ⟨rfl, rfl, rfl, rfl⟩
  have h2 : same_shell s ((sys_tcgetattr (sys_tcsetpgrp s s.shell_terminal
      s.shell_pgid) s.shell_terminal).2.modify_job j
        (fun jb => { jb with tmodes := (sys_tcgetattr (sys_tcsetpgrp s s.shell_terminal
      s.shell_pgid) s.shell_terminal).1 })) :=
    same_shell_trans h1 (same_shell_modify_job _ _ _)
  exact same_shell_trans h2 ⟨rfl, rfl, rfl, rfl⟩

theorem shell_to_foreground_tty_pgrp (j : Nat) (s : State) :
    (shell_to_foreground j s).tty_pgrp = s.shell_pgid := rfl

theorem put_job_in_foreground_returned (h : Headers) (j : Nat) (cont : Int)
    (s s' : State) (hr : put_job_in_foreground h j cont s = Outcome.returned s') :
    s'.tty_pgrp = s.shell_pgid ∧ same_shell s s' := by
  unfold put_job_in_foreground at hr
  split at hr
  · cases hr
  · rename_i job hjob
    have h2 := same_shell_foreground_begin job cont s
    have hw := same_shell_wait_for_job h j (foreground_begin job cont s)
    split at hr
    · rename_i s3 hw3
      rw [hw3] at hw
      simp only [Outcome.returned.injEq] at hr
      subst hr
      have h3 := same_shell_trans h2 hw
      exact ⟨h3.1, same_shell_trans h3 (same_shell_shell_to_foreground j s3)⟩
    · rename_i x hx
      exact absurd hr (hx s')

theorem restore_control_returned (j : Nat) (s s' : State)
    (hr : restore_control j s = Outcome.returned s') :
    s'.tty_pgrp = s.shell_pgid ∧ same_shell s s' := by
  unfold restore_control at hr
  split at hr
  · cases hr
  · simp only [Outcome.returned.injEq] at hr
    subst hr
    exact ⟨rfl, same_shell_shell_to_foreground j s⟩

theorem spawn_finish_returned (j : Nat) (a b : Int) (s s' : State)
    (hr : spawn_finish j a b s = Outcome.returned s') :
    s'.tty_pgrp = s.shell_pgid ∧ same_shell s s' := by
  unfold spawn_finish at hr
  obtain ⟨h1, h2⟩ := restore_control_returned j _ s' hr
  exact ⟨h1, same_shell_trans
    (same_shell_trans (same_shell_dup2 s a 0) (same_shell_dup2 _ b 1)) h2⟩

theorem put_job_in_background_returned (j : Nat) (cont : Int) (s s' : State)
    (hr : put_job_in_background j cont s = Outcome.returned s') : same_shell s s' := by
  unfold put_job_in_background at hr
  split at hr
  · split at hr
    · cases hr
    · simp only [Outcome.returned.injEq] at hr
      subst hr
      split <;> exact ⟨rfl, rfl, rfl, rfl⟩
  · cases hr; exact same_shell_refl s

theorem spawn_end_returned (h : Headers) (j : Nat) (fg : Bool) (a b : Int)
    (s s' : State) (hr : spawn_end h j fg a b s = Outcome.returned s') :
    s'.tty_pgrp = s.shell_pgid ∧ same_shell s s' := by
  unfold spawn_end at hr
  split at hr
  · have hw := same_shell_wait_for_job h j s
    split at hr
    · rename_i s3 hw3
      rw [hw3] at hw
      split at hr
      · rename_i s4 hp4
        obtain ⟨_, h4⟩ := put_job_in_foreground_returned h j 0 s3 s4 hp4
        obtain ⟨h5, h6⟩ := spawn_finish_returned j a b s4 s' hr
        have h34 := same_shell_trans hw h4
        exact ⟨h5.trans h34.1, same_shell_trans h34 h6⟩
      · rename_i x hx
        exact absurd hr (hx s')
    · rename_i x hx
      exact absurd hr (hx s')
  · split at hr
    · rename_i s3 hb
      have h3 := put_job_in_background_returned j 0 s s3 hb
      obtain ⟨h5, h6⟩ := spawn_finish_returned j a b s3 s' hr
      exact ⟨h5.trans h3.1, same_shell_trans h3 h6⟩
    · rename_i x hx
      exact absurd hr (hx s')

theorem same_shell_open_redirect (s : State) (fd std : Int) (path : Option String)
    (m : OpenMode) : same_shell s (open_redirect s fd std path m).2 := by
  unfold open_redirect
  split
  · exact same_shell_open _ _ _
  · exact same_shell_refl _

theorem same_shell_spawn_begin (job : job_t) (s : State) :
    same_shell s (spawn_begin job s).2.2.2 := by
  have h1 := same_shell_dup s 0
  have h2 := same_shell_dup (sys_dup s 0).2 1
  have h3 := same_shell_open_redirect (sys_dup (sys_dup s 0).2 1).2 job.mystdin
    STDIN_FILENO job.ifile OpenMode.rdonly
  have h4 := same_shell_open_redirect (open_redirect (sys_dup (sys_dup s 0).2 1).2
    job.mystdin STDIN_FILENO job.ifile OpenMode.rdonly).2 job.mystdout STDOUT_FILENO
    job.ofile OpenMode.wronly_creat_trunc
  exact same_shell_trans (same_shell_trans (same_shell_trans (same_shell_trans
    (same_shell_trans h1 h2) h3) h4) (same_shell_dup2 _ _ _)) (same_shell_dup2 _ _ _)

theorem spawn_job_returned (h : Headers) (j : Nat) (fg : Bool) (s s' : State)
    (hr : spawn_job h j fg s = Outcome.returned s') :
    s'.tty_pgrp = s.shell_pgid ∧ same_shell s s' := by
  unfold spawn_job at hr
  split at hr
  · cases hr
  · rename_i job hjob
    have hb := same_shell_spawn_begin job s
    have hl := same_shell_spawn_loop h j fg job.first_process 0
      ((spawn_begin job s).2.2.2.env.uninit, (spawn_begin job s).2.2.2.env.uninit)
      (spawn_begin job s).2.2.1 (spawn_begin job s).2.2.2
    split at hr
    · rename_i s2 hl2
      rw [hl2] at hl
      obtain ⟨h5, h6⟩ := spawn_end_returned h j fg _ _ s2 s' hr
      have h02 := same_shell_trans hb hl
      exact ⟨h5.trans h02.1, same_shell_trans h02 h6⟩
    · rename_i x hx
      exact absurd hr (hx s')
theorem wait_loop_progress (h : Headers) (j : Nat) :
    ∀ (ws : List WaitResult) (s : State), s.env.waits = ws → j < s.first_job.length →
      (∃ s', wait_loop h j ws s = Outcome.returned s') ∨
      (∃ s', wait_loop h j ws s = Outcome.blocked s' ∧ s'.env.waits = []) := by
  intro ws
  induction ws with
  | nil => intro s hws _; exact Or.inr ⟨s, rfl, hws⟩
  | cons w rest ih =>
    intro s _ hj
    have hj' : j < (reap h s w rest).2.first_job.length := by
      rw [reap_length]; exact hj
    unfold wait_loop
    simp only []
    split
    · exact Or.inl ⟨_, rfl⟩
    · rw [getElem?_eq_job _ j hj']
      simp only []
      split
      · exact ih _ (reap_waits h s w rest) hj'
      · exact Or.inl ⟨_, rfl⟩

theorem foreground_begin_frame (job : job_t) (cont : Int) (s : State) :
    (foreground_begin job cont s).first_job = s.first_job ∧
    (foreground_begin job cont s).env.waits = s.env.waits ∧
    (foreground_begin job cont s).fds = s.fds ∧
    (foreground_begin job cont s).job_array = s.job_array := by
  unfold foreground_begin
  simp only []
  split
  · split <;> exact ⟨rfl, rfl, rfl, rfl⟩
  · exact ⟨rfl, rfl, rfl, rfl⟩

theorem put_job_in_foreground_progress (h : Headers) (j : Nat) (cont : Int) (s : State)
    (hj : j < s.first_job.length) :
    (∃ s', put_job_in_foreground h j cont s = Outcome.returned s') ∨
    (∃ s', put_job_in_foreground h j cont s = Outcome.blocked s' ∧ s'.env.waits = []) := by
  unfold put_job_in_foreground
  rw [getElem?_eq_job s j hj]
  simp only []
  have hf := foreground_begin_frame (s.job j) cont s
  have hj2 : j < (foreground_begin (s.job j) cont s).first_job.length := by
    rw [hf.1]; exact hj
  rcases wait_loop_progress h j _ (foreground_begin (s.job j) cont s) rfl hj2 with
    ⟨s', hs'⟩ | ⟨s', hs', hw⟩
  · left
    unfold wait_for_job
    rw [hs']
    exact ⟨_, rfl⟩
  · right
    unfold wait_for_job
    rw [hs']
    exact ⟨s', rfl, hw⟩

/-- C6: in the model where `tcsetpgrp` sets the foreground group of the
terminal, whenever `put_job_in_foreground (j, cont)` returns, and whenever
`spawn_job (j, true)` returns in the shell process, the foreground group of the
terminal is the shell's group `shell_pgid` (which the call has not changed),
whatever the wait results were; and `put_job_in_foreground` on a registered
job does return unless `waitpid` never returns. -/
theorem foreground_gives_terminal_back (h : Headers) (j : Nat) (s : State) :
    (∀ cont s', put_job_in_foreground h j cont s = Outcome.returned s' →
      s'.tty_pgrp = s'.shell_pgid ∧ s'.shell_pgid = s.shell_pgid) ∧
    (∀ s', spawn_job h j true s = Outcome.returned s' →
      s'.tty_pgrp = s'.shell_pgid ∧ s'.shell_pgid = s.shell_pgid) ∧
    (j < s.first_job.length → ∀ cont,
      (∃ s', put_job_in_foreground h j cont s = Outcome.returned s') ∨
      (∃ s', put_job_in_foreground h j cont s = Outcome.blocked s' ∧
        s'.env.waits = [])) := by
  refine ⟨?_, ?_, fun hj cont => put_job_in_foreground_progress h j cont s hj⟩
  · intro cont s' hr
    obtain ⟨h1, h2⟩ := put_job_in_foreground_returned h j cont s s' hr
    exact ⟨h1.trans h2.1.symm, h2.1⟩
  · intro s' hr
    obtain ⟨h1, h2⟩ := spawn_job_returned h j true s s' hr
    exact ⟨h1.trans h2.1.symm, h2.1⟩

/-- Witness of C6: job 0 of `launched_state` continued in the foreground while
the waits report that it stops, and the pipeline of `parsed_state` spawned in
the foreground while the waits report that it exits: both calls return, with
the shell's group 50 in the foreground of the terminal. -/
theorem foreground_gives_terminal_back_witness :
    (∃ s', put_job_in_foreground sample_headers 0 1 (launched_state sample_waits) =
        Outcome.returned s' ∧ s'.tty_pgrp = 50) ∧
    (∃ s', spawn_job sample_headers 0 true (parsed_state exit_waits) =
        Outcome.returned s' ∧ s'.tty_pgrp = 50) :=
  ⟨⟨_, rfl,
    ((foreground_gives_terminal_back sample_headers 0
        (launched_state sample_waits)).1 1 _ rfl).1⟩,
   ⟨_, rfl,
    ((foreground_gives_terminal_back sample_headers 0
        (parsed_state exit_waits)).2.1 _ rfl).1⟩⟩


/-! ## Spawning makes no wait: theorems -/

theorem quiet_refl (s : State) : quiet s s := ⟨rfl, rfl, rfl⟩

theorem quiet_trans {s1 s2 s3 : State} (h12 : quiet s1 s2) (h23 : quiet s2 s3) :
    quiet s1 s3 :=
  ⟨h23.1.trans h12.1, h23.2.1.trans h12.2.1, h23.2.2.trans h12.2.2⟩

theorem waitpid_calls_append (tr cs : List Call) :
    waitpid_calls (tr ++ cs) = waitpid_calls tr + waitpid_calls cs := by
  simp [waitpid_calls]

theorem quiet_of_trace (s s' : State) (cs : List Call) (hw : s'.env.waits = s.env.waits)
    (ht : s'.trace = s.trace ++ cs) (hc : waitpid_calls cs = 0)
    (hj : s'.first_job = s.first_job) : quiet s s' :=
  ⟨hw, by rw [ht, waitpid_calls_append, hc]; rfl, by rw [hj]⟩

theorem quiet_log (s : State) (c : Call) (hc : waitpid_calls [c] = 0) :
    quiet s (s.log c) :=
  quiet_of_trace s _ [c] rfl rfl hc rfl

theorem quiet_dup (s : State) (fd : Int) : quiet s (sys_dup s fd).2 :=
  quiet_of_trace s _ [Call.dup fd (sys_dup s fd).1] rfl rfl rfl rfl

theorem quiet_dup2 (s : State) (a b : Int) : quiet s (sys_dup2 s a b) :=
  quiet_of_trace s _ [Call.dup2 a b] rfl rfl rfl rfl

theorem quiet_open (s : State) (path : Option String) (m : OpenMode) :
    quiet s (sys_open s path m).2 :=
  quiet_of_trace s _ [Call.open_file path m (sys_open s path m).1] rfl rfl rfl rfl

theorem quiet_close (s : State) (fd : Int) : quiet s (sys_close s fd) :=
  quiet_of_trace s _ [Call.close fd] rfl rfl rfl rfl

theorem quiet_pipe (s : State) : quiet s (sys_pipe s).2 := by
  unfold sys_pipe
  split
  · rename_i rw _
    exact quiet_of_trace s _ [Call.pipe rw.1 rw.2] rfl rfl rfl rfl
  · exact quiet_of_trace s _ [Call.pipe_failed] rfl rfl rfl rfl

theorem quiet_fork (s : State) : quiet s (sys_fork s).2 :=
  quiet_of_trace s _ [Call.fork (sys_fork s).1] rfl rfl rfl rfl

theorem quiet_getpid (s : State) : quiet s (sys_getpid s).2 :=
  quiet_of_trace s _ [Call.getpid (sys_getpid s).1] rfl rfl rfl rfl

theorem quiet_setpgid (s : State) (a b : Int) : quiet s (sys_setpgid s a b).2 :=
  quiet_of_trace s _ [Call.setpgid a b] rfl rfl rfl rfl

theorem quiet_tcsetpgrp (s : State) (a b : Int) : quiet s (sys_tcsetpgrp s a b) :=
  quiet_of_trace s _ [Call.tcsetpgrp a b] rfl rfl rfl rfl

theorem quiet_tcgetattr (s : State) (a : Int) : quiet s (sys_tcgetattr s a).2 :=
  quiet_of_trace s _ [Call.tcgetattr a] rfl rfl rfl rfl

theorem quiet_tcsetattr (s : State) (a : Int) (t : termios) :
    quiet s (sys_tcsetattr s a t) :=
  quiet_of_trace s _ [Call.tcsetattr a t] rfl rfl rfl rfl

theorem modify_nth_map_core (f : job_t → job_t) (hf : ∀ x, job_core (f x) = job_core x)
    (n : Nat) (l : List job_t) : (modify_nth f n l).map job_core = l.map job_core := by
  induction l generalizing n with
  | nil => cases n <;> rfl
  | cons x xs ih =>
    cases n with
    | zero => simp [modify_nth, hf]
    | succ m => simp [modify_nth, ih m]

theorem quiet_modify_job (s : State) (j : Nat) (f : job_t → job_t)
    (hf : ∀ x, job_core (f x) = job_core x) : quiet s (s.modify_job j f) :=
  ⟨rfl, rfl, modify_nth_map_core f hf j s.first_job⟩

theorem modify_nth_map_pid (v : Int) (k : Nat) (ps : List process_t) :
    (modify_nth (fun q : process_t => { q with pid := v }) k ps).map
        (fun p => { p with pid := 0 }) =
      ps.map (fun p => { p with pid := 0 }) := by
  induction ps generalizing k with
  | nil => cases k <;> rfl
  | cons x xs ih =>
    cases k with
    | zero => simp [modify_nth]
    | succ m => simp [modify_nth, ih m]

theorem quiet_set_pid (s : State) (j k : Nat) (v : Int) : quiet s (s.set_pid j k v) :=
  quiet_modify_job s j _ (fun x => by simp [job_core, modify_nth_map_pid])

theorem quiet_set_pgid (s : State) (j : Nat) (v : Int) : quiet s (s.set_pgid j v) :=
  quiet_modify_job s j _ (fun _ => rfl)

theorem quiet_record_pgid (s s' : State) (pgid : Int)
    (hr : record_pgid s pgid = some s') : quiet s s' := by
  unfold record_pgid at hr
  simp only [] at hr
  split at hr
  · cases hr; exact ⟨rfl, rfl, rfl⟩
  · cases hr

theorem quiet_spawn_parent (j k : Nat) (pid : Int) (s s' : State)
    (hr : spawn_parent j k pid s = some s') : quiet s s' := by
  unfold spawn_parent at hr
  simp only [] at hr
  split at hr
  · cases hr
  · rename_i s2 hown
    cases hr
    refine quiet_trans (quiet_trans (quiet_set_pid s j k pid) ?_) (quiet_setpgid _ _ _)
    split at hown
    · exact quiet_trans (quiet_set_pgid _ _ _) (quiet_record_pgid _ _ _ hown)
    · cases hown; exact quiet_refl _

theorem quiet_child_join_group (j k : Nat) (fg : Bool) (s s' : State)
    (hr : child_join_group j k fg s = some s') : quiet s s' := by
  unfold child_join_group at hr
  simp only [] at hr
  split at hr
  · cases hr
  · rename_i s1 hown
    cases hr
    have h1 : quiet s s1 := by
      split at hown
      · exact quiet_trans (quiet_trans (quiet_getpid _) (quiet_set_pgid _ _ _))
          (quiet_record_pgid _ _ _ hown)
      · cases hown; exact quiet_refl _
    have h2 : quiet s1 (s1.set_pid j k 0) := quiet_set_pid _ _ _ _
    have h3 := quiet_setpgid (s1.set_pid j k 0) 0 ((s1.set_pid j k 0).job j).pgid
    refine quiet_trans h1 (quiet_trans h2 ?_)
    split
    · split
      · exact quiet_trans h3 (quiet_tcsetpgrp _ _ _)
      · exact h3
    · exact h3

theorem quiet_redirect (s : State) (fd target : Int) : quiet s (redirect s fd target) := by
  unfold redirect
  split
  · exact quiet_trans (quiet_dup2 _ _ _) (quiet_close _ _)
  · exact quiet_refl s

theorem quiet_child_redirect (j : Nat) (infile outfile : Int) (s : State) :
    quiet s (child_redirect j infile outfile s) :=
  quiet_trans (quiet_trans (quiet_redirect _ _ _) (quiet_redirect _ _ _))
    (quiet_redirect _ _ _)

theorem quiet_child_exec (p : process_t) (s : State) :
    (child_exec p s).holds (quiet s) := by
  unfold child_exec
  split
  · trivial
  · split
    · exact quiet_of_trace s _ [Call.execvp p.argv 0] rfl rfl rfl rfl
    · exact quiet_of_trace s _
        [Call.execvp p.argv (-1), Call.perror "execvp", Call.exit 1] rfl rfl rfl rfl

theorem quiet_spawn_child (j k : Nat) (fg : Bool) (p : process_t)
    (infile outfile : Int) (s : State) :
    (spawn_child j k fg p infile outfile s).holds (quiet s) := by
  unfold spawn_child
  split
  · trivial
  · rename_i s3 hj
    have h1 := quiet_child_join_group j k fg s s3 hj
    have h2 := quiet_child_redirect j infile outfile
      (s3.log (Call.signal_default Signal.SIGTTOU))
    exact holds_mono
      (fun _ hs => quiet_trans h1
        (quiet_trans (quiet_log _ (Call.signal_default Signal.SIGTTOU) rfl)
          (quiet_trans h2 hs))) _
      (quiet_child_exec p _)

theorem quiet_close_unless (s : State) (fd keep : Int) :
    quiet s (close_unless s fd keep) := by
  unfold close_unless
  split
  · exact quiet_close _ _
  · exact quiet_refl s

theorem quiet_reset_file_ios (j : Nat) (infile outfile : Int) (s : State) :
    quiet s (reset_file_ios j infile outfile s) :=
  quiet_trans (quiet_close_unless _ _ _) (quiet_close_unless _ _ _)

theorem quiet_open_pipe (j : Nat) (b : Bool) (mypipe : Int × Int) (s : State)
    (r : (Int × Int) × Int × State) (hr : open_pipe j b mypipe s = some r) :
    quiet s r.2.2 := by
  unfold open_pipe at hr
  split at hr
  · split at hr
    · cases hr; exact quiet_pipe s
    · cases hr
  · cases hr; exact quiet_refl s

theorem quiet_spawn_loop (h : Headers) (j : Nat) (fg : Bool) :
    ∀ (ps : List process_t) (k : Nat) (mypipe : Int × Int) (infile : Int) (s : State),
      (spawn_loop h j fg ps k mypipe infile s).holds (quiet s) := by
  intro ps
  induction ps with
  | nil => intro k mypipe infile s; exact quiet_refl s
  | cons p rest ih =>
    intro k mypipe infile s
    unfold spawn_loop
    split
    · exact ih _ _ _ _
    · split
      · exact quiet_trans (quiet_pipe s)
          (quiet_trans (quiet_log _ (Call.perror "pipe") rfl)
            (quiet_log _ (Call.exit 1) rfl))
      · rename_i mypipe1 outfile s1 hp
        have h1 : quiet s s1 := quiet_open_pipe j _ mypipe s _ hp
        have h2 : quiet s (sys_fork s1).2 := quiet_trans h1 (quiet_fork s1)
        split
        · exact quiet_trans h2 (quiet_trans (quiet_log _ (Call.perror "fork") rfl)
            (quiet_log _ (Call.exit h.EXIT_FAILURE) rfl))
        · split
          · exact holds_mono (fun _ hs => quiet_trans h2 hs) _
              (quiet_spawn_child _ _ _ _ _ _ _)
          · split
            · trivial
            · rename_i s2 hpar
              have h3 := quiet_spawn_parent _ _ _ _ _ hpar
              exact holds_mono
                (fun _ hs => quiet_trans h2 (quiet_trans h3
                  (quiet_trans (quiet_reset_file_ios j infile outfile s2) hs)))
                _ (ih _ _ _ _)

theorem same_spawn_inputs_refl (s : State) : same_spawn_inputs s s := ⟨rfl, rfl, rfl, rfl⟩

theorem same_spawn_inputs_trans {s1 s2 s3 : State} (h12 : same_spawn_inputs s1 s2)
    (h23 : same_spawn_inputs s2 s3) : same_spawn_inputs s1 s3 :=
  ⟨h23.1.trans h12.1, h23.2.1.trans h12.2.1, h23.2.2.1.trans h12.2.2.1,
    h23.2.2.2.trans h12.2.2.2⟩

theorem spawn_ready_of_same {j nf np : Nat} {s s' : State} (hs : same_spawn_inputs s s')
    (hr : spawn_ready j nf np s) : spawn_ready j nf np s' := by
  obtain ⟨h1, h2, h3, h4⟩ := hs
  unfold spawn_ready slot_free find_lowest_index State.job at *
  rw [h1, h2, h3, h4]
  exact hr

theorem same_spawn_inputs_close_unless (s : State) (fd keep : Int) :
    same_spawn_inputs s (close_unless s fd keep) := by
  unfold close_unless
  split
  · exact ⟨rfl, rfl, rfl, rfl⟩
  · exact same_spawn_inputs_refl s

theorem same_spawn_inputs_reset_file_ios (j : Nat) (infile outfile : Int) (s : State) :
    same_spawn_inputs s (reset_file_ios j infile outfile s) :=
  same_spawn_inputs_trans (same_spawn_inputs_close_unless _ _ _)
    (same_spawn_inputs_close_unless _ _ _)

theorem same_spawn_inputs_open_redirect (s : State) (fd std : Int)
    (path : Option String) (m : OpenMode) :
    same_spawn_inputs s (open_redirect s fd std path m).2 := by
  unfold open_redirect
  split
  · exact ⟨rfl, rfl, rfl, rfl⟩
  · exact same_spawn_inputs_refl _

theorem same_spawn_inputs_spawn_begin (job : job_t) (s : State) :
    same_spawn_inputs s (spawn_begin job s).2.2.2 := by
  have h1 : same_spawn_inputs s (sys_dup s 0).2 := ⟨rfl, rfl, rfl, rfl⟩
  have h2 : same_spawn_inputs (sys_dup s 0).2 (sys_dup (sys_dup s 0).2 1).2 :=
    ⟨rfl, rfl, rfl, rfl⟩
  have h3 := same_spawn_inputs_open_redirect (sys_dup (sys_dup s 0).2 1).2 job.mystdin
    STDIN_FILENO job.ifile OpenMode.rdonly
  have h4 := same_spawn_inputs_open_redirect (open_redirect (sys_dup (sys_dup s 0).2 1).2
    job.mystdin STDIN_FILENO job.ifile OpenMode.rdonly).2 job.mystdout STDOUT_FILENO
    job.ofile OpenMode.wronly_creat_trunc
  exact same_spawn_inputs_trans (same_spawn_inputs_trans (same_spawn_inputs_trans
    (same_spawn_inputs_trans h1 h2) h3) h4) ⟨rfl, rfl, rfl, rfl⟩

theorem modify_nth_getD {α : Type} (f : α → α) (d : α) (n : Nat) (l : List α)
    (hn : n < l.length) : (modify_nth f n l).getD n d = f (l.getD n d) := by
  induction l generalizing n with
  | nil => simp at hn
  | cons x xs ih =>
    cases n with
    | zero => simp [modify_nth]
    | succ m =>
      have := ih m (by simpa using hn)
      simpa [modify_nth] using this

theorem job_modify_job (s : State) (j : Nat) (f : job_t → job_t)
    (hj : j < s.first_job.length) : (s.modify_job j f).job j = f (s.job j) :=
  modify_nth_getD f default j s.first_job hj

theorem find_lowest_index_loop_range (arr : List Int) :
    ∀ (n i : Nat), find_lowest_index_loop arr i n ≠ -1 →
      0 ≤ find_lowest_index_loop arr i n ∧
      (find_lowest_index_loop arr i n).toNat < i + n := by
  intro n
  induction n with
  | zero => intro i hne; exact absurd rfl hne
  | succ n ih =>
    intro i hne
    unfold find_lowest_index_loop at hne ⊢
    split
    · constructor
      · exact Int.ofNat_nonneg i
      · simp
    · rename_i hz
      rw [if_neg hz] at hne
      obtain ⟨h1, h2⟩ := ih (i + 1) hne
      exact ⟨h1, by omega⟩

theorem slot_free_of_guard (s : State) (hlen : s.job_array.length = 20)
    (hg : find_lowest_index s ≠ -1) : slot_free s := by
  obtain ⟨h1, h2⟩ := find_lowest_index_loop_range s.job_array 20 0 hg
  exact ⟨h1, by rw [hlen]; simpa using h2⟩

theorem spawn_parent_ready (j k nf np : Nat) (pid : Int) (s : State) (hpid : 0 < pid)
    (hr : spawn_ready j nf np s) :
    ∃ s', spawn_parent j k pid s = some s' ∧ spawn_ready j nf np s' := by
  obtain ⟨hj, hf, hfl, hp, hpl, hslot⟩ := hr
  have hj1 : j < (s.set_pid j k pid).first_job.length := by
    simp [State.set_pid, State.modify_job, modify_nth_length, hj]
  have hpg1 : ((s.set_pid j k pid).job j).pgid = (s.job j).pgid := by
    unfold State.set_pid
    rw [job_modify_job s j _ hj]
  unfold spawn_parent
  simp only []
  by_cases hneg : (s.job j).pgid < 0
  · have hsl : slot_free s := by
      rcases hslot with h0 | h0
      · omega
      · exact h0
    rw [hpg1, if_pos hneg]
    have hrec : record_pgid ((s.set_pid j k pid).set_pgid j pid) pid =
        some { (s.set_pid j k pid).set_pgid j pid with
          job_array := s.job_array.set (find_lowest_index s).toNat pid } := by
      unfold record_pgid
      simp only []
      have : find_lowest_index ((s.set_pid j k pid).set_pgid j pid) = find_lowest_index s :=
        rfl
      rw [this]
      have hsl' : 0 ≤ find_lowest_index s ∧ (find_lowest_index s).toNat <
          ((s.set_pid j k pid).set_pgid j pid).job_array.length := hsl
      rw [if_pos hsl']
      rfl
    rw [hrec]
    refine ⟨_, rfl, ?_, hf, hfl, hp, hpl, Or.inl ?_⟩
    · simp [sys_setpgid, State.set_pgid, State.set_pid, State.modify_job,
        modify_nth_length, hj]
    · have hjj : j < ((s.set_pid j k pid).set_pgid j pid).first_job.length := by
        simp [State.set_pgid, State.set_pid, State.modify_job, modify_nth_length, hj]
      have : ((sys_setpgid { (s.set_pid j k pid).set_pgid j pid with
          job_array := s.job_array.set (find_lowest_index s).toNat pid } pid
          (State.job { (s.set_pid j k pid).set_pgid j pid with
            job_array := s.job_array.set (find_lowest_index s).toNat pid } j).pgid).2.job
              j) = ((s.set_pid j k pid).set_pgid j pid).job j := rfl
      rw [this]
      unfold State.set_pgid
      rw [job_modify_job _ j _ hj1]
      exact le_of_lt hpid
  · rw [hpg1, if_neg hneg]
    refine ⟨_, rfl, ?_, hf, hfl, hp, hpl, Or.inl ?_⟩
    · exact hj1
    · have : ((sys_setpgid (s.set_pid j k pid) pid ((s.set_pid j k pid).job j).pgid).2.job j)
          = (s.set_pid j k pid).job j := rfl
      rw [this, hpg1]
      omega

theorem spawn_ready_mono {j nf np nf' np' : Nat} {s : State} (hf : nf' ≤ nf)
    (hp : np' ≤ np) (hr : spawn_ready j nf np s) : spawn_ready j nf' np' s :=
  ⟨hr.1, hr.2.1, le_trans hf hr.2.2.1, hr.2.2.2.1, le_trans hp hr.2.2.2.2.1,
    hr.2.2.2.2.2⟩

theorem open_pipe_ready (j nf np : Nat) (b : Bool) (mypipe : Int × Int) (s : State)
    (hb : b = true → 1 ≤ np) (hr : spawn_ready j nf np s) :
    ∃ r, open_pipe j b mypipe s = some r ∧ spawn_ready j nf (np - 1) r.2.2 := by
  unfold open_pipe
  cases b with
  | false =>
    exact ⟨_, rfl, spawn_ready_mono (le_refl _) (Nat.sub_le _ _) hr⟩
  | true =>
    obtain ⟨hj, hf, hfl, hp, hpl, hslot⟩ := hr
    have hn := hb rfl
    cases hpipes : s.env.pipes with
    | nil => rw [hpipes] at hpl; simp at hpl; omega
    | cons x xs =>
      have hx : x.isSome = true := hp x (by rw [hpipes]; exact List.mem_cons_self _ _)
      cases x with
      | none => simp at hx
      | some rw =>
        have h1 : (sys_pipe s).1 = some rw := by simp [sys_pipe, hpipes]
        have h2 : (sys_pipe s).2.env.pipes = xs := by simp [sys_pipe, hpipes]
        have h4 : (sys_pipe s).2.first_job = s.first_job := by simp [sys_pipe, hpipes]
        have h5 : (sys_pipe s).2.job_array = s.job_array := by simp [sys_pipe, hpipes]
        have h6 : (sys_pipe s).2.env.forks = s.env.forks := by simp [sys_pipe, hpipes]
        simp only [if_true, h1]
        refine ⟨_, rfl, ⟨?_, ?_, ?_, ?_, ?_, ?_⟩⟩
        · show j < (sys_pipe s).2.first_job.length
          rw [h4]; exact hj
        · show ∀ f ∈ (sys_pipe s).2.env.forks, 0 < f
          rw [h6]; exact hf
        · show nf ≤ (sys_pipe s).2.env.forks.length
          rw [h6]; exact hfl
        · show ∀ p ∈ (sys_pipe s).2.env.pipes, p.isSome = true
          rw [h2]
          intro p hpm
          exact hp p (by rw [hpipes]; exact List.mem_cons_of_mem _ hpm)
        · show np - 1 ≤ (sys_pipe s).2.env.pipes.length
          rw [h2]
          rw [hpipes] at hpl
          simp at hpl
          omega
        · show 0 ≤ ((sys_pipe s).2.job j).pgid ∨ slot_free (sys_pipe s).2
          unfold slot_free find_lowest_index State.job at *
          rw [h4, h5]
          exact hslot

theorem fork_ready (j nf np : Nat) (s : State) (hr : spawn_ready j (nf + 1) np s) :
    0 < (sys_fork s).1 ∧ spawn_ready j nf np (sys_fork s).2 := by
  obtain ⟨hj, hf, hfl, hp, hpl, hslot⟩ := hr
  cases hforks : s.env.forks with
  | nil => rw [hforks] at hfl; simp at hfl
  | cons f fs =>
    have hf0 : 0 < f := hf f (by rw [hforks]; exact List.mem_cons_self _ _)
    refine ⟨by simpa [sys_fork, hforks] using hf0, hj, ?_, ?_, hp, hpl, hslot⟩
    · show ∀ g ∈ s.env.forks.tail, 0 < g
      rw [hforks]
      intro g hg
      exact hf g (by rw [hforks]; exact List.mem_cons_of_mem _ hg)
    · show nf ≤ s.env.forks.tail.length
      rw [hforks] at hfl ⊢
      simpa using hfl

theorem spawn_loop_returns (h : Headers) (j : Nat) (fg : Bool) :
    ∀ (ps : List process_t) (k : Nat) (mypipe : Int × Int) (infile : Int) (s : State),
      spawn_ready j ps.length (ps.length - 1) s →
      ∃ s', spawn_loop h j fg ps k mypipe infile s = Outcome.returned s' := by
  intro ps
  induction ps with
  | nil => intro k mypipe infile s _; exact ⟨s, rfl⟩
  | cons p rest ih =>
    intro k mypipe infile s hr
    unfold spawn_loop
    split
    · exact ih _ _ _ _ (spawn_ready_mono (by simp) (by simp) hr)
    · have hb : (!rest.isEmpty) = true → 1 ≤ (p :: rest).length - 1 := by
        cases rest with
        | nil => simp
        | cons _ _ => simp
      obtain ⟨r, hop, hr1⟩ := open_pipe_ready j _ _ _ mypipe s hb hr
      rw [hop]
      simp only []
      obtain ⟨hf0, hr2⟩ := fork_ready j rest.length _ r.2.2 hr1
      have hne1 : (sys_fork r.2.2).1 ≠ -1 := by omega
      have hne0 : (sys_fork r.2.2).1 ≠ 0 := by omega
      rw [if_neg hne1, if_neg hne0]
      obtain ⟨s2, hpar, hr3⟩ := spawn_parent_ready j k _ _ _ _ hf0 hr2
      rw [hpar]
      simp only []
      apply ih
      have := spawn_ready_of_same (same_spawn_inputs_reset_file_ios j infile r.2.1 s2) hr3
      exact spawn_ready_mono (le_refl _) (by simp) this

theorem quiet_open_redirect (s : State) (fd std : Int) (path : Option String)
    (m : OpenMode) : quiet s (open_redirect s fd std path m).2 := by
  unfold open_redirect
  split
  · exact quiet_open _ _ _
  · exact quiet_refl _

theorem quiet_spawn_begin (job : job_t) (s : State) :
    quiet s (spawn_begin job s).2.2.2 := by
  have h1 := quiet_dup s 0
  have h2 := quiet_dup (sys_dup s 0).2 1
  have h3 := quiet_open_redirect (sys_dup (sys_dup s 0).2 1).2 job.mystdin
    STDIN_FILENO job.ifile OpenMode.rdonly
  have h4 := quiet_open_redirect (open_redirect (sys_dup (sys_dup s 0).2 1).2
    job.mystdin STDIN_FILENO job.ifile OpenMode.rdonly).2 job.mystdout STDOUT_FILENO
    job.ofile OpenMode.wronly_creat_trunc
  exact quiet_trans (quiet_trans (quiet_trans (quiet_trans
    (quiet_trans h1 h2) h3) h4) (quiet_dup2 _ _ _)) (quiet_dup2 _ _ _)

theorem quiet_shell_to_foreground (j : Nat) (s : State) :
    quiet s (shell_to_foreground j s) := by
  have h1 : quiet s (sys_tcgetattr (sys_tcsetpgrp s s.shell_terminal
      s.shell_pgid) s.shell_terminal).2 :=
    quiet_trans (quiet_tcsetpgrp _ _ _) (quiet_tcgetattr _ _)
  have h2 := quiet_modify_job (sys_tcgetattr (sys_tcsetpgrp s s.shell_terminal
      s.shell_pgid) s.shell_terminal).2 j
        (fun jb => { jb with tmodes := (sys_tcgetattr (sys_tcsetpgrp s s.shell_terminal
      s.shell_pgid) s.shell_terminal).1 }) (fun _ => rfl)
  exact quiet_trans (quiet_trans h1 h2) (quiet_tcsetattr _ _ _)

theorem quiet_spawn_finish (j : Nat) (a b : Int) (s : State) :
    (spawn_finish j a b s).holds (quiet s) := by
  unfold spawn_finish restore_control
  split
  · trivial
  · exact quiet_trans (quiet_trans (quiet_dup2 s a 0) (quiet_dup2 _ b 1))
      (quiet_shell_to_foreground j _)

theorem quiet_spawn_end_background (h : Headers) (j : Nat) (a b : Int) (s : State) :
    (spawn_end h j false a b s).holds (quiet s) := by
  unfold spawn_end put_job_in_background
  simp only [Bool.false_eq_true, if_false, ne_eq, not_true_eq_false]
  exact quiet_spawn_finish j a b s

theorem quiet_spawn_job_background (h : Headers) (j : Nat) (s : State) :
    (spawn_job h j false s).holds (quiet s) := by
  unfold spawn_job
  split
  · trivial
  · rename_i job _
    have hb := quiet_spawn_begin job s
    have hl := quiet_spawn_loop h j false job.first_process 0
      ((spawn_begin job s).2.2.2.env.uninit, (spawn_begin job s).2.2.2.env.uninit)
      (spawn_begin job s).2.2.1 (spawn_begin job s).2.2.2
    split
    · rename_i s2 hl2
      rw [hl2] at hl
      exact holds_mono (fun _ hs => quiet_trans hb (quiet_trans hl hs)) _
        (quiet_spawn_end_background h j _ _ s2)
    · rename_i x hx
      exact holds_mono (fun _ hs => quiet_trans hb hs) _ hl

theorem child_exec_not_blocked (p : process_t) (s s' : State) :
    child_exec p s ≠ Outcome.blocked s' := by
  unfold child_exec
  split
  · simp
  · split <;> simp

theorem spawn_loop_not_blocked (h : Headers) (j : Nat) (fg : Bool) :
    ∀ (ps : List process_t) (k : Nat) (mypipe : Int × Int) (infile : Int) (s s' : State),
      spawn_loop h j fg ps k mypipe infile s ≠ Outcome.blocked s' := by
  intro ps
  induction ps with
  | nil => intro k mypipe infile s s'; simp [spawn_loop]
  | cons p rest ih =>
    intro k mypipe infile s s'
    unfold spawn_loop
    split
    · exact ih _ _ _ _ _
    · split
      · simp
      · split
        · simp
        · split
          · unfold spawn_child
            split
            · simp
            · exact child_exec_not_blocked _ _ _
          · split
            · simp
            · exact ih _ _ _ _ _

theorem spawn_job_background_not_blocked (h : Headers) (j : Nat) (s s' : State) :
    spawn_job h j false s ≠ Outcome.blocked s' := by
  unfold spawn_job
  split
  · simp
  · split
    · unfold spawn_end put_job_in_background spawn_finish restore_control
      simp only [Bool.false_eq_true, if_false, ne_eq, not_true_eq_false]
      split <;> simp
    · rename_i x hx
      intro hb
      exact spawn_loop_not_blocked h j false _ _ _ _ _ _ hb

theorem job_core_flags (jb : job_t) :
    (job_core jb).first_process.map (fun p => (p.completed, p.stopped)) =
      jb.first_process.map (fun p => (p.completed, p.stopped)) := by
  simp [job_core, Function.comp_def]

theorem getD_map_core (l : List job_t) (j : Nat) :
    (l.map job_core).getD j (job_core default) = job_core (l.getD j default) := by
  induction l generalizing j with
  | nil => simp
  | cons x xs ih =>
    cases j with
    | zero => simp
    | succ m => simp

theorem quiet_flags {s s' : State} (hq : quiet s s') (j : Nat) :
    s'.first_job.length = s.first_job.length ∧
    (s'.job j).first_process.map (fun p => (p.completed, p.stopped)) =
      (s.job j).first_process.map (fun p => (p.completed, p.stopped)) := by
  obtain ⟨_, _, hc⟩ := hq
  constructor
  · have := congrArg List.length hc
    simpa using this
  · rw [← job_core_flags (s'.job j), ← job_core_flags (s.job j)]
    unfold State.job
    rw [← getD_map_core, ← getD_map_core, hc]

theorem spawn_job_background_returns (h : Headers) (j : Nat) (s : State)
    (hr : spawn_ready j (s.job j).first_process.length
      ((s.job j).first_process.length - 1) s) :
    ∃ s', spawn_job h j false s = Outcome.returned s' := by
  have hj := hr.1
  unfold spawn_job
  rw [getElem?_eq_job s j hj]
  simp only []
  have hb := spawn_ready_of_same (same_spawn_inputs_spawn_begin (s.job j) s) hr
  obtain ⟨s2, hs2⟩ := spawn_loop_returns h j false (s.job j).first_process 0
    ((spawn_begin (s.job j) s).2.2.2.env.uninit, (spawn_begin (s.job j) s).2.2.2.env.uninit)
    (spawn_begin (s.job j) s).2.2.1 (spawn_begin (s.job j) s).2.2.2 hb
  rw [hs2]
  simp only []
  have hss : same_shell s s2 := by
    have := same_shell_spawn_loop h j false (s.job j).first_process 0
      ((spawn_begin (s.job j) s).2.2.2.env.uninit,
        (spawn_begin (s.job j) s).2.2.2.env.uninit)
      (spawn_begin (s.job j) s).2.2.1 (spawn_begin (s.job j) s).2.2.2
    rw [hs2] at this
    exact same_shell_trans (same_shell_spawn_begin _ _) this
  have hj2 : j < (sys_dup2 (sys_dup2 s2 (spawn_begin (s.job j) s).1 0)
      (spawn_begin (s.job j) s).2.1 1).first_job.length := by
    show j < s2.first_job.length
    rw [hss.2.2.2]; exact hj
  unfold spawn_end put_job_in_background spawn_finish restore_control
  simp only [Bool.false_eq_true, if_false, ne_eq, not_true_eq_false]
  rw [getElem?_eq_job _ j hj2]
  exact ⟨_, rfl⟩

/-- C9 as the code has it: `spawn_job (j, false)` never makes a `waitpid`
call, never blocks, and leaves the registry as it was up to pids, groups and
saved terminal attributes, however it ends; and when its pipe and fork calls
all succeed (and `job_array` has a free slot for a job without a group) it
returns in the shell process, with no wait result consumed, `j` still in the
registry and the completed and stopped flags of its processes unchanged. -/
theorem spawn_job_background (h : Headers) (j : Nat) (s : State) :
    (spawn_job h j false s).holds (quiet s) ∧
    (∀ s', spawn_job h j false s ≠ Outcome.blocked s') ∧
    (spawn_ready j (s.job j).first_process.length
        ((s.job j).first_process.length - 1) s →
      ∃ s', spawn_job h j false s = Outcome.returned s' ∧
        s'.env.waits = s.env.waits ∧
        waitpid_calls s'.trace = waitpid_calls s.trace ∧
        j < s'.first_job.length ∧
        (s'.job j).first_process.map (fun p => (p.completed, p.stopped)) =
          (s.job j).first_process.map (fun p => (p.completed, p.stopped))) := by
  refine ⟨quiet_spawn_job_background h j s,
    fun s' => spawn_job_background_not_blocked h j s s', fun hr => ?_⟩
  obtain ⟨s', hs'⟩ := spawn_job_background_returns h j s hr
  have hq := quiet_spawn_job_background h j s
  rw [hs'] at hq
  have hfl := quiet_flags hq j
  exact ⟨s', hs', hq.1, hq.2.1, by rw [hfl.1]; exact hr.1, hfl.2⟩

/-- Witness of C9 as the code has it: the pipeline of `parsed_state` spawned
in the background with the wait results `exit_waits` pending. -/
theorem spawn_job_background_witness :
    ∃ s', spawn_job sample_headers 0 false (parsed_state exit_waits) =
        Outcome.returned s' ∧
      s'.env.waits = exit_waits ∧ waitpid_calls s'.trace = 0 ∧
      (s'.job 0).first_process.map (fun p => (p.completed, p.stopped)) =
        [(false, false), (false, false)] := by
  obtain ⟨s', h1, h2, h3, _, h5⟩ :=
    (spawn_job_background sample_headers 0 (parsed_state exit_waits)).2.2 (by decide)
  exact ⟨s', h1, h2, h3, h5⟩

/-- Counterexample of C9: the second `fork` of the spawn of the pipeline of
`parsed_state` in the background fails; `spawn_job` does not return, the shell
exits with `EXIT_FAILURE`. -/
theorem spawn_job_background_fork_failure :
    ∃ s', spawn_job sample_headers 0 false
        { parsed_state exit_waits with
          env := { spawn_env exit_waits with forks := [100, -1] } } =
        Outcome.exited 1 s' ∧
      s'.trace.drop 8 = [Call.fork (-1), Call.perror "fork", Call.exit 1] :=
  ⟨_, rfl, by decide⟩



/-! ## Pipe descriptors in the shell: theorems -/

theorem mem_fd_close (fds : List (Int × FileObj)) (fd : Int) (e : Int × FileObj) :
    e ∈ fd_close fds fd ↔ e ∈ fds ∧ e.1 ≠ fd := by
  simp [fd_close]

theorem mem_fd_set (fds : List (Int × FileObj)) (fd : Int) (o : FileObj)
    (e : Int × FileObj) :
    e ∈ fd_set fds fd o ↔ e = (fd, o) ∨ (e ∈ fds ∧ e.1 ≠ fd) := by
  simp [fd_set, fd_close]

theorem fd_lookup_mem (fds : List (Int × FileObj)) (fd : Int) (o : FileObj)
    (hl : fd_lookup fds fd = some o) : ∃ e ∈ fds, e.2 = o := by
  unfold fd_lookup at hl
  cases hf : fds.find? (fun e => decide (e.1 = fd)) with
  | none => simp [hf] at hl
  | some e =>
    simp [hf] at hl
    exact ⟨e, List.mem_of_find?_eq_some hf, hl⟩

theorem mem_close_unless (s : State) (fd keep : Int) (e : Int × FileObj) :
    e ∈ (close_unless s fd keep).fds ↔ e ∈ s.fds ∧ (fd ≠ keep → e.1 ≠ fd) := by
  unfold close_unless
  split
  · rename_i hne
    simp [sys_close, mem_fd_close, hne]
  · rename_i hne
    simp [hne]

theorem pipes_closed_dup2 (n0 : Nat) (s : State) (a b : Int) (hc : pipes_closed n0 s) :
    pipes_closed n0 (sys_dup2 s a b) := by
  intro e he
  unfold sys_dup2 at he
  simp only [] at he
  split at he
  · rename_i o hl
    split at he
    · exact hc e he
    · rcases (mem_fd_set _ _ _ _).1 he with rfl | ⟨hm, _⟩
      · obtain ⟨e', he', ho⟩ := fd_lookup_mem _ _ _ hl
        have := hc e' he'
        rw [ho] at this
        exact this
      · exact hc e hm
  · exact hc e he

theorem pipes_closed_of_fds {n0 : Nat} {s s' : State} (hf : s'.fds = s.fds)
    (hc : pipes_closed n0 s) : pipes_closed n0 s' := by
  unfold pipes_closed
  rw [hf]
  exact hc

theorem pipes_closed_dup (n0 : Nat) (s : State) (a : Int) (hc : pipes_closed n0 s) :
    pipes_closed n0 (sys_dup s a).2 := by
  intro e he
  unfold sys_dup at he
  simp only [] at he
  split at he
  · rename_i o hl
    split at he
    · rcases (mem_fd_set _ _ _ _).1 he with rfl | ⟨hm, _⟩
      · obtain ⟨e', he', ho⟩ := fd_lookup_mem _ _ _ hl
        have := hc e' he'
        rw [ho] at this
        exact this
      · exact hc e hm
    · exact hc e he
  · exact hc e he

theorem pipes_closed_open (n0 : Nat) (s : State) (path : Option String) (m : OpenMode)
    (hc : pipes_closed n0 s) : pipes_closed n0 (sys_open s path m).2 := by
  intro e he
  unfold sys_open at he
  simp only [] at he
  split at he
  · split at he
    · rcases (mem_fd_set _ _ _ _).1 he with rfl | ⟨hm, _⟩
      · rfl
      · exact hc e hm
    · exact hc e he
  · exact hc e he

theorem pipes_closed_open_redirect (n0 : Nat) (s : State) (fd std : Int)
    (path : Option String) (m : OpenMode) (hc : pipes_closed n0 s) :
    pipes_closed n0 (open_redirect s fd std path m).2 := by
  unfold open_redirect
  split
  · exact pipes_closed_open n0 s path m hc
  · exact hc

theorem pipes_closed_spawn_begin (n0 : Nat) (job : job_t) (s : State)
    (hc : pipes_closed n0 s) : pipes_closed n0 (spawn_begin job s).2.2.2 := by
  have h1 := pipes_closed_dup n0 s 0 hc
  have h2 := pipes_closed_dup n0 (sys_dup s 0).2 1 h1
  have h3 := pipes_closed_open_redirect n0 (sys_dup (sys_dup s 0).2 1).2 job.mystdin
    STDIN_FILENO job.ifile OpenMode.rdonly h2
  have h4 := pipes_closed_open_redirect n0 (open_redirect (sys_dup (sys_dup s 0).2 1).2
    job.mystdin STDIN_FILENO job.ifile OpenMode.rdonly).2 job.mystdout STDOUT_FILENO
    job.ofile OpenMode.wronly_creat_trunc h3
  exact pipes_closed_dup2 n0 _ _ _ (pipes_closed_dup2 n0 _ _ _ h4)

theorem same_files_refl (s : State) : same_files s s := ⟨rfl, rfl, rfl⟩

theorem same_files_trans {s1 s2 s3 : State} (h12 : same_files s1 s2)
    (h23 : same_files s2 s3) : same_files s1 s3 :=
  ⟨h23.1.trans h12.1, h23.2.1.trans h12.2.1, h23.2.2.trans h12.2.2⟩

theorem same_files_mark (h : Headers) (s : State) (pid status : Int) :
    same_files s (mark_process_status h s pid status).2 := by
  refine ⟨?_, ?_, ?_⟩ <;>
  · unfold mark_process_status
    split
    · split
      · split
        · rfl
        · split <;> rfl
      · rfl
    · split <;> rfl

theorem same_files_reap (h : Headers) (s : State) (w : WaitResult)
    (rest : List WaitResult) : same_files s (reap h s w rest).2 := by
  have h1 : same_files s (waitpid_step s w rest) := ⟨rfl, rfl, rfl⟩
  exact same_files_trans h1 (same_files_mark h _ _ _)

theorem same_files_wait_loop (h : Headers) (j : Nat) :
    ∀ (ws : List WaitResult) (s : State),
      (wait_loop h j ws s).holds (same_files s) := by
  intro ws
  induction ws with
  | nil => intro s; exact same_files_refl s
  | cons w rest ih =>
    intro s
    have hr := same_files_reap h s w rest
    unfold wait_loop
    simp only []
    split
    · exact hr
    · split
      · trivial
      · split
        · exact holds_mono (fun _ hs => same_files_trans hr hs) _ (ih _)
        · exact hr

theorem same_files_foreground_begin (job : job_t) (cont : Int) (s : State) :
    same_files s (foreground_begin job cont s) := by
  unfold foreground_begin
  simp only []
  split
  · split <;> exact ⟨rfl, rfl, rfl⟩
  · exact ⟨rfl, rfl, rfl⟩

theorem same_files_shell_to_foreground (j : Nat) (s : State) :
    same_files s (shell_to_foreground j s) := ⟨rfl, rfl, rfl⟩

theorem same_files_put_job_in_foreground (h : Headers) (j : Nat) (cont : Int)
    (s : State) : (put_job_in_foreground h j cont s).holds (same_files s) := by
  unfold put_job_in_foreground
  split
  · trivial
  · rename_i job _
    have h1 := same_files_foreground_begin job cont s
    have h2 := same_files_wait_loop h j (foreground_begin job cont s).env.waits
      (foreground_begin job cont s)
    unfold wait_for_job
    split
    · rename_i s3 h3
      rw [h3] at h2
      exact same_files_trans h1 (same_files_trans h2 (same_files_shell_to_foreground j s3))
    · exact holds_mono (fun _ hs => same_files_trans h1 hs) _ h2

theorem same_files_put_job_in_background (j : Nat) (cont : Int) (s : State) :
    (put_job_in_background j cont s).holds (same_files s) := by
  unfold put_job_in_background
  split
  · split
    · trivial
    · simp only []
      split <;> exact ⟨rfl, rfl, rfl⟩
  · exact same_files_refl s

theorem same_files_record_pgid (s s' : State) (pgid : Int)
    (hr : record_pgid s pgid = some s') : same_files s s' := by
  unfold record_pgid at hr
  simp only [] at hr
  split at hr
  · cases hr; exact ⟨rfl, rfl, rfl⟩
  · cases hr

theorem same_files_spawn_parent (j k : Nat) (pid : Int) (s s' : State)
    (hr : spawn_parent j k pid s = some s') : same_files s s' := by
  unfold spawn_parent at hr
  simp only [] at hr
  split at hr
  · cases hr
  · rename_i s2 hown
    cases hr
    have h1 : same_files s (s.set_pid j k pid) := ⟨rfl, rfl, rfl⟩
    have h3 : same_files s2 (sys_setpgid s2 pid (s2.job j).pgid).2 := ⟨rfl, rfl, rfl⟩
    refine same_files_trans (same_files_trans h1 ?_) h3
    split at hown
    · have h2 : same_files (s.set_pid j k pid) ((s.set_pid j k pid).set_pgid j pid) :=
        ⟨rfl, rfl, rfl⟩
      exact same_files_trans h2 (same_files_record_pgid _ _ _ hown)
    · cases hown; exact same_files_refl _

theorem quiet_std {s s' : State} (hq : quiet s s') (j : Nat) :
    (s'.job j).mystdin = (s.job j).mystdin ∧ (s'.job j).mystdout = (s.job j).mystdout := by
  obtain ⟨_, _, hc⟩ := hq
  have h1 : job_core (s'.job j) = job_core (s.job j) := by
    unfold State.job
    rw [← getD_map_core, ← getD_map_core, hc]
  have h2 : (job_core (s'.job j)).mystdin = (job_core (s.job j)).mystdin := by rw [h1]
  have h3 : (job_core (s'.job j)).mystdout = (job_core (s.job j)).mystdout := by rw [h1]
  exact ⟨h2, h3⟩

theorem pipe_inv_of_closed {n0 : Nat} {s : State} (keep infile : Int)
    (hc : pipes_closed n0 s) : pipe_inv n0 keep infile s := by
  intro e he hp
  rw [hc e he] at hp
  cases hp

/-- One turn of the loop of `spawn_job` for the last stage: the descriptor
`infile` is closed and no pipe is created. -/
theorem turn_last_closes (n0 : Nat) (j : Nat) (infile : Int) (s s2 : State)
    (hinv : pipe_inv n0 (s.job j).mystdin infile s) (hf : s2.fds = s.fds)
    (hstd : (s2.job j).mystdin = (s.job j).mystdin ∧
      (s2.job j).mystdout = (s.job j).mystdout) :
    pipes_closed n0 (reset_file_ios j infile (s.job j).mystdout s2) := by
  intro e he
  unfold reset_file_ios at he
  rw [mem_close_unless, mem_close_unless, hf, hstd.1] at he
  obtain ⟨⟨hm, hin⟩, _⟩ := he
  cases hp : e.2.pipe_since n0 with
  | false => rfl
  | true =>
    obtain ⟨h1, h2⟩ := hinv e hm hp
    exact absurd h1 (hin h2)

/-- One turn of the loop of `spawn_job` for a stage that has a successor: the
write end of the new pipe and the old `infile` are closed, the read end of the
new pipe is the only pipe end left open. -/
theorem turn_piped_inv (n0 : Nat) (j : Nat) (infile : Int) (rw : Int × Int)
    (s s2 : State)
    (hinv : pipe_inv n0 (s.job j).mystdin infile s)
    (hf : s2.fds = fd_set (fd_set s.fds rw.1 (FileObj.pipe_read s.npipes)) rw.2
      (FileObj.pipe_write s.npipes))
    (hstd : (s2.job j).mystdin = (s.job j).mystdin ∧
      (s2.job j).mystdout = (s.job j).mystdout)
    (hr : rw.1 ≠ (s.job j).mystdin) (hw : rw.2 ≠ (s.job j).mystdout) :
    pipe_inv n0 (s.job j).mystdin rw.1 (reset_file_ios j infile rw.2 s2) := by
  intro e he hp
  unfold reset_file_ios at he
  rw [mem_close_unless, mem_close_unless, hf, hstd.1] at he
  obtain ⟨⟨hm, hin⟩, hout⟩ := he
  have hstd2 : ((close_unless s2 infile (s.job j).mystdin).job j).mystdout =
      (s.job j).mystdout := by
    have : ((close_unless s2 infile (s.job j).mystdin).job j) = s2.job j := by
      unfold close_unless
      split <;> rfl
    rw [this, hstd.2]
  rw [hstd2] at hout
  have hne := hout hw
  rcases (mem_fd_set _ _ _ _).1 hm with rfl | ⟨hm1, _⟩
  · exact absurd rfl hne
  · rcases (mem_fd_set _ _ _ _).1 hm1 with rfl | ⟨hm2, _⟩
    · exact ⟨rfl, hr⟩
    · obtain ⟨h1, h2⟩ := hinv e hm2 hp
      exact absurd h1 (hin h2)

theorem spawn_loop_pipes (h : Headers) (j : Nat) (fg : Bool) (n0 : Nat) :
    ∀ (ps : List process_t) (k : Nat) (mypipe : Int × Int) (infile : Int) (s s' : State),
      (∀ rw, some rw ∈ s.env.pipes →
        rw.1 ≠ (s.job j).mystdin ∧ rw.2 ≠ (s.job j).mystdout) →
      pipe_inv n0 (s.job j).mystdin infile s →
      spawn_loop h j fg ps k mypipe infile s = Outcome.returned s' →
      (∃ infile', pipe_inv n0 (s.job j).mystdin infile' s') ∧
      ((∃ p, ps.getLast? = some p ∧ p.completed = false) → pipes_closed n0 s') := by
  intro ps
  induction ps with
  | nil =>
    intro k mypipe infile s s' _ hinv hret
    simp only [spawn_loop, Outcome.returned.injEq] at hret
    subst hret
    exact ⟨⟨infile, hinv⟩, fun ⟨p, hp, _⟩ => by simp at hp⟩
  | cons p rest ih =>
    intro k mypipe infile s s' hsent hinv hret
    unfold spawn_loop at hret
    split at hret
    · rename_i hcomp
      obtain ⟨h1, h2⟩ := ih _ _ _ _ _ hsent hinv hret
      refine ⟨h1, ?_⟩
      rintro ⟨q, hq, hqc⟩
      cases rest with
      | nil =>
        simp at hq
        subst hq
        rw [hcomp] at hqc
        cases hqc
      | cons r rs => exact h2 ⟨q, by simpa using hq, hqc⟩
    · split at hret
      · cases hret
      · rename_i mypipe1 outfile s1 hop
        split at hret
        · cases hret
        · split at hret
          · exfalso
            unfold spawn_child at hret
            split at hret
            · cases hret
            · unfold child_exec at hret
              split at hret
              · cases hret
              · split at hret <;> cases hret
          · split at hret
            · cases hret
            · rename_i s2 hpar
              have hfiles : same_files s1 s2 := by
                have h1 : same_files s1 (sys_fork s1).2 := ⟨rfl, rfl, rfl⟩
                exact same_files_trans h1 (same_files_spawn_parent _ _ _ _ _ hpar)
              have hq12 : quiet s1 s2 :=
                quiet_trans (quiet_fork s1) (quiet_spawn_parent _ _ _ _ _ hpar)
              have hq1 : quiet s s1 := quiet_open_pipe j _ mypipe s _ hop
              have hstd := quiet_std (quiet_trans hq1 hq12) j
              have hq4 : quiet s (reset_file_ios j infile outfile s2) :=
                quiet_trans (quiet_trans hq1 hq12) (quiet_reset_file_ios j infile outfile s2)
              have hstd4 := quiet_std hq4 j
              have hsame4 := same_spawn_inputs_reset_file_ios j infile outfile s2
              unfold open_pipe at hop
              cases hrest : rest with
              | nil =>
                rw [hrest] at hop hret
                simp only [List.isEmpty_nil, Bool.not_true, Bool.false_eq_true, if_false,
                  Option.some.injEq, Prod.mk.injEq] at hop
                obtain ⟨rfl, rfl, rfl⟩ := hop
                have hcl := turn_last_closes n0 j infile s s2 hinv hfiles.1 hstd
                simp only [spawn_loop, Outcome.returned.injEq] at hret
                subst hret
                exact ⟨⟨infile, pipe_inv_of_closed _ _ hcl⟩, fun _ => hcl⟩
              | cons r rs =>
                rw [hrest] at hop
                simp only [List.isEmpty_cons, Bool.not_false, if_true] at hop
                split at hop
                · rename_i rw hrw
                  simp only [Option.some.injEq, Prod.mk.injEq] at hop
                  obtain ⟨rfl, rfl, rfl⟩ := hop
                  cases hpipes : s.env.pipes with
                  | nil => simp [sys_pipe, hpipes] at hrw
                  | cons x xs =>
                    cases x with
                    | none => simp [sys_pipe, hpipes] at hrw
                    | some rw' =>
                      have hrw' : rw' = rw := by
                        simpa [sys_pipe, hpipes] using hrw
                      subst hrw'
                      have hmem : some rw' ∈ s.env.pipes := by
                        rw [hpipes]; exact List.mem_cons_self _ _
                      obtain ⟨hr1, hr2⟩ := hsent rw' hmem
                      have hfd1 : (sys_pipe s).2.fds =
                          fd_set (fd_set s.fds rw'.1 (FileObj.pipe_read s.npipes)) rw'.2
                            (FileObj.pipe_write s.npipes) := by
                        simp [sys_pipe, hpipes]
                      have hpt : (sys_pipe s).2.env.pipes = xs := by
                        simp [sys_pipe, hpipes]
                      have hinv4 := turn_piped_inv n0 j infile rw' s s2 hinv
                        (hfiles.1.trans hfd1) hstd hr1 hr2
                      have hsent4 : ∀ rw, some rw ∈
                          (reset_file_ios j infile rw'.2 s2).env.pipes →
                          rw.1 ≠ ((reset_file_ios j infile rw'.2 s2).job j).mystdin ∧
                          rw.2 ≠ ((reset_file_ios j infile rw'.2 s2).job j).mystdout := by
                        intro rw hm
                        rw [hstd4.1, hstd4.2]
                        apply hsent
                        rw [hsame4.2.2.2, hfiles.2.2, hpt] at hm
                        rw [hpipes]
                        exact List.mem_cons_of_mem _ hm
                      rw [← hstd4.1] at hinv4
                      obtain ⟨h1, h2⟩ := ih _ _ _ _ _ hsent4 hinv4 hret
                      rw [hstd4.1] at h1
                      refine ⟨h1, ?_⟩
                      rintro ⟨q, hq, hqc⟩
                      exact h2 ⟨q, by simpa [hrest] using hq, hqc⟩
                · cases hop

theorem pipes_closed_spawn_finish (n0 : Nat) (j : Nat) (a b : Int) (s s' : State)
    (hc : pipes_closed n0 s) (hr : spawn_finish j a b s = Outcome.returned s') :
    pipes_closed n0 s' := by
  unfold spawn_finish restore_control at hr
  split at hr
  · cases hr
  · simp only [Outcome.returned.injEq] at hr
    subst hr
    exact pipes_closed_of_fds (same_files_shell_to_foreground j _).1
      (pipes_closed_dup2 n0 _ _ _ (pipes_closed_dup2 n0 _ _ _ hc))

theorem pipes_closed_spawn_end (h : Headers) (n0 : Nat) (j : Nat) (fg : Bool) (a b : Int)
    (s s' : State) (hc : pipes_closed n0 s)
    (hr : spawn_end h j fg a b s = Outcome.returned s') : pipes_closed n0 s' := by
  unfold spawn_end at hr
  split at hr
  · have hw := same_files_wait_loop h j s.env.waits s
    unfold wait_for_job at hr
    split at hr
    · rename_i s3 hw3
      rw [hw3] at hw
      have hp := same_files_put_job_in_foreground h j 0 s3
      split at hr
      · rename_i s4 hp4
        rw [hp4] at hp
        exact pipes_closed_spawn_finish n0 j a b s4 s'
          (pipes_closed_of_fds hp.1 (pipes_closed_of_fds hw.1 hc)) hr
      · rename_i x hx
        exact absurd hr (hx s')
    · rename_i x hx
      exact absurd hr (hx s')
  · have hb := same_files_put_job_in_background j 0 s
    split at hr
    · rename_i s3 hb3
      rw [hb3] at hb
      exact pipes_closed_spawn_finish n0 j a b s3 s' (pipes_closed_of_fds hb.1 hc) hr
    · rename_i x hx
      exact absurd hr (hx s')

/-- C10 as the code has it: when `spawn_job` returns in the shell process for
a job whose last stage is not marked completed, and no `pipe` call has
returned the job's `mystdin` value as read end or its `mystdout` value as write
end, no descriptor of the shell refers any more to an end of a pipe created
during the spawn: every descriptor returned by a `pipe` call of the spawn has
been closed. -/
theorem spawn_job_closes_pipes (h : Headers) (j : Nat) (fg : Bool) (s s' : State)
    (hwf : pipes_closed s.npipes s)
    (hlast : ∃ p, (s.job j).first_process.getLast? = some p ∧ p.completed = false)
    (hclear : ∀ o ∈ s.env.pipes, pipe_ends_clear (s.job j).mystdin (s.job j).mystdout o)
    (hret : spawn_job h j fg s = Outcome.returned s') :
    pipes_closed s.npipes s' := by
  have hsent : ∀ rw, some rw ∈ s.env.pipes →
      rw.1 ≠ (s.job j).mystdin ∧ rw.2 ≠ (s.job j).mystdout :=
    fun rw hm => hclear (some rw) hm
  unfold spawn_job at hret
  split at hret
  · cases hret
  · rename_i job hjob
    have hjob' : job = s.job j := by
      unfold State.job
      rw [List.getD_eq_getElem?_getD, hjob]
      rfl
    subst hjob'
    have hsame := same_spawn_inputs_spawn_begin (s.job j) s
    have hb := pipes_closed_spawn_begin s.npipes (s.job j) s hwf
    have hjb : (spawn_begin (s.job j) s).2.2.2.job j = s.job j := by
      show (spawn_begin (s.job j) s).2.2.2.first_job.getD j default =
        s.first_job.getD j default
      rw [hsame.1]
    split at hret
    · rename_i s2 hl2
      have hsent' : ∀ rw, some rw ∈ (spawn_begin (s.job j) s).2.2.2.env.pipes →
          rw.1 ≠ ((spawn_begin (s.job j) s).2.2.2.job j).mystdin ∧
          rw.2 ≠ ((spawn_begin (s.job j) s).2.2.2.job j).mystdout := by
        rw [hjb, hsame.2.2.2]
        exact hsent
      have hinv : pipe_inv s.npipes ((spawn_begin (s.job j) s).2.2.2.job j).mystdin
          (spawn_begin (s.job j) s).2.2.1 (spawn_begin (s.job j) s).2.2.2 :=
        pipe_inv_of_closed _ _ hb
      obtain ⟨_, h2⟩ := spawn_loop_pipes h j fg s.npipes _ _ _ _ _ s2 hsent' hinv hl2
      exact pipes_closed_spawn_end h s.npipes j fg _ _ s2 s' (h2 hlast) hret
    · rename_i x hx
      exact absurd hret (hx s')

/-- Witness of C10 as the code has it: the pipeline of `parsed_state` spawned
in the foreground; the pipe descriptors 5 and 6 are closed on return. -/
theorem spawn_job_closes_pipes_witness :
    ∃ s', spawn_job sample_headers 0 true (parsed_state exit_waits) =
        Outcome.returned s' ∧
      pipes_closed 0 s' ∧ s'.npipes = 1 ∧
      s'.fds.map (fun e => e.1) = [1, 0, 4, 3, 2] :=
  ⟨_, rfl,
    spawn_job_closes_pipes sample_headers 0 true (parsed_state exit_waits) _
      (by decide) (by decide) (by decide) rfl,
    by decide, by decide⟩

/-- Counterexample of C10: a two-stage job whose second stage is already
marked completed; the `pipe` and `fork` calls of its spawn succeed and
`spawn_job` returns in the shell, but descriptor 5, the read end that the
`pipe` call returned, is still open. -/
theorem spawn_job_leaves_pipe_open :
    ∃ s', spawn_job sample_headers 0 false (half_done_state) = Outcome.returned s' ∧
      s'.trace.take 8 = [Call.dup 0 3, Call.dup 1 4, Call.dup2 0 0, Call.dup2 1 1,
        Call.pipe 5 6, Call.fork 100, Call.setpgid 100 100, Call.close 6] ∧
      (5, FileObj.pipe_read 0) ∈ s'.fds ∧ ¬ pipes_closed 0 s' :=
  ⟨_, rfl, by decide, by decide, by decide⟩



/-! ## Foreground jobs that stop: theorems -/

/-- C7 at the failing input: the pipeline of `parsed_state` is spawned in the
foreground and the waits report that its two processes stop.  After the second
reap the job is fully stopped and not completed, yet `spawn_job` does not
return: `put_job_in_foreground` hands the terminal to the job (group 100) and
waits again, and with no further wait result the shell blocks.  With one more
wait result pending the call returns only after a third `waitpid` call. -/
theorem spawn_job_foreground_stop_waits_again :
    (∃ s', spawn_job sample_headers 0 true (parsed_state stop_waits) = Outcome.blocked s' ∧
      fully_stopped (s'.job 0) ∧ ¬ fully_completed (s'.job 0) ∧
      s'.first_job.length = 1 ∧ waitpid_calls s'.trace = 2 ∧
      s'.trace.drop 11 =
        [Call.waitpid 100 5247, Call.waitpid 101 5247, Call.tcsetpgrp 0 100] ∧
      s'.tty_pgrp = 100) ∧
    (∃ s', spawn_job sample_headers 0 true
        (parsed_state (stop_waits ++ [{ pid := -1, status := 0, errno := 10, tty := none }])) =
        Outcome.returned s' ∧
      fully_stopped (s'.job 0) ∧ ¬ fully_completed (s'.job 0) ∧
      waitpid_calls s'.trace = 3) :=
  ⟨⟨_, rfl, by decide, by decide, by decide, by decide, by decide, by decide⟩,
   ⟨_, rfl, by decide, by decide, by decide⟩⟩

/-- C8 at the failing input: job 0 of `stopped_state` is stopped and is
continued in the foreground.  The call restores the job's saved attributes and
sends `SIGCONT` to its group, but its wait ends with the first reap, which
belongs to job 1 (process 200): the stopped flags of job 0 were never cleared,
so `put_job_in_foreground` returns while job 0 runs, with the next wait result
still pending. -/
theorem put_job_in_foreground_continue_returns_early :
    ∃ s', put_job_in_foreground sample_headers 0 1 (stopped_state other_job_waits) =
        Outcome.returned s' ∧
      s'.trace = [Call.tcsetpgrp 0 100, Call.tcsetattr 0 9, Call.kill (-100) Signal.SIGCONT,
        Call.waitpid 200 0, Call.tcsetpgrp 0 50, Call.tcgetattr 0, Call.tcsetattr 0 7] ∧
      s'.env.waits = [{ pid := 100, status := 5247, errno := 0, tty := none }] ∧
      (s'.job 0).first_process.map (fun p => (p.pid, p.completed, p.stopped, p.status)) =
        [(100, false, true, 5247), (101, false, true, 5247)] :=
  ⟨_, rfl, by decide, by decide, by decide⟩

theorem waitpid_calls_mark (h : Headers) (s : State) (pid status : Int) :
    waitpid_calls (mark_process_status h s pid status).2.trace = waitpid_calls s.trace := by
  unfold mark_process_status
  split
  · split
    · split
      · rfl
      · split
        · simp [State.log, waitpid_calls]
        · rfl
    · simp [State.log, waitpid_calls]
  · split
    · rfl
    · simp [State.log, waitpid_calls]

theorem waitpid_calls_reap (h : Headers) (s : State) (w : WaitResult)
    (rest : List WaitResult) :
    waitpid_calls (reap h s w rest).2.trace = waitpid_calls s.trace + 1 := by
  unfold reap
  rw [waitpid_calls_mark]
  simp [waitpid_step, waitpid_calls]

theorem waitpid_calls_wait_loop (h : Headers) (j : Nat) :
    ∀ (ws : List WaitResult) (s s' : State),
      wait_loop h j ws s = Outcome.returned s' →
      waitpid_calls s.trace + 1 ≤ waitpid_calls s'.trace := by
  intro ws
  induction ws with
  | nil => intro s s' hr; simp [wait_loop] at hr
  | cons w rest ih =>
    intro s s' hr
    have h1 := waitpid_calls_reap h s w rest
    unfold wait_loop at hr
    simp only [] at hr
    split at hr
    · cases hr; omega
    · split at hr
      · cases hr
      · split at hr
        · have := ih _ _ hr
          omega
        · cases hr; omega

theorem waitpid_calls_foreground_begin (job : job_t) (cont : Int) (s : State) :
    waitpid_calls (foreground_begin job cont s).trace = waitpid_calls s.trace := by
  unfold foreground_begin
  simp only []
  split
  · split <;>
      simp [State.log, sys_kill, sys_tcsetattr, sys_tcsetpgrp, waitpid_calls]
  · simp [sys_tcsetpgrp, waitpid_calls]

theorem waitpid_calls_put_job_in_foreground (h : Headers) (j : Nat) (cont : Int)
    (s s' : State) (hr : put_job_in_foreground h j cont s = Outcome.returned s') :
    waitpid_calls s.trace + 1 ≤ waitpid_calls s'.trace := by
  unfold put_job_in_foreground at hr
  split at hr
  · cases hr
  · rename_i job _
    unfold wait_for_job at hr
    split at hr
    · rename_i s3 h3
      have h1 := waitpid_calls_wait_loop h j _ _ _ h3
      rw [waitpid_calls_foreground_begin] at h1
      simp only [Outcome.returned.injEq] at hr
      subst hr
      have h2 := (quiet_shell_to_foreground j s3).2.1
      omega
    · rename_i x hx
      exact absurd hr (hx s')

/-- Every return of `spawn_job (j, true)` in the shell process comes after at
least two `waitpid` calls: the loop of `wait_for_job` called by `spawn_job`, and
the loop of `wait_for_job` called again by `put_job_in_foreground`. -/
theorem spawn_job_foreground_waits_twice (h : Headers) (j : Nat) (s s' : State)
    (hr : spawn_job h j true s = Outcome.returned s') :
    waitpid_calls s.trace + 2 ≤ waitpid_calls s'.trace := by
  unfold spawn_job at hr
  split at hr
  · cases hr
  · rename_i job _
    split at hr
    · rename_i s2 hl2
      have hq : quiet s s2 := by
        have := quiet_spawn_loop h j true job.first_process 0
          ((spawn_begin job s).2.2.2.env.uninit, (spawn_begin job s).2.2.2.env.uninit)
          (spawn_begin job s).2.2.1 (spawn_begin job s).2.2.2
        rw [hl2] at this
        exact quiet_trans (quiet_spawn_begin job s) this
      unfold spawn_end at hr
      simp only [if_true] at hr
      unfold wait_for_job at hr
      split at hr
      · rename_i s3 h3
        have h1 := waitpid_calls_wait_loop h j _ _ _ h3
        split at hr
        · rename_i s4 h4
          have h2 := waitpid_calls_put_job_in_foreground h j 0 s3 s4 h4
          have h5 := quiet_spawn_finish j (spawn_begin job s).1 (spawn_begin job s).2.1 s4
          rw [hr] at h5
          have h6 := h5.2.1
          have h7 := hq.2.1
          omega
        · rename_i x hx
          exact absurd hr (hx s')
      · rename_i x hx
        exact absurd hr (hx s')
    · rename_i x hx
      exact absurd hr (hx s')

theorem mark_process_keeps_stopped (h : Headers) (status : Int) (p : process_t) :
    (mark_process h status p).completed = false →
      (mark_process h status p).stopped = true := by
  unfold mark_process
  split
  · intro _; rfl
  · intro hc; cases hc

theorem mark_processes_keeps_stopped (h : Headers) (pid status : Int) :
    ∀ (ps ps' : List process_t), mark_processes h pid status ps = some ps' →
      (∀ p ∈ ps, p.completed = false → p.stopped = true) →
      ∀ p ∈ ps', p.completed = false → p.stopped = true := by
  intro ps
  induction ps with
  | nil => intro ps' hm; simp [mark_processes] at hm
  | cons q qs ih =>
    intro ps' hm hall p hp
    unfold mark_processes at hm
    split at hm
    · cases hm
      rcases List.mem_cons.1 hp with rfl | hp'
      · exact mark_process_keeps_stopped h status q
      · exact hall p (List.mem_cons_of_mem _ hp')
    · cases hr : mark_processes h pid status qs with
      | none => simp [hr] at hm
      | some rs =>
        simp [hr] at hm
        subst hm
        rcases List.mem_cons.1 hp with rfl | hp'
        · exact hall p (List.mem_cons_self _ _)
        · exact ih rs hr (fun x hx => hall x (List.mem_cons_of_mem _ hx)) p hp'

theorem mark_jobs_keeps_stopped (h : Headers) (pid status : Int) :
    ∀ (js js' : List job_t), mark_jobs h pid status js = some js' →
      ∀ j, fully_stopped (js.getD j default) → fully_stopped (js'.getD j default) := by
  intro js
  induction js with
  | nil => intro js' hm; simp [mark_jobs] at hm
  | cons jb js ih =>
    intro js' hm j hst
    unfold mark_jobs at hm
    split at hm
    · rename_i ps' hps
      cases hm
      cases j with
      | zero =>
        simp only [List.getD_cons_zero] at hst ⊢
        exact mark_processes_keeps_stopped h pid status _ _ hps hst
      | succ m => simpa using hst
    · cases hr : mark_jobs h pid status js with
      | none => simp [hr] at hm
      | some rs =>
        simp [hr] at hm
        subst hm
        cases j with
        | zero => simpa using hst
        | succ m =>
          simp only [List.getD_cons_succ] at hst ⊢
          exact ih rs hr m hst

theorem mark_process_status_keeps_stopped (h : Headers) (s : State) (pid status : Int)
    (j : Nat) (hst : fully_stopped (s.job j)) :
    fully_stopped ((mark_process_status h s pid status).2.job j) := by
  unfold mark_process_status
  split
  · split
    · rename_i js' hm
      have := mark_jobs_keeps_stopped h pid status _ _ hm j hst
      split
      · exact this
      · split
        · exact this
        · exact this
    · exact hst
  · split <;> exact hst

/-- A job whose processes all carry the stopped flag (or are completed) ends
the loop of `wait_for_job` with the first wait result, whatever it reports. -/
theorem wait_for_job_stale_stop (h : Headers) (j : Nat) (s : State) (w : WaitResult)
    (rest : List WaitResult) (hj : j < s.first_job.length)
    (hst : fully_stopped (s.job j)) (hw : s.env.waits = w :: rest) :
    wait_for_job h j s = Outcome.returned (reap h s w rest).2 := by
  unfold wait_for_job
  rw [hw]
  unfold wait_loop
  simp only []
  split
  · rfl
  · have hj' : j < (reap h s w rest).2.first_job.length := by
      rw [reap_length]; exact hj
    rw [getElem?_eq_job _ j hj']
    simp only []
    have hst' : fully_stopped ((reap h s w rest).2.job j) :=
      mark_process_status_keeps_stopped h (waitpid_step s w rest) w.pid w.status j hst
    have hc : ¬ (job_is_stopped ((reap h s w rest).2.job j) = 0 ∧
        job_is_completed ((reap h s w rest).2.job j) = 0) := by
      rw [loop_condition_iff]
      exact fun hn => hn.1 hst'
    rw [if_neg hc]

/-- A stopped job continued in the foreground: `put_job_in_foreground` returns
after one wait result, whatever it reports, because the stopped flags of the
job are still set. -/
theorem put_job_in_foreground_stale_stop (h : Headers) (j : Nat) (cont : Int)
    (s : State) (w : WaitResult) (rest : List WaitResult) (hj : j < s.first_job.length)
    (hst : fully_stopped (s.job j)) (hw : s.env.waits = w :: rest) :
    put_job_in_foreground h j cont s =
      Outcome.returned
        (shell_to_foreground j (reap h (foreground_begin (s.job j) cont s) w rest).2) := by
  unfold put_job_in_foreground
  rw [getElem?_eq_job s j hj]
  simp only []
  have hf := foreground_begin_frame (s.job j) cont s
  have hj2 : j < (foreground_begin (s.job j) cont s).first_job.length := by
    rw [hf.1]; exact hj
  have hst2 : fully_stopped ((foreground_begin (s.job j) cont s).job j) := by
    show fully_stopped ((foreground_begin (s.job j) cont s).first_job.getD j default)
    rw [hf.1]
    exact hst
  rw [wait_for_job_stale_stop h j _ w rest hj2 hst2 (hf.2.1.trans hw)]

/-! ## Failed pipe and fork calls: theorems -/

theorem clean_step_refl (s : State) : clean_step s s :=
  ⟨[], by simp, by intro c hc; cases hc⟩

theorem clean_step_trans {s1 s2 s3 : State} (h12 : clean_step s1 s2)
    (h23 : clean_step s2 s3) : clean_step s1 s3 := by
  obtain ⟨c1, e1, n1⟩ := h12
  obtain ⟨c2, e2, n2⟩ := h23
  refine ⟨c1 ++ c2, by rw [e2, e1, List.append_assoc], ?_⟩
  intro c hc
  rcases List.mem_append.1 hc with hc | hc
  · exact n1 c hc
  · exact n2 c hc

theorem clean_step_keeps {s s' : State} (hs : clean_step s s')
    (hc : no_failed_call s.trace) : no_failed_call s'.trace := by
  obtain ⟨cs, e, n⟩ := hs
  rw [e]
  intro c hm
  rcases List.mem_append.1 hm with hm | hm
  · exact hc c hm
  · exact n c hm

theorem clean_step_of_trace (s s' : State) (cs : List Call)
    (ht : s'.trace = s.trace ++ cs) (hc : no_failed_call cs) : clean_step s s' :=
  ⟨cs, ht, hc⟩

theorem clean_step_of_same (s s' : State) (ht : s'.trace = s.trace) : clean_step s s' :=
  ⟨[], by simp [ht], by intro c hc; cases hc⟩

theorem clean_step_log (s : State) (c : Call) (hc : failed_call c = false) :
    clean_step s (s.log c) :=
  ⟨[c], rfl, by intro d hd; simp at hd; subst hd; exact hc⟩

theorem clean_step_mark (h : Headers) (s : State) (pid status : Int) :
    clean_step s (mark_process_status h s pid status).2 := by
  unfold mark_process_status
  split
  · split
    · split
      · exact clean_step_of_same _ _ rfl
      · split
        · refine ⟨[Call.fprintf_terminated pid (h.WTERMSIG status)], rfl, ?_⟩
          intro d hd
          simp at hd
          subst hd
          rfl
        · exact clean_step_of_same _ _ rfl
    · exact clean_step_log _ _ rfl
  · split
    · exact clean_step_refl _
    · exact clean_step_log _ _ rfl

theorem clean_step_reap (h : Headers) (s : State) (w : WaitResult)
    (rest : List WaitResult) : clean_step s (reap h s w rest).2 := by
  have h1 : clean_step s (waitpid_step s w rest) :=
    ⟨[Call.waitpid w.pid w.status], rfl, by intro d hd; simp at hd; subst hd; rfl⟩
  exact clean_step_trans h1 (clean_step_mark h _ _ _)

theorem clean_step_wait_loop (h : Headers) (j : Nat) :
    ∀ (ws : List WaitResult) (s : State),
      (wait_loop h j ws s).holds (clean_step s) := by
  intro ws
  induction ws with
  | nil => intro s; exact clean_step_refl s
  | cons w rest ih =>
    intro s
    have hr := clean_step_reap h s w rest
    unfold wait_loop
    simp only []
    split
    · exact hr
    · split
      · trivial
      · split
        · exact holds_mono (fun _ hs => clean_step_trans hr hs) _ (ih _)
        · exact hr

theorem no_failed_one (c : Call) (hc : failed_call c = false) : no_failed_call [c] := by
  intro d hd
  simp at hd
  subst hd
  exact hc

theorem clean_step_dup (s : State) (fd : Int) : clean_step s (sys_dup s fd).2 :=
  ⟨[Call.dup fd (sys_dup s fd).1], rfl, no_failed_one _ rfl⟩

theorem clean_step_dup2 (s : State) (a b : Int) : clean_step s (sys_dup2 s a b) :=
  ⟨[Call.dup2 a b], rfl, no_failed_one _ rfl⟩

theorem clean_step_open (s : State) (path : Option String) (m : OpenMode) :
    clean_step s (sys_open s path m).2 :=
  ⟨[Call.open_file path m (sys_open s path m).1], rfl, no_failed_one _ rfl⟩

theorem clean_step_close (s : State) (fd : Int) : clean_step s (sys_close s fd) :=
  ⟨[Call.close fd], rfl, no_failed_one _ rfl⟩

theorem clean_step_getpid (s : State) : clean_step s (sys_getpid s).2 :=
  ⟨[Call.getpid (sys_getpid s).1], rfl, no_failed_one _ rfl⟩

theorem clean_step_setpgid (s : State) (a b : Int) : clean_step s (sys_setpgid s a b).2 :=
  ⟨[Call.setpgid a b], rfl, no_failed_one _ rfl⟩

theorem clean_step_kill (s : State) (a : Int) (g : Signal) :
    clean_step s (sys_kill s a g).2 :=
  ⟨[Call.kill a g], rfl, no_failed_one _ rfl⟩

theorem clean_step_tcsetpgrp (s : State) (a b : Int) : clean_step s (sys_tcsetpgrp s a b) :=
  ⟨[Call.tcsetpgrp a b], rfl, no_failed_one _ rfl⟩

theorem clean_step_tcgetattr (s : State) (a : Int) : clean_step s (sys_tcgetattr s a).2 :=
  ⟨[Call.tcgetattr a], rfl, no_failed_one _ rfl⟩

theorem clean_step_tcsetattr (s : State) (a : Int) (t : termios) :
    clean_step s (sys_tcsetattr s a t) :=
  ⟨[Call.tcsetattr a t], rfl, no_failed_one _ rfl⟩

theorem clean_step_fork (s : State) (hf : (sys_fork s).1 ≠ -1) :
    clean_step s (sys_fork s).2 :=
  ⟨[Call.fork (sys_fork s).1], rfl, no_failed_one _ (by simpa [failed_call] using hf)⟩

theorem clean_step_pipe (s : State) (rw : Int × Int) (hp : (sys_pipe s).1 = some rw) :
    clean_step s (sys_pipe s).2 := by
  unfold sys_pipe at hp ⊢
  split
  · rename_i rw' _
    exact ⟨[Call.pipe rw'.1 rw'.2], rfl, no_failed_one _ rfl⟩
  · rename_i hx
    split at hp
    · rename_i rw'' hh
      exact absurd hh (hx rw'')
    · cases hp

theorem clean_step_modify_job (s : State) (j : Nat) (f : job_t → job_t) :
    clean_step s (s.modify_job j f) :=
  clean_step_of_same _ _ rfl

theorem clean_step_record_pgid (s s' : State) (pgid : Int)
    (hr : record_pgid s pgid = some s') : clean_step s s' := by
  unfold record_pgid at hr
  simp only [] at hr
  split at hr
  · cases hr; exact clean_step_of_same _ _ rfl
  · cases hr

theorem clean_step_spawn_parent (j k : Nat) (pid : Int) (s s' : State)
    (hr : spawn_parent j k pid s = some s') : clean_step s s' := by
  unfold spawn_parent at hr
  simp only [] at hr
  split at hr
  · cases hr
  · rename_i s2 hown
    cases hr
    have h1 : clean_step s (s.set_pid j k pid) := clean_step_of_same _ _ rfl
    have h2 : clean_step (s.set_pid j k pid) s2 := by
      split at hown
      · exact clean_step_trans
          (clean_step_of_same (s.set_pid j k pid) ((s.set_pid j k pid).set_pgid j pid) rfl)
          (clean_step_record_pgid _ _ _ hown)
      · cases hown; exact clean_step_refl _
    exact clean_step_trans (clean_step_trans h1 h2) (clean_step_setpgid _ _ _)

theorem clean_step_child_join_group (j k : Nat) (fg : Bool) (s s' : State)
    (hr : child_join_group j k fg s = some s') : clean_step s s' := by
  unfold child_join_group at hr
  simp only [] at hr
  split at hr
  · cases hr
  · rename_i s1 hown
    cases hr
    have h1 : clean_step s s1 := by
      split at hown
      · exact clean_step_trans
          (clean_step_trans (clean_step_getpid _) (clean_step_modify_job _ j _))
          (clean_step_record_pgid _ _ _ hown)
      · cases hown; exact clean_step_refl _
    have h2 : clean_step s1 (s1.set_pid j k 0) := clean_step_modify_job _ j _
    have h3 := clean_step_setpgid (s1.set_pid j k 0) 0 ((s1.set_pid j k 0).job j).pgid
    refine clean_step_trans h1 (clean_step_trans h2 ?_)
    split
    · split
      · exact clean_step_trans h3 (clean_step_tcsetpgrp _ _ _)
      · exact h3
    · exact h3

theorem clean_step_redirect (s : State) (fd target : Int) :
    clean_step s (redirect s fd target) := by
  unfold redirect
  split
  · exact clean_step_trans (clean_step_dup2 _ _ _) (clean_step_close _ _)
  · exact clean_step_refl s

theorem clean_step_child_redirect (j : Nat) (infile outfile : Int) (s : State) :
    clean_step s (child_redirect j infile outfile s) :=
  clean_step_trans (clean_step_trans (clean_step_redirect _ _ _) (clean_step_redirect _ _ _))
    (clean_step_redirect _ _ _)

theorem clean_step_child_exec (p : process_t) (s : State) :
    (child_exec p s).holds (clean_step s) := by
  unfold child_exec
  split
  · trivial
  · split
    · exact ⟨[Call.execvp p.argv 0], rfl, no_failed_one _ rfl⟩
    · refine ⟨[Call.execvp p.argv (-1), Call.perror "execvp", Call.exit 1], rfl, ?_⟩
      intro d hd
      simp at hd
      rcases hd with rfl | rfl | rfl <;> rfl

theorem clean_step_spawn_child (j k : Nat) (fg : Bool) (p : process_t)
    (infile outfile : Int) (s : State) :
    (spawn_child j k fg p infile outfile s).holds (clean_step s) := by
  unfold spawn_child
  split
  · trivial
  · rename_i s3 hj
    have h1 := clean_step_child_join_group j k fg s s3 hj
    have h2 := clean_step_child_redirect j infile outfile
      (s3.log (Call.signal_default Signal.SIGTTOU))
    exact holds_mono
      (fun _ hs => clean_step_trans h1
        (clean_step_trans (clean_step_log _ (Call.signal_default Signal.SIGTTOU) rfl)
          (clean_step_trans h2 hs))) _
      (clean_step_child_exec p _)

theorem clean_step_close_unless (s : State) (fd keep : Int) :
    clean_step s (close_unless s fd keep) := by
  unfold close_unless
  split
  · exact clean_step_close _ _
  · exact clean_step_refl s

theorem clean_step_reset_file_ios (j : Nat) (infile outfile : Int) (s : State) :
    clean_step s (reset_file_ios j infile outfile s) :=
  clean_step_trans (clean_step_close_unless _ _ _) (clean_step_close_unless _ _ _)

theorem clean_step_open_pipe (j : Nat) (b : Bool) (mypipe : Int × Int) (s : State)
    (r : (Int × Int) × Int × State) (hr : open_pipe j b mypipe s = some r) :
    clean_step s r.2.2 := by
  unfold open_pipe at hr
  split at hr
  · split at hr
    · rename_i rw hrw
      cases hr
      exact clean_step_pipe s rw hrw
    · cases hr
  · cases hr; exact clean_step_refl s

theorem clean_step_foreground_begin (job : job_t) (cont : Int) (s : State) :
    clean_step s (foreground_begin job cont s) := by
  unfold foreground_begin
  split
  · have h1 := clean_step_tcsetpgrp s s.shell_terminal job.pgid
    have h2 := clean_step_tcsetattr (sys_tcsetpgrp s s.shell_terminal job.pgid)
      s.shell_terminal job.tmodes
    have h3 := clean_step_kill
      (sys_tcsetattr (sys_tcsetpgrp s s.shell_terminal job.pgid) s.shell_terminal
        job.tmodes) (-job.pgid) Signal.SIGCONT
    have h4 := clean_step_trans (clean_step_trans h1 h2) h3
    simp only []
    split
    · exact clean_step_trans h4 (clean_step_log _ (Call.perror "kill (SIGCONT)") rfl)
    · exact h4
  · exact clean_step_tcsetpgrp _ _ _

theorem clean_step_shell_to_foreground (j : Nat) (s : State) :
    clean_step s (shell_to_foreground j s) := by
  unfold shell_to_foreground
  have h1 := clean_step_tcsetpgrp s s.shell_terminal s.shell_pgid
  have h2 := clean_step_tcgetattr (sys_tcsetpgrp s s.shell_terminal s.shell_pgid)
    s.shell_terminal
  exact clean_step_trans (clean_step_trans (clean_step_trans h1 h2)
    (clean_step_modify_job _ j _)) (clean_step_tcsetattr _ _ _)

theorem clean_step_wait_for_job (h : Headers) (j : Nat) (s : State) :
    (wait_for_job h j s).holds (clean_step s) :=
  clean_step_wait_loop h j s.env.waits s

theorem clean_step_put_job_in_foreground (h : Headers) (j : Nat) (cont : Int) (s : State) :
    (put_job_in_foreground h j cont s).holds (clean_step s) := by
  unfold put_job_in_foreground
  split
  · trivial
  · rename_i job _
    have h1 := clean_step_foreground_begin job cont s
    have h2 := clean_step_wait_for_job h j (foreground_begin job cont s)
    split
    · rename_i s3 h3
      rw [h3] at h2
      exact clean_step_trans h1 (clean_step_trans h2 (clean_step_shell_to_foreground j s3))
    · exact holds_mono (fun _ hs => clean_step_trans h1 hs) _ h2

theorem clean_step_put_job_in_background (j : Nat) (cont : Int) (s : State) :
    (put_job_in_background j cont s).holds (clean_step s) := by
  unfold put_job_in_background
  split
  · split
    · trivial
    · rename_i job _
      have h1 := clean_step_kill s (-job.pgid) Signal.SIGCONT
      show clean_step s _
      split
      · exact clean_step_trans h1 (clean_step_log _ (Call.perror "kill (SIGCONT)") rfl)
      · exact h1
  · exact clean_step_refl s

theorem clean_step_restore_control (j : Nat) (s : State) :
    (restore_control j s).holds (clean_step s) := by
  unfold restore_control
  split
  · trivial
  · exact clean_step_shell_to_foreground j s

theorem clean_step_spawn_finish (j : Nat) (a b : Int) (s : State) :
    (spawn_finish j a b s).holds (clean_step s) := by
  unfold spawn_finish
  exact holds_mono
    (fun _ hs => clean_step_trans
      (clean_step_trans (clean_step_dup2 s a 0) (clean_step_dup2 _ b 1)) hs) _
    (clean_step_restore_control j _)

theorem clean_step_spawn_end (h : Headers) (j : Nat) (fg : Bool) (a b : Int) (s : State) :
    (spawn_end h j fg a b s).holds (clean_step s) := by
  unfold spawn_end
  split
  · have h1 := clean_step_wait_for_job h j s
    split
    · rename_i s3 h3
      rw [h3] at h1
      have h2 := clean_step_put_job_in_foreground h j 0 s3
      split
      · rename_i s4 h4
        rw [h4] at h2
        exact holds_mono (fun _ hs => clean_step_trans h1 (clean_step_trans h2 hs)) _
          (clean_step_spawn_finish j a b s4)
      · exact holds_mono (fun _ hs => clean_step_trans h1 hs) _ h2
    · exact h1
  · have h1 := clean_step_put_job_in_background j 0 s
    split
    · rename_i s3 h3
      rw [h3] at h1
      exact holds_mono (fun _ hs => clean_step_trans h1 hs) _
        (clean_step_spawn_finish j a b s3)
    · exact h1

theorem clean_step_open_redirect (s : State) (fd std : Int) (path : Option String)
    (m : OpenMode) : clean_step s (open_redirect s fd std path m).2 := by
  unfold open_redirect
  split
  · exact clean_step_open _ _ _
  · exact clean_step_refl s

theorem clean_step_spawn_begin (job : job_t) (s : State) :
    clean_step s (spawn_begin job s).2.2.2 := by
  unfold spawn_begin
  exact clean_step_trans (clean_step_trans (clean_step_trans (clean_step_trans
    (clean_step_trans (clean_step_dup s 0) (clean_step_dup _ 1))
    (clean_step_open_redirect _ _ _ _ _)) (clean_step_open_redirect _ _ _ _ _))
    (clean_step_dup2 _ _ _)) (clean_step_dup2 _ _ _)

theorem sys_pipe_failed_trace (s : State) (hp : (sys_pipe s).1 = none) :
    (sys_pipe s).2.trace = s.trace ++ [Call.pipe_failed] := by
  unfold sys_pipe at hp ⊢
  split
  · rename_i hh
    rw [hh] at hp
    cases hp
  · rfl

theorem failure_is_fatal_of_clean (h : Headers) (s : State)
    (hs : no_failed_call s.trace) :
    ∀ o : Outcome, o.holds (clean_step s) → failure_is_fatal h o
  | Outcome.returned _, ho => clean_step_keeps ho hs
  | Outcome.blocked _, ho => clean_step_keeps ho hs
  | Outcome.exited _ _, ho => Or.inl (clean_step_keeps ho hs)
  | Outcome.execed _, ho => clean_step_keeps ho hs
  | Outcome.undefined, _ => trivial

theorem spawn_loop_failure_is_fatal (h : Headers) (j : Nat) (fg : Bool) :
    ∀ (ps : List process_t) (k : Nat) (mypipe : Int × Int) (infile : Int) (s : State),
      no_failed_call s.trace →
      failure_is_fatal h (spawn_loop h j fg ps k mypipe infile s) := by
  intro ps
  induction ps with
  | nil => intro k mypipe infile s hs; exact hs
  | cons p rest ih =>
    intro k mypipe infile s hs
    unfold spawn_loop
    split
    · exact ih _ _ _ _ hs
    · split
      · rename_i hnone
        refine Or.inr ⟨s.trace, hs, Or.inl ⟨?_, rfl⟩⟩
        have hp : (sys_pipe s).1 = none := by
          unfold open_pipe at hnone
          split at hnone
          · split at hnone
            · cases hnone
            · assumption
          · cases hnone
        show ((sys_pipe s).2.trace ++ [Call.perror "pipe"]) ++ [Call.exit 1] = _
        rw [sys_pipe_failed_trace s hp]
        simp
      · rename_i mypipe1 outfile s1 hsome
        have h1 : clean_step s s1 := clean_step_open_pipe j _ mypipe s _ hsome
        have hs1 := clean_step_keeps h1 hs
        split
        · rename_i hf
          refine Or.inr ⟨s1.trace, hs1, Or.inr ⟨?_, rfl⟩⟩
          show ((s1.trace ++ [Call.fork (sys_fork s1).1]) ++ [Call.perror "fork"]) ++
            [Call.exit h.EXIT_FAILURE] = _
          rw [hf]
          simp
        · rename_i hf
          have h2 := clean_step_fork s1 hf
          have hs2 := clean_step_keeps h2 hs1
          split
          · exact failure_is_fatal_of_clean h _ hs2 _ (clean_step_spawn_child _ _ _ _ _ _ _)
          · split
            · trivial
            · rename_i s2 hp
              have h3 := clean_step_spawn_parent _ _ _ _ _ hp
              have hs3 := clean_step_keeps h3 hs2
              exact ih _ _ _ _
                (clean_step_keeps (clean_step_reset_file_ios j infile outfile s2) hs3)

/-- C14 as the code has it: in a run of `spawn_job` that starts with no failed
`pipe` or `fork` call in the trace, a failed `pipe` or `fork` call ends the
process that made it, the shell included: when `spawn_job` returns, blocks or
reaches `execvp`, no `pipe` and no `fork` call has failed, and when a `pipe`
or `fork` call fails it is the first failed call, it is followed by `perror`
and `exit` only, and the process exits with status 1 after a failed `pipe` and
with `EXIT_FAILURE` after a failed `fork`. -/
theorem spawn_job_failure_exits (h : Headers) (j : Nat) (fg : Bool) (s : State)
    (hs : no_failed_call s.trace) : failure_is_fatal h (spawn_job h j fg s) := by
  unfold spawn_job
  split
  · trivial
  · rename_i job _
    have hb := clean_step_keeps (clean_step_spawn_begin job s) hs
    have hl := spawn_loop_failure_is_fatal h j fg job.first_process 0
      ((spawn_begin job s).2.2.2.env.uninit, (spawn_begin job s).2.2.2.env.uninit)
      (spawn_begin job s).2.2.1 (spawn_begin job s).2.2.2 hb
    split
    · rename_i s2 h2
      rw [h2] at hl
      exact failure_is_fatal_of_clean h s2 hl _ (clean_step_spawn_end h j fg _ _ s2)
    · exact hl

theorem spawn_job_failure_exits_witness :
    no_failed_call
        ({ parsed_state exit_waits with
           env := { spawn_env exit_waits with forks := [-1] } } : State).trace ∧
      failure_is_fatal sample_headers
        (spawn_job sample_headers 0 true
          { parsed_state exit_waits with
            env := { spawn_env exit_waits with forks := [-1] } }) :=
  ⟨by decide, spawn_job_failure_exits sample_headers 0 true _ (by decide)⟩

/-- Counterexample of C14: the `pipe` call of the spawn of the pipeline of
`parsed_state` fails; `spawn_job` does not return to its caller, the shell
process prints the error and exits with status 1. -/
theorem spawn_job_pipe_failure_exits :
    ∃ s', spawn_job sample_headers 0 true
        { parsed_state exit_waits with
          env := { spawn_env exit_waits with pipes := [none] } } =
        Outcome.exited 1 s' ∧
      s'.trace.drop 4 = [Call.pipe_failed, Call.perror "pipe", Call.exit 1] :=
  ⟨_, rfl, by decide⟩

/-! ## Pipe ends held by a child: theorems -/

/-- C12 fails in the code: in the child of stage 0 of the two-stage pipeline of
`parsed_state` (the first `fork` returns 0, the pipe is the pair of
descriptors 5 and 6), at the moment of `execvp` descriptor 1 is the write end
of pipe 0 and descriptor 5 is still open on the read end of the same pipe: the
child branch of `spawn_job` closes `outfile` after the `dup2`, and never closes
`mypipe[0]`. -/
theorem spawn_job_child_keeps_read_end :
    ∃ s', spawn_job sample_headers 0 true
        { parsed_state [] with
          env := { spawn_env [] with
                   forks := [0]
                   getpids := [100]
                   execs := [true] } } =
        Outcome.execed s' ∧
      fd_lookup s'.fds 1 = some (FileObj.pipe_write 0) ∧
      fd_lookup s'.fds 6 = none ∧
      fd_lookup s'.fds 5 = some (FileObj.pipe_read 0) ∧
      Call.close 5 ∉ s'.trace :=
  ⟨_, rfl, by decide⟩

/-! ## Descriptors of a child at `execvp`: theorems -/

theorem fd_lookup_close (fds : List (Int × FileObj)) (x y : Int) :
    fd_lookup (fd_close fds x) y = if y = x then none else fd_lookup fds y := by
  induction fds with
  | nil => simp [fd_lookup, fd_close]
  | cons e t ih =>
    unfold fd_lookup fd_close at ih ⊢
    by_cases hex : e.1 = x
    · rw [List.filter_cons_of_neg (by simpa using hex), ih]
      by_cases hy : y = x
      · simp [hy]
      · have hey : ¬ e.1 = y := by rw [hex]; exact fun hh => hy hh.symm
        simp [hy, List.find?_cons, hey]
    · rw [List.filter_cons_of_pos (by simpa using hex)]
      by_cases hey : e.1 = y
      · have hy : ¬ y = x := by rw [← hey]; exact hex
        simp [List.find?_cons, hey, hy]
      · simp only [List.find?_cons, hey, decide_False]
        exact ih

theorem fd_lookup_set (fds : List (Int × FileObj)) (x y : Int) (o : FileObj) :
    fd_lookup (fd_set fds x o) y = if y = x then some o else fd_lookup fds y := by
  by_cases hy : y = x
  · simp [fd_set, fd_lookup, List.find?_cons, hy]
  · have hxy : ¬ x = y := fun hh => hy hh.symm
    have hc := fd_lookup_close fds x y
    unfold fd_lookup at hc ⊢
    simp only [fd_set, List.find?_cons, hxy, decide_False, hy, if_false] at hc ⊢
    exact hc

theorem lookup_close (s : State) (x y : Int) :
    fd_lookup (sys_close s x).fds y = if y = x then none else fd_lookup s.fds y :=
  fd_lookup_close s.fds x y

theorem lookup_dup2_other (s : State) (a b y : Int) (hy : y ≠ b) :
    fd_lookup (sys_dup2 s a b).fds y = fd_lookup s.fds y := by
  unfold sys_dup2
  simp only []
  split
  · split
    · rfl
    · rw [fd_lookup_set, if_neg hy]
  · rfl

theorem lookup_dup2_target (s : State) (a b : Int) (o : FileObj)
    (ha : fd_lookup s.fds a = some o) (hb : 0 ≤ b) :
    fd_lookup (sys_dup2 s a b).fds b = some o := by
  unfold sys_dup2
  simp only [ha]
  split
  · rename_i hh
    rcases hh with hh | hh
    · rw [← hh]; exact ha
    · omega
  · rw [fd_lookup_set, if_pos rfl]

theorem dup2_closed (s : State) (a b : Int) (ha : fd_lookup s.fds a = none) :
    (sys_dup2 s a b).fds = s.fds := by
  unfold sys_dup2
  simp only [ha]

theorem lookup_redirect_other (s : State) (fd target y : Int) (hy : y ≠ target)
    (hf : y ≠ fd) : fd_lookup (redirect s fd target).fds y = fd_lookup s.fds y := by
  unfold redirect
  split
  · rw [lookup_close, if_neg hf, lookup_dup2_other s fd target y hy]
  · rfl

theorem lookup_redirect_target (s : State) (fd target : Int) (o : FileObj)
    (ha : fd_lookup s.fds fd = some o) (hb : 0 ≤ target) :
    fd_lookup (redirect s fd target).fds target = some o := by
  unfold redirect
  split
  · rename_i hne
    rw [lookup_close, if_neg (fun hh => hne hh.symm), lookup_dup2_target s fd target o ha hb]
  · rename_i hne
    have he : fd = target := not_not.1 hne
    rw [← he]
    exact ha

theorem lookup_redirect_closed (s : State) (fd target y : Int)
    (ha : fd_lookup s.fds fd = none) (hf : y ≠ fd) :
    fd_lookup (redirect s fd target).fds y = fd_lookup s.fds y := by
  unfold redirect
  split
  · rw [lookup_close, if_neg hf, dup2_closed s fd target ha]
  · rfl

theorem redirect_npipes (s : State) (fd target : Int) :
    (redirect s fd target).npipes = s.npipes := by
  unfold redirect
  split <;> rfl

theorem redirect_first_job (s : State) (fd target : Int) :
    (redirect s fd target).first_job = s.first_job := by
  unfold redirect
  split <;> rfl
theorem quiet_stderr {s s' : State} (hq : quiet s s') (j : Nat) :
    (s'.job j).mystderr = (s.job j).mystderr := by
  obtain ⟨_, _, hc⟩ := hq
  have h1 : job_core (s'.job j) = job_core (s.job j) := by
    unfold State.job
    rw [← getD_map_core, ← getD_map_core, hc]
  have h2 : (job_core (s'.job j)).mystderr = (job_core (s.job j)).mystderr := by rw [h1]
  exact h2

theorem same_files_child_join_group (j k : Nat) (fg : Bool) (s s' : State)
    (hr : child_join_group j k fg s = some s') : same_files s s' := by
  unfold child_join_group at hr
  simp only [] at hr
  split at hr
  · cases hr
  · rename_i s1 hown
    cases hr
    have h1 : same_files s s1 := by
      split at hown
      · have h2 : same_files s ((sys_getpid s).2.set_pgid j (sys_getpid s).1) :=
          ⟨rfl, rfl, rfl⟩
        exact same_files_trans h2 (same_files_record_pgid _ _ _ hown)
      · cases hown; exact same_files_refl _
    refine same_files_trans h1 ?_
    split
    · split
      · exact ⟨rfl, rfl, rfl⟩
      · exact ⟨rfl, rfl, rfl⟩
    · exact ⟨rfl, rfl, rfl⟩

theorem record_pgid_forks (s s' : State) (pgid : Int)
    (hr : record_pgid s pgid = some s') : s'.env.forks = s.env.forks := by
  unfold record_pgid at hr
  simp only [] at hr
  split at hr
  · cases hr; rfl
  · cases hr

theorem spawn_parent_forks (j k : Nat) (pid : Int) (s s' : State)
    (hr : spawn_parent j k pid s = some s') : s'.env.forks = s.env.forks := by
  unfold spawn_parent at hr
  simp only [] at hr
  split at hr
  · cases hr
  · rename_i s2 hown
    cases hr
    show s2.env.forks = s.env.forks
    split at hown
    · exact record_pgid_forks ((s.set_pid j k pid).set_pgid j pid) s2 pid hown
    · cases hown; rfl

/-- The descriptor table of a child at `execvp`, for a job whose `mystderr` is
`STDERR_FILENO`: the table at the `fork` after the redirections of `infile`
onto standard input and of `outfile` onto standard output. -/
theorem spawn_child_execed (j k : Nat) (fg : Bool) (p : process_t) (infile outfile : Int)
    (s s' : State) (herr : (s.job j).mystderr = STDERR_FILENO)
    (hr : spawn_child j k fg p infile outfile s = Outcome.execed s') :
    ∃ s0, s0.fds = s.fds ∧ s'.npipes = s.npipes ∧
      s'.fds = (redirect (redirect s0 infile STDIN_FILENO) outfile STDOUT_FILENO).fds := by
  unfold spawn_child at hr
  split at hr
  · cases hr
  · rename_i s3 hj
    have hf := same_files_child_join_group j k fg s s3 hj
    have hq := quiet_child_join_group j k fg s s3 hj
    have he : ((s3.log (Call.signal_default Signal.SIGTTOU)).job j).mystderr =
        STDERR_FILENO := by
      rw [← herr, ← quiet_stderr hq j]
      rfl
    refine ⟨s3.log (Call.signal_default Signal.SIGTTOU), hf.1, ?_, ?_⟩
    · unfold child_exec at hr
      split at hr
      · cases hr
      · split at hr
        · cases hr
          show (child_redirect j infile outfile _).npipes = s.npipes
          unfold child_redirect
          rw [redirect_npipes, redirect_npipes, redirect_npipes]
          exact hf.2.1
        · cases hr
    · have hred : child_redirect j infile outfile
          (s3.log (Call.signal_default Signal.SIGTTOU)) =
          redirect (redirect (s3.log (Call.signal_default Signal.SIGTTOU)) infile
            STDIN_FILENO) outfile STDOUT_FILENO := by
        unfold child_redirect
        have hj2 : ((redirect (redirect (s3.log (Call.signal_default Signal.SIGTTOU))
            infile STDIN_FILENO) outfile STDOUT_FILENO).job j).mystderr =
            STDERR_FILENO := by
          rw [← he]
          unfold State.job
          rw [redirect_first_job, redirect_first_job]
        rw [hj2]
        unfold redirect
        simp
      unfold child_exec at hr
      split at hr
      · cases hr
      · split at hr
        · cases hr
          show (child_redirect j infile outfile _).fds = _
          rw [hred]
        · cases hr

theorem child_stdout_piped (s0 : State) (infile outfile : Int) (o : FileObj)
    (ho : fd_lookup s0.fds outfile = some o) (h0 : outfile ≠ STDIN_FILENO)
    (hi : outfile ≠ infile) :
    fd_lookup (redirect (redirect s0 infile STDIN_FILENO) outfile STDOUT_FILENO).fds
      STDOUT_FILENO = some o := by
  apply lookup_redirect_target
  · rw [lookup_redirect_other s0 infile STDIN_FILENO outfile h0 hi]
    exact ho
  · decide

theorem child_stdin (s0 : State) (infile outfile : Int) (o : FileObj)
    (ho : fd_lookup s0.fds infile = some o) (h0 : outfile ≠ STDIN_FILENO) :
    fd_lookup (redirect (redirect s0 infile STDIN_FILENO) outfile STDOUT_FILENO).fds
      STDIN_FILENO = some o := by
  rw [lookup_redirect_other _ outfile STDOUT_FILENO STDIN_FILENO (by decide)
    (fun hh => h0 hh.symm)]
  exact lookup_redirect_target s0 infile STDIN_FILENO o ho (by decide)

theorem child_stdout_kept (s0 : State) (infile outfile : Int)
    (ho : fd_lookup s0.fds outfile = none) (h0 : outfile ≠ STDIN_FILENO)
    (h1 : infile ≠ STDOUT_FILENO) (h2 : outfile ≠ STDOUT_FILENO) :
    fd_lookup (redirect (redirect s0 infile STDIN_FILENO) outfile STDOUT_FILENO).fds
      STDOUT_FILENO = fd_lookup s0.fds STDOUT_FILENO := by
  have hc : fd_lookup (redirect s0 infile STDIN_FILENO).fds outfile = none := by
    unfold redirect
    split
    · rw [lookup_close]
      split
      · rfl
      · rw [lookup_dup2_other s0 infile STDIN_FILENO outfile h0]
        exact ho
    · exact ho
  rw [lookup_redirect_closed _ outfile STDOUT_FILENO STDOUT_FILENO hc
    (fun hh => h2 hh.symm)]
  exact lookup_redirect_other s0 infile STDIN_FILENO STDOUT_FILENO (by decide)
    (fun hh => h1 hh.symm)

theorem lookup_close_unless (s : State) (fd keep y : Int) :
    fd_lookup (close_unless s fd keep).fds y =
      if y = fd ∧ fd ≠ keep then none else fd_lookup s.fds y := by
  unfold close_unless
  split
  · rename_i hk
    rw [lookup_close]
    by_cases hy : y = fd
    · simp [hy, hk]
    · simp [hy]
  · rename_i hk
    have hk2 : fd = keep := not_not.1 hk
    simp [hk2]

theorem lookup_reset_file_ios (j : Nat) (infile outfile : Int) (s : State) (y : Int) :
    fd_lookup (reset_file_ios j infile outfile s).fds y =
      if y = outfile ∧ outfile ≠ (s.job j).mystdout then none
      else if y = infile ∧ infile ≠ (s.job j).mystdin then none
      else fd_lookup s.fds y := by
  unfold reset_file_ios
  rw [lookup_close_unless, lookup_close_unless]
  have hj : ((close_unless s infile (s.job j).mystdin).job j).mystdout =
      (s.job j).mystdout := by
    unfold close_unless
    split <;> rfl
  rw [hj]

theorem reset_file_ios_frame (j : Nat) (infile outfile : Int) (s : State) :
    (reset_file_ios j infile outfile s).first_job = s.first_job ∧
    (reset_file_ios j infile outfile s).env = s.env ∧
    (reset_file_ios j infile outfile s).npipes = s.npipes := by
  unfold reset_file_ios close_unless
  split <;> split <;> exact ⟨rfl, rfl, rfl⟩

theorem open_pipe_next (j : Nat) (mypipe : Int × Int) (s : State)
    (r : (Int × Int) × Int × State) (hr : open_pipe j true mypipe s = some r) :
    ∃ tl, s.env.pipes = some r.1 :: tl ∧ r.2.1 = r.1.2 ∧ r.2.2.env.pipes = tl ∧
      r.2.2.npipes = s.npipes + 1 ∧ r.2.2.first_job = s.first_job ∧
      r.2.2.env.forks = s.env.forks ∧
      r.2.2.fds = fd_set (fd_set s.fds r.1.1 (FileObj.pipe_read s.npipes)) r.1.2
        (FileObj.pipe_write s.npipes) := by
  unfold open_pipe at hr
  simp only [if_true] at hr
  split at hr
  · rename_i rw hrw
    cases hr
    unfold sys_pipe at hrw ⊢
    split at hrw
    · rename_i rw2 hh
      simp only [Option.some.injEq] at hrw
      subst hrw
      refine ⟨s.env.pipes.tail, ?_, rfl, rfl, rfl, rfl, rfl, rfl⟩
      cases hp : s.env.pipes with
      | nil => rw [hp] at hh; cases hh
      | cons a tl =>
        rw [hp] at hh
        simp only [List.head?_cons, Option.some.injEq] at hh
        rw [hh]
        rfl
    · cases hrw
  · cases hr

/-- One turn of the loop of `spawn_job` in the process for which `fork`
returns `f`, not 0: when the run ends by a return or by `execvp`, the `pipe`
call of the turn, if any, has succeeded, `f` is the pid of a child, and the run
goes on with the next stage after the parent branch and the closes. -/
theorem spawn_loop_step_parent (h : Headers) (j : Nat) (fg : Bool) (p : process_t)
    (rest : List process_t) (k : Nat) (mypipe : Int × Int) (infile : Int) (s s' : State)
    (f : Int) (fs : List Int) (hp : p.completed = false) (hforks : s.env.forks = f :: fs)
    (hf : f ≠ 0)
    (hlive : spawn_loop h j fg (p :: rest) k mypipe infile s = Outcome.returned s' ∨
      spawn_loop h j fg (p :: rest) k mypipe infile s = Outcome.execed s') :
    ∃ mypipe1 outfile s1 s2,
      open_pipe j (!rest.isEmpty) mypipe s = some (mypipe1, outfile, s1) ∧
      s1.env.forks = f :: fs ∧
      spawn_parent j k f (sys_fork s1).2 = some s2 ∧
      spawn_loop h j fg rest (k + 1) mypipe1 mypipe1.1
        (reset_file_ios j infile outfile s2) =
        spawn_loop h j fg (p :: rest) k mypipe infile s := by
  have hforks1 : ∀ r, open_pipe j (!rest.isEmpty) mypipe s = some r →
      r.2.2.env.forks = f :: fs := by
    intro r hr
    rw [← hforks]
    cases hb : (!rest.isEmpty) with
    | true =>
      rw [hb] at hr
      obtain ⟨_, _, _, _, _, _, hfk, _⟩ := open_pipe_next j mypipe s r hr
      exact hfk
    | false =>
      rw [hb] at hr
      unfold open_pipe at hr
      simp only [Bool.false_eq_true, if_false, Option.some.injEq] at hr
      rw [← hr]
  rw [spawn_loop] at hlive ⊢
  simp only [hp, Bool.false_eq_true, if_false] at hlive ⊢
  cases hop : open_pipe j (!rest.isEmpty) mypipe s with
  | none =>
    rw [hop] at hlive
    rcases hlive with hl | hl <;> cases hl
  | some r =>
    obtain ⟨mypipe1, outfile, s1⟩ := r
    have hfk : s1.env.forks = f :: fs := hforks1 _ hop
    have hfv : (sys_fork s1).1 = f := by
      unfold sys_fork
      simp [hfk]
    rw [hop] at hlive
    simp only [hfv, hf, if_false] at hlive ⊢
    by_cases hneg : f = -1
    · simp only [hneg, if_true] at hlive
      rcases hlive with hl | hl <;> cases hl
    · simp only [hneg, if_false] at hlive ⊢
      cases hsp : spawn_parent j k f (sys_fork s1).2 with
      | none =>
        rw [hsp] at hlive
        rcases hlive with hl | hl <;> cases hl
      | some s2 =>
        exact ⟨mypipe1, outfile, s1, s2, rfl, hfk, hsp, rfl⟩
theorem parent_turn_frame (j k : Nat) (f : Int) (b : Bool) (mypipe : Int × Int)
    (infile : Int) (s : State) (m1 : Int × Int) (outfile : Int) (s1 s2 : State)
    (hop : open_pipe j b mypipe s = some (m1, outfile, s1))
    (hsp : spawn_parent j k f (sys_fork s1).2 = some s2) :
    (reset_file_ios j infile outfile s2).env.forks = s1.env.forks.tail ∧
    (reset_file_ios j infile outfile s2).npipes = s1.npipes ∧
    (reset_file_ios j infile outfile s2).env.pipes = s1.env.pipes ∧
    (((reset_file_ios j infile outfile s2).job j).mystdin = (s.job j).mystdin ∧
     ((reset_file_ios j infile outfile s2).job j).mystdout = (s.job j).mystdout ∧
     ((reset_file_ios j infile outfile s2).job j).mystderr = (s.job j).mystderr) ∧
    ∀ y, fd_lookup (reset_file_ios j infile outfile s2).fds y =
      if y = outfile ∧ outfile ≠ (s.job j).mystdout then none
      else if y = infile ∧ infile ≠ (s.job j).mystdin then none
      else fd_lookup s1.fds y := by
  have hq1 : quiet s s1 := quiet_open_pipe j b mypipe s _ hop
  have hq2 : quiet s1 s2 :=
    quiet_trans (quiet_fork s1) (quiet_spawn_parent j k f _ s2 hsp)
  have hq : quiet s s2 := quiet_trans hq1 hq2
  have hfr := reset_file_ios_frame j infile outfile s2
  have hsf := same_files_spawn_parent j k f _ s2 hsp
  have hfk := spawn_parent_forks j k f _ s2 hsp
  have hjob : (reset_file_ios j infile outfile s2).job j = s2.job j := by
    unfold State.job
    rw [hfr.1]
  refine ⟨?_, ?_, ?_, ⟨?_, ?_, ?_⟩, ?_⟩
  · rw [hfr.2.1, hfk]; rfl
  · rw [hfr.2.2, hsf.2.1]; rfl
  · rw [hfr.2.1, hsf.2.2]; rfl
  · rw [hjob]; exact (quiet_std hq j).1
  · rw [hjob]; exact (quiet_std hq j).2
  · rw [hjob]; exact quiet_stderr hq j
  · intro y
    rw [lookup_reset_file_ios, (quiet_std hq j).1, (quiet_std hq j).2, hsf.1]
    rfl

/-- The run of the loop of `spawn_job` in a process for which the first
`pids.length` `fork` calls return the pid of a child, when the run ends by a
return or by `execvp`: the state in which the loop reaches the stage after
those turns.  Every turn but the one of the last stage has created one pipe;
the descriptors of `avoid` refer to what they did; after at least one turn
`infile` is the read end of the pipe created in the turn before. -/
theorem spawn_loop_prefix (h : Headers) (j : Nat) (fg : Bool) (avoid : List Int) :
    ∀ (ps : List process_t) (pids : List Int) (k : Nat) (mypipe : Int × Int)
      (infile : Int) (s s' : State) (rest : List Int),
      (∀ p ∈ ps, p.completed = false) →
      s.env.forks = pids ++ rest → (∀ f ∈ pids, f ≠ 0) → pids.length ≤ ps.length →
      fresh_pipes avoid infile s.env.pipes →
      (spawn_loop h j fg ps k mypipe infile s = Outcome.returned s' ∨
        spawn_loop h j fg ps k mypipe infile s = Outcome.execed s') →
      ∃ mypipe_i infile_i s_i,
        spawn_loop h j fg (ps.drop pids.length) (k + pids.length) mypipe_i infile_i s_i =
          spawn_loop h j fg ps k mypipe infile s ∧
        s_i.env.forks = rest ∧
        s_i.npipes = s.npipes + min pids.length (ps.length - 1) ∧
        ((s_i.job j).mystdin = (s.job j).mystdin ∧
          (s_i.job j).mystdout = (s.job j).mystdout ∧
          (s_i.job j).mystderr = (s.job j).mystderr) ∧
        (pids.length < ps.length → fresh_pipes avoid infile_i s_i.env.pipes) ∧
        (∀ y ∈ avoid, (infile ≠ (s.job j).mystdin → infile ≠ y) →
          fd_lookup s_i.fds y = fd_lookup s.fds y) ∧
        (pids = [] → infile_i = infile ∧ s_i = s) ∧
        (∀ i, pids.length = i + 1 → i + 1 < ps.length →
          fd_lookup s_i.fds infile_i = some (FileObj.pipe_read (s.npipes + i)) ∧
          infile_i ∉ avoid) := by
  intro ps
  induction ps with
  | nil =>
    intro pids k mypipe infile s s' rest _ hforks _ hlen hfresh _
    have hp : pids = [] := List.length_eq_zero.1 (Nat.le_zero.1 hlen)
    subst hp
    exact ⟨mypipe, infile, s, rfl, hforks, rfl, ⟨rfl, rfl, rfl⟩, fun hh => absurd hh (by simp),
      fun _ _ _ => rfl, fun _ => ⟨rfl, rfl⟩, fun i hi => by simp at hi⟩
  | cons p ps' ih =>
    intro pids k mypipe infile s s' rest hnc hforks hpids hlen hfresh hlive
    cases pids with
    | nil =>
      exact ⟨mypipe, infile, s, rfl, hforks, by simp, ⟨rfl, rfl, rfl⟩, fun _ => hfresh,
        fun _ _ _ => rfl, fun _ => ⟨rfl, rfl⟩, fun i hi => by simp at hi⟩
    | cons f pids' =>
      have hp : p.completed = false := hnc p (List.mem_cons_self _ _)
      have hf : f ≠ 0 := hpids f (List.mem_cons_self _ _)
      obtain ⟨m1, outfile, s1, s2, hop, hfk1, hsp, hnext⟩ :=
        spawn_loop_step_parent h j fg p ps' k mypipe infile s s' f (pids' ++ rest) hp
          hforks hf hlive
      have hfr := parent_turn_frame j k f (!ps'.isEmpty) mypipe infile s m1 outfile s1 s2
        hop hsp
      obtain ⟨hfr1, hfr2, hfr3, hstd, hlook⟩ := hfr
      rw [hfk1] at hfr1
      simp only [List.tail_cons] at hfr1
      have hlen' : pids'.length ≤ ps'.length := by
        simp only [List.length_cons] at hlen
        omega
      cases ps' with
      | nil =>
        have hp' : pids' = [] := List.length_eq_zero.1 (Nat.le_zero.1 hlen')
        subst hp'
        have hop' : (m1, outfile, s1) = (mypipe, (s.job j).mystdout, s) := by
          have := hop
          unfold open_pipe at this
          simp only [List.isEmpty_nil, Bool.not_true, Bool.false_eq_true, if_false,
            Option.some.injEq] at this
          exact this.symm
        simp only [Prod.mk.injEq] at hop'
        obtain ⟨hm, ho, hs1⟩ := hop'
        subst hm ho hs1
        refine ⟨m1, m1.1, reset_file_ios j infile (s1.job j).mystdout s2, ?_, ?_, ?_, hstd,
          ?_, ?_, ?_, ?_⟩
        · rw [← hnext]; rfl
        · simpa using hfr1
        · rw [hfr2]; simp
        · intro hh; simp at hh
        · intro y _ hyin
          rw [hlook y]
          have h1 : ¬ (y = (s1.job j).mystdout ∧ (s1.job j).mystdout ≠ (s1.job j).mystdout) :=
            fun hh => hh.2 rfl
          have h2 : ¬ (y = infile ∧ infile ≠ (s1.job j).mystdin) :=
            fun hh => hyin hh.2 hh.1.symm
          rw [if_neg h1, if_neg h2]
        · intro hh; cases hh
        · intro i _ hi
          simp at hi
      | cons q ps'' =>
        obtain ⟨tl, hpipes, hout, hp1, hn1, _, _, hfds1⟩ :=
          open_pipe_next j mypipe s (m1, outfile, s1) (by simpa using hop)
        simp only [] at hpipes hout hp1 hn1 hfds1
        subst hout
        rw [hpipes] at hfresh
        obtain ⟨hrw, hra, hwa, hri, hwi, hfresh'⟩ := hfresh
        rw [hp1] at hfr3
        rw [hn1] at hfr2
        have hlive' : spawn_loop h j fg (q :: ps'') (k + 1) m1 m1.1
              (reset_file_ios j infile m1.2 s2) = Outcome.returned s' ∨
            spawn_loop h j fg (q :: ps'') (k + 1) m1 m1.1
              (reset_file_ios j infile m1.2 s2) = Outcome.execed s' := by
          rw [hnext]; exact hlive
        have hfresh3 : fresh_pipes avoid m1.1 (reset_file_ios j infile m1.2 s2).env.pipes := by
          rw [hfr3]; exact hfresh'
        obtain ⟨mi, ii, si, e1, e2, e3, e4, e5, e6, e7, e8⟩ :=
          ih pids' (k + 1) m1 m1.1 (reset_file_ios j infile m1.2 s2) s' rest
            (fun x hx => hnc x (List.mem_cons_of_mem _ hx)) hfr1
            (fun x hx => hpids x (List.mem_cons_of_mem _ hx)) hlen' hfresh3 hlive'
        have hlr : fd_lookup (reset_file_ios j infile m1.2 s2).fds m1.1 =
            some (FileObj.pipe_read s.npipes) := by
          rw [hlook m1.1]
          have h1 : ¬ (m1.1 = m1.2 ∧ m1.2 ≠ (s.job j).mystdout) := fun hh => hrw hh.1
          have h2 : ¬ (m1.1 = infile ∧ infile ≠ (s.job j).mystdin) := fun hh => hri hh.1
          rw [if_neg h1, if_neg h2, hfds1, fd_lookup_set, if_neg hrw, fd_lookup_set,
            if_pos rfl]
        refine ⟨mi, ii, si, ?_, e2, ?_, ?_, ?_, ?_, ?_, ?_⟩
        · rw [← hnext, ← e1]
          simp only [List.length_cons, List.drop_succ_cons]
          rw [show k + (pids'.length + 1) = k + 1 + pids'.length by omega]
        · rw [e3, hfr2]
          simp only [List.length_cons]
          omega
        · exact ⟨e4.1.trans hstd.1, e4.2.1.trans hstd.2.1, e4.2.2.trans hstd.2.2⟩
        · intro hh
          apply e5
          simp only [List.length_cons] at hh ⊢
          omega
        · intro y hy hyin
          have hyr : y ≠ m1.1 := fun hh => hra (hh ▸ hy)
          have hyw : y ≠ m1.2 := fun hh => hwa (hh ▸ hy)
          rw [e6 y hy (fun _ hh => hyr hh.symm), hlook y]
          have h1 : ¬ (y = m1.2 ∧ m1.2 ≠ (s.job j).mystdout) := fun hh => hyw hh.1
          have h2 : ¬ (y = infile ∧ infile ≠ (s.job j).mystdin) :=
            fun hh => hyin hh.2 hh.1.symm
          rw [if_neg h1, if_neg h2, hfds1, fd_lookup_set, if_neg hyw, fd_lookup_set,
            if_neg hyr]
        · intro hh; cases hh
        · intro i hi hilt
          simp only [List.length_cons, Nat.add_right_cancel_iff] at hi hilt
          cases i with
          | zero =>
            have hp' : pids' = [] := List.length_eq_zero.1 hi
            obtain ⟨hii, hsi⟩ := e7 hp'
            rw [hii, hsi]
            exact ⟨hlr, hra⟩
          | succ i' =>
            have hlt : i' + 1 < (q :: ps'').length := by
              simp only [List.length_cons] at hilt ⊢
              omega
            have := e8 i' hi hlt
            rw [hfr2] at this
            rw [show s.npipes + (i' + 1) = s.npipes + 1 + i' by omega]
            exact this

theorem spawn_child_not_returned (j k : Nat) (fg : Bool) (p : process_t)
    (infile outfile : Int) (s s' : State) :
    spawn_child j k fg p infile outfile s ≠ Outcome.returned s' := by
  unfold spawn_child
  split
  · simp
  · unfold child_exec
    split
    · simp
    · split <;> simp

theorem wait_loop_not_execed (h : Headers) (j : Nat) :
    ∀ (ws : List WaitResult) (s s' : State), wait_loop h j ws s ≠ Outcome.execed s' := by
  intro ws
  induction ws with
  | nil => intro s s'; simp [wait_loop]
  | cons w rest ih =>
    intro s s'
    unfold wait_loop
    simp only []
    split
    · simp
    · split
      · simp
      · split
        · exact ih _ _
        · simp

theorem spawn_finish_not_execed (j : Nat) (a b : Int) (s s' : State) :
    spawn_finish j a b s ≠ Outcome.execed s' := by
  unfold spawn_finish restore_control
  split <;> simp

theorem put_job_in_foreground_not_execed (h : Headers) (j : Nat) (cont : Int)
    (s s' : State) : put_job_in_foreground h j cont s ≠ Outcome.execed s' := by
  unfold put_job_in_foreground
  split
  · simp
  · split
    · simp
    · rename_i o _
      unfold wait_for_job
      exact wait_loop_not_execed h j _ _ s'

theorem spawn_end_not_execed (h : Headers) (j : Nat) (fg : Bool) (a b : Int)
    (s s' : State) : spawn_end h j fg a b s ≠ Outcome.execed s' := by
  unfold spawn_end
  split
  · split
    · split
      · exact spawn_finish_not_execed _ _ _ _ _
      · exact put_job_in_foreground_not_execed h j 0 _ s'
    · unfold wait_for_job
      exact wait_loop_not_execed h j _ _ s'
  · split
    · exact spawn_finish_not_execed _ _ _ _ _
    · unfold put_job_in_background
      simp

/-- The descriptors of the shell when `spawn_end` returns: the table at the end
of the loop after the two `dup2` calls that put descriptors 0 and 1 back. -/
theorem spawn_end_fds (h : Headers) (j : Nat) (fg : Bool) (a b : Int) (s s' : State)
    (hr : spawn_end h j fg a b s = Outcome.returned s') :
    ∃ s4, s4.fds = s.fds ∧ s'.npipes = s.npipes ∧
      s'.fds = (sys_dup2 (sys_dup2 s4 a 0) b 1).fds := by
  have hfin : ∀ s4 : State, same_files s s4 →
      spawn_finish j a b s4 = Outcome.returned s' →
      ∃ s4, s4.fds = s.fds ∧ s'.npipes = s.npipes ∧
        s'.fds = (sys_dup2 (sys_dup2 s4 a 0) b 1).fds := by
    intro s4 hsf hfin
    unfold spawn_finish restore_control at hfin
    split at hfin
    · cases hfin
    · cases hfin
      exact ⟨s4, hsf.1, hsf.2.1, rfl⟩
  unfold spawn_end at hr
  split at hr
  · have hw := same_files_wait_loop h j s.env.waits s
    unfold wait_for_job at hr
    split at hr
    · rename_i s3 hw3
      rw [hw3] at hw
      have hp := same_files_put_job_in_foreground h j 0 s3
      split at hr
      · rename_i s4 hp4
        rw [hp4] at hp
        exact hfin s4 (same_files_trans hw hp) hr
      · rename_i x hx
        exact absurd hr (hx s')
    · rename_i x hx
      exact absurd hr (hx s')
  · have hb := same_files_put_job_in_background j 0 s
    split at hr
    · rename_i s3 hb3
      rw [hb3] at hb
      exact hfin s3 hb hr
    · rename_i x hx
      exact absurd hr (hx s')

/-- One turn of the loop of `spawn_job` in the process for which `fork`
returns 0, when the run ends by `execvp`: the `pipe` call of the turn, if any,
has succeeded and the run is the child branch of the stage. -/
theorem spawn_loop_step_child (h : Headers) (j : Nat) (fg : Bool) (p : process_t)
    (rest : List process_t) (k : Nat) (mypipe : Int × Int) (infile : Int) (s s' : State)
    (fs : List Int) (hp : p.completed = false) (hforks : s.env.forks = 0 :: fs)
    (hlive : spawn_loop h j fg (p :: rest) k mypipe infile s = Outcome.execed s') :
    ∃ mypipe1 outfile s1 s2,
      open_pipe j (!rest.isEmpty) mypipe s = some (mypipe1, outfile, s1) ∧
      s2.fds = s1.fds ∧ s2.npipes = s1.npipes ∧
      (s2.job j).mystderr = (s.job j).mystderr ∧
      spawn_child j k fg p infile outfile s2 = Outcome.execed s' := by
  rw [spawn_loop] at hlive
  simp only [hp, Bool.false_eq_true, if_false] at hlive
  cases hop : open_pipe j (!rest.isEmpty) mypipe s with
  | none =>
    rw [hop] at hlive
    cases hlive
  | some r =>
    obtain ⟨mypipe1, outfile, s1⟩ := r
    have hfk : s1.env.forks = 0 :: fs := by
      rw [← hforks]
      cases hb : (!rest.isEmpty) with
      | true =>
        rw [hb] at hop
        obtain ⟨_, _, _, _, _, _, hfk, _⟩ := open_pipe_next j mypipe s _ hop
        exact hfk
      | false =>
        rw [hb] at hop
        unfold open_pipe at hop
        simp only [Bool.false_eq_true, if_false, Option.some.injEq, Prod.mk.injEq] at hop
        rw [← hop.2.2]
    have hfv : (sys_fork s1).1 = 0 := by
      unfold sys_fork
      simp [hfk]
    rw [hop] at hlive
    simp only [hfv] at hlive
    have hq : quiet s (sys_fork s1).2 :=
      quiet_trans (quiet_open_pipe j _ mypipe s _ hop) (quiet_fork s1)
    exact ⟨mypipe1, outfile, s1, (sys_fork s1).2, rfl, rfl, rfl, quiet_stderr hq j,
      by simpa using hlive⟩

/-- The loop of `spawn_job` over stages none of which is marked completed, when
it runs to its end in the shell: one pipe has been created for every stage but
the last. -/
theorem spawn_loop_pipe_count (h : Headers) (j : Nat) (fg : Bool) :
    ∀ (ps : List process_t) (k : Nat) (mypipe : Int × Int) (infile : Int) (s s' : State),
      (∀ p ∈ ps, p.completed = false) →
      spawn_loop h j fg ps k mypipe infile s = Outcome.returned s' →
      s'.npipes = s.npipes + (ps.length - 1) := by
  intro ps
  induction ps with
  | nil =>
    intro k mypipe infile s s' _ hr
    simp only [spawn_loop, Outcome.returned.injEq] at hr
    rw [← hr]
    rfl
  | cons p rest ih =>
    intro k mypipe infile s s' hnc hr
    have hp : p.completed = false := hnc p (List.mem_cons_self _ _)
    rw [spawn_loop] at hr
    simp only [hp, Bool.false_eq_true, if_false] at hr
    split at hr
    · cases hr
    · rename_i m1 outfile s1 hop
      split at hr
      · cases hr
      · split at hr
        · exact absurd hr (spawn_child_not_returned _ _ _ _ _ _ _ _)
        · split at hr
          · cases hr
          · rename_i s2 hsp
            have hfr := parent_turn_frame j k (sys_fork s1).1 (!rest.isEmpty) mypipe infile s
              m1 outfile s1 s2 hop hsp
            have hi := ih _ _ _ _ _ (fun x hx => hnc x (List.mem_cons_of_mem _ hx)) hr
            rw [hi, hfr.2.1]
            cases rest with
            | nil =>
              unfold open_pipe at hop
              simp only [List.isEmpty_nil, Bool.not_true, Bool.false_eq_true, if_false,
                Option.some.injEq, Prod.mk.injEq] at hop
              rw [← hop.2.2]
              rfl
            | cons q rest' =>
              obtain ⟨_, _, _, _, hn1, _⟩ :=
                open_pipe_next j mypipe s (m1, outfile, s1) (by simpa using hop)
              simp only [] at hn1
              rw [hn1]
              simp only [List.length_cons]
              omega

/-- The child of a stage that is not the last, at `execvp`: its standard
output is the write end of the pipe that the turn of its own stage created. -/
theorem spawn_loop_child_stdout (h : Headers) (j : Nat) (fg : Bool) (avoid : List Int)
    (h0 : STDIN_FILENO ∈ avoid) (ps : List process_t) (pids : List Int) (k : Nat)
    (mypipe : Int × Int) (infile : Int) (s s' : State) (rest : List Int)
    (hnc : ∀ p ∈ ps, p.completed = false)
    (hforks : s.env.forks = pids ++ 0 :: rest) (hpids : ∀ f ∈ pids, f ≠ 0)
    (hlen : pids.length + 1 < ps.length)
    (hfresh : fresh_pipes avoid infile s.env.pipes)
    (herr : (s.job j).mystderr = STDERR_FILENO)
    (hr : spawn_loop h j fg ps k mypipe infile s = Outcome.execed s') :
    fd_lookup s'.fds STDOUT_FILENO = some (FileObj.pipe_write (s.npipes + pids.length)) ∧
    s'.npipes = s.npipes + pids.length + 1 := by
  obtain ⟨mi, ii, si, e1, e2, e3, e4, e5, _, _, _⟩ :=
    spawn_loop_prefix h j fg avoid ps pids k mypipe infile s s' (0 :: rest) hnc hforks
      hpids (by omega) hfresh (Or.inr hr)
  rw [hr] at e1
  have hlt : pids.length < ps.length := by omega
  rw [List.drop_eq_getElem_cons hlt] at e1
  obtain ⟨m1, outfile, s1, s2, hop, hf2, hn2, he2, hch⟩ :=
    spawn_loop_step_child h j fg _ _ _ mi ii si s' rest
      (hnc _ (List.getElem_mem _)) e2 e1
  have hne : (!(List.drop (pids.length + 1) ps).isEmpty) = true := by
    cases hd : List.drop (pids.length + 1) ps with
    | nil =>
      have := List.drop_eq_nil_iff.1 hd
      omega
    | cons a b => rfl
  rw [hne] at hop
  obtain ⟨tl, hpipes, hout, _, hn1, _, _, hfds1⟩ := open_pipe_next j mi si _ hop
  simp only [] at hpipes hout hn1 hfds1
  subst hout
  have hfr := e5 hlt
  rw [hpipes] at hfr
  obtain ⟨_, _, hwa, _, hwi, _⟩ := hfr
  obtain ⟨s0, hs0, hnp, hfds⟩ :=
    spawn_child_execed j _ fg _ ii m1.2 s2 s' (by rw [he2, e4.2.2, herr]) hch
  have hmin : min pids.length (ps.length - 1) = pids.length := by omega
  constructor
  · rw [hfds]
    have hw : fd_lookup s0.fds m1.2 = some (FileObj.pipe_write si.npipes) := by
      rw [hs0, hf2, hfds1, fd_lookup_set, if_pos rfl]
    rw [child_stdout_piped s0 ii m1.2 _ hw (fun hh => hwa (hh ▸ h0)) hwi, e3, hmin]
  · rw [hnp, hn2, hn1, e3, hmin]

/-- The child of a stage that is not the first, at `execvp`: its standard input
is the read end of the pipe that the turn of the stage before created. -/
theorem spawn_loop_child_stdin (h : Headers) (j : Nat) (fg : Bool) (avoid : List Int)
    (h0 : STDIN_FILENO ∈ avoid) (ps : List process_t) (pids : List Int) (i : Nat) (k : Nat)
    (mypipe : Int × Int) (infile : Int) (s s' : State) (rest : List Int)
    (hnc : ∀ p ∈ ps, p.completed = false)
    (hforks : s.env.forks = pids ++ 0 :: rest) (hpids : ∀ f ∈ pids, f ≠ 0)
    (hi : pids.length = i + 1) (hlen : i + 1 < ps.length)
    (hfresh : fresh_pipes avoid infile s.env.pipes)
    (herr : (s.job j).mystderr = STDERR_FILENO)
    (hout : (s.job j).mystdout ≠ STDIN_FILENO)
    (hr : spawn_loop h j fg ps k mypipe infile s = Outcome.execed s') :
    fd_lookup s'.fds STDIN_FILENO = some (FileObj.pipe_read (s.npipes + i)) := by
  obtain ⟨mi, ii, si, e1, e2, _, e4, e5, _, _, e8⟩ :=
    spawn_loop_prefix h j fg avoid ps pids k mypipe infile s s' (0 :: rest) hnc hforks
      hpids (by omega) hfresh (Or.inr hr)
  rw [hr] at e1
  have hlt : pids.length < ps.length := by omega
  rw [List.drop_eq_getElem_cons hlt] at e1
  obtain ⟨m1, outfile, s1, s2, hop, hf2, _, he2, hch⟩ :=
    spawn_loop_step_child h j fg _ _ _ mi ii si s' rest
      (hnc _ (List.getElem_mem _)) e2 e1
  obtain ⟨hin, _⟩ := e8 i hi hlen
  obtain ⟨s0, hs0, _, hfds⟩ :=
    spawn_child_execed j _ fg _ ii outfile s2 s' (by rw [he2, e4.2.2, herr]) hch
  rw [hfds]
  cases hb : (!(List.drop (pids.length + 1) ps).isEmpty) with
  | false =>
    rw [hb] at hop
    unfold open_pipe at hop
    simp only [Bool.false_eq_true, if_false, Option.some.injEq, Prod.mk.injEq] at hop
    obtain ⟨_, ho, hs1⟩ := hop
    subst hs1
    apply child_stdin s0 ii outfile _ _ _
    · rw [hs0, hf2]; exact hin
    · rw [← ho, e4.2.1]; exact hout
  | true =>
    rw [hb] at hop
    obtain ⟨tl, hpipes, ho, _, _, _, _, hfds1⟩ := open_pipe_next j mi si _ hop
    simp only [] at hpipes ho hfds1
    subst ho
    have hfr := e5 hlt
    rw [hpipes] at hfr
    obtain ⟨_, _, hwa, hri, hwi, _⟩ := hfr
    apply child_stdin s0 ii m1.2 _ _ (fun hh => hwa (hh ▸ h0))
    rw [hs0, hf2, hfds1, fd_lookup_set, if_neg (fun hh => hwi hh.symm), fd_lookup_set,
      if_neg (fun hh => hri hh.symm)]
    exact hin

theorem sys_dup_with_forks (s : State) (fs : List Int) (fd : Int) :
    sys_dup (s.with_forks fs) fd = ((sys_dup s fd).1, (sys_dup s fd).2.with_forks fs) :=
  rfl

theorem sys_dup2_with_forks (s : State) (fs : List Int) (a b : Int) :
    sys_dup2 (s.with_forks fs) a b = (sys_dup2 s a b).with_forks fs :=
  rfl

theorem open_redirect_with_forks (s : State) (fs : List Int) (fd std : Int)
    (path : Option String) (m : OpenMode) :
    open_redirect (s.with_forks fs) fd std path m =
      ((open_redirect s fd std path m).1, (open_redirect s fd std path m).2.with_forks fs) := by
  unfold open_redirect
  split <;> rfl

theorem spawn_begin_with_forks (job : job_t) (s : State) (fs : List Int) :
    spawn_begin job (s.with_forks fs) =
      ((spawn_begin job s).1, (spawn_begin job s).2.1, (spawn_begin job s).2.2.1,
        (spawn_begin job s).2.2.2.with_forks fs) := by
  unfold spawn_begin
  simp only [sys_dup_with_forks, open_redirect_with_forks, sys_dup2_with_forks]

theorem open_redirect_npipes (s : State) (fd std : Int) (path : Option String)
    (m : OpenMode) : (open_redirect s fd std path m).2.npipes = s.npipes := by
  unfold open_redirect
  split <;> rfl

theorem spawn_begin_npipes (job : job_t) (s : State) :
    (spawn_begin job s).2.2.2.npipes = s.npipes := by
  unfold spawn_begin
  show (open_redirect _ _ _ _ _).2.npipes = _
  rw [open_redirect_npipes, open_redirect_npipes]
  rfl

theorem job_of_getElem? {s : State} {j : Nat} {job : job_t}
    (hjob : s.first_job[j]? = some job) : job = s.job j := by
  unfold State.job
  rw [List.getD_eq_getElem?_getD, hjob]
  rfl

theorem spawn_job_execed_loop (h : Headers) (j : Nat) (fg : Bool) (s s' : State)
    (hr : spawn_job h j fg s = Outcome.execed s') :
    spawn_loop h j fg (s.job j).first_process 0
      ((spawn_begin (s.job j) s).2.2.2.env.uninit, (spawn_begin (s.job j) s).2.2.2.env.uninit)
      (spawn_begin (s.job j) s).2.2.1 (spawn_begin (s.job j) s).2.2.2 =
      Outcome.execed s' := by
  unfold spawn_job at hr
  split at hr
  · cases hr
  · rename_i job hjob
    have hjob' := job_of_getElem? hjob
    subst hjob'
    split at hr
    · exact absurd hr (spawn_end_not_execed _ _ _ _ _ _ _)
    · exact hr

theorem spawn_job_returned_loop (h : Headers) (j : Nat) (fg : Bool) (s s' : State)
    (hr : spawn_job h j fg s = Outcome.returned s') :
    ∃ s2, spawn_loop h j fg (s.job j).first_process 0
      ((spawn_begin (s.job j) s).2.2.2.env.uninit, (spawn_begin (s.job j) s).2.2.2.env.uninit)
      (spawn_begin (s.job j) s).2.2.1 (spawn_begin (s.job j) s).2.2.2 =
      Outcome.returned s2 ∧
      spawn_end h j fg (spawn_begin (s.job j) s).1 (spawn_begin (s.job j) s).2.1 s2 =
        Outcome.returned s' := by
  unfold spawn_job at hr
  split at hr
  · cases hr
  · rename_i job hjob
    have hjob' := job_of_getElem? hjob
    subst hjob'
    split at hr
    · rename_i s2 h2
      exact ⟨s2, h2, hr⟩
    · rename_i x hx
      exact absurd hr (hx s')

/-- C11 as the code has it: for a job none of whose stages is marked
completed and whose `mystderr` is `STDERR_FILENO`, with `pipe` calls that
return fresh descriptors, none of them descriptor 0.  When `spawn_job` returns
in the shell it has created one pipe for every stage but the last, `N - 1`
pipes.  When the child of stage `i` with `i + 1 < N` reaches `execvp`, the
pipe created last is the one of the turn of stage `i` (pipe number `i` of the
spawn) and the child's standard output is the write end of that pipe.  When
the child of stage `i + 1` reaches `execvp`, its standard input is the read end
of the same pipe.  In the background, when the `pipe` and `fork` calls succeed,
`spawn_job` does return in the shell. -/
theorem spawn_job_wires_pipes (h : Headers) (j : Nat) (fg : Bool) (s : State)
    (hnc : ∀ p ∈ (s.job j).first_process, p.completed = false)
    (herr : (s.job j).mystderr = STDERR_FILENO)
    (hout : (s.job j).mystdout ≠ STDIN_FILENO)
    (hfresh : fresh_pipes [STDIN_FILENO] (spawn_begin (s.job j) s).2.2.1 s.env.pipes) :
    (∀ fs s', spawn_job h j fg (s.with_forks fs) = Outcome.returned s' →
      s'.npipes = s.npipes + ((s.job j).first_process.length - 1)) ∧
    (∀ pids rest s', (∀ f ∈ pids, f ≠ 0) →
      pids.length + 1 < (s.job j).first_process.length →
      spawn_job h j fg (s.with_forks (pids ++ 0 :: rest)) = Outcome.execed s' →
      s'.npipes = s.npipes + pids.length + 1 ∧
      fd_lookup s'.fds STDOUT_FILENO =
        some (FileObj.pipe_write (s.npipes + pids.length))) ∧
    (∀ pids f rest s', (∀ f ∈ pids, f ≠ 0) → f ≠ 0 →
      pids.length + 1 < (s.job j).first_process.length →
      spawn_job h j fg (s.with_forks (pids ++ f :: 0 :: rest)) = Outcome.execed s' →
      fd_lookup s'.fds STDIN_FILENO =
        some (FileObj.pipe_read (s.npipes + pids.length))) ∧
    (∀ fs, spawn_ready j (s.job j).first_process.length
        ((s.job j).first_process.length - 1) (s.with_forks fs) →
      ∃ s', spawn_job h j false (s.with_forks fs) = Outcome.returned s' ∧
        s'.npipes = s.npipes + ((s.job j).first_process.length - 1)) := by
  have hjob : ∀ fs, (s.with_forks fs).job j = s.job j := fun _ => rfl
  have hbeg : ∀ fs, spawn_begin (s.job j) (s.with_forks fs) =
      ((spawn_begin (s.job j) s).1, (spawn_begin (s.job j) s).2.1,
        (spawn_begin (s.job j) s).2.2.1, (spawn_begin (s.job j) s).2.2.2.with_forks fs) :=
    fun fs => spawn_begin_with_forks (s.job j) s fs
  have hsame := same_spawn_inputs_spawn_begin (s.job j) s
  have hq := quiet_spawn_begin (s.job j) s
  have hnp := spawn_begin_npipes (s.job j) s
  have hfresh' : ∀ fs, fresh_pipes [STDIN_FILENO] (spawn_begin (s.job j) s).2.2.1
      ((spawn_begin (s.job j) s).2.2.2.with_forks fs).env.pipes := by
    intro fs
    show fresh_pipes _ _ (spawn_begin (s.job j) s).2.2.2.env.pipes
    rw [hsame.2.2.2]
    exact hfresh
  have herr' : ∀ fs, (((spawn_begin (s.job j) s).2.2.2.with_forks fs).job j).mystderr =
      STDERR_FILENO := by
    intro fs
    show ((spawn_begin (s.job j) s).2.2.2.job j).mystderr = _
    rw [quiet_stderr hq j, herr]
  have hout' : ∀ fs, (((spawn_begin (s.job j) s).2.2.2.with_forks fs).job j).mystdout ≠
      STDIN_FILENO := by
    intro fs
    show ((spawn_begin (s.job j) s).2.2.2.job j).mystdout ≠ _
    rw [(quiet_std hq j).2]
    exact hout
  have hshell : ∀ (fg' : Bool) fs s',
      spawn_job h j fg' (s.with_forks fs) = Outcome.returned s' →
      s'.npipes = s.npipes + ((s.job j).first_process.length - 1) := by
    intro fg' fs s' hr
    obtain ⟨s2, hl, he⟩ := spawn_job_returned_loop h j fg' _ s' hr
    rw [hjob, hbeg] at hl he
    obtain ⟨_, _, hn, _⟩ := spawn_end_fds h j fg' _ _ s2 s' he
    rw [hn, spawn_loop_pipe_count h j fg' _ _ _ _ _ s2 hnc hl]
    show (spawn_begin (s.job j) s).2.2.2.npipes + _ = _
    rw [hnp]
  refine ⟨hshell fg, ?_, ?_, ?_⟩
  rotate_left 2
  · intro fs hready
    obtain ⟨s', hs'⟩ := spawn_job_background_returns h j (s.with_forks fs) hready
    exact ⟨s', hs', hshell false fs s' hs'⟩
  · intro pids rest s' hpids hlen hr
    have hl := spawn_job_execed_loop h j fg _ s' hr
    rw [hjob, hbeg] at hl
    obtain ⟨h1, h2⟩ := spawn_loop_child_stdout h j fg [STDIN_FILENO] (by simp)
      _ pids _ _ _ _ s' rest hnc rfl hpids hlen (hfresh' _) (herr' _) hl
    have hn : ((spawn_begin (s.job j) s).2.2.2.with_forks (pids ++ 0 :: rest)).npipes =
        s.npipes := hnp
    rw [hn] at h1 h2
    exact ⟨h2, h1⟩
  · intro pids f rest s' hpids hf hlen hr
    have hl := spawn_job_execed_loop h j fg _ s' hr
    rw [hjob, hbeg] at hl
    have hforks : ((spawn_begin (s.job j) s).2.2.2.with_forks
        (pids ++ f :: 0 :: rest)).env.forks = (pids ++ [f]) ++ 0 :: rest := by
      show pids ++ f :: 0 :: rest = _
      simp
    have h1 := spawn_loop_child_stdin h j fg [STDIN_FILENO] (by simp)
      _ (pids ++ [f]) pids.length _ _ _ _ s' rest hnc hforks
      (by
        intro x hx
        rcases List.mem_append.1 hx with hx | hx
        · exact hpids x hx
        · simp at hx
          rw [hx]
          exact hf)
      (by simp) hlen (hfresh' _) (herr' _) (hout' _) hl
    have hn : ((spawn_begin (s.job j) s).2.2.2.with_forks
        (pids ++ f :: 0 :: rest)).npipes = s.npipes := hnp
    rw [hn] at h1
    exact h1

/-- Witness of C11 as the code has it: the three-stage pipeline of
`three_stage_state`.  The shell returns with two pipes created; the child of
stage 1 writes to pipe 1 and the child of stage 2 reads from pipe 1. -/
theorem spawn_job_wires_pipes_witness :
    (∃ s', spawn_job sample_headers 0 false (three_stage_state.with_forks [100, 101, 102]) =
        Outcome.returned s' ∧ s'.npipes = 0 + (3 - 1)) ∧
    (∃ s', spawn_job sample_headers 0 false (three_stage_state.with_forks [100, 0]) =
        Outcome.execed s' ∧
      fd_lookup s'.fds STDOUT_FILENO = some (FileObj.pipe_write (0 + 1))) ∧
    (∃ s', spawn_job sample_headers 0 false (three_stage_state.with_forks [100, 101, 0]) =
        Outcome.execed s' ∧
      fd_lookup s'.fds STDIN_FILENO = some (FileObj.pipe_read (0 + 1))) :=
  ⟨⟨_, rfl,
      (spawn_job_wires_pipes sample_headers 0 false three_stage_state (by decide)
        (by decide) (by decide) (by decide)).1 [100, 101, 102] _ rfl⟩,
    ⟨_, rfl,
      ((spawn_job_wires_pipes sample_headers 0 false three_stage_state (by decide)
        (by decide) (by decide) (by decide)).2.1 [100] [] _ (by decide) (by decide) rfl).2⟩,
    ⟨_, rfl,
      (spawn_job_wires_pipes sample_headers 0 false three_stage_state (by decide)
        (by decide) (by decide) (by decide)).2.2.1 [100] 101 [] _ (by decide) (by decide)
        (by decide) rfl⟩⟩

/-- Counterexample of C11: the three-stage job of `skipped_stage_state`, whose
middle stage is marked completed.  The loop skips that stage, `spawn_job`
returns in the shell after one `pipe` call, not two, and the child of stage 2
reads from the pipe that the child of stage 0 writes to. -/
theorem spawn_job_skips_completed_stage :
    (skipped_stage_state.job 0).first_process.length = 3 ∧
    (∃ s', spawn_job sample_headers 0 false (skipped_stage_state.with_forks [100, 102]) =
        Outcome.returned s' ∧ s'.npipes = 1 ∧
      s'.trace.filter (fun c => c matches Call.pipe _ _) = [Call.pipe 5 6]) ∧
    (∃ s', spawn_job sample_headers 0 false (skipped_stage_state.with_forks [100, 0]) =
        Outcome.execed s' ∧ fd_lookup s'.fds STDIN_FILENO = some (FileObj.pipe_read 0)) :=
  ⟨by decide, ⟨_, rfl, by decide, by decide⟩, ⟨_, rfl, by decide⟩⟩

/-! ## Output redirection: theorems -/

theorem sys_dup_ok (s : State) (fd r : Int) (o : FileObj) (ds : List Int)
    (ho : fd_lookup s.fds fd = some o) (hd : s.env.dups = r :: ds) (hr : 0 ≤ r) :
    (sys_dup s fd).1 = r ∧ (sys_dup s fd).2.fds = fd_set s.fds r o ∧
    (sys_dup s fd).2.env.dups = ds ∧ (sys_dup s fd).2.env.opens = s.env.opens := by
  refine ⟨?_, ?_, ?_, ?_⟩ <;> simp [sys_dup, ho, hd, hr]

theorem lookup_open_other (s : State) (path : Option String) (m : OpenMode) (y : Int)
    (hy : y ≠ (sys_open s path m).1) :
    fd_lookup (sys_open s path m).2.fds y = fd_lookup s.fds y := by
  unfold sys_open at hy ⊢
  simp only [] at hy ⊢
  split
  · split
    · rw [fd_lookup_set, if_neg hy]
    · rfl
  · rfl

theorem sys_open_ok (s : State) (f : String) (m : OpenMode) (r : Int)
    (hd : s.env.opens.head? = some r) (hr : 0 ≤ r) :
    (sys_open s (some f) m).1 = r ∧
    fd_lookup (sys_open s (some f) m).2.fds r = some (FileObj.file f m) := by
  have hret : (sys_open s (some f) m).1 = r := by simp [sys_open, hd, hr]
  refine ⟨hret, ?_⟩
  have hfds : (sys_open s (some f) m).2.fds = fd_set s.fds r (FileObj.file f m) := by
    simp [sys_open, hd, hr]
  rw [hfds, fd_lookup_set, if_pos rfl]

theorem lookup_open_redirect_other (s : State) (fd std : Int) (path : Option String)
    (m : OpenMode) (y : Int) (hy : y ≠ (open_redirect s fd std path m).1) :
    fd_lookup (open_redirect s fd std path m).2.fds y = fd_lookup s.fds y := by
  unfold open_redirect at hy ⊢
  split
  · rename_i hne
    rw [if_pos hne] at hy
    exact lookup_open_other s path m y hy
  · rfl

theorem open_redirect_opens (job : job_t) (s : State) :
    (open_redirect s job.mystdin STDIN_FILENO job.ifile OpenMode.rdonly).2.env.opens =
      s.env.opens.drop (input_opens job) := by
  unfold open_redirect input_opens
  split
  · simp [sys_open]
  · rfl

/-- The start of `spawn_job` for a job with an output redirect, when the two
`dup` calls and the `open` of the output file succeed with fresh descriptors:
`original_input` and `original_output` are copies of descriptors 0 and 1,
descriptor 1 is the file opened for writing with create and truncate, and the
value `j->mystdout` is still not an open descriptor. -/
theorem spawn_begin_redirect (job : job_t) (s : State) (path : String)
    (d0 d1 o_out : Int) (a0 a1 : FileObj)
    (hredir : job.mystdout ≠ STDOUT_FILENO) (hofile : job.ofile = some path)
    (h0 : fd_lookup s.fds STDIN_FILENO = some a0)
    (h1 : fd_lookup s.fds STDOUT_FILENO = some a1)
    (hclosed : fd_lookup s.fds job.mystdout = none)
    (hdups : s.env.dups.take 2 = [d0, d1])
    (hopen : (s.env.opens.drop (input_opens job)).head? = some o_out)
    (hfd : ∀ x ∈ [d0, d1, o_out],
      0 ≤ x ∧ x ∉ [STDIN_FILENO, STDOUT_FILENO, job.mystdout])
    (hne : d0 ≠ d1 ∧ o_out ≠ d0 ∧ o_out ≠ d1)
    (hmark : job.mystdout ≠ STDIN_FILENO)
    (hin : (spawn_begin job s).2.2.1 ∉ [d0, d1, job.mystdout]) :
    (spawn_begin job s).1 = d0 ∧ (spawn_begin job s).2.1 = d1 ∧
    fd_lookup (spawn_begin job s).2.2.2.fds STDOUT_FILENO =
      some (FileObj.file path OpenMode.wronly_creat_trunc) ∧
    fd_lookup (spawn_begin job s).2.2.2.fds d0 = some a0 ∧
    fd_lookup (spawn_begin job s).2.2.2.fds d1 = some a1 ∧
    fd_lookup (spawn_begin job s).2.2.2.fds job.mystdout = none := by
  obtain ⟨hd0, hd0a⟩ := hfd d0 (by simp)
  obtain ⟨hd1, hd1a⟩ := hfd d1 (by simp)
  obtain ⟨hoo, hooa⟩ := hfd o_out (by simp)
  simp only [List.mem_cons, List.mem_singleton, not_or, List.not_mem_nil, not_false_eq_true,
    and_true] at hd0a hd1a hooa hin
  obtain ⟨ds, hds⟩ : ∃ ds, s.env.dups = d0 :: d1 :: ds := by
    cases hs : s.env.dups with
    | nil => rw [hs] at hdups; simp at hdups
    | cons x t =>
      cases t with
      | nil => rw [hs] at hdups; simp at hdups
      | cons y t' =>
        rw [hs] at hdups
        simp only [List.take_succ_cons, List.take_zero, List.cons.injEq, and_true] at hdups
        exact ⟨t', by rw [hdups.1, hdups.2]⟩
  obtain ⟨e1, e2, e3, e4⟩ := sys_dup_ok s 0 d0 a0 (d1 :: ds) h0 hds hd0
  have h1' : fd_lookup (sys_dup s 0).2.fds 1 = some a1 := by
    rw [e2, fd_lookup_set, if_neg (fun hh => hd0a.2.1 hh.symm)]
    exact h1
  obtain ⟨f1, f2, _, f4⟩ := sys_dup_ok (sys_dup s 0).2 1 d1 a1 ds
    h1' e3 hd1
  have hs2 : ∀ y, fd_lookup (sys_dup (sys_dup s 0).2 1).2.fds y =
      if y = d1 then some a1 else if y = d0 then some a0 else fd_lookup s.fds y := by
    intro y
    rw [f2, fd_lookup_set, e2, fd_lookup_set]
  have hi : ∀ y, y ≠ (spawn_begin job s).2.2.1 →
      fd_lookup (open_redirect (sys_dup (sys_dup s 0).2 1).2
        job.mystdin STDIN_FILENO job.ifile OpenMode.rdonly).2.fds y =
      if y = d1 then some a1 else if y = d0 then some a0 else fd_lookup s.fds y := by
    intro y hy
    have hy' : y ≠ (open_redirect (sys_dup (sys_dup s 0).2 1).2
        job.mystdin STDIN_FILENO job.ifile OpenMode.rdonly).1 := hy
    rw [lookup_open_redirect_other _ _ _ _ _ y hy', hs2]
  have hio : (open_redirect (sys_dup (sys_dup s 0).2 1).2
      job.mystdin STDIN_FILENO job.ifile OpenMode.rdonly).2.env.opens.head? =
      some o_out := by
    rw [open_redirect_opens, f4, e4]
    exact hopen
  have hor : open_redirect (open_redirect (sys_dup (sys_dup s 0).2
      1).2 job.mystdin STDIN_FILENO job.ifile OpenMode.rdonly).2
      job.mystdout STDOUT_FILENO job.ofile OpenMode.wronly_creat_trunc =
      sys_open (open_redirect (sys_dup (sys_dup s 0).2
        1).2 job.mystdin STDIN_FILENO job.ifile OpenMode.rdonly).2
        (some path) OpenMode.wronly_creat_trunc := by
    unfold open_redirect
    rw [if_pos hredir, hofile]
  obtain ⟨g1, g2⟩ := sys_open_ok _ path OpenMode.wronly_creat_trunc o_out hio hoo
  have ho : ∀ y, y ≠ o_out → y ≠ (spawn_begin job s).2.2.1 →
      fd_lookup (sys_open (open_redirect (sys_dup (sys_dup s 0).2
        1).2 job.mystdin STDIN_FILENO job.ifile OpenMode.rdonly).2
        (some path) OpenMode.wronly_creat_trunc).2.fds y =
      if y = d1 then some a1 else if y = d0 then some a0 else fd_lookup s.fds y := by
    intro y hyo hyi
    rw [lookup_open_other _ _ _ y (by rw [g1]; exact hyo), hi y hyi]
  have hfin : ∀ y, y ≠ STDIN_FILENO → y ≠ STDOUT_FILENO →
      fd_lookup (spawn_begin job s).2.2.2.fds y =
      fd_lookup (sys_open (open_redirect (sys_dup (sys_dup s 0).2
        1).2 job.mystdin STDIN_FILENO job.ifile OpenMode.rdonly).2
        (some path) OpenMode.wronly_creat_trunc).2.fds y := by
    intro y hy0 hy1
    have hy0' : y ≠ (0 : Int) := hy0
    have hy1' : y ≠ (1 : Int) := hy1
    unfold spawn_begin
    simp only []
    rw [hor, lookup_dup2_other _ _ 1 y hy1', lookup_dup2_other _ _ 0 y hy0']
  refine ⟨e1, f1, ?_, ?_, ?_, ?_⟩
  · unfold spawn_begin
    simp only []
    rw [hor, g1]
    have hoo0 : o_out ≠ (0 : Int) := hooa.1
    show fd_lookup (sys_dup2 _ o_out 1).fds 1 = _
    apply lookup_dup2_target _ _ _ _ _ (by decide)
    rw [lookup_dup2_other _ _ 0 o_out hoo0]
    exact g2
  · rw [hfin d0 hd0a.1 hd0a.2.1, ho d0 (fun hh => hne.2.1 hh.symm) (fun hh => hin.1 hh.symm),
      if_neg hne.1, if_pos rfl]
  · rw [hfin d1 hd1a.1 hd1a.2.1, ho d1 (fun hh => hne.2.2 hh.symm)
      (fun hh => hin.2.1 hh.symm), if_pos rfl]
  · rw [hfin _ hmark hredir, ho _ (fun hh => hooa.2.2 hh.symm) (fun hh => hin.2.2 hh.symm),
      if_neg (fun hh => hd1a.2.2 hh.symm), if_neg (fun hh => hd0a.2.2 hh.symm)]
    exact hclosed

theorem open_pipe_forks (j : Nat) (b : Bool) (mypipe : Int × Int) (s : State)
    (r : (Int × Int) × Int × State) (hr : open_pipe j b mypipe s = some r) :
    r.2.2.env.forks = s.env.forks := by
  cases b with
  | true =>
    obtain ⟨_, _, _, _, _, _, hfk, _⟩ := open_pipe_next j mypipe s r hr
    exact hfk
  | false =>
    unfold open_pipe at hr
    simp only [Bool.false_eq_true, if_false, Option.some.injEq] at hr
    rw [← hr]

/-- When the loop of `spawn_job` runs to its end in the shell over stages none
of which is marked completed, every stage has used one pending `fork` result,
the pid of a child. -/
theorem spawn_loop_returned_forks (h : Headers) (j : Nat) (fg : Bool) :
    ∀ (ps : List process_t) (k : Nat) (mypipe : Int × Int) (infile : Int) (s s' : State),
      (∀ p ∈ ps, p.completed = false) →
      spawn_loop h j fg ps k mypipe infile s = Outcome.returned s' →
      ∃ pids rest, s.env.forks = pids ++ rest ∧ pids.length = ps.length ∧
        ∀ f ∈ pids, f ≠ 0 := by
  intro ps
  induction ps with
  | nil =>
    intro k mypipe infile s s' _ _
    exact ⟨[], s.env.forks, rfl, rfl, fun f hf => by cases hf⟩
  | cons p rest ih =>
    intro k mypipe infile s s' hnc hr
    have hp : p.completed = false := hnc p (List.mem_cons_self _ _)
    rw [spawn_loop] at hr
    simp only [hp, Bool.false_eq_true, if_false] at hr
    split at hr
    · cases hr
    · rename_i m1 outfile s1 hop
      split at hr
      · cases hr
      · rename_i hneg
        split at hr
        · exact absurd hr (spawn_child_not_returned _ _ _ _ _ _ _ _)
        · rename_i hzero
          split at hr
          · cases hr
          · rename_i s2 hsp
            have hfr := parent_turn_frame j k (sys_fork s1).1 (!rest.isEmpty) mypipe infile s
              m1 outfile s1 s2 hop hsp
            obtain ⟨pids, rs, e1, e2, e3⟩ :=
              ih _ _ _ _ _ (fun x hx => hnc x (List.mem_cons_of_mem _ hx)) hr
            have hfk := open_pipe_forks j _ mypipe s _ hop
            simp only [] at hfk
            rw [hfr.1, hfk] at e1
            cases hs : s.env.forks with
            | nil =>
              exfalso
              apply hneg
              unfold sys_fork
              simp [hfk, hs]
            | cons f fs =>
              rw [hs] at e1
              simp only [List.tail_cons] at e1
              refine ⟨f :: pids, rs, by rw [e1]; rfl, by simp [e2], ?_⟩
              intro x hx
              rcases List.mem_cons.1 hx with hx | hx
              · rw [hx]
                intro hf0
                apply hzero
                unfold sys_fork
                simp [hfk, hs, hf0]
              · exact e3 x hx

/-- The shell at the end of the loop of `spawn_job`: the descriptors of
`avoid`, which no `pipe` call returns, refer to what they did at the start. -/
theorem spawn_loop_keeps (h : Headers) (j : Nat) (fg : Bool) (avoid : List Int)
    (ps : List process_t) (k : Nat) (mypipe : Int × Int) (infile : Int) (s s' : State)
    (hnc : ∀ p ∈ ps, p.completed = false)
    (hfresh : fresh_pipes avoid infile s.env.pipes)
    (hr : spawn_loop h j fg ps k mypipe infile s = Outcome.returned s') :
    ∀ y ∈ avoid, (infile ≠ (s.job j).mystdin → infile ≠ y) →
      fd_lookup s'.fds y = fd_lookup s.fds y := by
  obtain ⟨pids, rest, hforks, hlen, hpids⟩ :=
    spawn_loop_returned_forks h j fg ps k mypipe infile s s' hnc hr
  obtain ⟨mi, ii, si, e1, _, _, _, _, e6, _, _⟩ :=
    spawn_loop_prefix h j fg avoid ps pids k mypipe infile s s' rest hnc hforks hpids
      (by omega) hfresh (Or.inl hr)
  rw [hr, hlen, List.drop_length] at e1
  simp only [spawn_loop, Outcome.returned.injEq] at e1
  rw [← e1]
  exact e6

/-- The child of the last stage at `execvp`, for a job whose `mystdout` value
is not an open descriptor: its standard output is what descriptor 1 referred
to at the start of the loop. -/
theorem spawn_loop_last_child_stdout (h : Headers) (j : Nat) (fg : Bool)
    (avoid : List Int) (s s' : State) (h1 : STDOUT_FILENO ∈ avoid)
    (hm : (s.job j).mystdout ∈ avoid) (ps : List process_t) (pids : List Int) (k : Nat)
    (mypipe : Int × Int) (infile : Int) (rest : List Int)
    (hnc : ∀ p ∈ ps, p.completed = false)
    (hforks : s.env.forks = pids ++ 0 :: rest) (hpids : ∀ f ∈ pids, f ≠ 0)
    (hlen : pids.length + 1 = ps.length)
    (hfresh : fresh_pipes avoid infile s.env.pipes)
    (herr : (s.job j).mystderr = STDERR_FILENO)
    (hmark : (s.job j).mystdout ≠ STDIN_FILENO)
    (hredir : (s.job j).mystdout ≠ STDOUT_FILENO)
    (hclosed : fd_lookup s.fds (s.job j).mystdout = none)
    (hin : ∀ y ∈ avoid, infile ≠ y)
    (hr : spawn_loop h j fg ps k mypipe infile s = Outcome.execed s') :
    fd_lookup s'.fds STDOUT_FILENO = fd_lookup s.fds STDOUT_FILENO := by
  obtain ⟨mi, ii, si, e1, e2, _, e4, _, e6, e7, e8⟩ :=
    spawn_loop_prefix h j fg avoid ps pids k mypipe infile s s' (0 :: rest) hnc hforks
      hpids (by omega) hfresh (Or.inr hr)
  rw [hr] at e1
  have hlt : pids.length < ps.length := by omega
  rw [List.drop_eq_getElem_cons hlt] at e1
  obtain ⟨m1, outfile, s1, s2, hop, hf2, _, he2, hch⟩ :=
    spawn_loop_step_child h j fg _ _ _ mi ii si s' rest
      (hnc _ (List.getElem_mem _)) e2 e1
  have hne : (!(List.drop (pids.length + 1) ps).isEmpty) = false := by
    rw [hlen, List.drop_length]
    rfl
  rw [hne] at hop
  unfold open_pipe at hop
  simp only [Bool.false_eq_true, if_false, Option.some.injEq, Prod.mk.injEq] at hop
  obtain ⟨_, ho, hs1⟩ := hop
  subst hs1
  obtain ⟨s0, hs0, _, hfds⟩ :=
    spawn_child_execed j _ fg _ ii outfile s2 s' (by rw [he2, e4.2.2, herr]) hch
  have hii : ii ≠ STDOUT_FILENO := by
    cases hp : pids with
    | nil =>
      rw [(e7 hp).1]
      exact hin _ h1
    | cons f pids' =>
      have := (e8 pids'.length (by rw [hp]; rfl) (by rw [← hlen, hp]; simp)).2
      exact fun hh => this (hh ▸ h1)
  have hkeep : ∀ y ∈ avoid, fd_lookup s0.fds y = fd_lookup s.fds y := by
    intro y hy
    rw [hs0, hf2]
    exact e6 y hy (fun _ => hin y hy)
  rw [hfds, ← ho, e4.2.1]
  rw [child_stdout_kept s0 ii _ (by rw [hkeep _ hm]; exact hclosed) hmark hii hredir]
  exact hkeep _ h1
/-- C13 as the code has it: for a job with an output redirect path none of
whose stages is marked completed and whose `mystderr` is `STDERR_FILENO`, in a
shell with descriptors 0 and 1 open, when the two `dup` calls and the `open`
of the output path succeed and the calls return fresh descriptors (`d0` and
`d1` from `dup`, `o_out` from `open`, none of them 0, 1 or the value of
`j->mystdout`, which is not an open descriptor).  When the child of the last
stage reaches `execvp`, its standard output is the file of that path opened
for writing with create and truncate; when `spawn_job` returns in the shell,
descriptors 0 and 1 refer to what they referred to before the call; and in the
background, when the `pipe` and `fork` calls succeed, it does return. -/
theorem spawn_job_output_redirect (h : Headers) (j : Nat) (fg : Bool) (s : State)
    (path : String) (d0 d1 o_out : Int)
    (hnc : ∀ p ∈ (s.job j).first_process, p.completed = false)
    (herr : (s.job j).mystderr = STDERR_FILENO)
    (hredir : (s.job j).mystdout ≠ STDOUT_FILENO)
    (hmark : (s.job j).mystdout ≠ STDIN_FILENO)
    (hofile : (s.job j).ofile = some path)
    (h0 : (fd_lookup s.fds STDIN_FILENO).isSome)
    (h1 : (fd_lookup s.fds STDOUT_FILENO).isSome)
    (hclosed : fd_lookup s.fds (s.job j).mystdout = none)
    (hdups : s.env.dups.take 2 = [d0, d1])
    (hopen : (s.env.opens.drop (input_opens (s.job j))).head? = some o_out)
    (hfd : ∀ x ∈ [d0, d1, o_out],
      0 ≤ x ∧ x ∉ [STDIN_FILENO, STDOUT_FILENO, (s.job j).mystdout])
    (hne : d0 ≠ d1 ∧ o_out ≠ d0 ∧ o_out ≠ d1)
    (hin : ∀ y ∈ [STDOUT_FILENO, d0, d1, (s.job j).mystdout],
      (spawn_begin (s.job j) s).2.2.1 ≠ y)
    (hpipes : fresh_pipes [STDOUT_FILENO, d0, d1, (s.job j).mystdout]
      (spawn_begin (s.job j) s).2.2.1 s.env.pipes) :
    (∀ pids rest s', (∀ f ∈ pids, f ≠ 0) →
      pids.length + 1 = (s.job j).first_process.length →
      spawn_job h j fg (s.with_forks (pids ++ 0 :: rest)) = Outcome.execed s' →
      fd_lookup s'.fds STDOUT_FILENO =
        some (FileObj.file path OpenMode.wronly_creat_trunc)) ∧
    (∀ fs s', spawn_job h j fg (s.with_forks fs) = Outcome.returned s' →
      fd_lookup s'.fds STDIN_FILENO = fd_lookup s.fds STDIN_FILENO ∧
      fd_lookup s'.fds STDOUT_FILENO = fd_lookup s.fds STDOUT_FILENO) ∧
    (∀ fs, spawn_ready j (s.job j).first_process.length
        ((s.job j).first_process.length - 1) (s.with_forks fs) →
      ∃ s', spawn_job h j false (s.with_forks fs) = Outcome.returned s' ∧
        fd_lookup s'.fds STDIN_FILENO = fd_lookup s.fds STDIN_FILENO ∧
        fd_lookup s'.fds STDOUT_FILENO = fd_lookup s.fds STDOUT_FILENO) := by
  obtain ⟨a0, ha0⟩ := Option.isSome_iff_exists.1 h0
  obtain ⟨a1, ha1⟩ := Option.isSome_iff_exists.1 h1
  have hin' : (spawn_begin (s.job j) s).2.2.1 ∉ [d0, d1, (s.job j).mystdout] := by
    intro hmem
    simp only [List.mem_cons, List.mem_singleton, List.not_mem_nil, or_false] at hmem
    rcases hmem with hh | hh | hh
    · exact hin d0 (by simp) hh
    · exact hin d1 (by simp) hh
    · exact hin _ (by simp) hh
  obtain ⟨b1, b2, b3, b4, b5, b6⟩ :=
    spawn_begin_redirect (s.job j) s path d0 d1 o_out a0 a1 hredir hofile ha0 ha1 hclosed
      hdups hopen hfd hne hmark hin'
  have hjob : ∀ fs, (s.with_forks fs).job j = s.job j := fun _ => rfl
  have hbeg : ∀ fs, spawn_begin (s.job j) (s.with_forks fs) =
      ((spawn_begin (s.job j) s).1, (spawn_begin (s.job j) s).2.1,
        (spawn_begin (s.job j) s).2.2.1, (spawn_begin (s.job j) s).2.2.2.with_forks fs) :=
    fun fs => spawn_begin_with_forks (s.job j) s fs
  have hsame := same_spawn_inputs_spawn_begin (s.job j) s
  have hq := quiet_spawn_begin (s.job j) s
  have hstd : ∀ fs, (((spawn_begin (s.job j) s).2.2.2.with_forks fs).job j).mystdout =
      (s.job j).mystdout := fun fs => (quiet_std hq j).2
  have hfresh' : ∀ fs, fresh_pipes [STDOUT_FILENO, d0, d1,
      (((spawn_begin (s.job j) s).2.2.2.with_forks fs).job j).mystdout]
      (spawn_begin (s.job j) s).2.2.1
      ((spawn_begin (s.job j) s).2.2.2.with_forks fs).env.pipes := by
    intro fs
    rw [hstd]
    show fresh_pipes _ _ (spawn_begin (s.job j) s).2.2.2.env.pipes
    rw [hsame.2.2.2]
    exact hpipes
  have hin2 : ∀ fs, ∀ y ∈ [STDOUT_FILENO, d0, d1,
      (((spawn_begin (s.job j) s).2.2.2.with_forks fs).job j).mystdout],
      (spawn_begin (s.job j) s).2.2.1 ≠ y := by
    intro fs
    rw [hstd]
    exact hin
  have hshell : ∀ (fg' : Bool) fs s',
      spawn_job h j fg' (s.with_forks fs) = Outcome.returned s' →
      fd_lookup s'.fds STDIN_FILENO = fd_lookup s.fds STDIN_FILENO ∧
      fd_lookup s'.fds STDOUT_FILENO = fd_lookup s.fds STDOUT_FILENO := by
    intro fg' fs s' hr
    obtain ⟨s2, hl, he⟩ := spawn_job_returned_loop h j fg' _ s' hr
    rw [hjob, hbeg] at hl he
    simp only [b1, b2] at he
    obtain ⟨s4, hs4, _, hfds⟩ := spawn_end_fds h j fg' _ _ s2 s' he
    have hkeep := spawn_loop_keeps h j fg' _ _ _ _ _ _ s2 hnc (hfresh' fs) hl
    have hk0 : fd_lookup s4.fds d0 = some a0 := by
      rw [hs4, hkeep d0 (by simp) (fun _ => hin2 fs d0 (by simp))]
      exact b4
    have hk1 : fd_lookup s4.fds d1 = some a1 := by
      rw [hs4, hkeep d1 (by simp) (fun _ => hin2 fs d1 (by simp))]
      exact b5
    have hd10 : d1 ≠ (0 : Int) := by
      have := (hfd d1 (by simp)).2
      simp only [List.mem_cons, List.mem_singleton, not_or, List.not_mem_nil,
        not_false_eq_true, and_true] at this
      exact this.1
    rw [hfds, ha0, ha1]
    constructor
    · show fd_lookup (sys_dup2 (sys_dup2 s4 d0 0) d1 1).fds 0 = _
      rw [lookup_dup2_other _ _ 1 0 (by decide)]
      exact lookup_dup2_target s4 d0 0 a0 hk0 (by decide)
    · show fd_lookup (sys_dup2 (sys_dup2 s4 d0 0) d1 1).fds 1 = _
      apply lookup_dup2_target _ _ _ _ _ (by decide)
      rw [lookup_dup2_other _ _ 0 d1 hd10]
      exact hk1
  refine ⟨?_, hshell fg, ?_⟩
  rotate_left
  · intro fs hready
    obtain ⟨s', hs'⟩ := spawn_job_background_returns h j (s.with_forks fs) hready
    exact ⟨s', hs', hshell false fs s' hs'⟩
  · intro pids rest s' hpids hlen hr
    have hl := spawn_job_execed_loop h j fg _ s' hr
    rw [hjob, hbeg] at hl
    have hk := spawn_loop_last_child_stdout h j fg _
      ((spawn_begin (s.job j) s).2.2.2.with_forks (pids ++ 0 :: rest)) s' (by simp)
      (by simp) _ pids _ _ _ rest hnc rfl hpids hlen (hfresh' _)
      (by
        show ((spawn_begin (s.job j) s).2.2.2.job j).mystderr = _
        rw [quiet_stderr hq j, herr])
      (by rw [hstd]; exact hmark) (by rw [hstd]; exact hredir)
      (by rw [hstd]; exact b6) (hin2 _) hl
    rw [hk]
    exact b3

/-- Witness of C13 as the code has it: the job `sort < in | uniq > out` of
`redirect_state`.  The child of the last stage reaches `execvp` with the file
`out` as standard output, and the shell returns with descriptors 0 and 1 as
they were. -/
theorem spawn_job_output_redirect_witness :
    (∃ s', spawn_job sample_headers 0 false (redirect_state.with_forks [100, 0]) =
        Outcome.execed s' ∧
      Call.open_file (some "out") OpenMode.wronly_creat_trunc 6 ∈ s'.trace ∧
      fd_lookup s'.fds STDOUT_FILENO =
        some (FileObj.file "out" OpenMode.wronly_creat_trunc)) ∧
    (∃ s', spawn_job sample_headers 0 false (redirect_state.with_forks [100, 101]) =
        Outcome.returned s' ∧
      fd_lookup s'.fds STDIN_FILENO = fd_lookup redirect_state.fds STDIN_FILENO ∧
      fd_lookup s'.fds STDOUT_FILENO = fd_lookup redirect_state.fds STDOUT_FILENO) :=
  ⟨⟨_, rfl, by decide,
      (spawn_job_output_redirect sample_headers 0 false redirect_state "out" 3 4 6
        (by decide) (by decide) (by decide) (by decide) (by decide) (by decide) (by decide)
        (by decide) (by decide) (by decide) (by decide) (by decide) (by decide)
        (by decide)).1 [100] [] _ (by decide) (by decide) rfl⟩,
    ⟨_, rfl,
      (spawn_job_output_redirect sample_headers 0 false redirect_state "out" 3 4 6
        (by decide) (by decide) (by decide) (by decide) (by decide) (by decide) (by decide)
        (by decide) (by decide) (by decide) (by decide) (by decide) (by decide)
        (by decide)).2.1 [100, 101] _ rfl⟩⟩

/-- Counterexample of C13: the job `echo hi > out` of `failed_open_state`, for
which `open` returns -1.  `spawn_job` goes on, and the child reaches `execvp`
with the shell's original standard output as its standard output. -/
theorem spawn_job_output_open_fails :
    ∃ s', spawn_job sample_headers 0 true (failed_open_state.with_forks [0]) =
        Outcome.execed s' ∧
      Call.open_file (some "out") OpenMode.wronly_creat_trunc (-1) ∈ s'.trace ∧
      fd_lookup s'.fds STDOUT_FILENO = some (FileObj.inherited 1) ∧
      fd_lookup failed_open_state.fds STDOUT_FILENO = some (FileObj.inherited 1) :=
  ⟨_, rfl, by decide, by decide, by decide⟩

/-! ## Registry removal and the job listing: theorems -/

/-- C15 fails in the code: in the registry of `three_jobs_state`, which holds
the jobs `a`, `b` and `c`, `remove_and_free` called on `b` (index 1) unlinks
and releases `c`, the successor of `b`; `b` itself stays linked. -/
theorem remove_and_free_removes_successor :
    three_jobs_state.first_job.map (fun jb => jb.commandinfo) = ["a", "b", "c"] ∧
    ∃ s', remove_and_free three_jobs_state 1 = Outcome.returned s' ∧
      s'.first_job.map (fun jb => jb.commandinfo) = ["a", "b"] :=
  ⟨by decide, _, rfl, by decide⟩

/-- C17 fails in the code: in `half_completed_state` the pipeline `a | b` of
slot 0 is not completed, its second process is running, but its first process
is marked completed; `list_jobs` prints it as `Completed`, removes it from the
registry and clears its slot. -/
theorem list_jobs_removes_running_job :
    job_is_completed (half_completed_state.job 0) = 0 ∧
    ∃ s', list_jobs half_completed_state = Outcome.returned s' ∧
      s'.trace = [Call.printf_job 0 "Completed" "a | b"] ∧
      s'.first_job.map (fun jb => jb.commandinfo) = ["jobs"] ∧
      s'.job_array = List.replicate 20 0 :=
  ⟨by decide, _, rfl, by decide, by decide, by decide⟩

/-- C16 fails in the code.  From an empty registry and an empty slot table:
`cat &` is spawned in the background (group 100, slot 0); `true` is spawned in
the foreground (group 200, slot 1), exits, and `cat` stops while the shell
waits; then `jobs` is parsed and `list_jobs` runs.  The job `true` is
completed and not the first of the registry: `list_jobs` clears its slot 1 but
`remove_and_free` unlinks its successor, so `true` stays in the registry
without a number, slot 1 is the lowest free slot, and the next job spawned,
`date &`, gets slot 1 while `true` is still registered. -/
theorem list_jobs_frees_slot_of_registered_job :
    ∃ s1 s2 s3 s4,
      spawn_job sample_headers 0 false
        (empty_registry_state.append_job (parsed_job "cat &" true ["cat"])) =
        Outcome.returned s1 ∧
      spawn_job sample_headers 1 true
        (s1.append_job (parsed_job "true" false ["true"])) = Outcome.returned s2 ∧
      s2.job_array.take 3 = [100, 200, 0] ∧
      list_jobs (s2.append_job (parsed_job "jobs" false ["jobs"])) = Outcome.returned s3 ∧
      s3.first_job.map (fun jb => (jb.commandinfo, jb.pgid)) =
        [("cat &", 100), ("true", 200)] ∧
      s3.job_array.take 3 = [100, 0, 0] ∧ find_lowest_index s3 = 1 ∧
      spawn_job sample_headers 2 false
        (s3.append_job (parsed_job "date &" true ["date"])) = Outcome.returned s4 ∧
      s4.first_job.map (fun jb => (jb.commandinfo, jb.pgid)) =
        [("cat &", 100), ("true", 200), ("date &", 300)] ∧
      s4.job_array.take 3 = [100, 300, 0] :=
  ⟨_, _, _, _, rfl, rfl, by decide, rfl, by decide, by decide, by decide, rfl, by decide,
    by decide⟩
theorem find_prev_job_loop_found (j : Nat) :
    ∀ (l : List job_t) (i : Nat), (∀ jb ∈ l, jb.freed = false) → i < j →
      j < i + l.length → find_prev_job_loop j l i = some (some (j - 1)) := by
  intro l
  induction l with
  | nil => intro i _ h1 h2; simp at h2; omega
  | cons a rest ih =>
    intro i hfree h1 h2
    have ha : a.freed = false := hfree a (List.mem_cons_self _ _)
    cases rest with
    | nil => simp at h2; omega
    | cons b rest' =>
      rw [find_prev_job_loop]
      simp only [ha, Bool.false_eq_true, if_false]
      by_cases hj : i + 1 = j
      · rw [if_pos hj, ← hj]
        rfl
      · rw [if_neg hj]
        apply ih (i + 1) (fun x hx => hfree x (List.mem_cons_of_mem _ hx)) (by omega)
        simp only [List.length_cons] at h2 ⊢
        omega

/-- What `remove_and_free` does for a job `j` of the registry that is not the
first: the job after `j`, if there is one, is unlinked, and `j` stays. -/
theorem remove_and_free_not_first (s : State) (j : Nat)
    (hfree : ∀ jb ∈ s.first_job, jb.freed = false) (h0 : 0 < j)
    (hj : j < s.first_job.length) :
    remove_and_free s j =
      Outcome.returned { s with first_job := s.first_job.eraseIdx (j + 1) } := by
  have hprev : find_prev_job s j = some (some (j - 1)) :=
    find_prev_job_loop_found j s.first_job 0 hfree h0 (by omega)
  have hjf : (s.job j).freed = false := by
    apply hfree
    unfold State.job
    rw [List.getD_eq_getElem?_getD, List.getElem?_eq_getElem hj]
    exact List.getElem_mem _
  unfold remove_and_free
  rw [hprev]
  simp only [hjf, Bool.false_eq_true, if_false]
  cases hn : s.first_job[j + 1]? with
  | none =>
    simp only []
    have hlen : s.first_job.length ≤ j + 1 := List.getElem?_eq_none_iff.1 hn
    rw [List.eraseIdx_of_length_le hlen]
  | some tmp =>
    have htf : tmp.freed = false := hfree tmp (List.getElem?_mem hn)
    simp only [htf, Bool.false_eq_true, if_false]

theorem find_prev_job_loop_first (j : Nat) :
    ∀ (l : List job_t) (i : Nat), (∀ jb ∈ l, jb.freed = false) → l ≠ [] → j ≤ i →
      find_prev_job_loop j l i = some none := by
  intro l
  induction l with
  | nil => intro i _ hne _; exact absurd rfl hne
  | cons a rest ih =>
    intro i hfree _ hji
    have ha : a.freed = false := hfree a (List.mem_cons_self _ _)
    cases rest with
    | nil => simp [find_prev_job_loop, ha]
    | cons b rest' =>
      rw [find_prev_job_loop]
      simp only [ha, Bool.false_eq_true, if_false]
      rw [if_neg (by omega)]
      exact ih (i + 1) (fun x hx => hfree x (List.mem_cons_of_mem _ hx)) (by simp) (by omega)

/-- What `remove_and_free` does for the first job of the registry: it is
unlinked when it has a successor; when it is the only job, `first_job` keeps
pointing to the released record. -/
theorem remove_and_free_first (s : State) (a : job_t) (rest : List job_t)
    (hs : s.first_job = a :: rest) (hfree : ∀ jb ∈ s.first_job, jb.freed = false) :
    remove_and_free s 0 =
      Outcome.returned
        { s with first_job := if rest = [] then [{ a with freed := true }] else rest } := by
  have hprev : find_prev_job s 0 = some none :=
    find_prev_job_loop_first 0 s.first_job 0 hfree (by rw [hs]; simp) (Nat.le_refl 0)
  unfold remove_and_free
  rw [hprev]
  simp only [hs]
  cases rest with
  | nil => simp
  | cons b rest' => simp

/-! ## Command-line parser: theorems -/

theorem copy_word_spec : ∀ l : List Char,
    (copy_word l).1 ++ (copy_word l).2 = l ∧
    (∀ x ∈ (copy_word l).1, isspace x = false) ∧
    ((copy_word l).2 = [] ∨ ∃ c r, (copy_word l).2 = c :: r ∧ isspace c = true) := by
  intro l
  induction l with
  | nil => exact ⟨rfl, (fun x hx => by cases hx), Or.inl rfl⟩
  | cons c rest ih =>
    unfold copy_word
    cases hc : isspace c with
    | true => exact ⟨rfl, (fun x hx => by cases hx), Or.inr ⟨c, rest, rfl, hc⟩⟩
    | false =>
      simp only [Bool.false_eq_true, if_false]
      refine ⟨by rw [List.cons_append, ih.1], ?_, ih.2.2⟩
      intro x hx
      rcases List.mem_cons.1 hx with hx | hx
      · rw [hx]; exact hc
      · exact ih.2.1 x hx

theorem words_nil : words [] = [] := by
  simp [words, List.splitOnP_nil]

theorem words_cons_space (c : Char) (l : List Char) (hc : isspace c = true) :
    words (c :: l) = words l := by
  unfold words
  rw [List.splitOnP_cons, if_pos hc]
  rfl

theorem words_skip_spaces : ∀ l : List Char, words (skip_spaces l) = words l := by
  intro l
  induction l with
  | nil => rfl
  | cons c rest ih =>
    unfold skip_spaces
    cases hc : isspace c with
    | true =>
      simp only [if_true]
      rw [ih, words_cons_space c rest hc]
    | false => simp

theorem words_word (w r : List Char) (hw : w ≠ [])
    (hns : ∀ x ∈ w, isspace x = false)
    (hr : r = [] ∨ ∃ c r', r = c :: r' ∧ isspace c = true) :
    words (w ++ r) = w :: words r := by
  have hns' : ∀ x ∈ w, ¬ isspace x = true := fun x hx => by simp [hns x hx]
  have hwe : (!w.isEmpty) = true := by
    cases w with
    | nil => exact absurd rfl hw
    | cons a b => rfl
  rcases hr with hr | ⟨c, r', hr, hc⟩
  · subst hr
    rw [List.append_nil, words_nil]
    unfold words
    rw [List.splitOnP_eq_single isspace w hns']
    simp [hwe]
  · subst hr
    rw [words_cons_space c r' hc]
    unfold words
    rw [List.splitOnP_first isspace w hns' c hc]
    simp [hwe]

theorem skip_spaces_spec : ∀ l : List Char,
    (skip_spaces l).length ≤ l.length ∧
    (skip_spaces l = [] ∨ ∃ c r, skip_spaces l = c :: r ∧ isspace c = false) := by
  intro l
  induction l with
  | nil => exact ⟨Nat.le_refl _, Or.inl rfl⟩
  | cons c rest ih =>
    unfold skip_spaces
    cases hc : isspace c with
    | true =>
      simp only [if_true]
      exact ⟨Nat.le_trans ih.1 (by simp), ih.2⟩
    | false =>
      simp only [Bool.false_eq_true, if_false]
      exact ⟨Nat.le_refl _, Or.inr ⟨c, rest, rfl, hc⟩⟩

theorem copy_word_ne_nil (c : Char) (rest : List Char) (hc : isspace c = false) :
    (copy_word (c :: rest)).1 ≠ [] := by
  unfold copy_word
  simp [hc]

/-- The main loop of `readprocessinfo` with enough turns left, on a command
that is empty or starts with a character that is not a space: it stores the
words of the command from slot `argc` on, then a null pointer, and leaves the
other slots alone. -/
theorem readprocessinfo_loop_spec (h : Headers) :
    ∀ (fuel : Nat) (l : List Char) (argc : Nat) (argv : List (Option String)),
      l.length < fuel →
      (l = [] ∨ ∃ c r, l = c :: r ∧ isspace c = false) →
      argc + (words l).length < argv.length →
      (∀ w ∈ words l, w.length < h.MAX_LEN_CMDLINE) →
      ∃ argv', readprocessinfo_loop h fuel l argc argv =
          some (argc + (words l).length, argv') ∧
        argv'.length = argv.length ∧
        (∀ i, i < argc → argv'[i]? = argv[i]?) ∧
        (∀ i w, (words l)[i]? = some w → argv'[argc + i]? = some (some (String.mk w))) ∧
        argv'[argc + (words l).length]? = some none ∧
        (∀ i, argc + (words l).length < i → argv'[i]? = argv[i]?) := by
  intro fuel
  induction fuel with
  | zero => intro l _ _ hf; omega
  | succ n ih =>
    intro l argc argv hfuel hhead hargs hlen
    cases l with
    | nil =>
      rw [words_nil] at hargs ⊢
      simp only [List.length_nil, Nat.add_zero] at hargs ⊢
      refine ⟨argv.set argc none, ?_, by simp, ?_, ?_, ?_, ?_⟩
      · simp [readprocessinfo_loop, hargs]
      · intro i hi
        rw [List.getElem?_set, if_neg (by omega)]
      · intro i w hw
        simp at hw
      · rw [List.getElem?_set, if_pos rfl, if_pos hargs]
      · intro i hi
        rw [List.getElem?_set, if_neg (by omega)]
    | cons c rest =>
      have hc : isspace c = false := by
        rcases hhead with hh | ⟨c', r', hh, hc'⟩
        · cases hh
        · cases hh
          exact hc'
      obtain ⟨hsplit, hns, hr2⟩ := copy_word_spec (c :: rest)
      have hw0 := copy_word_ne_nil c rest hc
      have hwords : words (c :: rest) =
          (copy_word (c :: rest)).1 :: words (skip_spaces (copy_word (c :: rest)).2) := by
        rw [words_skip_spaces, ← words_word _ _ hw0 hns hr2, hsplit]
      obtain ⟨hsl, hsh⟩ := skip_spaces_spec (copy_word (c :: rest)).2
      have hlen2 : (copy_word (c :: rest)).2.length < (c :: rest).length := by
        have := congrArg List.length hsplit
        rw [List.length_append] at this
        have hpos : 0 < (copy_word (c :: rest)).1.length := List.length_pos.2 hw0
        omega
      rw [hwords] at hargs hlen ⊢
      simp only [List.length_cons] at hargs hfuel hlen2 ⊢
      have hargc : argc < argv.length := by omega
      have hwl : (copy_word (c :: rest)).1.length < h.MAX_LEN_CMDLINE :=
        hlen _ (List.mem_cons_self _ _)
      obtain ⟨argv', e1, e2, e3, e4, e5, e6⟩ :=
        ih (skip_spaces (copy_word (c :: rest)).2) (argc + 1)
          (argv.set argc (some (String.mk (copy_word (c :: rest)).1)))
          (by omega) hsh (by rw [List.length_set]; omega)
          (fun w hw => hlen w (List.mem_cons_of_mem _ hw))
      refine ⟨argv', ?_, ?_, ?_, ?_, ?_, ?_⟩
      · rw [readprocessinfo_loop]
        simp only [hargc, if_true, hwl]
        rw [e1]
        congr 2
        omega
      · rw [e2, List.length_set]
      · intro i hi
        rw [e3 i (by omega), List.getElem?_set, if_neg (by omega)]
      · intro i w hw
        cases i with
        | zero =>
          simp only [List.getElem?_cons_zero, Option.some.injEq] at hw
          rw [Nat.add_zero, e3 argc (by omega), List.getElem?_set, if_pos rfl, if_pos hargc,
            hw]
        | succ k =>
          simp only [List.getElem?_cons_succ] at hw
          have := e4 k w hw
          rw [show argc + (k + 1) = argc + 1 + k by omega]
          exact this
      · rw [show argc + ((words (skip_spaces (copy_word (c :: rest)).2)).length + 1) =
          argc + 1 + (words (skip_spaces (copy_word (c :: rest)).2)).length by omega]
        exact e5
      · intro i hi
        rw [e6 i (by omega), List.getElem?_set, if_neg (by omega)]

/-- C20 as the code has it: for a command with fewer than `MAX_ARGS` words,
each word shorter than the `MAX_LEN_CMDLINE` characters of an argument buffer
(as every word of a command line that `readcmdline` has read is),
`readprocessinfo` on a freshly initialised process returns with `p->argc`
equal to the number of maximal whitespace-free runs of `cmd`, `p->argv[i]`
equal to the `i`-th run for every `i < argc`, and `p->argv[argc]` null. -/
theorem readprocessinfo_words (h : Headers) (cmd : List Char)
    (hargs : (words cmd).length < h.MAX_ARGS)
    (hlen : ∀ w ∈ words cmd, w.length < h.MAX_LEN_CMDLINE) :
    ∃ argv : List (Option String),
      readprocessinfo h 0 (List.replicate h.MAX_ARGS none) cmd =
        some ((words cmd).length, argv) ∧
      argv.length = h.MAX_ARGS ∧
      (∀ (i : Nat) (w : List Char), (words cmd)[i]? = some w →
        argv[i]? = some (some (String.mk w))) ∧
      argv[(words cmd).length]? = some none := by
  unfold readprocessinfo
  obtain ⟨_, hsh⟩ := skip_spaces_spec cmd
  have hw := words_skip_spaces cmd
  cases hs : skip_spaces cmd with
  | nil =>
    rw [hs, words_nil] at hw
    rw [← hw]
    refine ⟨List.replicate h.MAX_ARGS none, rfl, by simp, ?_, ?_⟩
    · intro i w hi
      simp at hi
    · rw [← hw] at hargs
      simp only [List.length_nil] at hargs ⊢
      rw [List.getElem?_replicate, if_pos hargs]
  | cons c rest =>
    rw [hs] at hw hsh
    rw [← hw] at hargs hlen ⊢
    obtain ⟨argv', e1, e2, _, e4, e5, _⟩ :=
      readprocessinfo_loop_spec h ((c :: rest).length + 1) (c :: rest) 0
        (List.replicate h.MAX_ARGS none) (Nat.lt_succ_self _) hsh
        (by simpa using hargs) hlen
    simp only [Nat.zero_add] at e1 e4 e5
    exact ⟨argv', e1, by simpa using e2, e4, e5⟩

/-- Witness of C20 as the code has it: the command `echo  a b` has the three words `echo`, `a`
and `b`, fewer than the 20 of `sample_headers`. -/
theorem readprocessinfo_words_witness :
    words "echo  a b".toList = ["echo".toList, "a".toList, "b".toList] ∧
    (words "echo  a b".toList).length < sample_headers.MAX_ARGS ∧
    (∀ w ∈ words "echo  a b".toList, w.length < sample_headers.MAX_LEN_CMDLINE) ∧
    ∃ argv : List (Option String),
      readprocessinfo sample_headers 0 (List.replicate sample_headers.MAX_ARGS none)
        "echo  a b".toList = some ((words "echo  a b".toList).length, argv) ∧
      argv.length = sample_headers.MAX_ARGS ∧
      (∀ (i : Nat) (w : List Char), (words "echo  a b".toList)[i]? = some w →
        argv[i]? = some (some (String.mk w))) ∧
      argv[(words "echo  a b".toList).length]? = some none :=
  ⟨by decide, by decide, by decide,
    readprocessinfo_words sample_headers "echo  a b".toList (by decide) (by decide)⟩

/-- Counterexample of C20: a command of one word of 120 characters, the
`MAX_LEN_CMDLINE` of `sample_headers`.  The word fills the 120 characters that
`readprocessinfo` allocates for `argv[0]`, and the terminator is written past
the end of that buffer: the call has no defined result. -/
theorem readprocessinfo_long_word :
    (words (List.replicate 120 'a')).length = 1 ∧
    1 < sample_headers.MAX_ARGS ∧
    readprocessinfo sample_headers 0 (List.replicate sample_headers.MAX_ARGS none)
      (List.replicate 120 'a') = none :=
  ⟨by decide, by decide, by decide⟩

theorem invokefree_true (s : State) (j : Option Nat) (msg : String) :
    (invokefree s j msg).1 = true := by
  unfold invokefree free_job
  split <;> rfl

/-- What every `return invokefree (current_job, msg)` of `readcmdline` leaves:
the registry has as many jobs as before, and the record of `current_job` is
released while still linked. -/
theorem invokefree_keeps_job_linked (s : State) (i : Nat) (msg : String)
    (hi : i < s.first_job.length) :
    (invokefree s (some i) msg).2.first_job.length = s.first_job.length ∧
    ((invokefree s (some i) msg).2.job i).freed = true := by
  unfold invokefree free_job
  simp only []
  constructor
  · show (modify_nth _ i s.first_job).length = _
    rw [modify_nth_length]
  · rw [job_modify_job (s.log (Call.fprintf_stderr msg)) i _ hi]

/-- C18 fails in the code: the line `cat < f x`, in which a word follows the
redirect file name, is rejected through `invokefree`; after `readcmdline`
returns, the registry, empty before, holds the job built from the rejected
line, with the input file `f` stored in it, and the record has been released
by `free_job` while `first_job` still points to it. -/
theorem readcmdline_rejected_job_stays :
    ∃ ret s', readcmdline sample_headers "dsh$ " "cat < f x\n".toList
        (sample_state [] empty_env) = some (ret, s') ∧
      s'.trace = [Call.printf_prompt "dsh$ ",
        Call.fprintf_stderr "reading cmdline: could not fathom input"] ∧
      s'.first_job.length = 1 ∧ (s'.job 0).ifile = some "f" ∧
      (s'.job 0).mystdin = sample_headers.INPUT_FD ∧ (s'.job 0).freed = true :=
  ⟨_, _, rfl, by decide, by decide, by decide, by decide, by decide⟩

/-- C19 fails in the code: the line `cat > ` followed by a file name of 81
characters, one more than the `MAX_LEN_FILENAME` of `sample_headers`, is
rejected through `invokefree` with the message for an over-long file name, and
`readcmdline` returns `true`, the value of `free_job`. -/
theorem readcmdline_error_returns_true :
    ∃ s', readcmdline sample_headers "dsh$ "
        ("cat > ".toList ++ List.replicate 81 'a' ++ ['\n'])
        (sample_state [] empty_env) = some (true, s') ∧
      s'.trace = [Call.printf_prompt "dsh$ ",
        Call.fprintf_stderr "input redirection: file length exceeded"] :=
  ⟨_, rfl, by decide⟩

/-! ## The read end kept by a child, for every pipeline: theorems -/

/-- The defect of C12 for every pipeline: for a job none of whose stages is
marked completed and whose `mystderr` is `STDERR_FILENO`, with `pipe` calls
that return fresh descriptors other than 0 and 1, the child of every stage but
the last reaches `execvp` with a descriptor open on the read end of the pipe
its standard output writes to. -/
theorem spawn_loop_child_keeps_read_end (h : Headers) (j : Nat) (fg : Bool)
    (ps : List process_t) (pids : List Int) (k : Nat)
    (mypipe : Int × Int) (infile : Int) (s s' : State) (rest : List Int)
    (hnc : ∀ p ∈ ps, p.completed = false)
    (hforks : s.env.forks = pids ++ 0 :: rest) (hpids : ∀ f ∈ pids, f ≠ 0)
    (hlen : pids.length + 1 < ps.length)
    (hfresh : fresh_pipes [STDIN_FILENO, STDOUT_FILENO] infile s.env.pipes)
    (herr : (s.job j).mystderr = STDERR_FILENO)
    (hr : spawn_loop h j fg ps k mypipe infile s = Outcome.execed s') :
    ∃ fd, fd_lookup s'.fds fd = some (FileObj.pipe_read (s.npipes + pids.length)) ∧
      fd ≠ STDIN_FILENO ∧ fd ≠ STDOUT_FILENO := by
  obtain ⟨mi, ii, si, e1, e2, e3, e4, e5, _, _, _⟩ :=
    spawn_loop_prefix h j fg [STDIN_FILENO, STDOUT_FILENO] ps pids k mypipe infile s s'
      (0 :: rest) hnc hforks hpids (by omega) hfresh (Or.inr hr)
  rw [hr] at e1
  have hlt : pids.length < ps.length := by omega
  rw [List.drop_eq_getElem_cons hlt] at e1
  obtain ⟨m1, outfile, s1, s2, hop, hf2, _, he2, hch⟩ :=
    spawn_loop_step_child h j fg _ _ _ mi ii si s' rest
      (hnc _ (List.getElem_mem _)) e2 e1
  have hne : (!(List.drop (pids.length + 1) ps).isEmpty) = true := by
    cases hd : List.drop (pids.length + 1) ps with
    | nil =>
      have := List.drop_eq_nil_iff.1 hd
      omega
    | cons a b => rfl
  rw [hne] at hop
  obtain ⟨tl, hpipes, hout, _, _, _, _, hfds1⟩ := open_pipe_next j mi si _ hop
  simp only [] at hpipes hout hfds1
  subst hout
  have hfr := e5 hlt
  rw [hpipes] at hfr
  obtain ⟨hrw, hra, _, hri, _, _⟩ := hfr
  simp only [List.mem_cons, List.mem_singleton, not_or, List.not_mem_nil, or_false]
    at hra
  obtain ⟨s0, hs0, _, hfds⟩ :=
    spawn_child_execed j _ fg _ ii m1.2 s2 s' (by rw [he2, e4.2.2, herr]) hch
  have hmin : min pids.length (ps.length - 1) = pids.length := by omega
  refine ⟨m1.1, ?_, hra.1, hra.2⟩
  rw [hfds, lookup_redirect_other _ m1.2 STDOUT_FILENO m1.1 hra.2 hrw,
    lookup_redirect_other _ ii STDIN_FILENO m1.1 hra.1 hri, hs0, hf2, hfds1,
    fd_lookup_set, if_neg hrw, fd_lookup_set, if_pos rfl, e3, hmin]

/-! ## Calls of a child on its group and on the terminal: theorems -/

theorem plain_step_refl (s : State) : plain_step s s :=
  ⟨[], by simp, (fun c hc => by cases hc)⟩

theorem plain_step_trans {s1 s2 s3 : State} (h12 : plain_step s1 s2)
    (h23 : plain_step s2 s3) : plain_step s1 s3 := by
  obtain ⟨c1, e1, n1⟩ := h12
  obtain ⟨c2, e2, n2⟩ := h23
  refine ⟨c1 ++ c2, by rw [e2, e1, List.append_assoc], ?_⟩
  intro c hc
  rcases List.mem_append.1 hc with hc | hc
  · exact n1 c hc
  · exact n2 c hc

theorem plain_step_one (s s' : State) (c : Call) (ht : s'.trace = s.trace ++ [c])
    (hc : is_tcsetpgrp c = false ∧ is_setpgid c = false) : plain_step s s' :=
  ⟨[c], ht, by intro d hd; simp at hd; subst hd; exact hc⟩

theorem plain_step_of_same (s s' : State) (ht : s'.trace = s.trace) : plain_step s s' :=
  ⟨[], by simp [ht], (fun c hc => by cases hc)⟩

theorem plain_step_redirect (s : State) (fd target : Int) :
    plain_step s (redirect s fd target) := by
  unfold redirect
  split
  · exact plain_step_trans
      (plain_step_one s (sys_dup2 s fd target) (Call.dup2 fd target) rfl ⟨rfl, rfl⟩)
      (plain_step_one _ (sys_close (sys_dup2 s fd target) fd) (Call.close fd) rfl ⟨rfl, rfl⟩)
  · exact plain_step_refl s

theorem plain_step_child_redirect (j : Nat) (infile outfile : Int) (s : State) :
    plain_step s (child_redirect j infile outfile s) :=
  plain_step_trans (plain_step_trans (plain_step_redirect _ _ _) (plain_step_redirect _ _ _))
    (plain_step_redirect _ _ _)

theorem plain_step_child_exec (p : process_t) (s : State) :
    (child_exec p s).holds (plain_step s) := by
  unfold child_exec
  split
  · trivial
  · split
    · exact plain_step_one s _ (Call.execvp p.argv 0) rfl ⟨rfl, rfl⟩
    · refine ⟨[Call.execvp p.argv (-1), Call.perror "execvp", Call.exit 1], rfl, ?_⟩
      intro d hd
      simp at hd
      rcases hd with rfl | rfl | rfl <;> exact ⟨rfl, rfl⟩

theorem pgid_neg_valid (s : State) (j : Nat) (hneg : (s.job j).pgid < 0) :
    j < s.first_job.length := by
  by_contra hj
  have hd : s.job j = default := by
    unfold State.job
    rw [List.getD_eq_getElem?_getD, List.getElem?_eq_none (by omega)]
    rfl
  rw [hd] at hneg
  exact absurd hneg (by decide)

theorem record_pgid_job (s s' : State) (pgid : Int) (j : Nat)
    (hr : record_pgid s pgid = some s') :
    s'.job j = s.job j ∧ s'.trace = s.trace ∧ s'.env = s.env ∧
    s'.shell_terminal = s.shell_terminal := by
  unfold record_pgid at hr
  simp only [] at hr
  split at hr
  · cases hr; exact ⟨rfl, rfl, rfl, rfl⟩
  · cases hr

/-- The calls of `child_join_group`: `getpid` when the job has no group yet,
then `setpgid (0, g)` with `g` the job's group, then `tcsetpgrp` on the shell's
terminal with the same group exactly when `fg` is set and `setpgid` returned
0. -/
theorem child_join_group_calls (j k : Nat) (fg : Bool) (s s' : State)
    (hr : child_join_group j k fg s = some s') :
    ∃ pre, no_group_call pre ∧
      s'.trace = s.trace ++ pre ++
        [Call.setpgid 0 (if (s.job j).pgid < 0 then (sys_getpid s).1 else (s.job j).pgid)] ++
        (if fg = true ∧ s.env.setpgids.head?.getD (-1) = 0 then
          [Call.tcsetpgrp s.shell_terminal
            (if (s.job j).pgid < 0 then (sys_getpid s).1 else (s.job j).pgid)]
        else []) := by
  unfold child_join_group at hr
  simp only [] at hr
  split at hr
  · cases hr
  · rename_i s1 hown
    have h1 : ∃ pre, no_group_call pre ∧ s1.trace = s.trace ++ pre ∧
        s1.env.setpgids = s.env.setpgids ∧ s1.shell_terminal = s.shell_terminal ∧
        (s1.job j).pgid =
          (if (s.job j).pgid < 0 then (sys_getpid s).1 else (s.job j).pgid) := by
      split at hown
      · rename_i hneg
        have hj := pgid_neg_valid s j hneg
        obtain ⟨e1, e2, e3, e4⟩ := record_pgid_job _ s1 _ j hown
        refine ⟨[Call.getpid (sys_getpid s).1], ?_, ?_, ?_, ?_, ?_⟩
        · intro c hc
          simp at hc
          subst hc
          exact ⟨rfl, rfl⟩
        · rw [e2]; rfl
        · rw [e3]; rfl
        · rw [e4]; rfl
        · rw [e1, if_pos hneg]
          unfold State.set_pgid
          rw [job_modify_job _ _ _ (by exact hj)]
      · rename_i hneg
        cases hown
        exact ⟨[], (fun c hc => by cases hc), by simp, rfl, rfl, by rw [if_neg hneg]⟩
    obtain ⟨pre, hpre, ht, hse, hterm, hg⟩ := h1
    have hg2 : ((s1.set_pid j k 0).job j).pgid = (s1.job j).pgid := by
      by_cases hj : j < s1.first_job.length
      · unfold State.set_pid
        rw [job_modify_job _ _ _ hj]
      · unfold State.set_pid State.modify_job State.job
        simp only []
        rw [List.getD_eq_getElem?_getD, List.getD_eq_getElem?_getD,
          List.getElem?_eq_none (by rw [modify_nth_length]; omega),
          List.getElem?_eq_none (by omega)]
    have hret : (sys_setpgid (s1.set_pid j k 0) 0 ((s1.set_pid j k 0).job j).pgid).1 =
        s.env.setpgids.head?.getD (-1) := by
      show (s1.env.setpgids.head?.getD (-1)) = _
      rw [hse]
    cases hr
    refine ⟨pre, hpre, ?_⟩
    rw [hret, hg2, hg]
    by_cases h0 : s.env.setpgids.head?.getD (-1) = 0
    · cases fg with
      | true =>
        simp only [h0, if_true, and_self]
        show (s1.trace ++ [_]) ++ [Call.tcsetpgrp s1.shell_terminal _] = _
        rw [ht, hterm]
        have hjj : ((sys_setpgid (s1.set_pid j k 0) 0
            (if (s.job j).pgid < 0 then (sys_getpid s).1 else (s.job j).pgid)).2.job j).pgid =
            (if (s.job j).pgid < 0 then (sys_getpid s).1 else (s.job j).pgid) := by
          show ((s1.set_pid j k 0).job j).pgid = _
          rw [hg2, hg]
        rw [hjj]
      | false =>
        simp only [h0, if_true, Bool.false_eq_true, false_and, if_false, List.append_nil]
        show s1.trace ++ [_] = _
        rw [ht]
    · simp only [h0, if_false, and_false, List.append_nil]
      show s1.trace ++ [_] = _
      rw [ht]

theorem child_calls_of_trace (fg : Bool) (ret term g : Int) (pre post : List Call)
    (hpre : no_group_call pre) (hpost : no_group_call post) :
    child_calls fg ret term g
      (pre ++ [Call.setpgid 0 g] ++
        (if fg = true ∧ ret = 0 then [Call.tcsetpgrp term g] else []) ++ post) :=
  ⟨pre, post, rfl, hpre, hpost⟩

/-- C22: in a child of `spawn_job`, from the state `s` in which `fork` has
returned 0 to the end of the child, the calls on the group and on the terminal
are the call `setpgid (0, g)` with `g` the group of the job (the pid of the child
when the job had none), followed by the call `tcsetpgrp (shell_terminal, g)`
exactly when `fg` is set and that `setpgid` call returned 0, and no other
`setpgid` or `tcsetpgrp` call before or after; the child of `spawn_job` in
`dsh.c` makes the same calls, on the descriptor `ctty`. -/
theorem spawn_child_terminal_after_group (j k : Nat) (fg : Bool) (p : process_t)
    (infile outfile pgrp : Int) (fs : List Int) (s : State) :
    (spawn_child j k fg p infile outfile s).holds (fun s' =>
      ∃ calls, s'.trace = s.trace ++ calls ∧
        child_calls fg (sys_setpgid s 0 0).1 s.shell_terminal
          (if (s.job j).pgid < 0 then (sys_getpid s).1 else (s.job j).pgid) calls) ∧
    (spawn_child j k fg p infile outfile s = Outcome.undefined ↔
      (child_join_group j k fg s = none ∨ p.argv = [])) ∧
    (DshC.spawn_job pgrp fg (s.with_forks (0 :: fs))).1 = 0 ∧
    ∃ calls, (DshC.spawn_job pgrp fg (s.with_forks (0 :: fs))).2.trace =
        s.trace ++ [Call.fork 0] ++ calls ∧
      child_calls fg (sys_setpgid s 0 0).1 (-1)
        (if pgrp < 0 then (sys_getpid s).1 else pgrp) calls := by
  refine ⟨?_, ?_, ?_, ?_⟩
  · unfold spawn_child
    cases hc : child_join_group j k fg s with
    | none => trivial
    | some s3 =>
      obtain ⟨pre, hpre, ht⟩ := child_join_group_calls j k fg s s3 hc
      have h1 : plain_step s3 (s3.log (Call.signal_default Signal.SIGTTOU)) :=
        plain_step_one _ _ _ rfl ⟨rfl, rfl⟩
      have h2 := plain_step_trans h1 (plain_step_child_redirect j infile outfile _)
      have h3 := plain_step_child_exec p
        (child_redirect j infile outfile (s3.log (Call.signal_default Signal.SIGTTOU)))
      show (child_exec p _).holds _
      refine holds_mono ?_ _ h3
      intro s' hs'
      obtain ⟨post, hpost, hn⟩ := plain_step_trans h2 hs'
      refine ⟨_, ?_, child_calls_of_trace fg _ s.shell_terminal _ pre post hpre hn⟩
      rw [hpost, ht]
      simp only [List.append_assoc]
      rfl
  · unfold spawn_child
    cases hc : child_join_group j k fg s with
    | none => simp
    | some s3 =>
      simp only [false_or]
      unfold child_exec
      cases hp : p.argv with
      | nil => simp
      | cons a as =>
        simp only []
        split <;> simp
  · unfold DshC.spawn_job
    have hf : (sys_fork (s.with_forks (0 :: fs))).1 = 0 := rfl
    rw [if_neg (by rw [hf]; decide), if_pos hf]
  · unfold DshC.spawn_job
    have hf : (sys_fork (s.with_forks (0 :: fs))).1 = 0 := rfl
    rw [if_neg (by rw [hf]; decide), if_pos hf]
    simp only []
    by_cases hneg : pgrp < 0
    · simp only [if_pos hneg]
      refine ⟨_, ?_, child_calls_of_trace fg _ (-1) _ [Call.getpid (sys_getpid s).1] []
        (fun c hc => by simp at hc; subst hc; exact ⟨rfl, rfl⟩) (fun c hc => by cases hc)⟩
      by_cases h0 : (sys_setpgid s 0 0).1 = 0
      · have h0' : s.env.setpgids.head?.getD (-1) = 0 := h0
        cases fg <;>
          simp [sys_setpgid, sys_getpid, sys_fork, sys_tcsetpgrp, State.with_forks, h0']
      · have h0' : ¬ s.env.setpgids.head?.getD (-1) = 0 := h0
        simp [sys_setpgid, sys_getpid, sys_fork, sys_tcsetpgrp, State.with_forks, h0']
    · simp only [if_neg hneg]
      refine ⟨_, ?_, child_calls_of_trace fg _ (-1) _ [] []
        (fun c hc => by cases hc) (fun c hc => by cases hc)⟩
      by_cases h0 : (sys_setpgid s 0 0).1 = 0
      · have h0' : s.env.setpgids.head?.getD (-1) = 0 := h0
        cases fg <;>
          simp [sys_setpgid, sys_getpid, sys_fork, sys_tcsetpgrp, State.with_forks, h0']
      · have h0' : ¬ s.env.setpgids.head?.getD (-1) = 0 := h0
        simp [sys_setpgid, sys_getpid, sys_fork, sys_tcsetpgrp, State.with_forks, h0']

/-- The child of the first stage of a foreground job, on the sample state: it
joins group 100 and, the call having returned 0, makes that group the
foreground group of the terminal; when `setpgid` returns -1 no `tcsetpgrp` call
is made. -/
theorem spawn_child_example :
    (∃ s', spawn_child 0 0 true (sample_process ["echo", "a"]) 0 6 (child_state 0) =
        Outcome.execed s' ∧
      s'.trace = [Call.getpid 100, Call.setpgid 0 100, Call.tcsetpgrp 0 100,
        Call.signal_default Signal.SIGTTOU, Call.dup2 6 1, Call.close 6,
        Call.execvp ["echo", "a"] 0]) ∧
    (∃ s', spawn_child 0 0 true (sample_process ["echo", "a"]) 0 6 (child_state (-1)) =
        Outcome.execed s' ∧
      s'.trace = [Call.getpid 100, Call.setpgid 0 100,
        Call.signal_default Signal.SIGTTOU, Call.dup2 6 1, Call.close 6,
        Call.execvp ["echo", "a"] 0]) :=
  ⟨⟨_, rfl, by decide⟩, ⟨_, rfl, by decide⟩⟩

/-! ## Terminal attributes after a foreground wait: theorems -/

theorem shell_to_foreground_attributes (j : Nat) (s : State) (hj : j < s.first_job.length) :
    ((shell_to_foreground j s).job j).tmodes = s.tty_modes ∧
    (shell_to_foreground j s).tty_modes = s.shell_tmodes ∧
    (shell_to_foreground j s).shell_tmodes = s.shell_tmodes := by
  refine ⟨?_, rfl, rfl⟩
  show ((((sys_tcgetattr (sys_tcsetpgrp s s.shell_terminal s.shell_pgid)
    s.shell_terminal).2.modify_job j _)).job j).tmodes = _
  rw [job_modify_job _ _ _ (by exact hj)]
  rfl

/-- C24: when `put_job_in_foreground (j, cont)` returns, the wait of the job
has returned in a state `s3`, the attributes saved on the job are the terminal
attributes of `s3`, the terminal has the attributes `shell_tmodes`, and
`shell_tmodes` is what it was before the call. -/
theorem put_job_in_foreground_attributes (h : Headers) (j : Nat) (cont : Int) (s s' : State)
    (hr : put_job_in_foreground h j cont s = Outcome.returned s') :
    ∃ s3, wait_for_job h j (foreground_begin (s.job j) cont s) = Outcome.returned s3 ∧
      (s'.job j).tmodes = s3.tty_modes ∧
      s'.tty_modes = s.shell_tmodes ∧
      s'.shell_tmodes = s.shell_tmodes := by
  unfold put_job_in_foreground at hr
  split at hr
  · cases hr
  · rename_i job hjob
    have hjb : s.job j = job := (job_of_getElem? hjob).symm
    have hlen : j < s.first_job.length := by
      rcases Nat.lt_or_ge j s.first_job.length with hl | hl
      · exact hl
      · rw [List.getElem?_eq_none hl] at hjob
        cases hjob
    have h2 := same_shell_foreground_begin job cont s
    have hw := same_shell_wait_for_job h j (foreground_begin job cont s)
    split at hr
    · rename_i s3 hw3
      rw [hw3] at hw
      simp only [Outcome.returned.injEq] at hr
      subst hr
      have h3 := same_shell_trans h2 hw
      have hj3 : j < s3.first_job.length := by
        rw [h3.2.2.2]
        exact hlen
      obtain ⟨a1, a2, a3⟩ := shell_to_foreground_attributes j s3 hj3
      refine ⟨s3, by rw [hjb]; exact hw3, a1, ?_, ?_⟩
      · rw [a2, h3.2.2.1]
      · rw [a3, h3.2.2.1]
    · rename_i x hx
      exact absurd hr (hx s')

/-- The pipeline of `launched_state` is put in the foreground while its first
process leaves the terminal with the attributes 9 and both processes stop: the
call returns, the job has saved the attributes 9, and the terminal has the
attributes 7 of the shell. -/
theorem put_job_in_foreground_attributes_witness :
    ∃ s', put_job_in_foreground sample_headers 0 0 (launched_state raw_waits) =
        Outcome.returned s' ∧
      (s'.job 0).tmodes = 9 ∧ s'.tty_modes = 7 ∧ s'.shell_tmodes = 7 ∧
      ∃ s3, wait_for_job sample_headers 0
          (foreground_begin ((launched_state raw_waits).job 0) 0 (launched_state raw_waits)) =
          Outcome.returned s3 ∧
        (s'.job 0).tmodes = s3.tty_modes ∧
        s'.tty_modes = (launched_state raw_waits).shell_tmodes ∧
        s'.shell_tmodes = (launched_state raw_waits).shell_tmodes :=
  ⟨_, rfl, by decide, by decide, by decide,
    put_job_in_foreground_attributes sample_headers 0 0 (launched_state raw_waits) _ rfl⟩

/-! ## Process ids and group of a job: theorems -/

theorem same_ids_refl (s : State) : same_ids s s :=
  ⟨rfl, rfl, [], by simp, (fun c hc => by cases hc)⟩

theorem same_ids_trans {s1 s2 s3 : State} (h12 : same_ids s1 s2)
    (h23 : same_ids s2 s3) : same_ids s1 s3 := by
  obtain ⟨a1, b1, c1, e1, n1⟩ := h12
  obtain ⟨a2, b2, c2, e2, n2⟩ := h23
  refine ⟨a2.trans a1, b2.trans b1, c1 ++ c2, by rw [e2, e1, List.append_assoc], ?_⟩
  intro c hc
  rcases List.mem_append.1 hc with hc | hc
  · exact n1 c hc
  · exact n2 c hc

theorem same_ids_one (s s' : State) (c : Call) (hj : s'.first_job = s.first_job)
    (hf : s'.env.forks = s.env.forks) (ht : s'.trace = s.trace ++ [c])
    (hc : is_setpgid c = false) : same_ids s s' :=
  ⟨by rw [hj], hf, [c], ht, (fun d hd => by simp at hd; subst hd; exact hc)⟩

theorem same_ids_of_same (s s' : State) (hj : s'.first_job.map job_ids = s.first_job.map job_ids)
    (hf : s'.env.forks = s.env.forks) (ht : s'.trace = s.trace) : same_ids s s' :=
  ⟨hj, hf, [], by simp [ht], (fun c hc => by cases hc)⟩

theorem same_ids_log (s : State) (c : Call) (hc : is_setpgid c = false) :
    same_ids s (s.log c) :=
  same_ids_one s _ c rfl rfl rfl hc

theorem mark_processes_ids (h : Headers) (pid status : Int) :
    ∀ (ps ps' : List process_t), mark_processes h pid status ps = some ps' →
      ps'.map (fun p => p.pid) = ps.map (fun p => p.pid) := by
  intro ps
  induction ps with
  | nil => intro ps' hm; simp [mark_processes] at hm
  | cons p ps ih =>
    intro ps' hm
    unfold mark_processes at hm
    split at hm
    · cases hm
      simp only [List.map_cons, mark_process]
      split <;> rfl
    · cases hr : mark_processes h pid status ps with
      | none => simp [hr] at hm
      | some ps2 =>
        simp only [hr, Option.map_some', Option.some.injEq] at hm
        subst hm
        simp only [List.map_cons, ih ps2 hr]

theorem mark_jobs_ids (h : Headers) (pid status : Int) :
    ∀ (js js' : List job_t), mark_jobs h pid status js = some js' →
      js'.map job_ids = js.map job_ids := by
  intro js
  induction js with
  | nil => intro js' hm; simp [mark_jobs] at hm
  | cons jb js ih =>
    intro js' hm
    unfold mark_jobs at hm
    split at hm
    · rename_i ps' hp
      cases hm
      simp only [List.map_cons, job_ids, mark_processes_ids h pid status _ ps' hp]
    · cases hr : mark_jobs h pid status js with
      | none => simp [hr] at hm
      | some js2 =>
        simp only [hr, Option.map_some', Option.some.injEq] at hm
        subst hm
        simp only [List.map_cons, ih js2 hr]

theorem same_ids_mark (h : Headers) (s : State) (pid status : Int) :
    same_ids s (mark_process_status h s pid status).2 := by
  unfold mark_process_status
  split
  · split
    · rename_i js' hm
      have hj := mark_jobs_ids h pid status _ js' hm
      split
      · exact same_ids_of_same _ _ hj rfl rfl
      · split
        · exact ⟨hj, rfl, [Call.fprintf_terminated pid (h.WTERMSIG status)], rfl,
            (fun d hd => by simp at hd; subst hd; rfl)⟩
        · exact same_ids_of_same _ _ hj rfl rfl
    · exact same_ids_log _ _ rfl
  · split
    · exact same_ids_refl _
    · exact same_ids_log _ _ rfl

theorem same_ids_reap (h : Headers) (s : State) (w : WaitResult)
    (rest : List WaitResult) : same_ids s (reap h s w rest).2 := by
  have h1 : same_ids s (waitpid_step s w rest) :=
    same_ids_one s _ (Call.waitpid w.pid w.status) rfl rfl rfl rfl
  exact same_ids_trans h1 (same_ids_mark h _ _ _)

theorem same_ids_wait_loop (h : Headers) (j : Nat) :
    ∀ (ws : List WaitResult) (s : State),
      (wait_loop h j ws s).holds (same_ids s) := by
  intro ws
  induction ws with
  | nil => intro s; exact same_ids_refl s
  | cons w rest ih =>
    intro s
    have hr := same_ids_reap h s w rest
    unfold wait_loop
    simp only []
    split
    · exact hr
    · split
      · trivial
      · split
        · exact holds_mono (fun _ hs => same_ids_trans hr hs) _ (ih _)
        · exact hr

theorem same_ids_dup (s : State) (fd : Int) : same_ids s (sys_dup s fd).2 :=
  same_ids_one s _ (Call.dup fd (sys_dup s fd).1) rfl rfl rfl rfl

theorem same_ids_dup2 (s : State) (a b : Int) : same_ids s (sys_dup2 s a b) :=
  same_ids_one s _ (Call.dup2 a b) rfl rfl rfl rfl

theorem same_ids_open (s : State) (path : Option String) (m : OpenMode) :
    same_ids s (sys_open s path m).2 :=
  same_ids_one s _ (Call.open_file path m (sys_open s path m).1) rfl rfl rfl rfl

theorem same_ids_close (s : State) (fd : Int) : same_ids s (sys_close s fd) :=
  same_ids_one s _ (Call.close fd) rfl rfl rfl rfl

theorem same_ids_kill (s : State) (a : Int) (g : Signal) :
    same_ids s (sys_kill s a g).2 :=
  same_ids_one s _ (Call.kill a g) rfl rfl rfl rfl

theorem same_ids_tcsetpgrp (s : State) (a b : Int) : same_ids s (sys_tcsetpgrp s a b) :=
  same_ids_one s _ (Call.tcsetpgrp a b) rfl rfl rfl rfl

theorem same_ids_tcgetattr (s : State) (a : Int) : same_ids s (sys_tcgetattr s a).2 :=
  same_ids_one s _ (Call.tcgetattr a) rfl rfl rfl rfl

theorem same_ids_tcsetattr (s : State) (a : Int) (t : termios) :
    same_ids s (sys_tcsetattr s a t) :=
  same_ids_one s _ (Call.tcsetattr a t) rfl rfl rfl rfl

theorem same_ids_pipe (s : State) : same_ids s (sys_pipe s).2 := by
  unfold sys_pipe
  split
  · rename_i rw _
    exact same_ids_one s _ (Call.pipe rw.1 rw.2) rfl rfl rfl rfl
  · exact same_ids_one s _ Call.pipe_failed rfl rfl rfl rfl

theorem modify_nth_map_ids (f : job_t → job_t) (hf : ∀ x, job_ids (f x) = job_ids x)
    (n : Nat) (l : List job_t) : (modify_nth f n l).map job_ids = l.map job_ids := by
  induction l generalizing n with
  | nil => cases n <;> rfl
  | cons x xs ih =>
    cases n with
    | zero => simp only [modify_nth, List.map_cons, hf]
    | succ n => simp only [modify_nth, List.map_cons, ih]

theorem same_ids_modify_job (s : State) (j : Nat) (f : job_t → job_t)
    (hf : ∀ x, job_ids (f x) = job_ids x) : same_ids s (s.modify_job j f) :=
  same_ids_of_same _ _ (modify_nth_map_ids f hf j s.first_job) rfl rfl

theorem same_ids_close_unless (s : State) (fd keep : Int) :
    same_ids s (close_unless s fd keep) := by
  unfold close_unless
  split
  · exact same_ids_close _ _
  · exact same_ids_refl s

theorem same_ids_reset_file_ios (j : Nat) (infile outfile : Int) (s : State) :
    same_ids s (reset_file_ios j infile outfile s) :=
  same_ids_trans (same_ids_close_unless _ _ _) (same_ids_close_unless _ _ _)

theorem same_ids_open_pipe (j : Nat) (b : Bool) (mypipe : Int × Int) (s : State)
    (r : (Int × Int) × Int × State) (hr : open_pipe j b mypipe s = some r) :
    same_ids s r.2.2 := by
  unfold open_pipe at hr
  split at hr
  · split at hr
    · cases hr
      exact same_ids_pipe s
    · cases hr
  · cases hr; exact same_ids_refl s

theorem same_ids_foreground_begin (job : job_t) (cont : Int) (s : State) :
    same_ids s (foreground_begin job cont s) := by
  unfold foreground_begin
  split
  · have h1 := same_ids_tcsetpgrp s s.shell_terminal job.pgid
    have h2 := same_ids_tcsetattr (sys_tcsetpgrp s s.shell_terminal job.pgid)
      s.shell_terminal job.tmodes
    have h3 := same_ids_kill
      (sys_tcsetattr (sys_tcsetpgrp s s.shell_terminal job.pgid) s.shell_terminal
        job.tmodes) (-job.pgid) Signal.SIGCONT
    have h4 := same_ids_trans (same_ids_trans h1 h2) h3
    simp only []
    split
    · exact same_ids_trans h4 (same_ids_log _ (Call.perror "kill (SIGCONT)") rfl)
    · exact h4
  · exact same_ids_tcsetpgrp _ _ _

theorem same_ids_shell_to_foreground (j : Nat) (s : State) :
    same_ids s (shell_to_foreground j s) := by
  unfold shell_to_foreground
  have h1 := same_ids_tcsetpgrp s s.shell_terminal s.shell_pgid
  have h2 := same_ids_tcgetattr (sys_tcsetpgrp s s.shell_terminal s.shell_pgid)
    s.shell_terminal
  have h3 := same_ids_modify_job
    (sys_tcgetattr (sys_tcsetpgrp s s.shell_terminal s.shell_pgid) s.shell_terminal).2 j
    (fun jb => { jb with tmodes :=
      (sys_tcgetattr (sys_tcsetpgrp s s.shell_terminal s.shell_pgid) s.shell_terminal).1 })
    (fun _ => rfl)
  exact same_ids_trans (same_ids_trans (same_ids_trans h1 h2) h3) (same_ids_tcsetattr _ _ _)

theorem same_ids_wait_for_job (h : Headers) (j : Nat) (s : State) :
    (wait_for_job h j s).holds (same_ids s) :=
  same_ids_wait_loop h j s.env.waits s

theorem same_ids_put_job_in_foreground (h : Headers) (j : Nat) (cont : Int) (s : State) :
    (put_job_in_foreground h j cont s).holds (same_ids s) := by
  unfold put_job_in_foreground
  split
  · trivial
  · rename_i job _
    have h1 := same_ids_foreground_begin job cont s
    have h2 := same_ids_wait_for_job h j (foreground_begin job cont s)
    split
    · rename_i s3 h3
      rw [h3] at h2
      exact same_ids_trans h1 (same_ids_trans h2 (same_ids_shell_to_foreground j s3))
    · exact holds_mono (fun _ hs => same_ids_trans h1 hs) _ h2

theorem same_ids_put_job_in_background (j : Nat) (cont : Int) (s : State) :
    (put_job_in_background j cont s).holds (same_ids s) := by
  unfold put_job_in_background
  split
  · split
    · trivial
    · rename_i job _
      have h1 := same_ids_kill s (-job.pgid) Signal.SIGCONT
      show same_ids s _
      split
      · exact same_ids_trans h1 (same_ids_log _ (Call.perror "kill (SIGCONT)") rfl)
      · exact h1
  · exact same_ids_refl s

theorem same_ids_restore_control (j : Nat) (s : State) :
    (restore_control j s).holds (same_ids s) := by
  unfold restore_control
  split
  · trivial
  · exact same_ids_shell_to_foreground j s

theorem same_ids_spawn_finish (j : Nat) (a b : Int) (s : State) :
    (spawn_finish j a b s).holds (same_ids s) := by
  unfold spawn_finish
  exact holds_mono
    (fun _ hs => same_ids_trans
      (same_ids_trans (same_ids_dup2 s a 0) (same_ids_dup2 _ b 1)) hs) _
    (same_ids_restore_control j _)

theorem same_ids_spawn_end (h : Headers) (j : Nat) (fg : Bool) (a b : Int) (s : State) :
    (spawn_end h j fg a b s).holds (same_ids s) := by
  unfold spawn_end
  split
  · have h1 := same_ids_wait_for_job h j s
    split
    · rename_i s3 h3
      rw [h3] at h1
      have h2 := same_ids_put_job_in_foreground h j 0 s3
      split
      · rename_i s4 h4
        rw [h4] at h2
        exact holds_mono (fun _ hs => same_ids_trans h1 (same_ids_trans h2 hs)) _
          (same_ids_spawn_finish j a b s4)
      · exact holds_mono (fun _ hs => same_ids_trans h1 hs) _ h2
    · exact h1
  · have h1 := same_ids_put_job_in_background j 0 s
    split
    · rename_i s3 h3
      rw [h3] at h1
      exact holds_mono (fun _ hs => same_ids_trans h1 hs) _
        (same_ids_spawn_finish j a b s3)
    · exact h1

theorem same_ids_open_redirect (s : State) (fd std : Int) (path : Option String)
    (m : OpenMode) : same_ids s (open_redirect s fd std path m).2 := by
  unfold open_redirect
  split
  · exact same_ids_open _ _ _
  · exact same_ids_refl s

theorem same_ids_spawn_begin (job : job_t) (s : State) :
    same_ids s (spawn_begin job s).2.2.2 := by
  unfold spawn_begin
  exact same_ids_trans (same_ids_trans (same_ids_trans (same_ids_trans
    (same_ids_trans (same_ids_dup s 0) (same_ids_dup _ 1))
    (same_ids_open_redirect _ _ _ _ _)) (same_ids_open_redirect _ _ _ _ _))
    (same_ids_dup2 _ _ _)) (same_ids_dup2 _ _ _)

theorem same_ids_job (s s' : State) (hs : same_ids s s') (j : Nat) :
    job_ids (s'.job j) = job_ids (s.job j) := by
  have h1 := hs.1
  have hlen : s'.first_job.length = s.first_job.length := by
    have := congrArg List.length h1
    simpa using this
  unfold State.job
  rw [List.getD_eq_getElem?_getD, List.getD_eq_getElem?_getD]
  by_cases hj : j < s.first_job.length
  · have hj' : j < s'.first_job.length := by omega
    rw [List.getElem?_eq_getElem hj, List.getElem?_eq_getElem hj']
    simp only [Option.getD_some]
    have h2 : (s'.first_job.map job_ids)[j]? = (s.first_job.map job_ids)[j]? := by rw [h1]
    simpa [List.getElem?_map, List.getElem?_eq_getElem hj, List.getElem?_eq_getElem hj']
      using h2
  · rw [List.getElem?_eq_none (by omega), List.getElem?_eq_none (by omega)]

/-- The number of stages of `ps` that the loop of `spawn_job` forks: those not
marked completed use one pending `fork` result each when the loop runs to its
end in the shell. -/
theorem spawn_loop_fork_count (h : Headers) (j : Nat) (fg : Bool) :
    ∀ (ps : List process_t) (k : Nat) (mypipe : Int × Int) (infile : Int) (s s' : State),
      spawn_loop h j fg ps k mypipe infile s = Outcome.returned s' →
      s'.env.forks.length + (ps.filter (fun p => !p.completed)).length =
        s.env.forks.length := by
  intro ps
  induction ps with
  | nil =>
    intro k mypipe infile s s' hr
    simp only [spawn_loop, Outcome.returned.injEq] at hr
    subst hr
    simp
  | cons p rest ih =>
    intro k mypipe infile s s' hr
    unfold spawn_loop at hr
    split at hr
    · rename_i hc
      have := ih _ _ _ _ _ hr
      simp only [List.filter_cons, hc, Bool.not_true, Bool.false_eq_true, if_false]
      exact this
    · rename_i hc
      have hc' : p.completed = false := by simpa using hc
      split at hr
      · cases hr
      · rename_i mypipe1 outfile s1 hop
        have hf1 : s1.env.forks = s.env.forks := open_pipe_forks j _ mypipe s _ hop
        split at hr
        · cases hr
        · rename_i hne
          split at hr
          · exact absurd hr (spawn_child_not_returned _ _ _ _ _ _ _ _)
          · split at hr
            · cases hr
            · rename_i s2 hsp
              have hfr := (parent_turn_frame j k _ _ mypipe infile s mypipe1 outfile s1 s2
                hop hsp).1
              have := ih _ _ _ _ _ hr
              rw [hfr, hf1] at this
              have hnonempty : s.env.forks ≠ [] := by
                intro he
                apply hne
                show s1.env.forks.head?.getD (-1) = -1
                rw [hf1, he]
                rfl
              have hl : s.env.forks.tail.length + 1 = s.env.forks.length := by
                cases hfs : s.env.forks with
                | nil => exact absurd hfs hnonempty
                | cons a as => simp
              simp only [List.filter_cons, hc', Bool.not_false, if_true, List.length_cons]
              omega

theorem same_ids_length (s s' : State) (hs : same_ids s s') :
    s'.first_job.length = s.first_job.length := by
  have := congrArg List.length hs.1
  simpa using this

theorem same_ids_pgid (s s' : State) (hs : same_ids s s') (j : Nat) :
    (s'.job j).pgid = (s.job j).pgid :=
  congrArg Prod.fst (same_ids_job s s' hs j)

theorem same_ids_pids (s s' : State) (hs : same_ids s s') (j : Nat) :
    (s'.job j).first_process.map (fun p => p.pid) =
      (s.job j).first_process.map (fun p => p.pid) :=
  congrArg Prod.snd (same_ids_job s s' hs j)

theorem modify_nth_map_set_pid (v : Int) :
    ∀ (k : Nat) (ps : List process_t),
      (modify_nth (fun q : process_t => { q with pid := v }) k ps).map (fun p => p.pid) =
        (ps.map (fun p => p.pid)).set k v := by
  intro k ps
  induction ps generalizing k with
  | nil => cases k <;> rfl
  | cons x xs ih =>
    cases k with
    | zero => rfl
    | succ n => simp only [modify_nth, List.map_cons, List.set_cons_succ, ih]

theorem record_pgid_frame (s s' : State) (pgid : Int) (hr : record_pgid s pgid = some s') :
    s'.first_job = s.first_job ∧ s'.trace = s.trace ∧ s'.env = s.env := by
  unfold record_pgid at hr
  simp only [] at hr
  split at hr
  · cases hr; exact ⟨rfl, rfl, rfl⟩
  · cases hr

/-- The parent branch for stage `k` of job `j` with the pid `pid` of the child:
the process records the pid, the job takes it as its group when it had none,
and the one call made is `setpgid (pid, group)`. -/
theorem spawn_parent_ids (j k : Nat) (pid : Int) (s s' : State)
    (hj : j < s.first_job.length) (hr : spawn_parent j k pid s = some s') :
    (s'.job j).pgid = (if (s.job j).pgid < 0 then pid else (s.job j).pgid) ∧
    (s'.job j).first_process.map (fun p => p.pid) =
      ((s.job j).first_process.map (fun p => p.pid)).set k pid ∧
    s'.trace = s.trace ++
      [Call.setpgid pid (if (s.job j).pgid < 0 then pid else (s.job j).pgid)] ∧
    s'.env.forks = s.env.forks ∧ s'.first_job.length = s.first_job.length := by
  have hlen1 : (s.set_pid j k pid).first_job.length = s.first_job.length := by
    unfold State.set_pid State.modify_job
    exact modify_nth_length _ _ _
  have hpg1 : ((s.set_pid j k pid).job j).pgid = (s.job j).pgid := by
    unfold State.set_pid
    rw [job_modify_job _ _ _ hj]
  have hpid1 : ((s.set_pid j k pid).job j).first_process.map (fun p => p.pid) =
      ((s.job j).first_process.map (fun p => p.pid)).set k pid := by
    unfold State.set_pid
    rw [job_modify_job _ _ _ hj]
    exact modify_nth_map_set_pid pid k _
  unfold spawn_parent at hr
  simp only [] at hr
  split at hr
  · cases hr
  · rename_i s2 hown
    cases hr
    split at hown
    · rename_i hneg
      obtain ⟨e1, e2, e3⟩ := record_pgid_frame _ s2 _ hown
      have hneg' : (s.job j).pgid < 0 := by rw [← hpg1]; exact hneg
      have hjob2 : s2.job j = { (s.set_pid j k pid).job j with pgid := pid } := by
        unfold State.job
        rw [e1]
        exact job_modify_job (s.set_pid j k pid) j _ (by rw [hlen1]; exact hj)
      have hpg2 : (s2.job j).pgid = pid := by rw [hjob2]
      refine ⟨?_, ?_, ?_, ?_, ?_⟩
      · show (s2.job j).pgid = _
        rw [hpg2, if_pos hneg']
      · show (s2.job j).first_process.map _ = _
        rw [hjob2]
        exact hpid1
      · show s2.trace ++ [Call.setpgid pid (s2.job j).pgid] = _
        rw [hpg2, e2, if_pos hneg']
        rfl
      · show s2.env.forks = _
        rw [e3]
        rfl
      · show s2.first_job.length = _
        rw [e1]
        show (modify_nth _ j (s.set_pid j k pid).first_job).length = _
        rw [modify_nth_length, hlen1]
    · rename_i hneg
      cases hown
      have hneg' : ¬ (s.job j).pgid < 0 := by rw [← hpg1]; exact hneg
      refine ⟨?_, ?_, ?_, rfl, hlen1⟩
      · show ((s.set_pid j k pid).job j).pgid = _
        rw [hpg1, if_neg hneg']
      · exact hpid1
      · show (s.set_pid j k pid).trace ++ [Call.setpgid pid ((s.set_pid j k pid).job j).pgid] = _
        rw [hpg1, if_neg hneg']
        rfl

theorem take_set_succ (l : List Int) (k : Nat) (v : Int) (hk : k < l.length) :
    (l.set k v).take (k + 1) = l.take k ++ [v] := by
  induction l generalizing k with
  | nil => simp at hk
  | cons x xs ih =>
    cases k with
    | zero => simp
    | succ n =>
      have hn : n < xs.length := by simpa using hk
      simp [ih n hn]

theorem filter_setpgid_nil (cs : List Call) (hc : ∀ c ∈ cs, is_setpgid c = false) :
    cs.filter is_setpgid = [] := by
  rw [List.filter_eq_nil_iff]
  intro c hm
  rw [hc c hm]
  decide

/-- The loop of `spawn_job` in the shell over stages none of which is marked
completed, with the `fork` results `pids`, all pids of children: the job has
the group it had, or the first pid when it had none; the stages visited have
recorded the pids in order; and the `setpgid` calls made are one per stage, in
order, each with the pid of the stage and that group. -/
theorem spawn_loop_ids (h : Headers) (j : Nat) (fg : Bool) :
    ∀ (ps : List process_t) (pids : List Int) (k : Nat) (mypipe : Int × Int) (infile : Int)
      (s s' : State),
      (∀ p ∈ ps, p.completed = false) → s.env.forks = pids → pids.length = ps.length →
      (∀ f ∈ pids, 0 < f) → j < s.first_job.length →
      (s.job j).first_process.length = k + ps.length →
      spawn_loop h j fg ps k mypipe infile s = Outcome.returned s' →
      (s'.job j).pgid =
        (if (s.job j).pgid < 0 then pids.headD (s.job j).pgid else (s.job j).pgid) ∧
      (s'.job j).first_process.map (fun p => p.pid) =
        ((s.job j).first_process.map (fun p => p.pid)).take k ++ pids ∧
      ∃ cs, s'.trace = s.trace ++ cs ∧
        cs.filter is_setpgid = pids.map (fun f => Call.setpgid f
          (if (s.job j).pgid < 0 then pids.headD (s.job j).pgid else (s.job j).pgid)) := by
  intro ps
  induction ps with
  | nil =>
    intro pids k mypipe infile s s' _ _ hlen _ _ hk hr
    simp only [spawn_loop, Outcome.returned.injEq] at hr
    subst hr
    have hp : pids = [] := List.length_eq_zero.1 hlen
    subst hp
    refine ⟨by simp, ?_, [], by simp, rfl⟩
    rw [List.append_nil, List.take_of_length_le]
    rw [List.length_map, hk]
    simp
  | cons p rest ih =>
    intro pids k mypipe infile s s' hnc hforks hlen hpos hj hk hr
    cases pids with
    | nil => simp at hlen
    | cons f pids' =>
      have hf0 : 0 < f := hpos f (List.mem_cons_self _ _)
      obtain ⟨mypipe1, outfile, s1, s2, hop, hf1, hsp, heq⟩ :=
        spawn_loop_step_parent h j fg p rest k mypipe infile s s' f pids'
          (hnc p (List.mem_cons_self _ _)) hforks (by omega) (Or.inl hr)
      have h01 := same_ids_open_pipe j _ mypipe s _ hop
      have hfork : (sys_fork s1).1 = f := by
        show s1.env.forks.head?.getD (-1) = f
        rw [hf1]
        rfl
      have hj1 : j < s1.first_job.length := by
        rw [same_ids_length s s1 h01]
        exact hj
      have hpar := spawn_parent_ids j k f (sys_fork s1).2 s2 hj1 hsp
      have hjf : (sys_fork s1).2.job j = s1.job j := rfl
      have htf : (sys_fork s1).2.trace = s1.trace ++ [Call.fork f] := by
        show s1.trace ++ [Call.fork (sys_fork s1).1] = _
        rw [hfork]
      rw [hjf, same_ids_pgid s s1 h01 j, same_ids_pids s s1 h01 j, htf] at hpar
      obtain ⟨hpg2, hpid2, htr2, _, hlen2⟩ := hpar
      have h2N := same_ids_reset_file_ios j infile outfile s2
      have hturn := parent_turn_frame j k f _ mypipe infile s mypipe1 outfile s1 s2 hop hsp
      have hforksN : (reset_file_ios j infile outfile s2).env.forks = pids' := by
        rw [hturn.1, hf1]
        rfl
      have hjN : j < (reset_file_ios j infile outfile s2).first_job.length := by
        rw [same_ids_length _ _ h2N, hlen2]
        exact hj1
      have hpgN : ((reset_file_ios j infile outfile s2).job j).pgid =
          (if (s.job j).pgid < 0 then f else (s.job j).pgid) := by
        rw [same_ids_pgid _ _ h2N j, hpg2]
      have hpidN : ((reset_file_ios j infile outfile s2).job j).first_process.map
          (fun p => p.pid) = ((s.job j).first_process.map (fun p => p.pid)).set k f := by
        rw [same_ids_pids _ _ h2N j, hpid2]
      have hkN : ((reset_file_ios j infile outfile s2).job j).first_process.length =
          (k + 1) + rest.length := by
        have := congrArg List.length hpidN
        simp only [List.length_map, List.length_set] at this
        rw [this, hk]
        simp only [List.length_cons]
        omega
      rw [← heq] at hr
      obtain ⟨r1, r2, csN, r3, r4⟩ := ih pids' (k + 1) mypipe1 mypipe1.1
        (reset_file_ios j infile outfile s2) s'
        (fun q hq => hnc q (List.mem_cons_of_mem _ hq)) hforksN
        (by simpa using hlen) (fun x hx => hpos x (List.mem_cons_of_mem _ hx)) hjN hkN hr
      have hG : ¬ (if (s.job j).pgid < 0 then f else (s.job j).pgid) < 0 := by
        split <;> omega
      rw [hpgN, if_neg hG] at r1 r4
      simp only [List.headD_cons]
      refine ⟨r1, ?_, ?_⟩
      · rw [r2, hpidN, take_set_succ _ _ _ (by rw [List.length_map, hk]; simp), List.append_assoc]
        rfl
      · obtain ⟨c1, e1, n1⟩ := h01.2.2
        obtain ⟨c2, e2, n2⟩ := h2N.2.2
        refine ⟨c1 ++ [Call.fork f] ++
          [Call.setpgid f (if (s.job j).pgid < 0 then f else (s.job j).pgid)] ++ c2 ++ csN,
          ?_, ?_⟩
        · rw [r3, e2, htr2, e1]
          simp only [List.append_assoc]
        · simp only [List.filter_append, filter_setpgid_nil c1 n1, filter_setpgid_nil c2 n2,
            r4, List.map_cons, List.nil_append, List.append_nil]
          rfl

/-- C23: a job without a group and with N >= 1 stages is spawned, the N `fork`
calls of its stages returning the pids `fs` of N children; when `spawn_job`
returns in the shell, the group of the job is the first pid, the processes of
the job have recorded the pids `fs` in pipeline order, and the `setpgid` calls
made during the spawn are `setpgid (pid, group)` for the pid of every stage in
order, all with that one group.  The parent branch of `spawn_job` in `dsh.c`
returns the pid of the child after the one call `setpgid (pid, group)`, with
the pid as group when `pgrp` was negative. -/
theorem spawn_job_shares_group (h : Headers) (j : Nat) (fg : Bool) (s s' : State)
    (fs : List Int) (pgrp pid : Int) (more : List Int)
    (hneg : (s.job j).pgid < 0)
    (hN : 1 ≤ (s.job j).first_process.length)
    (hlen : fs.length = (s.job j).first_process.length)
    (hpos : ∀ f ∈ fs, 0 < f)
    (hr : spawn_job h j fg (s.with_forks fs) = Outcome.returned s')
    (hall : s'.env.forks = [])
    (hpid : 0 < pid) :
    (fs.head? = some (s'.job j).pgid ∧
      (s'.job j).first_process.map (fun p => p.pid) = fs ∧
      ∃ cs, s'.trace = s.trace ++ cs ∧
        cs.filter is_setpgid = fs.map (fun f => Call.setpgid f (s'.job j).pgid)) ∧
    ((DshC.spawn_job pgrp fg (s.with_forks (pid :: more))).1 = pid ∧
      (DshC.spawn_job pgrp fg (s.with_forks (pid :: more))).2.trace =
        s.trace ++ [Call.fork pid, Call.setpgid pid (if pgrp < 0 then pid else pgrp)]) := by
  constructor
  · have hj : j < s.first_job.length := pgid_neg_valid s j hneg
    obtain ⟨s2, hloop, hend⟩ := spawn_job_returned_loop h j fg (s.with_forks fs) s' hr
    have hjw : (s.with_forks fs).job j = s.job j := rfl
    rw [hjw] at hloop hend
    have hb := same_ids_spawn_begin (s.job j) (s.with_forks fs)
    have he := same_ids_spawn_end h j fg (spawn_begin (s.job j) (s.with_forks fs)).1
      (spawn_begin (s.job j) (s.with_forks fs)).2.1 s2
    rw [hend] at he
    have he' : same_ids s2 s' := he
    have hfb : (spawn_begin (s.job j) (s.with_forks fs)).2.2.2.env.forks = fs := hb.2.1
    have hf2 : s2.env.forks = [] := by rw [← he'.2.1]; exact hall
    have hcount := spawn_loop_fork_count h j fg _ _ _ _ _ _ hloop
    rw [hfb, hf2, hlen] at hcount
    have hnc : ∀ p ∈ (s.job j).first_process, p.completed = false := by
      have hc : ((s.job j).first_process.filter (fun p => !p.completed)).length =
          (s.job j).first_process.length := by simpa using hcount
      intro p hp
      have := (List.filter_length_eq_length.1 hc) p hp
      simpa using this
    have hjb : j < (spawn_begin (s.job j) (s.with_forks fs)).2.2.2.first_job.length := by
      rw [same_ids_length _ _ hb]
      exact hj
    have hpgb := same_ids_pgid _ _ hb j
    have hpidb := same_ids_pids _ _ hb j
    rw [hjw] at hpgb hpidb
    have hkb : ((spawn_begin (s.job j) (s.with_forks fs)).2.2.2.job j).first_process.length =
        0 + (s.job j).first_process.length := by
      have := congrArg List.length hpidb
      simpa using this
    obtain ⟨r1, r2, cs, r3, r4⟩ := spawn_loop_ids h j fg (s.job j).first_process fs 0 _ _ _ s2
      hnc hfb hlen hpos hjb hkb hloop
    rw [hpgb, if_pos hneg] at r1 r4
    cases fs with
    | nil =>
      simp only [List.length_nil] at hlen
      omega
    | cons f0 fs' =>
      simp only [List.headD_cons] at r1 r4
      have hpg : (s'.job j).pgid = f0 := by rw [same_ids_pgid _ _ he' j, r1]
      refine ⟨by rw [hpg]; rfl, ?_, ?_⟩
      · rw [same_ids_pids _ _ he' j, r2]
        simp
      · obtain ⟨cb, eb, nb⟩ := hb.2.2
        obtain ⟨ce, ee, ne⟩ := he'.2.2
        refine ⟨cb ++ cs ++ ce, ?_, ?_⟩
        · rw [ee, r3, eb]
          simp only [List.append_assoc]
          rfl
        · rw [hpg]
          simp only [List.filter_append, filter_setpgid_nil cb nb, filter_setpgid_nil ce ne,
            r4, List.nil_append, List.append_nil]
  · unfold DshC.spawn_job
    have hf : (sys_fork (s.with_forks (pid :: more))).1 = pid := rfl
    rw [hf, if_neg (by omega), if_neg (by omega)]
    refine ⟨rfl, ?_⟩
    show (s.trace ++ [Call.fork pid]) ++ [Call.setpgid pid _] = _
    simp

/-- The pipeline `echo a | tr a b` of `parsed_state` is spawned in the
foreground, the two `fork` calls returning the pids 100 and 101: the call
returns, the job has group 100, its processes have the pids 100 and 101, and
the `setpgid` calls of the shell are `setpgid (100, 100)` and
`setpgid (101, 100)`. -/
theorem spawn_job_shares_group_witness :
    ∃ s', spawn_job sample_headers 0 true ((parsed_state exit_waits).with_forks [100, 101]) =
        Outcome.returned s' ∧
      (s'.job 0).pgid = 100 ∧
      (s'.job 0).first_process.map (fun p => p.pid) = [100, 101] ∧
      s'.trace.filter is_setpgid = [Call.setpgid 100 100, Call.setpgid 101 100] ∧
      ([100, 101].head? = some (s'.job 0).pgid ∧
        (s'.job 0).first_process.map (fun p => p.pid) = [100, 101] ∧
        ∃ cs, s'.trace = (parsed_state exit_waits).trace ++ cs ∧
          cs.filter is_setpgid =
            [100, 101].map (fun f => Call.setpgid f (s'.job 0).pgid)) ∧
      ((DshC.spawn_job (-1) true ((parsed_state exit_waits).with_forks [100])).1 = 100 ∧
        (DshC.spawn_job (-1) true ((parsed_state exit_waits).with_forks [100])).2.trace =
          (parsed_state exit_waits).trace ++
            [Call.fork 100, Call.setpgid 100 (if (-1 : Int) < 0 then 100 else -1)]) :=
  ⟨_, rfl, by decide, by decide, by decide,
    spawn_job_shares_group sample_headers 0 true (parsed_state exit_waits) _ [100, 101]
      (-1) 100 [] (by decide) (by decide) (by decide) (by decide) rfl (by decide)
      (by decide)⟩

/-! ## Commands without a name: theorems -/

/-- C25 fails in the code: `readcmdline` returns true for the line `# hi`, a
comment, having appended a job whose one process has no argument, and the
dispatch pass of `main` then reads the null `argv[0]` of that process; and it
returns true for the line `ls |`, having appended a job whose second process
has no argument, and the child that `spawn_job` forks for that stage passes the
null `argv[0]` to `execvp`. -/
theorem readcmdline_accepts_empty_command :
    (∃ s', readcmdline sample_headers "dsh$ " "# hi\n".toList empty_registry_state =
        some (true, s') ∧
      s'.first_job.map (fun jb => jb.first_process.map (fun p => p.argv)) = [[[]]] ∧
      dispatch sample_headers 5 s' = some Outcome.undefined) ∧
    (∃ s', readcmdline sample_headers "dsh$ " "ls |\n".toList
        (sample_state [] (spawn_env [])) = some (true, s') ∧
      s'.first_job.map (fun jb => jb.first_process.map (fun p => p.argv)) = [[["ls"], []]] ∧
      spawn_job sample_headers 0 true (s'.with_forks [100, 0]) = Outcome.undefined) :=
  ⟨⟨_, rfl, by decide, by decide⟩, ⟨_, rfl, by decide, by decide⟩⟩

/-! ## Dispatch pass of `main`: theorems -/

/-- With a job at `next_job` that has no group and a slot table without a free
slot, the loop of `main` goes round with nothing changed: it has not ended
after any number of turns. -/
theorem dispatch_loop_full_table (h : Headers) (i : Nat) (job : job_t) (s : State)
    (hjob : s.first_job[i]? = some job) (hfreed : job.freed = false)
    (hpg : job.pgid = -1) (hfull : find_lowest_index s = -1) :
    ∀ fuel, dispatch_loop h fuel i s = none := by
  intro fuel
  induction fuel with
  | zero => rfl
  | succ n ih =>
    unfold dispatch_loop
    simp only [hjob, hfreed, hpg, hfull, ne_eq, not_true_eq_false, if_true, if_false,
      Bool.false_eq_true]
    exact ih

/-- C26 fails in the code.  After the line `cd /tmp` the dispatch pass returns
with nothing changed: the job stays in the registry with the group -1.  After
the next line, `ls`, the pass selects the job `cd /tmp` again and returns with
nothing changed: the job `ls` behind it is not spawned.  And with the job `ls`
in the registry and no free slot in `job_array` the pass has not ended after
any number of turns. -/
theorem dispatch_selects_builtin_again :
    (∃ s1 s2,
      readcmdline sample_headers "dsh$ " "cd /tmp\n".toList empty_registry_state =
        some (true, s1) ∧
      dispatch sample_headers 5 s1 = some (Outcome.returned s1) ∧
      readcmdline sample_headers "dsh$ " "ls\n".toList s1 = some (true, s2) ∧
      dispatch sample_headers 5 s2 = some (Outcome.returned s2) ∧
      s2.first_job.map (fun jb => (jb.commandinfo, jb.pgid)) =
        [("cd /tmp", -1), ("ls", -1)]) ∧
    (∀ fuel, dispatch sample_headers fuel full_table_state = none) :=
  ⟨⟨_, _, rfl, rfl, rfl, rfl, by decide⟩,
    fun fuel => dispatch_loop_full_table sample_headers 0 (parsed_job "ls" false ["ls"])
      full_table_state rfl rfl rfl (by decide) fuel⟩

/-- The dispatch pass on the sample state after the line `ls ; pwd`: the job
`ls` is spawned and takes the group 100 and slot 0, and the pass ends there,
with the job `pwd` left without a group. -/
theorem dispatch_spawns_first_job :
    ∃ s1 s2,
      readcmdline sample_headers "dsh$ " "ls ; pwd\n".toList empty_registry_state =
        some (true, s1) ∧
      dispatch sample_headers 5 s1 = some (Outcome.returned s2) ∧
      s2.first_job.map (fun jb => (jb.commandinfo, jb.pgid)) = [("ls ", 100), (" pwd", -1)] ∧
      s2.job_array.take 2 = [100, 0] :=
  ⟨_, _, rfl, rfl, by decide, by decide⟩

/-- The dispatch pass on the sample state after the lines `sleep 9 &` and
`jobs`: the job `sleep 9` is listed as running, and `remove_and_free`, called
on the job `jobs`, the last of the registry, removes nothing, so that the job
`jobs` stays in the registry without a group. -/
theorem dispatch_jobs_stays :
    ∃ s1 s2 s3 s4,
      readcmdline sample_headers "dsh$ " "sleep 9 &\n".toList empty_registry_state =
        some (true, s1) ∧
      dispatch sample_headers 5 s1 = some (Outcome.returned s2) ∧
      readcmdline sample_headers "dsh$ " "jobs\n".toList s2 = some (true, s3) ∧
      dispatch sample_headers 5 s3 = some (Outcome.returned s4) ∧
      s4.first_job.map (fun jb => (jb.commandinfo, jb.pgid)) =
        [("sleep 9 ", 100), ("jobs", -1)] :=
  ⟨_, _, _, _, rfl, rfl, rfl, rfl, by decide⟩

/-! ## Command lines in the words of the specification: theorems -/

theorem plain_char_spec (c : Char) (hc : plain_char c = true) :
    c ≠ '<' ∧ c ≠ '>' ∧ c ≠ '|' ∧ c ≠ '&' ∧ c ≠ ';' ∧ c ≠ '#' ∧ c ≠ '\n' ∧ c ≠ NUL := by
  unfold plain_char at hc
  simp only [Bool.and_eq_true, bne_iff_ne, ne_eq] at hc
  obtain ⟨⟨⟨⟨⟨⟨⟨h1, h2⟩, h3⟩, h4⟩, h5⟩, h6⟩, h7⟩, h8⟩ := hc
  exact ⟨h1, h2, h3, h4, h5, h6, h7, h8⟩

theorem takeWhile_append_stop (p : Char → Bool) (l : List Char) (c : Char) (r : List Char)
    (hl : ∀ x ∈ l, p x = true) (hc : p c = false) :
    (l ++ c :: r).takeWhile p = l := by
  induction l with
  | nil => simp [List.takeWhile, hc]
  | cons a l ih =>
    rw [List.cons_append, List.takeWhile_cons, if_pos (hl a (List.mem_cons_self _ _)),
      ih (fun x hx => hl x (List.mem_cons_of_mem _ hx))]

theorem takeWhile_all (p : Char → Bool) (l : List Char) (hl : ∀ x ∈ l, p x = true) :
    l.takeWhile p = l := by
  induction l with
  | nil => rfl
  | cons a l ih =>
    rw [List.takeWhile_cons, if_pos (hl a (List.mem_cons_self _ _)),
      ih (fun x hx => hl x (List.mem_cons_of_mem _ hx))]

/-- The call `fgets` on a line that fits the buffer: the line with its newline
is stored, and the end-of-file indicator is not set. -/
theorem fgets_line (n : Nat) (line more : List Char)
    (hplain : ∀ c ∈ line, c ≠ '\n' ∧ c ≠ NUL) (hfit : line.length + 1 ≤ n - 1) :
    fgets n (line ++ '\n' :: more) = (line ++ ['\n'], false) := by
  unfold fgets
  have h1 : (line ++ '\n' :: more).takeWhile (fun c => c != '\n') = line :=
    takeWhile_append_stop _ line '\n' more (fun x hx => by simpa using (hplain x hx).1)
      (by simp)
  have h2 : (line ++ '\n' :: more).take (line.length + 1) = line ++ ['\n'] := by
    rw [show line ++ '\n' :: more = (line ++ ['\n']) ++ more by simp]
    rw [List.take_append_of_le_length (by simp)]
    exact List.take_of_length_le (by simp)
  have h3 : (line ++ ['\n']).take (n - 1) = line ++ ['\n'] :=
    List.take_of_length_le (by simpa using hfit)
  have h4 : (line ++ ['\n']).takeWhile (fun c => c != NUL) = line ++ ['\n'] := by
    apply takeWhile_all
    intro x hx
    rcases List.mem_append.1 hx with hx | hx
    · simpa using (hplain x hx).2
    · simp at hx
      subst hx
      decide
  simp only [h1, h2, h3, h4]
  simp

theorem modify_nth_append_length {α : Type} (f : α → α) (l : List α) (x : α) :
    modify_nth f l.length (l ++ [x]) = l ++ [f x] := by
  induction l with
  | nil => rfl
  | cons a l ih =>
    show a :: modify_nth f l.length (l ++ [x]) = a :: (l ++ [f x])
    rw [ih]

/-- An assignment through `current_job`, the job linked last. -/
theorem modify_job_append_job (s : State) (jb : job_t) (f : job_t → job_t) :
    (s.append_job jb).modify_job s.first_job.length f = s.append_job (f jb) := by
  unfold State.modify_job State.append_job
  simp only [modify_nth_append_length]

theorem word_length_le : ∀ (n : Nat) (l : List Char), l.length ≤ n →
    ∀ w ∈ words l, w.length ≤ l.length := by
  intro n
  induction n with
  | zero =>
    intro l hl w hw
    have : l = [] := List.length_eq_zero.1 (by omega)
    subst this
    rw [words_nil] at hw
    cases hw
  | succ n ih =>
    intro l hl w hw
    cases l with
    | nil =>
      rw [words_nil] at hw
      cases hw
    | cons c rest =>
      cases hc : isspace c with
      | true =>
        rw [words_cons_space c rest hc] at hw
        have := ih rest (by simpa using hl) w hw
        simp only [List.length_cons]
        omega
      | false =>
        obtain ⟨hsplit, hns, hr2⟩ := copy_word_spec (c :: rest)
        have hw0 := copy_word_ne_nil c rest hc
        have hwords : words (c :: rest) =
            (copy_word (c :: rest)).1 :: words (copy_word (c :: rest)).2 := by
          rw [← words_word _ _ hw0 hns hr2, hsplit]
        have hlen := congrArg List.length hsplit
        rw [List.length_append] at hlen
        have hpos : 0 < (copy_word (c :: rest)).1.length := List.length_pos.2 hw0
        rw [hwords] at hw
        rcases List.mem_cons.1 hw with hw | hw
        · rw [hw]
          omega
        · have := ih (copy_word (c :: rest)).2 (by omega) w hw
          omega

/-- The process that `readcmdline` makes of a command with fewer than
`MAX_ARGS` words that is shorter than an argument buffer: `readprocessinfo`
returns, and the process has the words of the command as its arguments. -/
theorem readprocessinfo_process (h : Headers) (cmd : List Char)
    (hargs : (words cmd).length < h.MAX_ARGS) (hlen : cmd.length < h.MAX_LEN_CMDLINE) :
    ∃ r, readprocessinfo h 0 (List.replicate h.MAX_ARGS none) cmd = some r ∧
      init_process r.1 r.2 = parsed_process cmd := by
  have hwl : ∀ w ∈ words cmd, w.length < h.MAX_LEN_CMDLINE := fun w hw =>
    Nat.lt_of_le_of_lt (word_length_le cmd.length cmd (Nat.le_refl _) w hw) hlen
  unfold readprocessinfo
  obtain ⟨_, hsh⟩ := skip_spaces_spec cmd
  have hw := words_skip_spaces cmd
  cases hs : skip_spaces cmd with
  | nil =>
    rw [hs, words_nil] at hw
    refine ⟨_, rfl, ?_⟩
    unfold init_process parsed_process
    rw [← hw]
    simp
  | cons c rest =>
    rw [hs] at hw hsh
    rw [← hw] at hargs hwl
    obtain ⟨argv', e1, e2, _, e4, _, _⟩ :=
      readprocessinfo_loop_spec h ((c :: rest).length + 1) (c :: rest) 0
        (List.replicate h.MAX_ARGS none) (Nat.lt_succ_self _) hsh
        (by simpa using hargs) hwl
    simp only [Nat.zero_add] at e1 e4
    refine ⟨_, e1, ?_⟩
    unfold init_process parsed_process
    rw [← hw]
    simp only [process_t.mk.injEq, and_true]
    apply List.ext_getElem?
    intro i
    rw [List.getElem?_map, List.getElem?_map, List.getElem?_take]
    by_cases hi : i < (words (c :: rest)).length
    · rw [if_pos hi]
      have hget : (words (c :: rest))[i]? = some ((words (c :: rest))[i]) :=
        List.getElem?_eq_getElem hi
      rw [e4 i _ hget, hget]
      rfl
    · rw [if_neg hi, List.getElem?_eq_none (by omega)]
      rfl

/-- The statements that end a command, for a command with fewer than `MAX_ARGS`
words that is shorter than an argument buffer: the process of the command is
linked after the processes of `current_job`, the job linked last. -/
theorem add_process_append (h : Headers) (s : State) (jb : job_t) (cmd : List Char)
    (hargs : (words cmd).length < h.MAX_ARGS) (hlen : cmd.length < h.MAX_LEN_CMDLINE) :
    add_process h s.first_job.length cmd (s.append_job jb) =
      some (s.append_job
        { jb with first_process := jb.first_process ++ [parsed_process cmd] }) := by
  obtain ⟨r, hr, hp⟩ := readprocessinfo_process h cmd hargs hlen
  unfold add_process
  rw [hr]
  simp only []
  rw [modify_job_append_job, hp]

/-- The `default` case of the `switch` of `readcmdline` for a plain character
while the input is valid and the buffer `cmd` is not full: the character is
copied into `cmd`. -/
theorem read_job_turn_plain (h : Headers) (cmdline : List Char) (cur : Nat)
    (rest cmd : List Char) (sp : Nat) (c : Char) (r : List Char) (s : State)
    (hc : plain_char c = true) (hlen : cmd.length + 1 < h.MAX_LEN_CMDLINE) :
    read_job_turn h cmdline cur ⟨rest, cmd, true, false, false, sp⟩ c r s =
      Parsed.ok ⟨r, cmd ++ [c], true, false, false, sp⟩ s := by
  obtain ⟨h1, h2, h3, h4, h5, h6, _, _⟩ := plain_char_spec c hc
  unfold read_job_turn
  rw [if_neg h1, if_neg h2, if_neg h3, if_neg h4, if_neg h5, if_neg h6]
  have hv : ¬ ((!true) = true) := by decide
  rw [if_neg hv]
  have hl : ¬ ((cmd.length : Int) = (h.MAX_LEN_CMDLINE : Int) - 1) := by omega
  rw [if_neg hl]

/-- The inner loop of `readcmdline` over the plain characters `w` of a
command: they are appended to the buffer `cmd`, one per turn. -/
theorem read_job_loop_chars (h : Headers) (cmdline : List Char) (cur : Nat) (s : State)
    (sp : Nat) :
    ∀ (w tail cmd : List Char) (fuel : Nat),
      (∀ c ∈ w, plain_char c = true) →
      cmd.length + w.length < h.MAX_LEN_CMDLINE →
      read_job_loop h cmdline cur (fuel + w.length)
          ⟨w ++ tail, cmd, true, false, false, sp⟩ s =
        read_job_loop h cmdline cur fuel ⟨tail, cmd ++ w, true, false, false, sp⟩ s := by
  intro w
  induction w with
  | nil =>
    intro tail cmd fuel _ _
    simp
  | cons c w ih =>
    intro tail cmd fuel hplain hlen
    have hc := hplain c (List.mem_cons_self _ _)
    have hnl : c ≠ '\n' := (plain_char_spec c hc).2.2.2.2.2.2.1
    simp only [List.length_cons] at hlen
    have hstep : read_job_loop h cmdline cur (fuel + w.length + 1)
        ⟨c :: (w ++ tail), cmd, true, false, false, sp⟩ s =
        read_job_loop h cmdline cur (fuel + w.length)
          ⟨w ++ tail, cmd ++ [c], true, false, false, sp⟩ s := by
      rw [read_job_loop]
      simp only [if_neg hnl]
      rw [read_job_turn_plain h cmdline cur _ cmd sp c (w ++ tail) s hc (by omega)]
      simp
    rw [List.length_cons, ← Nat.add_assoc, List.cons_append, hstep,
      ih tail (cmd ++ [c]) fuel (fun x hx => hplain x (List.mem_cons_of_mem _ hx))
        (by rw [List.length_append]; simp only [List.length_singleton]; omega)]
    simp

theorem join_with_cons (sep : Char) (a : List Char) (l : List (List Char)) (hl : l ≠ []) :
    join_with sep (a :: l) = a ++ sep :: join_with sep l := by
  cases l with
  | nil => exact absurd rfl hl
  | cons b rest => rfl

/-- The `'|'` case of the `switch` of `readcmdline` for a command with fewer
than `MAX_ARGS` words: the process of the command is added to `current_job`,
the job linked last, and the buffer `cmd` starts again. -/
theorem read_job_turn_pipe (h : Headers) (cmdline : List Char) (S : State) (J : job_t)
    (rest cmd : List Char) (sp : Nat) (r : List Char)
    (hargs : (words cmd).length < h.MAX_ARGS) (hlen : cmd.length < h.MAX_LEN_CMDLINE) :
    read_job_turn h cmdline S.first_job.length ⟨rest, cmd, true, false, false, sp⟩ '|' r
        (S.append_job J) =
      Parsed.ok ⟨r, [], true, false, false, sp⟩
        (S.append_job { J with first_process := J.first_process ++ [parsed_process cmd] }) := by
  unfold read_job_turn
  rw [if_neg (by decide), if_neg (by decide), if_pos rfl]
  simp only []
  rw [add_process_append h S J cmd hargs hlen]

/-- The inner loop of `readcmdline` over the text of a unit whose commands
are `init` followed by `last`: a process is added to `current_job` for each
command of `init`, in order, and the loop reaches the end of the unit with the
text of `last` in the buffer `cmd`. -/
theorem read_job_loop_unit (h : Headers) (cmdline : List Char) (S : State) (sp : Nat) :
    ∀ (init : List (List Char)) (last tail : List Char) (fuel : Nat) (J : job_t),
      (∀ x ∈ init ++ [last],
        (∀ c ∈ x, plain_char c = true) ∧ (words x).length < h.MAX_ARGS) →
      (join_with '|' (init ++ [last])).length < h.MAX_LEN_CMDLINE →
      read_job_loop h cmdline S.first_job.length
          (fuel + (join_with '|' (init ++ [last])).length)
          ⟨join_with '|' (init ++ [last]) ++ tail, [], true, false, false, sp⟩
          (S.append_job J) =
        read_job_loop h cmdline S.first_job.length fuel
          ⟨tail, last, true, false, false, sp⟩
          (S.append_job
            { J with first_process := J.first_process ++ init.map parsed_process }) := by
  intro init
  induction init with
  | nil =>
    intro last tail fuel J hok hlen
    simp only [List.nil_append, join_with] at hlen ⊢
    rw [read_job_loop_chars h cmdline _ _ sp last tail [] fuel
      (hok last (by simp)).1 (by simpa using hlen)]
    simp only [List.nil_append, List.map_nil, List.append_nil]
  | cons a init ih =>
    intro last tail fuel J hok hlen
    have hne : init ++ [last] ≠ [] := by simp
    have hj : join_with '|' (a :: init ++ [last]) =
        a ++ '|' :: join_with '|' (init ++ [last]) := join_with_cons '|' a _ hne
    rw [hj] at hlen ⊢
    simp only [List.length_append, List.length_cons] at hlen
    have ha := hok a (by simp)
    have hfuel : fuel + (a ++ '|' :: join_with '|' (init ++ [last])).length =
        (fuel + (join_with '|' (init ++ [last])).length + 1) + a.length := by
      simp only [List.length_append, List.length_cons]
      omega
    rw [hfuel, List.append_assoc,
      read_job_loop_chars h cmdline _ _ sp a _ [] _ ha.1 (by simp only [List.length_nil]; omega)]
    rw [read_job_loop]
    simp only [List.nil_append, List.cons_append]
    rw [if_neg (by decide),
      read_job_turn_pipe h cmdline S J _ a sp _ ha.2 (by omega)]
    simp only [Bool.or_self, Bool.false_eq_true, if_false]
    rw [ih last tail fuel _ (fun x hx => hok x (List.mem_cons_of_mem _ hx)) (by omega)]
    simp only [List.map_cons, List.append_assoc, List.singleton_append]

theorem find_last_job_ok (s : State) (hreg : ∀ jb ∈ s.first_job, jb.freed = false) :
    ∃ r, find_last_job s = some r := by
  unfold find_last_job
  have hany : s.first_job.any (fun jb => jb.freed) = false := by
    rw [List.any_eq_false]
    intro jb hjb
    simp [hreg jb hjb]
  rw [hany]
  simp only [Bool.false_eq_true, if_false]
  split
  · exact ⟨_, rfl⟩
  · exact ⟨_, rfl⟩

theorem skip_spaces_append (t x : List Char) (ht : skip_spaces t ≠ []) :
    skip_spaces (t ++ x) = skip_spaces t ++ x := by
  induction t with
  | nil => exact absurd rfl ht
  | cons c t ih =>
    cases hc : isspace c with
    | true =>
      have h1 : skip_spaces (c :: t) = skip_spaces t := by
        rw [skip_spaces, if_pos hc]
      rw [h1] at ht ⊢
      rw [List.cons_append, skip_spaces, if_pos hc]
      exact ih ht
    | false =>
      rw [List.cons_append, skip_spaces, skip_spaces]
      simp [hc]

theorem skip_spaces_mem : ∀ (t : List Char), ∀ c ∈ skip_spaces t, c ∈ t := by
  intro t
  induction t with
  | nil => intro c hc; exact hc
  | cons a t ih =>
    intro c hc
    unfold skip_spaces at hc
    split at hc
    · exact List.mem_cons_of_mem _ (ih c hc)
    · exact hc

theorem skip_spaces_ne_nil (t : List Char) (hw : words t ≠ []) : skip_spaces t ≠ [] := by
  intro he
  apply hw
  rw [← words_skip_spaces, he, words_nil]

/-- The spaces that `readcmdline` passes over at the start of a unit are those
at the start of the first command, which has a word. -/
theorem skip_spaces_unit (t : List Char) (ts : List (List Char)) (tail : List Char)
    (hw : words t ≠ []) :
    skip_spaces (join_with '|' (t :: ts) ++ tail) =
      join_with '|' (skip_spaces t :: ts) ++ tail ∧
    (join_with '|' (skip_spaces t :: ts)).length ≤ (join_with '|' (t :: ts)).length := by
  have hne := skip_spaces_ne_nil t hw
  have hl := (skip_spaces_spec t).1
  cases ts with
  | nil => exact ⟨skip_spaces_append t tail hne, hl⟩
  | cons b rest =>
    constructor
    · show skip_spaces ((t ++ '|' :: join_with '|' (b :: rest)) ++ tail) =
        (skip_spaces t ++ '|' :: join_with '|' (b :: rest)) ++ tail
      rw [List.append_assoc, List.append_assoc, skip_spaces_append t _ hne]
    · show (skip_spaces t ++ '|' :: join_with '|' (b :: rest)).length ≤
        (t ++ '|' :: join_with '|' (b :: rest)).length
      simp only [List.length_append]
      omega

theorem drop_take_middle (pre mid post : List Char) :
    ((pre ++ (mid ++ post)).drop pre.length).take
      ((pre ++ (mid ++ post)).length - post.length - pre.length) = mid := by
  rw [List.drop_left]
  have : (pre ++ (mid ++ post)).length - post.length - pre.length = mid.length := by
    simp only [List.length_append]
    omega
  rw [this, List.take_left]

/-- The inner loop of `readcmdline` at the newline that ends the line: the loop
ends. -/
theorem read_job_loop_newline (h : Headers) (cmdline : List Char) (cur : Nat) (fuel : Nat)
    (l : ParseLocals) (r : List Char) (s : State) (hl : l.rest = '\n' :: r) :
    read_job_loop h cmdline cur (fuel + 1) l s = Parsed.ok l s := by
  rw [read_job_loop]
  simp [hl]

/-- The inner loop of `readcmdline` at a `;`: the text of the unit is copied
into `commandinfo`, `sequence` is set, and the loop ends. -/
theorem read_job_loop_semicolon (h : Headers) (cmdline : List Char) (S : State) (J : job_t)
    (fuel : Nat) (cmd r : List Char) (sp : Nat) :
    read_job_loop h cmdline S.first_job.length (fuel + 1)
        ⟨';' :: r, cmd, true, false, false, sp⟩ (S.append_job J) =
      Parsed.ok ⟨';' :: r, cmd, true, false, true, cmdline.length - r.length⟩
        (S.append_job
          { J with
            commandinfo :=
              String.mk ((cmdline.drop sp).take (cmdline.length - (r.length + 1) - sp)) }) := by
  rw [read_job_loop]
  simp only []
  rw [if_neg (by decide)]
  unfold read_job_turn
  rw [if_neg (by decide), if_neg (by decide), if_neg (by decide), if_neg (by decide),
    if_pos rfl]
  simp only [Bool.or_true, if_true]
  rw [modify_job_append_job]

theorem parsed_process_skip_spaces (t : List Char) :
    parsed_process (skip_spaces t) = parsed_process t := by
  unfold parsed_process
  rw [words_skip_spaces]

theorem join_with_length_le (sep : Char) :
    ∀ (l : List (List Char)), ∀ x ∈ l, x.length ≤ (join_with sep l).length := by
  intro l
  induction l with
  | nil => intro x hx; cases hx
  | cons a l ih =>
    intro x hx
    cases l with
    | nil =>
      simp only [List.mem_singleton] at hx
      subst hx
      exact Nat.le_refl _
    | cons b rest =>
      have hj : join_with sep (a :: b :: rest) = a ++ sep :: join_with sep (b :: rest) := rfl
      rw [hj, List.length_append, List.length_cons]
      rcases List.mem_cons.1 hx with hx | hx
      · subst hx
        omega
      · have := ih x hx
        omega

/-- The inner loop of `readcmdline` over a whole unit of commands that are
`command_fits`, from the first character of the unit that is not a space: the
loop reaches the end of the unit with the processes of all commands but the
last added to the new job and the text of the last command in the buffer. -/
theorem read_job_loop_whole_unit (h : Headers) (cmdline : List Char) (S : State) (sp : Nat)
    (t : List Char) (ts : List (List Char)) (tail : List Char)
    (hfit : cmdline.length < h.MAX_LEN_CMDLINE)
    (hin : (join_with '|' (t :: ts)).length ≤ cmdline.length)
    (hok : ∀ cmd ∈ t :: ts, command_fits h cmd) :
    ∃ (k : Nat) (cmdlast : List Char) (procs : List process_t) (c0 : Char),
      read_job_loop h cmdline S.first_job.length (cmdline.length + 1)
          ⟨skip_spaces (join_with '|' (t :: ts) ++ tail), [], true, false, false, sp⟩
          (S.append_job init_job) =
        read_job_loop h cmdline S.first_job.length (k + 1)
          ⟨tail, cmdlast, true, false, false, sp⟩
          (S.append_job { init_job with first_process := procs }) ∧
      procs ++ [parsed_process cmdlast] = (t :: ts).map parsed_process ∧
      (words cmdlast).length < h.MAX_ARGS ∧ cmdlast.length < h.MAX_LEN_CMDLINE ∧
      (skip_spaces (join_with '|' (t :: ts) ++ tail)).head? = some c0 ∧
      isspace c0 = false := by
  have htok := hok t (List.mem_cons_self _ _)
  obtain ⟨hsk, hskl⟩ := skip_spaces_unit t ts tail htok.2.1
  have hne := skip_spaces_ne_nil t htok.2.1
  obtain ⟨c0, r0, hc0, hsp0⟩ : ∃ c r, skip_spaces t = c :: r ∧ isspace c = false := by
    rcases (skip_spaces_spec t).2 with hh | hh
    · exact absurd hh hne
    · exact hh
  obtain ⟨init, last, hdec⟩ : ∃ init last, skip_spaces t :: ts = init ++ [last] := by
    rcases List.eq_nil_or_concat (skip_spaces t :: ts) with hh | ⟨L, b, hh⟩
    · cases hh
    · exact ⟨L, b, by rw [hh, List.concat_eq_append]⟩
  have hok' : ∀ x ∈ init ++ [last],
      (∀ c ∈ x, plain_char c = true) ∧ (words x).length < h.MAX_ARGS := by
    intro x hx
    rw [← hdec] at hx
    rcases List.mem_cons.1 hx with hx | hx
    · subst hx
      refine ⟨fun c hc => htok.1 c (skip_spaces_mem t c hc), ?_⟩
      rw [words_skip_spaces]
      exact htok.2.2
    · have := hok x (List.mem_cons_of_mem _ hx)
      exact ⟨this.1, this.2.2⟩
  have hlen' : (join_with '|' (init ++ [last])).length < h.MAX_LEN_CMDLINE := by
    rw [← hdec]
    omega
  have hfuel : cmdline.length + 1 =
      (cmdline.length - (join_with '|' (init ++ [last])).length + 1) +
        (join_with '|' (init ++ [last])).length := by
    have : (join_with '|' (init ++ [last])).length ≤ cmdline.length := by
      rw [← hdec]
      omega
    omega
  refine ⟨cmdline.length - (join_with '|' (init ++ [last])).length, last,
    init.map parsed_process, c0, ?_, ?_, (hok' last (by simp)).2, ?_, ?_, hsp0⟩
  · rw [hsk, hdec, hfuel,
      read_job_loop_unit h cmdline S sp init last tail _ init_job hok' hlen']
    rfl
  · rw [← List.map_singleton, ← List.map_append, ← hdec, List.map_cons, List.map_cons,
      parsed_process_skip_spaces]
  · have := join_with_length_le '|' (init ++ [last]) last (by simp)
    omega
  · rw [hsk, hc0]
    cases ts <;> rfl

theorem parsed_unit_freed (u : List (List Char)) : (parsed_unit u).freed = false := rfl

/-- The outer loop of `readcmdline` over the units of a line that fits the
buffer, from the start of a unit: one job is appended to the registry for every
unit left, in order, and the value returned is true. -/
theorem readcmdline_loop_units (h : Headers) (cmdline : List Char)
    (hfit : cmdline.length < h.MAX_LEN_CMDLINE) :
    ∀ (units : List (List (List Char))) (u : List (List Char)) (pre : List Char) (fuel : Nat)
      (S : State),
      (∀ v ∈ u :: units, v ≠ [] ∧ ∀ cmd ∈ v, command_fits h cmd) →
      cmdline = pre ++ (line_text (u :: units) ++ ['\n']) →
      (line_text (u :: units)).length + 1 < fuel →
      (∀ jb ∈ S.first_job, jb.freed = false) →
      readcmdline_loop h cmdline false fuel (line_text (u :: units) ++ ['\n']) pre.length S =
        some (true, { S with first_job := S.first_job ++ (u :: units).map parsed_unit }) := by
  intro units
  induction units with
  | nil =>
    intro u pre fuel S hok hcmd hfuel hreg
    obtain ⟨hune, hcmds⟩ := hok u (List.mem_cons_self _ _)
    cases u with
    | nil => exact absurd rfl hune
    | cons t ts =>
      have hline : line_text [t :: ts] = join_with '|' (t :: ts) := rfl
      rw [hline] at hcmd hfuel ⊢
      obtain ⟨n, rfl⟩ : ∃ n, fuel = n + 1 := ⟨fuel - 1, by omega⟩
      have hin : (join_with '|' (t :: ts)).length ≤ cmdline.length := by
        rw [hcmd]
        simp only [List.length_append]
        omega
      obtain ⟨k, cmdlast, procs, c0, hloop, hprocs, hargs, hlast, hhead, hc0⟩ :=
        read_job_loop_whole_unit h cmdline S pre.length t ts ['\n'] hfit hin hcmds
      obtain ⟨r, hflj⟩ := find_last_job_ok S hreg
      have hc0n : c0 ≠ '\n' := by
        intro he
        rw [he] at hc0
        exact absurd hc0 (by decide)
      rw [readcmdline_loop, hflj]
      simp only []
      rw [if_neg (by rw [hhead]; simp [hc0n]), hloop,
        read_job_loop_newline h cmdline _ k _ [] _ rfl]
      simp only []
      rw [add_process_append h S _ cmdlast hargs hlast]
      simp only [Bool.false_eq_true, if_false]
      rw [modify_job_append_job]
      simp only [List.length_singleton]
      rw [hprocs]
      have hci : (cmdline.drop pre.length).take (cmdline.length - 1 - pre.length) =
          join_with '|' (t :: ts) := by
        have := drop_take_middle pre (join_with '|' (t :: ts)) ['\n']
        rw [← hcmd] at this
        exact this
      rw [hci]
      rfl
  | cons u2 units ih =>
    intro u pre fuel S hok hcmd hfuel hreg
    obtain ⟨hune, hcmds⟩ := hok u (List.mem_cons_self _ _)
    cases u with
    | nil => exact absurd rfl hune
    | cons t ts =>
      have hline : line_text ((t :: ts) :: u2 :: units) =
          join_with '|' (t :: ts) ++ ';' :: line_text (u2 :: units) := rfl
      rw [hline] at hcmd hfuel ⊢
      simp only [List.length_append, List.length_cons] at hfuel
      obtain ⟨n, rfl⟩ : ∃ n, fuel = n + 1 := ⟨fuel - 1, by omega⟩
      have hcmd' : cmdline = pre ++ (join_with '|' (t :: ts) ++
          ';' :: (line_text (u2 :: units) ++ ['\n'])) := by
        rw [hcmd]
        simp only [List.append_assoc, List.cons_append]
      have hin : (join_with '|' (t :: ts)).length ≤ cmdline.length := by
        rw [hcmd']
        simp only [List.length_append]
        omega
      obtain ⟨k, cmdlast, procs, c0, hloop, hprocs, hargs, hlast, hhead, hc0⟩ :=
        read_job_loop_whole_unit h cmdline S pre.length t ts
          (';' :: (line_text (u2 :: units) ++ ['\n'])) hfit hin hcmds
      obtain ⟨r, hflj⟩ := find_last_job_ok S hreg
      have hc0n : c0 ≠ '\n' := by
        intro he
        rw [he] at hc0
        exact absurd hc0 (by decide)
      have hrest : (join_with '|' (t :: ts) ++ ';' :: line_text (u2 :: units)) ++ ['\n'] =
          join_with '|' (t :: ts) ++ ';' :: (line_text (u2 :: units) ++ ['\n']) := by
        simp only [List.append_assoc, List.cons_append]
      rw [hrest, readcmdline_loop, hflj]
      simp only []
      rw [if_neg (by rw [hhead]; simp [hc0n]), hloop,
        read_job_loop_semicolon h cmdline S _ k cmdlast _ pre.length]
      simp only []
      rw [add_process_append h S _ cmdlast hargs hlast]
      simp only [if_true, List.tail_cons]
      rw [hprocs]
      have hci : (cmdline.drop pre.length).take
          (cmdline.length - ((line_text (u2 :: units) ++ ['\n']).length + 1) - pre.length) =
          join_with '|' (t :: ts) := by
        have := drop_take_middle pre (join_with '|' (t :: ts))
          (';' :: (line_text (u2 :: units) ++ ['\n']))
        rw [← hcmd'] at this
        simpa using this
      have hsp : cmdline.length - (line_text (u2 :: units) ++ ['\n']).length =
          (pre ++ (join_with '|' (t :: ts) ++ [';'])).length := by
        rw [hcmd']
        simp only [List.length_append, List.length_cons, List.length_nil]
        omega
      rw [hci, hsp]
      have hjob : S.append_job
          { init_job with
            commandinfo := String.mk (join_with '|' (t :: ts))
            first_process := (t :: ts).map parsed_process } =
          S.append_job (parsed_unit (t :: ts)) := rfl
      have hih := ih u2 (pre ++ (join_with '|' (t :: ts) ++ [';'])) n
        (S.append_job (parsed_unit (t :: ts)))
        (fun v hv => hok v (List.mem_cons_of_mem _ hv))
        (by rw [hcmd']; simp only [List.append_assoc, List.cons_append, List.nil_append])
        (by omega)
        (by
          intro jb hjb
          rcases List.mem_append.1 hjb with hjb | hjb
          · exact hreg jb hjb
          · simp only [List.mem_singleton] at hjb
            subst hjb
            rfl)
      refine Eq.trans ?_ (Eq.trans hih ?_)
      · rfl
      · show some (true, { S.append_job (parsed_unit (t :: ts)) with
          first_job := (S.first_job ++ [parsed_unit (t :: ts)]) ++
            (u2 :: units).map parsed_unit }) = _
        simp only [List.append_assoc, List.singleton_append, List.map_cons]
        rfl

theorem join_with_mem (sep : Char) :
    ∀ (l : List (List Char)), ∀ c ∈ join_with sep l, c = sep ∨ ∃ x ∈ l, c ∈ x := by
  intro l
  induction l with
  | nil => intro c hc; cases hc
  | cons a l ih =>
    intro c hc
    cases l with
    | nil => exact Or.inr ⟨a, List.mem_cons_self _ _, hc⟩
    | cons b rest =>
      have hj : join_with sep (a :: b :: rest) = a ++ sep :: join_with sep (b :: rest) := rfl
      rw [hj] at hc
      rcases List.mem_append.1 hc with hc | hc
      · exact Or.inr ⟨a, List.mem_cons_self _ _, hc⟩
      · rcases List.mem_cons.1 hc with hc | hc
        · exact Or.inl hc
        · rcases ih c hc with hh | ⟨x, hx, hcx⟩
          · exact Or.inl hh
          · exact Or.inr ⟨x, List.mem_cons_of_mem _ hx, hcx⟩

theorem line_text_chars (units : List (List (List Char)))
    (hline : line_ok units) : ∀ c ∈ line_text units, c ≠ '\n' ∧ c ≠ NUL := by
  intro c hc
  rcases join_with_mem ';' _ c hc with hh | ⟨x, hx, hcx⟩
  · subst hh
    exact ⟨by decide, by decide⟩
  · obtain ⟨u, hu, rfl⟩ := List.mem_map.1 hx
    rcases join_with_mem '|' u c hcx with hh | ⟨cmd, hcmd, hccmd⟩
    · subst hh
      exact ⟨by decide, by decide⟩
    · have := plain_char_spec c (((hline.2 u hu).2 cmd hcmd).1 c hccmd)
      exact ⟨this.2.2.2.2.2.2.1, this.2.2.2.2.2.2.2⟩

/-- C21 as the code has it: for a command line made of one or more units
separated by `;`, each unit one or more commands separated by `|`, each command
made of plain characters with at least one word, when every command has fewer
than `MAX_ARGS` words, the line with its newline fits the
`MAX_LEN_CMDLINE - 1` characters that `fgets` reads, and the registry holds no
released record:
`readcmdline` returns true and leaves the registry with one job per unit
appended at its end, in line order; the job of a unit has one process per
command, in pipeline order, whose argument vector holds the words of the
command, and its group is -1. -/
theorem readcmdline_parses_units (h : Headers) (msg : String)
    (units : List (List (List Char))) (more : List Char) (s : State)
    (hline : line_ok units) (hargs : args_fit h units)
    (hfit : (line_text units).length + 1 < h.MAX_LEN_CMDLINE)
    (hreg : ∀ jb ∈ s.first_job, jb.freed = false) :
    readcmdline h msg (line_text units ++ '\n' :: more) s =
      some (true, { s.log (Call.printf_prompt msg) with
        first_job := s.first_job ++ units.map parsed_unit }) ∧
    ∀ u ∈ units, (parsed_unit u).pgid = -1 ∧
      (parsed_unit u).first_process.map (fun p => p.argv) =
        u.map (fun cmd => (words cmd).map String.mk) := by
  constructor
  · have hfg := fgets_line h.MAX_LEN_CMDLINE (line_text units) more
      (line_text_chars units hline) (by omega)
    unfold readcmdline
    rw [hfg]
    simp only []
    obtain ⟨hne, hunits0⟩ := hline
    have hunits : ∀ v ∈ units, v ≠ [] ∧ ∀ cmd ∈ v, command_fits h cmd := fun v hv =>
      ⟨(hunits0 v hv).1, fun cmd hcmd =>
        ⟨((hunits0 v hv).2 cmd hcmd).1, ((hunits0 v hv).2 cmd hcmd).2, hargs v hv cmd hcmd⟩⟩
    cases units with
    | nil => exact absurd rfl hne
    | cons u units =>
      have := readcmdline_loop_units h (line_text (u :: units) ++ ['\n'])
        (by simpa using hfit) units u [] ((line_text (u :: units) ++ ['\n']).length + 1)
        (s.log (Call.printf_prompt msg)) hunits rfl (by simp) hreg
      exact this
  · intro u _
    refine ⟨rfl, ?_⟩
    show (u.map parsed_process).map (fun p => p.argv) = _
    rw [List.map_map]
    rfl

/-- The line `echo a | tr a b ; ls` is read into an empty registry: two jobs
are appended, the first with the processes `[echo, a]` and `[tr, a, b]`, the
second with the process `[ls]`, both with the group -1. -/
theorem readcmdline_parses_units_witness :
    line_text sample_units = "echo a | tr a b ; ls".toList ∧
    sample_units.map (fun u => u.map (fun cmd => (words cmd).map String.mk)) =
      [[["echo", "a"], ["tr", "a", "b"]], [["ls"]]] ∧
    line_ok sample_units ∧ args_fit sample_headers sample_units ∧
    (line_text sample_units).length + 1 < sample_headers.MAX_LEN_CMDLINE ∧
    (readcmdline sample_headers "dsh$ " (line_text sample_units ++ '\n' :: [])
        (sample_state [] empty_env) =
      some (true, { (sample_state [] empty_env).log (Call.printf_prompt "dsh$ ") with
        first_job := (sample_state [] empty_env).first_job ++
          sample_units.map parsed_unit }) ∧
    ∀ u ∈ sample_units, (parsed_unit u).pgid = -1 ∧
      (parsed_unit u).first_process.map (fun p => p.argv) =
        u.map (fun cmd => (words cmd).map String.mk)) :=
  ⟨by decide, by decide, by decide, by decide, by decide,
    readcmdline_parses_units sample_headers "dsh$ " sample_units [] (sample_state [] empty_env)
      (by decide) (by decide) (by decide) (by decide)⟩

set_option maxRecDepth 100000 in
/-- Counterexample of C21.  The line `echo` with one argument of 120
characters is made of one unit of one command of two words, but `fgets` stores
its first 119 characters only, so the job appended has an argument of 114
characters, which is not a word of the command.  The line of one command of 20
words is stored whole, but `readprocessinfo` writes the null pointer after the
words outside the 20 slots of `argv`: the call has no defined result.  And on
the registry left by the rejected line `cat < f x`, which holds a released
record, the call has no defined result for the line `ls`. -/
theorem readcmdline_long_line :
    (line_ok long_line_units ∧
      ∃ s', readcmdline sample_headers "dsh$ " (line_text long_line_units ++ ['\n'])
          (sample_state [] empty_env) = some (true, s') ∧
        s'.first_job.map (fun jb => jb.first_process.map (fun p => p.argv)) =
          [[["echo", String.mk (List.replicate 114 'a')]]] ∧
        s'.first_job.map (fun jb => jb.first_process.map (fun p => p.argv)) ≠
          long_line_units.map (fun u => u.map (fun cmd => (words cmd).map String.mk))) ∧
    (line_ok many_words_units ∧
      (line_text many_words_units).length + 1 < sample_headers.MAX_LEN_CMDLINE ∧
      readcmdline sample_headers "dsh$ " (line_text many_words_units ++ ['\n'])
        (sample_state [] empty_env) = none) ∧
    (∃ s1, readcmdline sample_headers "dsh$ " "cat < f x\n".toList
          (sample_state [] empty_env) = some (true, s1) ∧
      line_ok [["ls".toList]] ∧
      readcmdline sample_headers "dsh$ " (line_text [["ls".toList]] ++ ['\n']) s1 = none) :=
  ⟨⟨by decide, _, rfl, by decide, by decide⟩, ⟨by decide, by decide, by decide⟩,
    ⟨_, rfl, by decide, by decide⟩⟩

end Dsh
